import Mathlib

/-!
# Silverjuke playlist handling (`src/sjbase/playlist.cpp`)

A shallow embedding of the playlist subsystem: the URL reference-count map,
playlist entries with lazy URL verification, and the playlist operations
`Add`, `RemoveAt`, `Remove`, `GetPosByUrl`, `GetUnplayedCount`, `MovePos`,
`RehashUrl` and `OnUrlChanged`.

Conventions of the embedding:
* `long` is `Int`; the counters involved are bounded by list lengths, so no
  overflow arises.
* `wxString` is `String`; all string helpers work on the character list.
* A failed `wxASSERT`, or an array access outside the bounds, makes the
  operation return `none`.
* Code that talks to the file system or to the track library takes the
  collaborators from an explicit environment `SjEnv`.
-/

namespace Silverjuke

/-! ## wxString helpers -/

/-- The value wxNOT_FOUND of wxWidgets. -/
def wxNOT_FOUND : Int := -1

/-- Lower-case folding of a string, as done by `wxString::Lower`. -/
def wxLower (s : String) : String := ⟨s.data.map Char.toLower⟩

/-- Equality of two strings ignoring case. -/
def sameNoCase (a b : String) : Bool := wxLower a == wxLower b

/-- Comparison `wxString::CmpNoCase`: zero exactly when both strings are equal ignoring case,
negative or positive according to the order of the folded strings otherwise. -/
def CmpNoCase (a b : String) : Int :=
  if sameNoCase a b then 0
  else if (wxLower a).data < (wxLower b).data then -1 else 1

/-- All characters before the first occurrence of `c`, the whole string if `c` does not occur
(`wxString::BeforeFirst`). -/
def BeforeFirst (s : String) (c : Char) : String := ⟨s.data.takeWhile (fun x => x != c)⟩

/-- All characters after the first occurrence of `c`, the empty string if `c` does not occur
(`wxString::AfterFirst`). -/
def AfterFirst (s : String) (c : Char) : String :=
  ⟨(s.data.dropWhile (fun x => x != c)).drop 1⟩

/-- All characters after the last occurrence of `c`, the whole string if `c` does not occur
(`wxString::AfterLast`). -/
def AfterLast (s : String) (c : Char) : String :=
  ⟨(s.data.reverse.takeWhile (fun x => x != c)).reverse⟩

/-- Test `wxString::StartsWith`. -/
def StartsWith (s p : String) : Bool := p.data.isPrefixOf s.data

/-- Test `wxString::IsEmpty`. -/
def IsEmpty (s : String) : Bool := s.data.isEmpty

/-- Upper-case folding of a string, as done by `wxString::Upper`. -/
def wxUpper (s : String) : String := ⟨s.data.map Char.toUpper⟩

/-- The white space that `wxString::Trim` removes (the characters of `isspace`). -/
def wxIsspace (c : Char) : Bool :=
  c == ' ' || c == '\t' || c == '\n' || c == '\r' || c == Char.ofNat 11 || c == Char.ofNat 12

/-- The string without the white space at its right end, `wxString::Trim(true)`. -/
def TrimRight (s : String) : String := ⟨(s.data.reverse.dropWhile wxIsspace).reverse⟩

/-- The string without the white space at its left end, `wxString::Trim(false)`. -/
def TrimLeft (s : String) : String := ⟨s.data.dropWhile wxIsspace⟩

/-- The first `n` characters, `wxString::Left`. -/
def Left (s : String) (n : Nat) : String := ⟨s.data.take n⟩

/-- The characters from position `n` on, `wxString::Mid`. -/
def Mid (s : String) (n : Nat) : String := ⟨s.data.drop n⟩

/-- Position of the first occurrence of a pattern in a character list at or after the
current position `i`, wxNOT_FOUND if there is none. -/
def findFrom (pat : List Char) : List Char → Nat → Int
  | [], i => if pat.isEmpty then (i : Int) else wxNOT_FOUND
  | c :: rest, i => if pat.isPrefixOf (c :: rest) then (i : Int) else findFrom pat rest (i + 1)

/-- Position of the first occurrence of a substring, wxNOT_FOUND if there is none
(`wxString::Find`). -/
def Find (s sub : String) : Int := findFrom sub.data s.data 0

/-- Replaces the occurrences of `old` from left to right; `skip` characters of the current
match are still to be passed over.  The result is the new text and the number of
replacements. -/
def replaceGo (old new : List Char) : List Char → Nat → List Char × Nat
  | [], _ => ([], 0)
  | _ :: rest, skip + 1 => replaceGo old new rest skip
  | c :: rest, 0 =>
    if old.isPrefixOf (c :: rest) then
      ((new ++ (replaceGo old new rest (old.length - 1)).1),
       (replaceGo old new rest (old.length - 1)).2 + 1)
    else
      (c :: (replaceGo old new rest 0).1, (replaceGo old new rest 0).2)

/-- All occurrences of `old` replaced by `new`, together with the number of replacements
(`wxString::Replace`; an empty `old` replaces nothing). -/
def Replace (s old new : String) : String × Nat :=
  if old.data.isEmpty then (s, 0)
  else (⟨(replaceGo old.data new.data s.data 0).1⟩, (replaceGo old.data new.data s.data 0).2)

/-- The test `flags & mask` of C on a bitmask. -/
def hasFlag (flags mask : Nat) : Bool := flags &&& mask != 0

/-- The bitmask without the bits of a mask, `flags & ~mask`. -/
def clearFlag (flags mask : Nat) : Nat := flags ^^^ (flags &&& mask)

/-- All characters before the last occurrence of `c`, the empty string if `c` does not occur
(`wxString::BeforeLast`). -/
def BeforeLast (s : String) (c : Char) : String :=
  ⟨((s.data.reverse.dropWhile (fun x => x != c)).drop 1).reverse⟩

/-- The value of a list of decimal digits. -/
def digitsValue (ds : List Char) : Int :=
  ds.foldl (fun acc c => acc * 10 + ((c.toNat : Int) - 48)) 0

/-- Conversion `wxString::ToLong` with base 10, which follows `strtol` and asks for the whole
string to be consumed: white space, an optional sign, and at least one digit, nothing else.
Values outside the range of `long` are not told apart here; both callers reject them by their
range check, as they reject a failed conversion. -/
def ToLong (s : String) : Option Int :=
  let cs := s.data.dropWhile wxIsspace
  let neg := cs.head? == some '-'
  let ds := if cs.head? == some '-' || cs.head? == some '+' then cs.drop 1 else cs
  if ds.isEmpty || !ds.all Char.isDigit then none
  else some (if neg then - digitsValue ds else digitsValue ds)

/-- Method `wxArrayString::Insert(str, nIndex, nInsert)`: `nInsert` copies of the string are
inserted before the position `nIndex`; a position behind the end fails the check of the
method. -/
def wxArrayInsert (a : List String) (str : String) (nIndex nInsert : Int) :
    Option (List String) :=
  if nIndex.toNat ≤ a.length then
    some (a.take nIndex.toNat ++ List.replicate nInsert.toNat str ++ a.drop nIndex.toNat)
  else none

/-- The assignment `a[nIndex] = str` to an item of a `wxArrayString`; an index outside the
array fails the assertion of `operator[]`. -/
def wxArraySet (a : List String) (nIndex : Int) (str : String) : Option (List String) :=
  if nIndex.toNat < a.length then some (a.set nIndex.toNat str) else none

/-- The item `a[nIndex]` of a `wxArrayString`; an index outside the array fails the assertion
of `operator[]`. -/
def wxArrayItem (a : List String) (nIndex : Int) : Option String :=
  a[nIndex.toNat]?

/-- The conversion `(int)` of a `long`: the value modulo 2^32, in the range of `int`. -/
def castInt (x : Int) : Int := (x + 2147483648) % 4294967296 - 2147483648

/-- The text of `wxString::Format("%i", n)`: the decimal digits, with a sign if negative. -/
def formatInt (n : Int) : String := toString n

/-- The text of `wxString::Format("%02i", n)`: at least two characters, filled with a zero. -/
def formatInt02 (n : Int) : String :=
  if 0 ≤ n ∧ n < 10 then "0" ++ toString n else toString n

/-- The text that `ret << line << linebreak` makes of some lines: each line is followed by
the line break. -/
def writeLines (linebreak : String) : List String → String
  | [] => ""
  | line :: rest => line ++ linebreak ++ writeLines linebreak rest

/-! ## The string-to-long hash `SjSLHash` -/

/-- Modelled from the spec: the type `SjSLHash` of `m_urlCounts` is declared outside the given
sources.  Spec, data model: a mapping from URL (case-insensitive) to a count.  The map is an
association list; keys are compared ignoring case. -/
structure SjSLHash where
  items : List (String × Int)
deriving DecidableEq, Repr

/-- Value stored for a key in an association list, `0` when the key is absent. -/
def slLookup : List (String × Int) → String → Int
  | [], _ => 0
  | kv :: rest, key => if sameNoCase kv.1 key then kv.2 else slLookup rest key

/-- The association list without the items stored under a key. -/
def slErase : List (String × Int) → String → List (String × Int)
  | [], _ => []
  | kv :: rest, key => if sameNoCase kv.1 key then slErase rest key else kv :: slErase rest key

/-- Modelled from the spec: `SjSLHash::Lookup`, the count stored for a key, `0` if there is
none (`IsInPlaylist` and `RehashUrl` rely on it). -/
def SjSLHash.Lookup (h : SjSLHash) (key : String) : Int := slLookup h.items key

/-- Modelled from the spec: `SjSLHash::Remove`, removes a key and returns the count that was
stored for it (`0` if there was none). -/
def SjSLHash.Remove (h : SjSLHash) (key : String) : Int × SjSLHash :=
  (slLookup h.items key, ⟨slErase h.items key⟩)

/-- Modelled from the spec: `SjSLHash::Insert`, stores a count for a key, replacing the count
stored before. -/
def SjSLHash.Insert (h : SjSLHash) (key : String) (value : Int) : SjSLHash :=
  ⟨(key, value) :: slErase h.items key⟩

/-- Sum of all counts stored in the map. -/
def SjSLHash.total (h : SjSLHash) : Int := (h.items.map Prod.snd).sum

/-- Whether a key is stored in the map. -/
def SjSLHash.hasKey (h : SjSLHash) (key : String) : Bool :=
  h.items.any (fun kv => sameNoCase kv.1 key)

/-- Well-formedness of the association list: no key is stored twice. -/
def SjSLHash.WF (h : SjSLHash) : Prop :=
  (h.items.map (fun kv => wxLower kv.1)).Nodup

/-- Every stored count is strictly positive. -/
def SjSLHash.Positive (h : SjSLHash) : Prop :=
  ∀ kv ∈ h.items, 0 < kv.2

instance SjSLHash.decidableWF (h : SjSLHash) : Decidable h.WF := by
  unfold SjSLHash.WF; infer_instance

instance SjSLHash.decidablePositive (h : SjSLHash) : Decidable h.Positive := by
  unfold SjSLHash.Positive; infer_instance

/-! ## Collaborators -/

/-- Modelled from the spec: the four values that the library lookup and the tag reader
deliver (`SjTrackInfo`, declared outside the given sources, has more members; only these are
read by the playlist). -/
structure SjTrackInfo where
  m_trackName : String
  m_leadArtistName : String
  m_albumName : String
  m_playtimeMs : Int
deriving DecidableEq, Repr

/-- Modelled from the spec: the collaborators that `playlist.cpp` consumes and that live outside
the given sources (spec, external interfaces): the main frame with its track library, the
file-system abstraction and the `wxFileName` path helpers. -/
structure SjEnv where
  /-- Whether `g_mainFrame` is available (not NULL). -/
  g_mainFrame : Bool
  /-- Whether the code is compiled for Windows (`__WXMSW__`). -/
  wxMSW : Bool
  /-- Path helper `wxFileSystem::URLToFileName`. -/
  URLToFileName : String → String
  /-- Path helper `wxFileSystem::FileNameToURL`. -/
  FileNameToURL : String → String
  /-- Path helper `wxFileName::GetLongPath`. -/
  GetLongPath : String → String
  /-- Path helper `wxFileName::IsAbsolute` for a native path. -/
  IsAbsolute : String → Bool
  /-- The path made absolute against the directory of a container file
  (`urlFn.MakeAbsolute(tempFn.GetPath(wxPATH_GET_VOLUME))`). -/
  MakeAbsolute : String → String → String
  /-- Path helper `wxFileName::FileExists`. -/
  FileExists : String → Bool
  /-- Opens a locator with `wxFileSystem::OpenFile`; on success the location of the opened
  file (`wxFSFile::GetLocation`). -/
  OpenFile : String → Option String
  /-- Library lookup `m_libraryModule->GetUrl(artist, album, track)`, empty if nothing is found. -/
  LibraryGetUrl : String → String → String → String
  /-- Whether the query `SELECT url FROM tracks WHERE url = x` has a row. -/
  SqlUrlExact : String → Bool
  /-- The rows of the query `SELECT url FROM tracks WHERE url LIKE x`. -/
  SqlUrlLike : String → List String
  /-- Library lookup `m_columnMixer.GetQuickInfo(url, trackName, leadArtistName, albumName,
  playtimeMs)`: from the URL and the current values of the four members passed by reference,
  their values afterwards and whether the track was found. -/
  GetQuickInfo : String → SjTrackInfo → SjTrackInfo × Bool
  /-- Whether `wxFileSystem::OpenFile(url, wxFS_READ|wxFS_SEEKABLE)` opens the locator. -/
  OpenFileSeekable : String → Bool
  /-- Tag reader `SjGetTrackInfoFromID3Etc` in quick-info mode on the opened file: the track
  information on success. -/
  GetTrackInfoFromID3Etc : String → Option SjTrackInfo
  /-- Helper `SjTools::Capitalize`. -/
  Capitalize : String → String
  /-- Helper `SjTools::GetExt`, the extension of a path. -/
  GetExt : String → String
  /-- Helper `SjTools::GetFileContent` on the stream of an opened file: the decoded text; the
  flag says whether UTF-8 (instead of ISO-8859-1) is the encoding asked for. -/
  GetFileContent : String → Bool → String
  /-- The lines that `SjLineTokenizer` returns for a text, in order. -/
  SplitLines : String → List String
  /-- Entity decoder `wxHtmlEntitiesParser::Parse`. -/
  ParseEntities : String → String
  /-- Helper `SjTools::EnsureValidFileNameChars`. -/
  EnsureValidFileNameChars : String → String
  /-- Helper `SjNormaliseString` with the flags `0`. -/
  SjNormaliseString : String → String
  /-- Helper `SjTools::GetLineBreak`. -/
  GetLineBreak : String
  /-- The answer of `SjBusyInfo::Set` to the call with the given number (from 0) within an
  operation, for the given text; `false` says that the user has cancelled. -/
  BusyInfoSet : Nat → String → Bool
  /-- The full path of a file name after `wxFileName::MakeRelativeTo` the directory of a
  container file (`containerFn.GetPath(wxPATH_GET_VOLUME|wxPATH_GET_SEPARATOR)`). -/
  MakeRelativeTo : String → String → String
  /-- Path helper `wxFileName::GetShortPath`. -/
  GetShortPath : String → String
  /-- Helper `SjTools::Htmlentities`. -/
  Htmlentities : String → String
  /-- The current time in UTC, formatted with `%Y-%m-%dT%H:%M:%S+00:00`. -/
  NowUTC : String
  /-- The text of `wxString::Format("%s %i.%i", SJ_PROGRAM_NAME, SJ_VERSION_MAJOR,
  SJ_VERSION_MINOR)`; the constants are defined outside the given sources. -/
  ProgramVersion : String

/-! ## Playlist entries -/

/-- Modelled from the spec: the block `SjPlaylistAddInfo` (declared outside the given sources):
track, artist and album name, playing time, play count and the bitmask of loaded categories. -/
structure SjPlaylistAddInfo where
  m_trackName : String
  m_leadArtistName : String
  m_albumName : String
  m_playtimeMs : Int
  m_playCount : Int
  m_what : Nat
deriving DecidableEq, Repr

/-- Modelled from the spec: the bit of the play-count category in the bitmask `m_what` (the
constant is defined outside the given sources; only that the two bits differ matters). -/
def SJ_ADDINFO_PLAYCOUNT : Nat := 1

/-- Modelled from the spec: the bit of the descriptive-metadata category in `m_what`. -/
def SJ_ADDINFO_MISC : Nat := 2

/-- Modelled from the spec: a freshly allocated block: empty names, unknown playing time,
play count zero, nothing loaded. -/
def SjPlaylistAddInfo.fresh : SjPlaylistAddInfo :=
  { m_trackName := "", m_leadArtistName := "", m_albumName := "", m_playtimeMs := -1,
    m_playCount := 0, m_what := 0 }

/-- Modelled from the spec: the members of `SjPlaylistEntry` (declared outside the given
sources).  The owning playlist (`m_playlist`) is not a member here: operations that need it
receive the owner's reference-count map. -/
structure SjPlaylistEntry where
  m_id : Int
  m_url : String
  m_urlVerified : Bool
  m_urlOk : Bool
  m_addInfo : Option SjPlaylistAddInfo
  m_flags : Int
deriving DecidableEq, Repr

/-- Modelled from the spec: the constructor of `SjPlaylistEntry`: a verified URL is assumed to
be playable, an unverified one is not yet. -/
def SjPlaylistEntry.new (id : Int) (url : String) (urlVerified : Bool) (flags : Int) :
    SjPlaylistEntry :=
  { m_id := id, m_url := url, m_urlVerified := urlVerified, m_urlOk := urlVerified,
    m_addInfo := none, m_flags := flags }

/-- Modelled from the spec: `GetUnverifiedUrl`, the stored string as it is. -/
def SjPlaylistEntry.GetUnverifiedUrl (e : SjPlaylistEntry) : String := e.m_url

/-- Modelled from the spec: `RenameUrl`, replaces the stored string if it is the old URL. -/
def SjPlaylistEntry.RenameUrl (e : SjPlaylistEntry) (oldUrl newUrl : String) : SjPlaylistEntry :=
  if e.m_url = oldUrl then { e with m_url := newUrl } else e

/-- Modelled from the spec: `UrlChanged`, forgets what is known about the URL, so that the
metadata is reloaded on the next access. -/
def SjPlaylistEntry.UrlChanged (e : SjPlaylistEntry) : SjPlaylistEntry :=
  { e with m_addInfo := none, m_flags := 0 }

/-- Modelled from the spec: `GetPlayCount`, the play count of the block; a block that is not
yet allocated is allocated with play count zero. -/
def SjPlaylistEntry.GetPlayCount (e : SjPlaylistEntry) : Int :=
  match e.m_addInfo with
  | some a => a.m_playCount
  | none => 0

/-- Modelled from the spec: `SetPlayCount`, allocates the block if needed, marks the play-count
category as loaded and stores the count. -/
def SjPlaylistEntry.SetPlayCount (e : SjPlaylistEntry) (playCount : Int) : SjPlaylistEntry :=
  let a := e.m_addInfo.getD SjPlaylistAddInfo.fresh
  { e with m_addInfo := some { a with m_playCount := playCount,
                                      m_what := a.m_what ||| SJ_ADDINFO_PLAYCOUNT } }

/-- Modelled from the spec: `GetFlags`. -/
def SjPlaylistEntry.GetFlags (e : SjPlaylistEntry) : Int := e.m_flags

/-- Modelled from the spec: `SetFlags`. -/
def SjPlaylistEntry.SetFlags (e : SjPlaylistEntry) (flags : Int) : SjPlaylistEntry :=
  { e with m_flags := flags }

/-! ## Reference counting -/

/-- Method `SjPlaylist::RehashUrl` on the reference-count map: the count of the old URL is
removed, the count of the new URL is added to it, and the sum is stored under the new URL.
The assertion `count > 0` is checked. -/
def RehashUrl (m : SjSLHash) (oldUrl newUrl : String) : Option SjSLHash :=
  let (count0, m1) := m.Remove oldUrl
  let count := count0 + m1.Lookup newUrl
  if count > 0 then some (m1.Insert newUrl count) else none

/-- The artist hint that `SjPlaylistEntry::VerifyUrl` reads from the stored string: its third
tab-separated field. -/
def SjPlaylistEntry.VerifyUrl.artistName (m_url : String) : String :=
  BeforeFirst (AfterFirst (AfterFirst m_url '\t') '\t') '\t'

/-- The album hint that `SjPlaylistEntry::VerifyUrl` reads from the stored string: its fourth
tab-separated field. -/
def SjPlaylistEntry.VerifyUrl.albumName (m_url : String) : String :=
  BeforeFirst (AfterFirst (AfterFirst (AfterFirst m_url '\t') '\t') '\t') '\t'

/-- The track hint that `SjPlaylistEntry::VerifyUrl` reads from the stored string: what
follows its last tab. -/
def SjPlaylistEntry.VerifyUrl.trackName (m_url : String) : String :=
  AfterLast m_url '\t'

/-- The part of `SjPlaylistEntry::VerifyUrl` that resolves the stored string to the location
of an opened file: `none` if no locator could be opened, otherwise the location in URL form
and in the case known to the library. -/
def SjPlaylistEntry.VerifyUrl.resolve (env : SjEnv) (e : SjPlaylistEntry) : Option String :=
  let url0 := BeforeFirst e.m_url '\t'
  -- get the long and absolute version of the URL
  let url1 :=
    if StartsWith url0 "file:" then env.GetLongPath (env.URLToFileName url0)
    else if !StartsWith url0 "stub:" then
      if !env.IsAbsolute url0 then
        -- try relative paths from the second part of the unverified URL
        let containerPath := BeforeFirst (AfterFirst e.m_url '\t') '\t'
        if !IsEmpty containerPath then
          let urlFn := env.MakeAbsolute url0 containerPath
          if env.FileExists urlFn then env.GetLongPath urlFn else url0
        else url0
      else env.GetLongPath url0
    else url0
  -- open the file
  let fsFile1 :=
    if !StartsWith url1 ".." && !StartsWith url1 "./" && !StartsWith url1 ".\\"
        && !StartsWith url1 "stub:" then env.OpenFile url1
    else none
  let fsFile2 :=
    match fsFile1 with
    | some loc => some loc
    | none =>
      -- try to lookup the URL by artist/album/track
      let artistName := SjPlaylistEntry.VerifyUrl.artistName e.m_url
      let albumName := SjPlaylistEntry.VerifyUrl.albumName e.m_url
      let trackName := SjPlaylistEntry.VerifyUrl.trackName e.m_url
      if !IsEmpty artistName && !IsEmpty trackName then
        let url2 := env.LibraryGetUrl artistName albumName trackName
        if !IsEmpty url2 then env.OpenFile url2 else none
      else none
  match fsFile2 with
  | none => none
  | some fsFileLocation0 =>
    -- convert the file name to a URL
    let fsFileLocation1 :=
      if !StartsWith fsFileLocation0 "file:" && !StartsWith fsFileLocation0 "http:"
          && !StartsWith fsFileLocation0 "https:" && !StartsWith fsFileLocation0 "ftp:"
      then env.FileNameToURL fsFileLocation0 else fsFileLocation0
    -- make sure, we are using the correct case
    if env.wxMSW then
      if !env.SqlUrlExact fsFileLocation1 then
        match (env.SqlUrlLike fsFileLocation1).find?
            (fun test => wxLower test == wxLower fsFileLocation1) with
        | some test => some test
        | none => some fsFileLocation1
      else some fsFileLocation1
    else some fsFileLocation1

/-- Method `SjPlaylistEntry::VerifyUrl`.  `owner` is the reference-count map of the owning
playlist, `none` for an entry without playlist; the result is the entry and the map afterwards.
Without main frame nothing happens; the assertion that the entry is not yet verified is
checked. -/
def SjPlaylistEntry.VerifyUrl (env : SjEnv) (e : SjPlaylistEntry) (owner : Option SjSLHash) :
    Option (SjPlaylistEntry × Option SjSLHash) :=
  if !env.g_mainFrame then some (e, owner)
  else if e.m_urlVerified then none
  else
    match SjPlaylistEntry.VerifyUrl.resolve env e with
    | none =>
      -- Url not found
      some ({ e with m_urlVerified := true, m_url := BeforeFirst e.m_url '\t' }, owner)
    | some fsFileLocation =>
      -- file opened - save the location as the verified URL
      match owner with
      | some m =>
        match RehashUrl m e.m_url fsFileLocation with
        | some m2 =>
          some ({ e with m_urlVerified := true, m_url := fsFileLocation, m_urlOk := true },
                some m2)
        | none => none
      | none =>
        some ({ e with m_urlVerified := true, m_url := fsFileLocation, m_urlOk := true }, none)

/-- Modelled from the spec: `SjPlaylistEntry::GetUrl` (declared outside the given sources):
entries resolve themselves on demand, so an entry that is not yet verified is verified first;
the result is the stored URL afterwards.  In the sources, `LoadAddInfo` asserts
`m_urlVerified` right after it has called `GetUrl`, and `GetUnverifiedUrl` is the accessor
that returns the stored string without verifying. -/
def SjPlaylistEntry.GetUrl (env : SjEnv) (e : SjPlaylistEntry) (owner : Option SjSLHash) :
    Option (String × SjPlaylistEntry × Option SjSLHash) :=
  if e.m_urlVerified then some (e.m_url, e, owner)
  else
    match e.VerifyUrl env owner with
    | some (e2, owner2) => some (e2.m_url, e2, owner2)
    | none => none

/-! ## Lazily loaded metadata -/

/-- The library lookup in `SjPlaylistEntry::LoadAddInfo`: `GetQuickInfo` receives the four
members of the block by reference; the result is the block afterwards and whether the lookup
succeeded. -/
def SjPlaylistEntry.LoadAddInfo.fromLibrary (env : SjEnv) (url : String)
    (a : SjPlaylistAddInfo) : SjPlaylistAddInfo × Bool :=
  let quick := env.GetQuickInfo url
    { m_trackName := a.m_trackName, m_leadArtistName := a.m_leadArtistName,
      m_albumName := a.m_albumName, m_playtimeMs := a.m_playtimeMs }
  ({ a with m_trackName := quick.1.m_trackName,
            m_leadArtistName := quick.1.m_leadArtistName,
            m_albumName := quick.1.m_albumName,
            m_playtimeMs := quick.1.m_playtimeMs }, quick.2)

/-- The fallback in `SjPlaylistEntry::LoadAddInfo` when the library does not know the URL:
the metadata is read from the file by the decoding module, unless the URL is not ok or is a
network stream; `e` is the entry after `GetUrl`. -/
def SjPlaylistEntry.LoadAddInfo.fromTags (env : SjEnv) (e : SjPlaylistEntry)
    (a : SjPlaylistAddInfo) : SjPlaylistAddInfo :=
  if e.m_urlOk then
    if !StartsWith e.m_url "http:" && !StartsWith e.m_url "https:"
        && !StartsWith e.m_url "ftp:" then
      if env.OpenFileSeekable e.m_url then
        match env.GetTrackInfoFromID3Etc e.m_url with
        | some trackInfo =>
          { a with
            m_trackName :=
              if IsEmpty trackInfo.m_trackName then e.m_url else trackInfo.m_trackName
            m_leadArtistName := trackInfo.m_leadArtistName
            m_albumName := trackInfo.m_albumName
            m_playtimeMs := trackInfo.m_playtimeMs }
        | none => a
      else a
    else a
  else a

/-- The end of the metadata branch of `SjPlaylistEntry::LoadAddInfo`: a playing time that is
not positive becomes -1, and the category is remembered as loaded. -/
def SjPlaylistEntry.LoadAddInfo.finish (a : SjPlaylistAddInfo) : SjPlaylistAddInfo :=
  -- SjPlaylistEntry uses -1 as invalid playing times
  let a1 : SjPlaylistAddInfo := if a.m_playtimeMs ≤ 0 then { a with m_playtimeMs := -1 } else a
  -- remember that these info are checked
  { a1 with m_what := a1.m_what ||| SJ_ADDINFO_MISC }

/-- The metadata branch of `SjPlaylistEntry::LoadAddInfo`: the library is asked for the URL
that `GetUrl` returns, then the decoding module, and the block is finished.  The assertion
`m_urlVerified` after a failed library lookup is checked. -/
def SjPlaylistEntry.LoadAddInfo.loadMisc (env : SjEnv) (e : SjPlaylistEntry)
    (a : SjPlaylistAddInfo) (owner : Option SjSLHash) :
    Option (SjPlaylistEntry × Option SjSLHash) :=
  -- try to get them from the library
  match e.GetUrl env owner with
  | none => none
  | some (url, e2, owner2) =>
    let lib := SjPlaylistEntry.LoadAddInfo.fromLibrary env url a
    if !lib.2 && !e2.m_urlVerified then none
    else
      -- try to get them from the decoding module that will handle this file
      let a3 : SjPlaylistAddInfo :=
        if !lib.2 then SjPlaylistEntry.LoadAddInfo.fromTags env e2 lib.1 else lib.1
      some ({ e2 with m_addInfo := some (SjPlaylistEntry.LoadAddInfo.finish a3) }, owner2)

/-- The play-count branch of `SjPlaylistEntry::LoadAddInfo`: the category is marked as
loaded. -/
def SjPlaylistEntry.LoadAddInfo.markPlayCount (a : SjPlaylistAddInfo) (what : Nat) :
    SjPlaylistAddInfo :=
  if hasFlag what SJ_ADDINFO_PLAYCOUNT
  then { a with m_what := a.m_what ||| SJ_ADDINFO_PLAYCOUNT } else a

/-- The part of `SjPlaylistEntry::LoadAddInfo` after the allocation of the block and after
the assertion: `e` is the entry, `a` its block.  The result is the entry with the block
afterwards and the map of the owning playlist (`GetUrl` may verify the entry). -/
def SjPlaylistEntry.LoadAddInfo.body (env : SjEnv) (e : SjPlaylistEntry) (a : SjPlaylistAddInfo)
    (owner : Option SjSLHash) (what : Nat) : Option (SjPlaylistEntry × Option SjSLHash) :=
  -- handle playcount and timestamp
  let a1 := SjPlaylistEntry.LoadAddInfo.markPlayCount a what
  -- load track, artist and album name, if needed
  if hasFlag what SJ_ADDINFO_MISC && !hasFlag a1.m_what SJ_ADDINFO_MISC then
    SjPlaylistEntry.LoadAddInfo.loadMisc env e a1 owner
  else some ({ e with m_addInfo := some a1 }, owner)

/-- Method `SjPlaylistEntry::LoadAddInfo`.  Without main frame nothing happens; the block is
allocated if needed; the assertion that none of the requested categories is loaded yet is
checked. -/
def SjPlaylistEntry.LoadAddInfo (env : SjEnv) (e : SjPlaylistEntry) (owner : Option SjSLHash)
    (what : Nat) : Option (SjPlaylistEntry × Option SjSLHash) :=
  if !env.g_mainFrame then some (e, owner)
  else
    -- allocate add. information
    let a := e.m_addInfo.getD SjPlaylistAddInfo.fresh
    if a.m_what &&& what != 0 then none
    else SjPlaylistEntry.LoadAddInfo.body env { e with m_addInfo := some a } a owner what

/-- Modelled from the spec: `SjPlaylistEntry::CheckAddInfo` (declared outside the given
sources), the check that the comment in `LoadAddInfo` names: `LoadAddInfo` is called unless
the block exists and has all the requested categories. -/
def SjPlaylistEntry.CheckAddInfo (env : SjEnv) (e : SjPlaylistEntry) (owner : Option SjSLHash)
    (what : Nat) : Option (SjPlaylistEntry × Option SjSLHash) :=
  match e.m_addInfo with
  | some a =>
    if a.m_what &&& what == what then some (e, owner)
    else e.LoadAddInfo env owner what
  | none => e.LoadAddInfo env owner what

/-- Reads a member of the block after the descriptive metadata has been requested through
`CheckAddInfo`; `none` if there is no block to read from. -/
def SjPlaylistEntry.readMisc {α : Type} (env : SjEnv) (e : SjPlaylistEntry)
    (owner : Option SjSLHash) (f : SjPlaylistAddInfo → α) :
    Option (α × SjPlaylistEntry × Option SjSLHash) :=
  match e.CheckAddInfo env owner SJ_ADDINFO_MISC with
  | none => none
  | some (e2, owner2) =>
    match e2.m_addInfo with
    | none => none
    | some a => some (f a, e2, owner2)

/-- Modelled from the spec: `SjPlaylistEntry::GetLeadArtistName` (declared outside the given
sources): the descriptive metadata is loaded if needed, then the member is read. -/
def SjPlaylistEntry.GetLeadArtistName (env : SjEnv) (e : SjPlaylistEntry)
    (owner : Option SjSLHash) : Option (String × SjPlaylistEntry × Option SjSLHash) :=
  e.readMisc env owner (fun a => a.m_leadArtistName)

/-- Modelled from the spec: `SjPlaylistEntry::GetAlbumName`. -/
def SjPlaylistEntry.GetAlbumName (env : SjEnv) (e : SjPlaylistEntry)
    (owner : Option SjSLHash) : Option (String × SjPlaylistEntry × Option SjSLHash) :=
  e.readMisc env owner (fun a => a.m_albumName)

/-- Modelled from the spec: `SjPlaylistEntry::GetTrackName`. -/
def SjPlaylistEntry.GetTrackName (env : SjEnv) (e : SjPlaylistEntry)
    (owner : Option SjSLHash) : Option (String × SjPlaylistEntry × Option SjSLHash) :=
  e.readMisc env owner (fun a => a.m_trackName)

/-- Modelled from the spec: `SjPlaylistEntry::GetPlaytimeMs`. -/
def SjPlaylistEntry.GetPlaytimeMs (env : SjEnv) (e : SjPlaylistEntry)
    (owner : Option SjSLHash) : Option (Int × SjPlaylistEntry × Option SjSLHash) :=
  e.readMisc env owner (fun a => a.m_playtimeMs)

/-- The normalisation of the text at the start of `SjPlaylistEntry::SetRealtimeInfo`: "--" is
replaced by "-", a text that is all upper case or all lower case is capitalised, and dashes
and spaces are removed from both ends. -/
def SjPlaylistEntry.SetRealtimeInfo.normalize (env : SjEnv) (info__ : String) : String :=
  let info1 := (Replace info__ "--" "-").1
  let info2 :=
    if wxUpper info1 = info1 ∨ wxLower info1 = info1 then env.Capitalize info1 else info1
  let info3 : String := ⟨info2.data.dropWhile (fun c => c == '-' || c == ' ')⟩
  ⟨(info3.data.reverse.dropWhile (fun c => c == '-' || c == ' ')).reverse⟩

/-- Method `SjPlaylistEntry::SetRealtimeInfo`. -/
def SjPlaylistEntry.SetRealtimeInfo (env : SjEnv) (e : SjPlaylistEntry)
    (owner : Option SjSLHash) (info__ : String) : Option (SjPlaylistEntry × Option SjSLHash) :=
  -- normalize the given info
  let info := SjPlaylistEntry.SetRealtimeInfo.normalize env info__
  -- set the normalized info string
  match e.CheckAddInfo env owner SJ_ADDINFO_MISC with
  | none => none
  | some (e2, owner2) =>
    match e2.m_addInfo with
    | none => none
    | some a =>
      let p := Find info " - "
      if p != -1 then
        let i1 := TrimRight (Left info p.toNat)
        let i2 := TrimLeft (Mid info (p.toNat + 3))
        if !IsEmpty i1 || !IsEmpty i2 then
          if IsEmpty i2 then
            some ({ e2 with m_addInfo := some { a with m_trackName := i1 } }, owner2)
          else
            some ({ e2 with m_addInfo := some { a with m_leadArtistName := i1,
                                                       m_trackName := i2 } }, owner2)
        else some (e2, owner2)
      else if !IsEmpty info then
        some ({ e2 with m_addInfo := some { a with m_trackName := info } }, owner2)
      else some (e2, owner2)

/-! ## The playlist -/

/-- Modelled from the spec: the members of `SjPlaylist` (declared outside the given sources):
the ordered entries, the URL reference counts, the descriptive fields and the cache of the
overall names. -/
structure SjPlaylist where
  m_array : List SjPlaylistEntry
  m_urlCounts : SjSLHash
  m_cacheFlags : Nat
  m_playlistName : String
  m_playlistUrl : String
  m_overallLeadArtistName : String
  m_overallAlbumName : String
deriving DecidableEq, Repr

/-- The empty playlist. -/
def SjPlaylist.empty : SjPlaylist :=
  { m_array := [], m_urlCounts := ⟨[]⟩, m_cacheFlags := 0, m_playlistName := "",
    m_playlistUrl := "", m_overallLeadArtistName := "", m_overallAlbumName := "" }

/-- Modelled from the spec: `GetCount`, the number of entries. -/
def SjPlaylist.GetCount (p : SjPlaylist) : Int := p.m_array.length

/-- Modelled from the spec: `IsInPlaylist` (declared outside the given sources), the check
through the reference-count map whether a URL is present at all. -/
def SjPlaylist.IsInPlaylist (p : SjPlaylist) (url : String) : Bool :=
  p.m_urlCounts.Lookup url != 0

/-- Method `SjPlaylist::RehashUrl` as a method of the playlist. -/
def SjPlaylist.RehashUrl (p : SjPlaylist) (oldUrl newUrl : String) : Option SjPlaylist :=
  match Silverjuke.RehashUrl p.m_urlCounts oldUrl newUrl with
  | some m => some { p with m_urlCounts := m }
  | none => none

/-- The call `m_array[i].GetUrl()`: the URL of the entry at a position, verifying the entry in
place (with this playlist as owner) if that was not yet done. -/
def SjPlaylist.ItemGetUrl (env : SjEnv) (p : SjPlaylist) (i : Nat) :
    Option (String × SjPlaylist) :=
  match p.m_array[i]? with
  | none => none
  | some e =>
    match e.GetUrl env (some p.m_urlCounts) with
    | some (url, e2, owner2) =>
      some (url, { p with m_array := p.m_array.set i e2,
                          m_urlCounts := owner2.getD p.m_urlCounts })
    | none => none

/-- Modelled from the spec: `SjPlaylist::Add` for one URL (declared outside the given
sources): appends a new entry with the next free id and increments the reference count of the
string.  `nextId` is the static counter `s_nextId`; its new value is returned as well. -/
def SjPlaylist.Add (p : SjPlaylist) (nextId : Int) (url : String) (urlVerified : Bool)
    (flags : Int) : SjPlaylist × Int :=
  ({ p with m_array := p.m_array ++ [SjPlaylistEntry.new nextId url urlVerified flags],
            m_urlCounts := p.m_urlCounts.Insert url (p.m_urlCounts.Lookup url + 1),
            m_cacheFlags := 0 },
   nextId + 1)

/-- Method `SjPlaylist::Add` for an array of URLs. -/
def SjPlaylist.AddArray (p : SjPlaylist) (nextId : Int) (urls : List String)
    (urlsVerified : Bool) : SjPlaylist × Int :=
  urls.foldl (fun st url => st.1.Add st.2 url urlsVerified 0) (p, nextId)

/-- Method `SjPlaylist::RemoveAt`: the result is the returned rest count and the playlist
afterwards. -/
def SjPlaylist.RemoveAt (env : SjEnv) (p : SjPlaylist) (index : Int) :
    Option (Int × SjPlaylist) :=
  if index < 0 then none
  else
    let p0 := { p with m_cacheFlags := 0 }
    match p0.ItemGetUrl env index.toNat with
    | none => none
    | some (url, p1) =>
      let (restCount, m1) := p1.m_urlCounts.Remove url
      let m2 := if restCount > 1 then m1.Insert url (restCount - 1) else m1
      some (restCount - 1,
            { p1 with m_urlCounts := m2, m_array := p1.m_array.eraseIdx index.toNat })

/-- The loop in `SjPlaylist::GetPosByUrl`: `n` iterations are left, `i` is the loop index. -/
def SjPlaylist.GetPosByUrl.loop (env : SjEnv) (url : String) :
    Nat → Nat → SjPlaylist → Option (Int × SjPlaylist)
  | 0, _, p => some (wxNOT_FOUND, p)
  | n + 1, i, p =>
    match p.ItemGetUrl env i with
    | none => none
    | some (u, p1) =>
      if CmpNoCase url u = 0 then some ((i : Int), p1)
      else SjPlaylist.GetPosByUrl.loop env url n (i + 1) p1

/-- Method `SjPlaylist::GetPosByUrl`: the result is the returned position and the playlist
afterwards (entries met by the scan are verified on the way). -/
def SjPlaylist.GetPosByUrl (env : SjEnv) (p : SjPlaylist) (url : String) :
    Option (Int × SjPlaylist) :=
  if p.IsInPlaylist url then SjPlaylist.GetPosByUrl.loop env url p.m_array.length 0 p
  else some (wxNOT_FOUND, p)

/-- The inner `while` loop of `SjPlaylist::Remove` for one URL, with a bound on the number
of iterations; `none` if the bound is reached or an operation fails. -/
def SjPlaylist.Remove.loop (env : SjEnv) (url : String) : Nat → SjPlaylist → Option SjPlaylist
  | 0, _ => none
  | fuel + 1, p =>
    match p.GetPosByUrl env url with
    | none => none
    | some (index, p1) =>
      if index != wxNOT_FOUND then
        match p1.RemoveAt env index with
        | none => none
        | some (_, p2) => SjPlaylist.Remove.loop env url fuel p2
      else some p1

/-- Method `SjPlaylist::Remove`; `fuel` bounds the iterations of each inner loop. -/
def SjPlaylist.Remove (env : SjEnv) (fuel : Nat) : SjPlaylist → List String → Option SjPlaylist
  | p, [] => some p
  | p, url :: urls =>
    match SjPlaylist.Remove.loop env url fuel p with
    | none => none
    | some p1 => SjPlaylist.Remove env fuel p1 urls

/-- The loop in `SjPlaylist::GetUnplayedCount`; the first argument is `i + 1` for the loop
index `i`, so the loop ends when it reaches zero (`currPos` is not negative). -/
def SjPlaylist.GetUnplayedCount.loop (arr : List SjPlaylistEntry) (currPos maxCnt : Int) :
    Nat → Int → Option Int
  | 0, unplayedCnt => some unplayedCnt
  | i + 1, unplayedCnt =>
    if (i : Int) ≥ currPos then
      match arr[i]? with
      | none => none
      | some e =>
        if e.GetPlayCount = 0 then
          if unplayedCnt + 1 ≥ maxCnt then
            if unplayedCnt + 1 = maxCnt then some (unplayedCnt + 1) else none
          else SjPlaylist.GetUnplayedCount.loop arr currPos maxCnt i (unplayedCnt + 1)
        else SjPlaylist.GetUnplayedCount.loop arr currPos maxCnt i unplayedCnt
    else some unplayedCnt

/-- Method `SjPlaylist::GetUnplayedCount`. -/
def SjPlaylist.GetUnplayedCount (p : SjPlaylist) (currPos maxCnt : Int) : Option Int :=
  let currPos1 := if currPos < 0 then 0 else currPos
  SjPlaylist.GetUnplayedCount.loop p.m_array currPos1 maxCnt p.m_array.length 0

/-- Method `SjPlaylist::MovePos`: the entry is detached from the array and inserted again. -/
def SjPlaylist.MovePos (p : SjPlaylist) (srcPos destPos : Int) : Option SjPlaylist :=
  if srcPos < 0 ∨ destPos < 0 then none
  else
    match p.m_array[srcPos.toNat]? with
    | none => none
    | some entryToMove =>
      let detached := p.m_array.eraseIdx srcPos.toNat
      if destPos.toNat ≤ detached.length then
        some { p with m_array := detached.insertIdx destPos.toNat entryToMove }
      else none

/-- Method `SjPlaylist::OnUrlChanged`. -/
def SjPlaylist.OnUrlChanged (p : SjPlaylist) (oldUrl newUrl : String) : SjPlaylist :=
  if p.IsInPlaylist oldUrl then
    -- url renamed?
    let p1 :=
      if !IsEmpty newUrl then
        let arr := p.m_array.map (fun e => e.RenameUrl oldUrl newUrl)
        let (count, m1) := p.m_urlCounts.Remove oldUrl
        { p with m_array := arr,
                 m_urlCounts := if count ≠ 0 then m1.Insert newUrl count else m1 }
      else p
    -- force reloading information about this url
    { p1 with m_array := p1.m_array.map (fun e =>
        if e.GetUnverifiedUrl = oldUrl then
          let playCount := e.GetPlayCount
          let flags := e.GetFlags
          ((e.UrlChanged).SetPlayCount playCount).SetFlags flags
        else e) }
  else p

/-! ## Aggregate names -/

/-- Modelled from the spec: the bit of `m_cacheFlags` that marks the overall names as loaded
(the three cache constants are defined outside the given sources; only that they are
different single bits matters). -/
def SJ_CACHE_OVERALL_LOADED : Nat := 1

/-- Modelled from the spec: the bit of `m_cacheFlags` that marks the lead artist as uniform. -/
def SJ_CACHE_LEAD_ARTIST_FINE : Nat := 2

/-- Modelled from the spec: the bit of `m_cacheFlags` that marks the album as uniform. -/
def SJ_CACHE_ALBUM_FINE : Nat := 4

/-- Modelled from the spec: the translation macro `_` of wxWidgets, taken for a locale
without translation: the placeholder texts are the ones the spec names. -/
def wxTranslate (s : String) : String := s

/-- Applies a method of `SjPlaylistEntry` to the entry at a position, with this playlist as
owner: the entry is updated in place and the reference counts follow what the method did
to them. -/
def SjPlaylist.onItem {α : Type} (p : SjPlaylist) (i : Nat)
    (f : SjPlaylistEntry → Option SjSLHash →
      Option (α × SjPlaylistEntry × Option SjSLHash)) :
    Option (α × SjPlaylist) :=
  match p.m_array[i]? with
  | none => none
  | some e =>
    match f e (some p.m_urlCounts) with
    | some (r, e2, owner2) =>
      some (r, { p with m_array := p.m_array.set i e2,
                        m_urlCounts := owner2.getD p.m_urlCounts })
    | none => none

/-- The call `m_array[i].VerifyUrl()` for an entry of the playlist. -/
def SjPlaylist.ItemVerifyUrl (env : SjEnv) (p : SjPlaylist) (i : Nat) : Option SjPlaylist :=
  match p.onItem i (fun e owner =>
      match e.VerifyUrl env owner with
      | some (e2, owner2) => some ((), e2, owner2)
      | none => none) with
  | some (_, p2) => some p2
  | none => none

/-- One pass through the body of the loop in `SjPlaylist::LoadOverallNames`, for the loop
index `i`: the playlist afterwards and whether the loop goes on (`false` stands for
`break`). -/
def SjPlaylist.LoadOverallNames.step (env : SjEnv) (i : Nat) (p : SjPlaylist) :
    Option (SjPlaylist × Bool) :=
  match p.onItem i (fun e owner => e.GetLeadArtistName env owner) with
  | none => none
  | some (artist, p1) =>
    let p2 : SjPlaylist :=
      if artist != p1.m_overallLeadArtistName
      then { p1 with m_cacheFlags := clearFlag p1.m_cacheFlags SJ_CACHE_LEAD_ARTIST_FINE }
      else p1
    if artist != p1.m_overallLeadArtistName && !hasFlag p2.m_cacheFlags SJ_CACHE_ALBUM_FINE
    then some (p2, false) -- nothing more we can find out
    else
      match p2.onItem i (fun e owner => e.GetAlbumName env owner) with
      | none => none
      | some (album, p3) =>
        let p4 : SjPlaylist :=
          if album != p3.m_overallAlbumName
          then { p3 with m_cacheFlags := clearFlag p3.m_cacheFlags SJ_CACHE_ALBUM_FINE }
          else p3
        if album != p3.m_overallAlbumName
            && !hasFlag p4.m_cacheFlags SJ_CACHE_LEAD_ARTIST_FINE
        then some (p4, false) -- nothing more we can find out
        else some (p4, true)

/-- The loop over the entries `1 .. iCount-1` in `SjPlaylist::LoadOverallNames`: `n`
iterations are left, `i` is the loop index. -/
def SjPlaylist.LoadOverallNames.loop (env : SjEnv) :
    Nat → Nat → SjPlaylist → Option SjPlaylist
  | 0, _, p => some p
  | n + 1, i, p =>
    match SjPlaylist.LoadOverallNames.step env i p with
    | none => none
    | some (p2, false) => some p2
    | some (p2, true) => SjPlaylist.LoadOverallNames.loop env n (i + 1) p2

/-- The part of `SjPlaylist::LoadOverallNames` that sets the flags and reads the names of the
entries, before the names are trimmed. -/
def SjPlaylist.LoadOverallNames.scan (env : SjEnv) (p : SjPlaylist) : Option SjPlaylist :=
  -- load overall stuff
  let p1 : SjPlaylist := { p with m_cacheFlags := p.m_cacheFlags ||| SJ_CACHE_OVERALL_LOADED }
  if p1.m_array.length > 0 then
    let p2 : SjPlaylist :=
      { p1 with m_cacheFlags :=
          p1.m_cacheFlags ||| (SJ_CACHE_LEAD_ARTIST_FINE ||| SJ_CACHE_ALBUM_FINE) }
    match p2.onItem 0 (fun e owner => e.GetLeadArtistName env owner) with
    | none => none
    | some (artist, p3) =>
      let p4 : SjPlaylist := { p3 with m_overallLeadArtistName := artist }
      match p4.onItem 0 (fun e owner => e.GetAlbumName env owner) with
      | none => none
      | some (album, p5) =>
        SjPlaylist.LoadOverallNames.loop env (p1.m_array.length - 1) 1
          { p5 with m_overallAlbumName := album }
  else some p1

/-- Method `SjPlaylist::LoadOverallNames`. -/
def SjPlaylist.LoadOverallNames (env : SjEnv) (p : SjPlaylist) : Option SjPlaylist :=
  -- stuff already loaded?
  if hasFlag p.m_cacheFlags SJ_CACHE_OVERALL_LOADED then some p
  else
    match SjPlaylist.LoadOverallNames.scan env p with
    | none => none
    | some p6 =>
      let artist := TrimLeft (TrimRight p6.m_overallLeadArtistName)
      let album := TrimLeft (TrimRight p6.m_overallAlbumName)
      some { p6 with
        m_overallLeadArtistName :=
          if !hasFlag p6.m_cacheFlags SJ_CACHE_LEAD_ARTIST_FINE || IsEmpty artist
          then wxTranslate "Several artists" else artist
        m_overallAlbumName :=
          if !hasFlag p6.m_cacheFlags SJ_CACHE_ALBUM_FINE || IsEmpty album
          then wxTranslate "Unknown title" else album }

/-- Method `SjPlaylist::SuggestPlaylistName`: the suggested name and the playlist afterwards. -/
def SjPlaylist.SuggestPlaylistName (env : SjEnv) (p : SjPlaylist) :
    Option (String × SjPlaylist) :=
  match p.LoadOverallNames env with
  | none => none
  | some p1 =>
    -- try to use album or artist name
    let ret :=
      if !IsEmpty p1.m_playlistName then p1.m_playlistName
      else if hasFlag p1.m_cacheFlags SJ_CACHE_ALBUM_FINE
          && hasFlag p1.m_cacheFlags SJ_CACHE_LEAD_ARTIST_FINE then
        p1.m_overallLeadArtistName ++ " - " ++ p1.m_overallAlbumName
      else if hasFlag p1.m_cacheFlags SJ_CACHE_ALBUM_FINE then p1.m_overallAlbumName
      else if hasFlag p1.m_cacheFlags SJ_CACHE_LEAD_ARTIST_FINE then p1.m_overallLeadArtistName
      else ""
    some (ret, p1)

/-! ## Import of M3U playlists -/

/-- The replacement of the separator between artist and title by two tabs, as
`AddFromM3uFile` and `AddFromPlsFile` do it: `" - "` is replaced; only if that does not occur,
`"-"` is replaced. -/
def replaceTitleSeparator (title : String) : String :=
  -- normally, the format is "Artist - Title", however, "Artist-Title" is allowed as well
  if (Replace title " - " "\t\t").2 < 1 then (Replace title "-" "\t\t").1
  else (Replace title " - " "\t\t").1

/-- The hints that `AddFromM3uFile` takes from a line that starts with `#EXTINF:`: the text
behind the first comma, with the separator replaced. -/
def SjPlaylist.AddFromM3uFile.extinfTitle (currLine : String) : String :=
  -- skip seconds parameter from "#EXTINF:seconds,artist ..."
  replaceTitleSeparator (AfterFirst (Mid currLine 8) ',')

/-- The loop over the lines in `SjPlaylist::AddFromM3uFile`: `currTitle` holds the hints of
the last `#EXTINF:` comment, `filesAdded` counts the entries added so far; the state is the
playlist and the counter `s_nextId`. -/
def SjPlaylist.AddFromM3uFile.loop (nativePath : String) (addMax : Int) :
    List String → String → Int → SjPlaylist × Int → SjPlaylist × Int
  | [], _, _, st => st
  | currLine :: rest, currTitle, filesAdded, st =>
    if IsEmpty currLine then
      -- skip empty lines
      SjPlaylist.AddFromM3uFile.loop nativePath addMax rest currTitle filesAdded st
    else if StartsWith currLine "#" then
      -- read comment
      if StartsWith currLine "#EXTINF:" then
        SjPlaylist.AddFromM3uFile.loop nativePath addMax rest
          (SjPlaylist.AddFromM3uFile.extinfTitle currLine) filesAdded st
      else SjPlaylist.AddFromM3uFile.loop nativePath addMax rest currTitle filesAdded st
    else
      let st2 := st.1.Add st.2 (currLine ++ "\t" ++ nativePath ++ "\t" ++ currTitle) false 0
      if filesAdded + 1 ≥ addMax then st2
      else SjPlaylist.AddFromM3uFile.loop nativePath addMax rest "" (filesAdded + 1) st2

/-- Method `SjPlaylist::AddFromM3uFile`: the returned success value and the state (playlist
and `s_nextId`) afterwards.  The parameter `flags` is not used by the function. -/
def SjPlaylist.AddFromM3uFile (env : SjEnv) (p : SjPlaylist) (nextId : Int)
    (nativePath : String) (addMax : Int) : Bool × SjPlaylist × Int :=
  -- open file
  if !env.OpenFileSeekable nativePath then (false, p, nextId)
  else
    -- get file content
    let content := env.GetFileContent nativePath (env.GetExt nativePath == "m3u8")
    -- process
    (true, SjPlaylist.AddFromM3uFile.loop nativePath addMax (env.SplitLines content) "" 0
      (p, nextId))

/-! ## Import of PLS playlists -/

/-- The local variables of `SjPlaylist::AddFromPlsFile` that live across the lines: the
arrays `urls` and `titles` and the counters `urlCount` and `titleCount`. -/
structure PlsState where
  urls : List String
  urlCount : Int
  titles : List String
  titleCount : Int
deriving DecidableEq, Repr

/-- The state of `SjPlaylist::AddFromPlsFile` before the first line. -/
def PlsState.init : PlsState :=
  { urls := [], urlCount := 0, titles := [], titleCount := 0 }

/-- The body of the first loop of `SjPlaylist::AddFromPlsFile` for one line; `continue` leaves
the state as it is. -/
def SjPlaylist.AddFromPlsFile.parseLine (s : PlsState) (currLine : String) : Option PlsState :=
  if IsEmpty currLine then some s -- skip empty line
  else
    -- split line at '='
    let currBegin0 := TrimRight (BeforeFirst currLine '=')
    if IsEmpty currBegin0 then some s
    else
      let currRest := TrimLeft (AfterFirst currLine '=')
      if IsEmpty currRest then some s
      else
        -- does the line begin with 'file<num>'
        let currBegin := wxLower currBegin0
        if StartsWith currBegin "file" then
          match ToLong (Mid currBegin 4) with
          | none => some s
          | some currNumLong =>
            if currNumLong < 1 || currNumLong > 0xFFFF then some s
            else
              -- add file
              match (if currNumLong > s.urlCount
                  then wxArrayInsert s.urls "" s.urlCount (currNumLong - s.urlCount)
                  else some s.urls) with
              | none => none
              | some urls1 =>
                match wxArraySet urls1 (currNumLong - 1) currRest with
                | none => none
                | some urls2 => some { s with urls := urls2, urlCount := s.urlCount + 1 }
        else if StartsWith currBegin "title" then
          match ToLong (Mid currBegin 5) with
          | none => some s
          | some currNumLong =>
            if currNumLong < 1 || currNumLong > 0xFFFF then some s
            else
              -- set title, helpful for VerifyUrl()
              match (if currNumLong > s.titleCount
                  then wxArrayInsert s.titles "" s.titleCount (currNumLong - s.titleCount)
                  else some s.titles) with
              | none => none
              | some titles1 =>
                match wxArraySet titles1 (currNumLong - 1) (replaceTitleSeparator currRest) with
                | none => none
                | some titles2 =>
                  some { s with titles := titles2, titleCount := s.titleCount + 1 }
        else some s

/-- The first loop of `SjPlaylist::AddFromPlsFile` over the lines of the file. -/
def SjPlaylist.AddFromPlsFile.parse : List String → PlsState → Option PlsState
  | [], s => some s
  | currLine :: rest, s =>
    match SjPlaylist.AddFromPlsFile.parseLine s currLine with
    | none => none
    | some s2 => SjPlaylist.AddFromPlsFile.parse rest s2

/-- The second loop of `SjPlaylist::AddFromPlsFile`, over the items of `urls` from the index
`urlIndex` on; `urlsAdded` counts the entries added so far. -/
def SjPlaylist.AddFromPlsFile.addLoop (nativePath : String) (addMax : Int)
    (titles : List String) (titleCount : Int) :
    List String → Int → Int → SjPlaylist × Int → Option (SjPlaylist × Int)
  | [], _, _, st => some st
  | currLine :: rest, urlIndex, urlsAdded, st =>
    if !IsEmpty currLine then
      match (if urlIndex < titleCount then
          match wxArrayItem titles urlIndex with
          | some title => some (currLine ++ "\t" ++ nativePath ++ "\t" ++ title)
          | none => none
        else some currLine) with
      | none => none
      | some raw =>
        let st2 := st.1.Add st.2 raw false 0
        if urlsAdded + 1 ≥ addMax then some st2
        else SjPlaylist.AddFromPlsFile.addLoop nativePath addMax titles titleCount rest
          (urlIndex + 1) (urlsAdded + 1) st2
    else SjPlaylist.AddFromPlsFile.addLoop nativePath addMax titles titleCount rest
      (urlIndex + 1) urlsAdded st

/-- Method `SjPlaylist::AddFromPlsFile`: the returned success value and the state (playlist
and `s_nextId`) afterwards.  The parameter `flags` is not used by the function. -/
def SjPlaylist.AddFromPlsFile (env : SjEnv) (p : SjPlaylist) (nextId : Int)
    (nativePath : String) (addMax : Int) : Option (Bool × SjPlaylist × Int) :=
  -- open file
  if !env.OpenFileSeekable nativePath then some (false, p, nextId)
  else
    -- parse file
    let content := env.GetFileContent nativePath false
    match SjPlaylist.AddFromPlsFile.parse (env.SplitLines content) PlsState.init with
    | none => none
    | some s =>
      match SjPlaylist.AddFromPlsFile.addLoop nativePath addMax s.titles s.titleCount
          s.urls 0 0 (p, nextId) with
      | none => none
      | some st => some (true, st)

/-! ## Import of cue sheets -/

/-- The file name in a line of a cue sheet that starts with `FILE `: the text between the
first and the last quote, or without quotes the first word behind `FILE`, without the white
space around it. -/
def SjPlaylist.AddFromCueFile.betweenQuotes (currLine : String) : String :=
  -- get stuff between quotes
  let currLine2 :=
    if Find currLine "\"" != -1 then BeforeLast (AfterFirst currLine '"') '"'
    else BeforeFirst (TrimLeft (Mid currLine 4)) ' '
  TrimLeft (TrimRight currLine2)

/-- The file name that `SjPlaylist::AddFromCueFile` takes from a line that is not empty;
`none` if the line is passed over. -/
def SjPlaylist.AddFromCueFile.fileName (currLinePtr : String) : Option String :=
  -- read line
  let currLine := (Replace currLinePtr "\t" " ").1
  if wxUpper (Left currLine 5) != "FILE " then none
  else if IsEmpty (SjPlaylist.AddFromCueFile.betweenQuotes currLine) then none
  else some (SjPlaylist.AddFromCueFile.betweenQuotes currLine)

/-- The loop over the lines in `SjPlaylist::AddFromCueFile`; `filesAdded` counts the entries
added so far. -/
def SjPlaylist.AddFromCueFile.loop (env : SjEnv) (nativePath : String) (addMax : Int) :
    List String → Int → SjPlaylist × Int → Option (SjPlaylist × Int)
  | [], _, st => some st
  | currLinePtr :: rest, filesAdded, st =>
    if IsEmpty currLinePtr then
      SjPlaylist.AddFromCueFile.loop env nativePath addMax rest filesAdded st
    else
      match SjPlaylist.AddFromCueFile.fileName currLinePtr with
      | none => SjPlaylist.AddFromCueFile.loop env nativePath addMax rest filesAdded st
      | some currLine =>
        -- file already added?
        match st.1.GetPosByUrl env currLine with
        | none => none
        | some (pos, p1) =>
          if pos != wxNOT_FOUND then
            SjPlaylist.AddFromCueFile.loop env nativePath addMax rest filesAdded (p1, st.2)
          else
            -- add file
            let st2 := p1.Add st.2 (currLine ++ "\t" ++ nativePath) false 0
            if filesAdded + 1 ≥ addMax then some st2
            else SjPlaylist.AddFromCueFile.loop env nativePath addMax rest (filesAdded + 1) st2

/-- Method `SjPlaylist::AddFromCueFile`: the returned success value and the state (playlist
and `s_nextId`) afterwards. -/
def SjPlaylist.AddFromCueFile (env : SjEnv) (p : SjPlaylist) (nextId : Int)
    (nativePath : String) (addMax : Int) : Option (Bool × SjPlaylist × Int) :=
  -- open file
  if !env.OpenFileSeekable nativePath then some (false, p, nextId)
  else
    -- parse file
    let content := env.GetFileContent nativePath false
    match SjPlaylist.AddFromCueFile.loop env nativePath addMax (env.SplitLines content) 0
        (p, nextId) with
    | none => none
    | some st => some (true, st)

/-! ## Import of XSPF, iTunes XML and WPL playlists -/

/-- The four fields that `SjPlaylist::AddFromXspfXmlWplFile` collects for a record. -/
structure XspfRecord where
  lastArtistName : String
  lastAlbumName : String
  lastTrackName : String
  lastLocation : String
deriving DecidableEq, Repr

/-- The record with all four fields empty. -/
def XspfRecord.empty : XspfRecord :=
  { lastArtistName := "", lastAlbumName := "", lastTrackName := "", lastLocation := "" }

/-- The rewriting of the file content in `SjPlaylist::AddFromXspfXmlWplFile` before it is cut
into lines: line ends are removed, the iTunes and WPL tags are turned into the XSPF tags, and
every `<` becomes a line break. -/
def SjPlaylist.AddFromXspfXmlWplFile.prepare (content : String) : String :=
  let c1 := (Replace content "\n" "").1
  let c2 := (Replace c1 "\r" "").1
  -- convert the XML/iTunes format to XSPF
  let name := Replace c2 "<key>Name</key><string>" "<title>"
  let c3 :=
    if name.2 > 0 then
      (Replace (Replace (Replace (Replace name.1 "<key>Artist</key><string>" "<creator>").1
        "<key>Album</key><string>" "<album>").1
        "<key>Location</key><string>" "<location>").1 "/dict" "/track").1
    else name.1
  -- convert the Windows Media Player/WPL format to XSPF
  let c4 :=
    if Find c3 "<?wpl" != wxNOT_FOUND then
      let media := Replace c3 "<media src=\"" "<location>"
      if media.2 > 0 then (Replace (Replace media.1 "\"" "</track>").1 "&apos;" "\x27").1
      else media.1
    else c3
  -- treat "<" as a new line mark
  (Replace c4 "<" "\n").1

/-- The location of a record when it is flushed: a record without location but with track
and artist name gets a stub location. -/
def SjPlaylist.AddFromXspfXmlWplFile.flushLocation (env : SjEnv) (r : XspfRecord) : String :=
  if IsEmpty r.lastLocation && !IsEmpty r.lastTrackName && !IsEmpty r.lastArtistName then
    "stub://" ++ env.EnsureValidFileNameChars r.lastArtistName ++ "-"
      ++ env.EnsureValidFileNameChars r.lastAlbumName ++ "-"
      ++ env.SjNormaliseString r.lastTrackName ++ ".mp3"
  else r.lastLocation

/-- The loop over the lines in `SjPlaylist::AddFromXspfXmlWplFile`; `r` holds the fields
collected so far, `filesAdded` counts the entries added so far. -/
def SjPlaylist.AddFromXspfXmlWplFile.loop (env : SjEnv) (nativePath : String) (addMax : Int) :
    List String → XspfRecord → Int → SjPlaylist × Int → SjPlaylist × Int
  | [], _, _, st => st
  | currLinePtr0 :: rest, r, filesAdded, st =>
    if IsEmpty currLinePtr0 then
      SjPlaylist.AddFromXspfXmlWplFile.loop env nativePath addMax rest r filesAdded st
    else
      -- remove xspf prefix, if any
      let currLinePtr := if StartsWith currLinePtr0 "xspf:" then Mid currLinePtr0 5
        else currLinePtr0
      if StartsWith currLinePtr "creator" then
        SjPlaylist.AddFromXspfXmlWplFile.loop env nativePath addMax rest
          { r with lastArtistName := env.ParseEntities (AfterFirst currLinePtr '>') }
          filesAdded st
      else if StartsWith currLinePtr "album" then
        SjPlaylist.AddFromXspfXmlWplFile.loop env nativePath addMax rest
          { r with lastAlbumName := env.ParseEntities (AfterFirst currLinePtr '>') }
          filesAdded st
      else if StartsWith currLinePtr "title" then
        SjPlaylist.AddFromXspfXmlWplFile.loop env nativePath addMax rest
          { r with lastTrackName := env.ParseEntities (AfterFirst currLinePtr '>') }
          filesAdded st
      else if StartsWith currLinePtr "location" then
        SjPlaylist.AddFromXspfXmlWplFile.loop env nativePath addMax rest
          { r with lastLocation := env.ParseEntities (AfterFirst currLinePtr '>') }
          filesAdded st
      else if StartsWith currLinePtr "/track" then
        -- flush
        let lastLocation := SjPlaylist.AddFromXspfXmlWplFile.flushLocation env r
        if !IsEmpty lastLocation then
          let st2 := st.1.Add st.2
            (lastLocation ++ "\t" ++ nativePath ++ "\t" ++ r.lastArtistName ++ "\t"
              ++ r.lastAlbumName ++ "\t" ++ r.lastTrackName) false 0
          if filesAdded + 1 ≥ addMax then st2
          else SjPlaylist.AddFromXspfXmlWplFile.loop env nativePath addMax rest
            XspfRecord.empty (filesAdded + 1) st2
        else SjPlaylist.AddFromXspfXmlWplFile.loop env nativePath addMax rest
          XspfRecord.empty filesAdded st
      else SjPlaylist.AddFromXspfXmlWplFile.loop env nativePath addMax rest r filesAdded st

/-- Method `SjPlaylist::AddFromXspfXmlWplFile`: the returned success value and the state
(playlist and `s_nextId`) afterwards. -/
def SjPlaylist.AddFromXspfXmlWplFile (env : SjEnv) (p : SjPlaylist) (nextId : Int)
    (nativePath : String) (addMax : Int) : Bool × SjPlaylist × Int :=
  -- open file
  if !env.OpenFileSeekable nativePath then (false, p, nextId)
  else
    let content := SjPlaylist.AddFromXspfXmlWplFile.prepare (env.GetFileContent nativePath true)
    -- go through the content
    (true, SjPlaylist.AddFromXspfXmlWplFile.loop env nativePath addMax (env.SplitLines content)
      XspfRecord.empty 0 (p, nextId))

/-! ## Export of playlists

The exporters append lines to the text `ret`, each with `ret << ... << linebreak`.  The
models collect the lines in the order in which they are written; the returned text is
`writeLines` of them. -/

/-- Modelled from the spec: `SjPlaylistEntry::IsUrlOk` (declared outside the given sources):
an entry that is not yet verified is verified first, then the flag is read. -/
def SjPlaylistEntry.IsUrlOk (env : SjEnv) (e : SjPlaylistEntry) (owner : Option SjSLHash) :
    Option (Bool × SjPlaylistEntry × Option SjSLHash) :=
  if e.m_urlVerified then some (e.m_urlOk, e, owner)
  else
    match e.VerifyUrl env owner with
    | some (e2, owner2) => some (e2.m_urlOk, e2, owner2)
    | none => none

/-- Method `SjPlaylistEntry::GetLocalFile`: the file name of the URL, made relative to the
directory of the container file if one is given. -/
def SjPlaylistEntry.GetLocalFile (env : SjEnv) (e : SjPlaylistEntry) (owner : Option SjSLHash)
    (containerFile__ : String) : Option (String × SjPlaylistEntry × Option SjSLHash) :=
  match e.GetUrl env owner with
  | none => none
  | some (url, e2, owner2) =>
    let urlFn := env.URLToFileName url
    if !IsEmpty containerFile__ then
      let containerFile :=
        if env.wxMSW then (Replace containerFile__ "/" "\\").1 else containerFile__
      some (env.MakeRelativeTo urlFn containerFile, e2, owner2)
    else some (urlFn, e2, owner2)

/-- Modelled from the spec: `SjPlaylist::GetLeadArtistName` (declared outside the given
sources): the overall names are loaded if needed, then the member is read. -/
def SjPlaylist.GetLeadArtistName (env : SjEnv) (p : SjPlaylist) : Option (String × SjPlaylist) :=
  match p.LoadOverallNames env with
  | none => none
  | some q => some (q.m_overallLeadArtistName, q)

/-- Modelled from the spec: `SjPlaylist::GetAlbumName` (declared outside the given sources):
the overall names are loaded if needed, then the member is read. -/
def SjPlaylist.GetAlbumName (env : SjEnv) (p : SjPlaylist) : Option (String × SjPlaylist) :=
  match p.LoadOverallNames env with
  | none => none
  | some q => some (q.m_overallAlbumName, q)

/-- The body of the loop in `SjPlaylist::SaveAsM3u` up to the call of `SjBusyInfo::Set`, for
the loop index `i`: the lines written, the value of `urlToSave` and the playlist
afterwards.  `noExt` says whether the flag `SJ_M3U_NO_EXT` is set. -/
def SjPlaylist.SaveAsM3u.item (env : SjEnv) (containerFile : String) (noExt : Bool) (i : Nat)
    (p : SjPlaylist) : Option (List String × String × SjPlaylist) :=
  match p.onItem i (fun e owner => e.GetLocalFile env owner containerFile) with
  | none => none
  | some (urlToSave, p1) =>
    match p1.onItem i (fun e owner => e.IsUrlOk env owner) with
    | none => none
    | some (false, p2) => some ([], urlToSave, p2)
    | some (true, p2) =>
      if !noExt then
        match p2.onItem i (fun e owner => e.GetPlaytimeMs env owner) with
        | none => none
        | some (playtimeMs, p3) =>
          let seconds := Int.tdiv playtimeMs 1000
          match p3.onItem i (fun e owner => e.GetLeadArtistName env owner) with
          | none => none
          | some (artist, p4) =>
            match p4.onItem i (fun e owner => e.GetTrackName env owner) with
            | none => none
            | some (track, p5) =>
              some (["#EXTINF:" ++ formatInt (castInt (if seconds == -1 then 0 else seconds))
                  ++ "," ++ artist ++ " - " ++ track, urlToSave], urlToSave, p5)
      else some ([urlToSave], urlToSave, p2)

/-- The loop over the entries in `SjPlaylist::SaveAsM3u`: `n` iterations are left, `i` is the
loop index, `ret` holds the lines written so far. -/
def SjPlaylist.SaveAsM3u.loop (env : SjEnv) (containerFile : String) (noExt : Bool) :
    Nat → Nat → List String → SjPlaylist → Option (List String × SjPlaylist)
  | 0, _, ret, p => some (ret, p)
  | n + 1, i, ret, p =>
    match SjPlaylist.SaveAsM3u.item env containerFile noExt i p with
    | none => none
    | some (lines, urlToSave, p2) =>
      if !env.BusyInfoSet i urlToSave then some (ret ++ lines, p2)
      else SjPlaylist.SaveAsM3u.loop env containerFile noExt n (i + 1) (ret ++ lines) p2

/-- The lines that `SjPlaylist::SaveAsM3u` writes, and the playlist afterwards. -/
def SjPlaylist.SaveAsM3u.lines (env : SjEnv) (p : SjPlaylist) (containerFile : String)
    (noExt : Bool) : Option (List String × SjPlaylist) :=
  SjPlaylist.SaveAsM3u.loop env containerFile noExt p.m_array.length 0
    (if !noExt then ["#EXTM3U"] else []) p

/-- Method `SjPlaylist::SaveAsM3u`: the returned text and the playlist afterwards. -/
def SjPlaylist.SaveAsM3u (env : SjEnv) (p : SjPlaylist) (containerFile : String)
    (noExt : Bool) : Option (String × SjPlaylist) :=
  match SjPlaylist.SaveAsM3u.lines env p containerFile noExt with
  | none => none
  | some (ret, p2) => some (writeLines env.GetLineBreak ret, p2)

/-- The body of the loop in `SjPlaylist::SaveAsPls` up to the call of `SjBusyInfo::Set`, for
the loop index `i`: the lines written, whether `savedCount` is incremented, the value of
`urlToSave` and the playlist afterwards. -/
def SjPlaylist.SaveAsPls.item (env : SjEnv) (i : Nat) (p : SjPlaylist) :
    Option (List String × Bool × String × SjPlaylist) :=
  match p.onItem i (fun e owner => e.GetLocalFile env owner "") with
  | none => none
  | some (urlToSave, p1) =>
    match p1.onItem i (fun e owner => e.IsUrlOk env owner) with
    | none => none
    | some (false, p2) => some ([], false, urlToSave, p2)
    | some (true, p2) =>
      let num := formatInt (castInt i + 1)
      match p2.onItem i (fun e owner => e.GetPlaytimeMs env owner) with
      | none => none
      | some (playtimeMs, p3) =>
        let seconds := Int.tdiv playtimeMs 1000
        match p3.onItem i (fun e owner => e.GetLeadArtistName env owner) with
        | none => none
        | some (artist, p4) =>
          match p4.onItem i (fun e owner => e.GetTrackName env owner) with
          | none => none
          | some (track, p5) =>
            some (["File" ++ num ++ "=" ++ urlToSave,
                "Title" ++ num ++ "=" ++ artist ++ " - " ++ track,
                "Length" ++ num ++ "=" ++ formatInt (if seconds == -1 then 0 else castInt seconds)],
              true, urlToSave, p5)

/-- The loop over the entries in `SjPlaylist::SaveAsPls`: `n` iterations are left, `i` is the
loop index, `ret` holds the lines written so far. -/
def SjPlaylist.SaveAsPls.loop (env : SjEnv) :
    Nat → Nat → List String → Int → SjPlaylist → Option (List String × Int × SjPlaylist)
  | 0, _, ret, savedCount, p => some (ret, savedCount, p)
  | n + 1, i, ret, savedCount, p =>
    match SjPlaylist.SaveAsPls.item env i p with
    | none => none
    | some (lines, saved, urlToSave, p2) =>
      if !env.BusyInfoSet i urlToSave then
        some (ret ++ lines, if saved then savedCount + 1 else savedCount, p2)
      else SjPlaylist.SaveAsPls.loop env n (i + 1) (ret ++ lines)
        (if saved then savedCount + 1 else savedCount) p2

/-- The lines that `SjPlaylist::SaveAsPls` writes, and the playlist afterwards. -/
def SjPlaylist.SaveAsPls.lines (env : SjEnv) (p : SjPlaylist) :
    Option (List String × SjPlaylist) :=
  match p.SuggestPlaylistName env with
  | none => none
  | some (playlistName, p1) =>
    match SjPlaylist.SaveAsPls.loop env p1.m_array.length 0
        (["[playlist]"]
          ++ (if !IsEmpty playlistName then ["PlaylistName=" ++ playlistName] else []))
        0 p1 with
    | none => none
    | some (ret, savedCount, p2) =>
      -- these MUST be the last entries
      some (ret ++ ["NumberOfEntries=" ++ formatInt (castInt savedCount), "Version=2"], p2)

/-- Method `SjPlaylist::SaveAsPls`: the returned text and the playlist afterwards.  The
parameters `containerFile` and `flags` are not used by the function. -/
def SjPlaylist.SaveAsPls (env : SjEnv) (p : SjPlaylist) : Option (String × SjPlaylist) :=
  match SjPlaylist.SaveAsPls.lines env p with
  | none => none
  | some (ret, p2) => some (writeLines env.GetLineBreak ret, p2)

/-- The body of the loop in `SjPlaylist::SaveAsCue` up to the call of `SjBusyInfo::Set`, for
the loop index `i`: the lines written, the value of `urlToSave` and the playlist
afterwards.  `shortPaths` says whether the flag `SJ_CUE_SHORTPATHS` is set. -/
def SjPlaylist.SaveAsCue.item (env : SjEnv) (shortPaths : Bool) (i : Nat) (p : SjPlaylist) :
    Option (List String × String × SjPlaylist) :=
  match p.onItem i (fun e owner => e.GetLocalFile env owner "") with
  | none => none
  | some (urlToSave0, p1) =>
    match p1.onItem i (fun e owner => e.IsUrlOk env owner) with
    | none => none
    | some (false, p2) => some ([], urlToSave0, p2)
    | some (true, p2) =>
      let urlToSave :=
        if env.wxMSW && shortPaths then env.GetShortPath urlToSave0 else urlToSave0
      match p2.onItem i (fun e owner => e.GetTrackName env owner) with
      | none => none
      | some (track, p3) =>
        match p3.onItem i (fun e owner => e.GetLeadArtistName env owner) with
        | none => none
        | some (artist, p4) =>
          some (["FILE \"" ++ urlToSave ++ "\" WAVE",
              "  TRACK " ++ (if i ≤ 99 then formatInt02 (castInt i + 1)
                else formatInt (castInt i + 1)) ++ " AUDIO",
              "    TITLE \"" ++ track ++ "\"",
              "    PERFORMER \"" ++ artist ++ "\"",
              "    INDEX 01 00:00:00"],
            urlToSave, p4)

/-- The loop over the entries in `SjPlaylist::SaveAsCue`: `n` iterations are left, `i` is the
loop index, `ret` holds the lines written so far. -/
def SjPlaylist.SaveAsCue.loop (env : SjEnv) (shortPaths : Bool) :
    Nat → Nat → List String → SjPlaylist → Option (List String × SjPlaylist)
  | 0, _, ret, p => some (ret, p)
  | n + 1, i, ret, p =>
    match SjPlaylist.SaveAsCue.item env shortPaths i p with
    | none => none
    | some (lines, urlToSave, p2) =>
      if !env.BusyInfoSet i urlToSave then some (ret ++ lines, p2)
      else SjPlaylist.SaveAsCue.loop env shortPaths n (i + 1) (ret ++ lines) p2

/-- The lines that `SjPlaylist::SaveAsCue` writes, and the playlist afterwards. -/
def SjPlaylist.SaveAsCue.lines (env : SjEnv) (p : SjPlaylist) (shortPaths : Bool) :
    Option (List String × SjPlaylist) :=
  match p.GetLeadArtistName env with
  | none => none
  | some (performer, p1) =>
    match p1.GetAlbumName env with
    | none => none
    | some (title, p2) =>
      SjPlaylist.SaveAsCue.loop env shortPaths p2.m_array.length 0
        ["PERFORMER \"" ++ performer ++ "\"", "TITLE \"" ++ title ++ "\""] p2

/-- Method `SjPlaylist::SaveAsCue`: the returned text and the playlist afterwards.  The
parameter `containerFile` is not used by the function. -/
def SjPlaylist.SaveAsCue (env : SjEnv) (p : SjPlaylist) (shortPaths : Bool) :
    Option (String × SjPlaylist) :=
  match SjPlaylist.SaveAsCue.lines env p shortPaths with
  | none => none
  | some (ret, p2) => some (writeLines env.GetLineBreak ret, p2)

/-- The body of the loop in `SjPlaylist::SaveAsXspf` up to the call of `SjBusyInfo::Set`, for
the loop index `i`: the lines written and the playlist afterwards. -/
def SjPlaylist.SaveAsXspf.item (env : SjEnv) (i : Nat) (p : SjPlaylist) :
    Option (List String × SjPlaylist) :=
  -- write url
  match p.onItem i (fun e owner => e.GetUrl env owner) with
  | none => none
  | some (location, p1) =>
    -- write title
    match p1.onItem i (fun e owner => e.GetTrackName env owner) with
    | none => none
    | some (title, p2) =>
      -- write artist
      match p2.onItem i (fun e owner => e.GetLeadArtistName env owner) with
      | none => none
      | some (creator, p3) =>
        -- write album
        match p3.onItem i (fun e owner => e.GetAlbumName env owner) with
        | none => none
        | some (album, p4) =>
          some (["\t<track>",
              "\t\t<location>" ++ env.Htmlentities location ++ "</location>",
              "\t\t<title>" ++ env.Htmlentities title ++ "</title>",
              "\t\t<creator>" ++ env.Htmlentities creator ++ "</creator>",
              "\t\t<album>" ++ env.Htmlentities album ++ "</album>",
              "\t</track>"], p4)

/-- The loop over the entries in `SjPlaylist::SaveAsXspf`: `n` iterations are left, `i` is
the loop index, `ret` holds the lines written so far.  The variable `url` that is passed to
`SjBusyInfo::Set` is never assigned and is empty. -/
def SjPlaylist.SaveAsXspf.loop (env : SjEnv) :
    Nat → Nat → List String → SjPlaylist → Option (List String × SjPlaylist)
  | 0, _, ret, p => some (ret, p)
  | n + 1, i, ret, p =>
    match SjPlaylist.SaveAsXspf.item env i p with
    | none => none
    | some (lines, p2) =>
      if !env.BusyInfoSet i "" then some (ret ++ lines, p2)
      else SjPlaylist.SaveAsXspf.loop env n (i + 1) (ret ++ lines) p2

/-- The lines that `SjPlaylist::SaveAsXspf` writes, and the playlist afterwards. -/
def SjPlaylist.SaveAsXspf.lines (env : SjEnv) (p : SjPlaylist) :
    Option (List String × SjPlaylist) :=
  -- write prologue
  match SjPlaylist.SaveAsXspf.loop env p.m_array.length 0
      ["<?xml version=\"1.0\" encoding=\"UTF-8\"?>",
        "<playlist version=\"1\" xmlns=\"http://xspf.org/ns/0/\">",
        "<date>" ++ env.NowUTC ++ "</date>",
        "<meta rel=\"generator\">" ++ env.ProgramVersion ++ "</meta>",
        "<trackList>"] p with
  | none => none
  | some (ret, p2) =>
    -- write epilogue
    some (ret ++ ["</trackList>", "</playlist>"], p2)

/-- Method `SjPlaylist::SaveAsXspf`: the returned text and the playlist afterwards.  The
parameters `containerFile` and `flags` are not used by the function. -/
def SjPlaylist.SaveAsXspf (env : SjEnv) (p : SjPlaylist) : Option (String × SjPlaylist) :=
  match SjPlaylist.SaveAsXspf.lines env p with
  | none => none
  | some (ret, p2) => some (writeLines env.GetLineBreak ret, p2)

/-! ## The unplayed count without assertions -/

/-- The loop in `SjPlaylist::GetUnplayedCount` as a release build runs it: `wxASSERT` expands to
nothing, so the early exit returns the count whatever its relation to `maxCnt` is. -/
def SjPlaylist.GetUnplayedCountRelease.loop (arr : List SjPlaylistEntry)
    (currPos maxCnt : Int) : Nat → Int → Option Int
  | 0, unplayedCnt => some unplayedCnt
  | i + 1, unplayedCnt =>
    if (i : Int) ≥ currPos then
      match arr[i]? with
      | none => none
      | some e =>
        if e.GetPlayCount = 0 then
          if unplayedCnt + 1 ≥ maxCnt then some (unplayedCnt + 1)
          else SjPlaylist.GetUnplayedCountRelease.loop arr currPos maxCnt i (unplayedCnt + 1)
        else SjPlaylist.GetUnplayedCountRelease.loop arr currPos maxCnt i unplayedCnt
    else some unplayedCnt

/-- Method `SjPlaylist::GetUnplayedCount` as a release build runs it (no assertions). -/
def SjPlaylist.GetUnplayedCountRelease (p : SjPlaylist) (currPos maxCnt : Int) : Option Int :=
  let currPos1 := if currPos < 0 then 0 else currPos
  SjPlaylist.GetUnplayedCountRelease.loop p.m_array currPos1 maxCnt p.m_array.length 0

/-! ## Invariants -/

/-- The per-URL reference-count invariant: for every URL the stored count is the number of
entries whose stored URL is that URL (ignoring case, as the map does). -/
def SjPlaylist.RefCountInv (p : SjPlaylist) : Prop :=
  ∀ u, p.m_urlCounts.Lookup u = ((p.m_array.countP (fun e => sameNoCase e.m_url u) : Nat) : Int)

/-- All entries of the playlist are verified. -/
def SjPlaylist.AllVerified (p : SjPlaylist) : Prop :=
  ∀ e ∈ p.m_array, e.m_urlVerified = true

instance SjPlaylist.decidableAllVerified (p : SjPlaylist) : Decidable p.AllVerified := by
  unfold SjPlaylist.AllVerified; infer_instance

/-- Forward count of the unplayed entries at or after a position, capped: what
`GetUnplayedCount` is specified to return. -/
def unplayedCountSpec (p : SjPlaylist) (fromPos cap : Int) : Int :=
  min cap (((p.m_array.drop (max fromPos 0).toNat).countP
    (fun e => e.GetPlayCount == 0) : Nat) : Int)

/-- The sum form of the reference-count invariant: no key is stored twice, every stored
count is positive, and the counts add up to the number of entries. -/
def SjPlaylist.SumInv (p : SjPlaylist) : Prop :=
  p.m_urlCounts.WF ∧ p.m_urlCounts.Positive ∧ p.m_urlCounts.total = (p.m_array.length : Int)

/-- The operations of the playlist that touch the reference counts. -/
inductive PlaylistOp where
  | add (urls : List String) (urlsVerified : Bool)
  | removeAt (index : Int)
  | rehashUrl (oldUrl newUrl : String)

/-- Runs a sequence of operations on a state (the playlist and the counter `s_nextId`).  The
result is the final state together with the values returned by the calls of `RemoveAt`, in
order; `none` if an operation fails. -/
def runOps (env : SjEnv) :
    SjPlaylist × Int → List PlaylistOp → Option ((SjPlaylist × Int) × List Int)
  | st, [] => some (st, [])
  | st, PlaylistOp.add urls urlsVerified :: ops =>
    runOps env (st.1.AddArray st.2 urls urlsVerified) ops
  | st, PlaylistOp.removeAt index :: ops =>
    match st.1.RemoveAt env index with
    | none => none
    | some (r, p2) =>
      match runOps env (p2, st.2) ops with
      | none => none
      | some (st2, rets) => some (st2, r :: rets)
  | st, PlaylistOp.rehashUrl oldUrl newUrl :: ops =>
    match st.1.RehashUrl oldUrl newUrl with
    | none => none
    | some p2 => runOps env (p2, st.2) ops

/-- The plain case-insensitive linear scan over the stored URLs, from position `i` on: the
smallest index whose entry URL equals the URL ignoring case, wxNOT_FOUND when no entry
matches (the wording of the spec for `GetPosByUrl`, without the reference-count check). -/
def linearScanFrom (url : String) : List SjPlaylistEntry → Nat → Int
  | [], _ => wxNOT_FOUND
  | e :: rest, i =>
    if CmpNoCase url e.m_url = 0 then (i : Int) else linearScanFrom url rest (i + 1)

/-- The plain case-insensitive linear scan over all entries. -/
def linearScanNoCase (arr : List SjPlaylistEntry) (url : String) : Int :=
  linearScanFrom url arr 0

/-- The normalisation of the text of `SetRealtimeInfo` in the words of the claim: "--" is
replaced by "-", and dashes and spaces are removed from both ends (no capitalisation). -/
def normalizeAsClaimed (text : String) : String :=
  let info1 := (Replace text "--" "-").1
  let info2 : String := ⟨info1.data.dropWhile (fun c => c == '-' || c == ' ')⟩
  ⟨(info2.data.reverse.dropWhile (fun c => c == '-' || c == ' ')).reverse⟩

/-- The lead artist name that an entry reports when it is asked on its own, without owning
playlist; `none` if the accessor does not return. -/
def SjPlaylistEntry.leadArtistName (env : SjEnv) (e : SjPlaylistEntry) : Option String :=
  (e.GetLeadArtistName env none).map Prod.fst

/-- The album name that an entry reports when it is asked on its own. -/
def SjPlaylistEntry.albumName (env : SjEnv) (e : SjPlaylistEntry) : Option String :=
  (e.GetAlbumName env none).map Prod.fst

/-- The lead artist name and the album name of every entry of a playlist, in order. -/
def SjPlaylist.entryNames (env : SjEnv) (p : SjPlaylist) :
    List (Option String × Option String) :=
  p.m_array.map (fun e => (e.leadArtistName env, e.albumName env))

/-- The parts of a text joined with a separator between them. -/
def joinParts (sep : String) : List String → String
  | [] => ""
  | [a] => a
  | a :: b :: rest => a ++ sep ++ joinParts sep (b :: rest)

/-- The entries that `Add` makes of a list of strings, with consecutive ids from `nextId`
on. -/
def newEntries : Int → List String → Bool → List SjPlaylistEntry
  | _, [], _ => []
  | nextId, url :: rest, urlsVerified =>
    SjPlaylistEntry.new nextId url urlsVerified 0 :: newEntries (nextId + 1) rest urlsVerified

/-- The strings that the M3U import adds for the lines of a file when no cap stops it, in
order; `currTitle` holds the hints of the last `#EXTINF:` line. -/
def m3uRaws (nativePath : String) : List String → String → List String
  | [], _ => []
  | currLine :: rest, currTitle =>
    if IsEmpty currLine then m3uRaws nativePath rest currTitle
    else if StartsWith currLine "#" then
      if StartsWith currLine "#EXTINF:" then
        m3uRaws nativePath rest (SjPlaylist.AddFromM3uFile.extinfTitle currLine)
      else m3uRaws nativePath rest currTitle
    else (currLine ++ "\t" ++ nativePath ++ "\t" ++ currTitle) :: m3uRaws nativePath rest ""

/-- The strings that the second loop of the PLS import adds for the items of `urls` from the
index `urlIndex` on when no cap stops it, in order; `none` stands for an access outside the
array `titles`. -/
def plsRaws (nativePath : String) (titles : List String) (titleCount : Int) :
    List String → Int → List (Option String)
  | [], _ => []
  | currLine :: rest, urlIndex =>
    if !IsEmpty currLine then
      (if urlIndex < titleCount then
        (wxArrayItem titles urlIndex).map (fun title => currLine ++ "\t" ++ nativePath ++ "\t"
          ++ title)
       else some currLine) :: plsRaws nativePath titles titleCount rest (urlIndex + 1)
    else plsRaws nativePath titles titleCount rest (urlIndex + 1)

/-- The strings that the import of a cue sheet adds for the lines of a file when no cap stops
it and no file name is found in the playlist, in order. -/
def cueRaws (nativePath : String) : List String → List String
  | [] => []
  | currLinePtr :: rest =>
    if IsEmpty currLinePtr then cueRaws nativePath rest
    else
      match SjPlaylist.AddFromCueFile.fileName currLinePtr with
      | none => cueRaws nativePath rest
      | some currLine => (currLine ++ "\t" ++ nativePath) :: cueRaws nativePath rest

/-- One line of the XSPF import on the collected fields: a tag line sets its field, a line
`/track` clears all fields, every other line leaves them. -/
def xspfFields (env : SjEnv) (r : XspfRecord) (currLinePtr0 : String) : XspfRecord :=
  if IsEmpty currLinePtr0 then r
  else
    let currLinePtr := if StartsWith currLinePtr0 "xspf:" then Mid currLinePtr0 5
      else currLinePtr0
    if StartsWith currLinePtr "creator" then
      { r with lastArtistName := env.ParseEntities (AfterFirst currLinePtr '>') }
    else if StartsWith currLinePtr "album" then
      { r with lastAlbumName := env.ParseEntities (AfterFirst currLinePtr '>') }
    else if StartsWith currLinePtr "title" then
      { r with lastTrackName := env.ParseEntities (AfterFirst currLinePtr '>') }
    else if StartsWith currLinePtr "location" then
      { r with lastLocation := env.ParseEntities (AfterFirst currLinePtr '>') }
    else if StartsWith currLinePtr "/track" then XspfRecord.empty
    else r

/-- Whether a line closes a record of the XSPF import: it is not empty and, behind an
optional `xspf:`, starts with `/track` and with none of the four tag names. -/
def xspfCloses (currLinePtr0 : String) : Bool :=
  let currLinePtr := if StartsWith currLinePtr0 "xspf:" then Mid currLinePtr0 5
    else currLinePtr0
  !IsEmpty currLinePtr0 && !StartsWith currLinePtr "creator" && !StartsWith currLinePtr "album"
    && !StartsWith currLinePtr "title" && !StartsWith currLinePtr "location"
    && StartsWith currLinePtr "/track"

/-- The string that the XSPF import adds when a record with the fields `r` is closed; `none`
if the record has no location and gets no stub location. -/
def xspfRaw (env : SjEnv) (nativePath : String) (r : XspfRecord) : Option String :=
  if !IsEmpty (SjPlaylist.AddFromXspfXmlWplFile.flushLocation env r) then
    some (SjPlaylist.AddFromXspfXmlWplFile.flushLocation env r ++ "\t" ++ nativePath ++ "\t"
      ++ r.lastArtistName ++ "\t" ++ r.lastAlbumName ++ "\t" ++ r.lastTrackName)
  else none

/-- The strings that the XSPF import adds for the lines of a file when no cap stops it, in
order; `r` holds the fields collected so far. -/
def xspfRaws (env : SjEnv) (nativePath : String) : List String → XspfRecord → List String
  | [], _ => []
  | currLinePtr0 :: rest, r =>
    if xspfCloses currLinePtr0 then
      match xspfRaw env nativePath r with
      | some raw => raw :: xspfRaws env nativePath rest XspfRecord.empty
      | none => xspfRaws env nativePath rest XspfRecord.empty
    else xspfRaws env nativePath rest (xspfFields env r currLinePtr0)

/-- The values of a list of optional values, if all of them are there. -/
def allDefined : List (Option String) → Option (List String)
  | [] => some []
  | none :: _ => none
  | some x :: rest => (allDefined rest).map (fun l => x :: l)

/-- No string without a tab is counted in the reference-count map of the playlist (as in the
empty playlist, and in a playlist that holds only entries of imports that are not yet
verified). -/
def SjPlaylist.NoTabFreeKey (p : SjPlaylist) : Prop :=
  ∀ u : String, '\t' ∉ u.data → p.m_urlCounts.Lookup u = 0

/-- The URL of an entry with its two flags: what the metadata accessors leave alone. -/
def SjPlaylistEntry.urlKey (e : SjPlaylistEntry) : String × Bool × Bool :=
  (e.m_url, e.m_urlOk, e.m_urlVerified)

/-- The URLs of the entries of a playlist with their flags, in order. -/
def SjPlaylist.urlKeys (p : SjPlaylist) : List (String × Bool × Bool) :=
  p.m_array.map SjPlaylistEntry.urlKey

/-- Whether an entry is verified and has its descriptive metadata loaded: the accessors then
read the stored values and change nothing. -/
def SjPlaylistEntry.isSettled (e : SjPlaylistEntry) : Bool :=
  e.m_urlVerified &&
    (match e.m_addInfo with
     | some a => a.m_what.testBit 1
     | none => false)

/-- All entries of the playlist are verified and have their descriptive metadata loaded. -/
def SjPlaylist.Settled (p : SjPlaylist) : Prop :=
  ∀ e ∈ p.m_array, e.isSettled = true

instance SjPlaylist.decidableSettled (p : SjPlaylist) : Decidable p.Settled := by
  unfold SjPlaylist.Settled; infer_instance

/-- The block of an entry; the fresh block if there is none. -/
def SjPlaylistEntry.info (e : SjPlaylistEntry) : SjPlaylistAddInfo :=
  e.m_addInfo.getD SjPlaylistAddInfo.fresh

/-- A verified entry with a given play count. -/
def playedEntry (id : Int) (url : String) (playCount : Int) : SjPlaylistEntry :=
  (SjPlaylistEntry.new id url true 0).SetPlayCount playCount

/-- A playlist with the given entries and reference counts and nothing else set. -/
def playlistOf (entries : List SjPlaylistEntry) (counts : List (String × Int)) : SjPlaylist :=
  { SjPlaylist.empty with m_array := entries, m_urlCounts := ⟨counts⟩ }

/-- Ten entries of which exactly the last three have play count 0. -/
def kioskQueue : SjPlaylist :=
  playlistOf
    [playedEntry 1 "t1" 2, playedEntry 2 "t2" 1, playedEntry 3 "t3" 1, playedEntry 4 "t4" 5,
     playedEntry 5 "t5" 1, playedEntry 6 "t6" 3, playedEntry 7 "t7" 1, playedEntry 8 "t8" 0,
     playedEntry 9 "t9" 0, playedEntry 10 "t10" 0]
    [("t1", 1), ("t2", 1), ("t3", 1), ("t4", 1), ("t5", 1), ("t6", 1), ("t7", 1), ("t8", 1),
     ("t9", 1), ("t10", 1)]

/-- Three verified entries, the first and the last with the same URL up to case. -/
def threeTracks : SjPlaylist :=
  (SjPlaylist.empty.AddArray 1 ["file:///m/a.mp3", "file:///m/b.mp3", "file:///m/A.mp3"] true).1

/-- Two verified entries with different URLs, each counted once. -/
def twoTracks : SjPlaylist := (SjPlaylist.empty.AddArray 1 ["a", "b"] true).1

/-- An environment with main frame in which no locator can be opened and the library knows
no track. -/
def offlineEnv : SjEnv :=
  { g_mainFrame := true, wxMSW := false,
    URLToFileName := fun s => s, FileNameToURL := fun s => "file://" ++ s,
    GetLongPath := fun s => s, IsAbsolute := fun s => StartsWith s "/",
    MakeAbsolute := fun url containerPath => containerPath ++ "/" ++ url,
    FileExists := fun _ => false, OpenFile := fun _ => none,
    LibraryGetUrl := fun _ _ _ => "", SqlUrlExact := fun _ => false,
    SqlUrlLike := fun _ => [],
    GetQuickInfo := fun _ info => (info, false), OpenFileSeekable := fun _ => false,
    GetTrackInfoFromID3Etc := fun _ => none, Capitalize := fun s => s,
    GetExt := fun s => AfterLast s '.', GetFileContent := fun _ _ => "",
    SplitLines := fun _ => [], ParseEntities := fun s => s,
    EnsureValidFileNameChars := fun s => s, SjNormaliseString := fun s => wxLower s,
    GetLineBreak := "\n", BusyInfoSet := fun _ _ => true,
    MakeRelativeTo := fun file _ => file, GetShortPath := fun s => s,
    Htmlentities := fun s => s, NowUTC := "2000-01-01T00:00:00+00:00",
    ProgramVersion := "Silverjuke 0.0" }

/-- An environment in which the file `/m/a.mp3` exists and can be opened. -/
def localEnv : SjEnv :=
  { offlineEnv with
    FileExists := fun s => s == "/m/a.mp3",
    OpenFile := fun s => if s == "/m/a.mp3" then some "/m/a.mp3" else none }

/-- Two entries that are not yet verified and share the raw string `/m/a.mp3`. -/
def sharedRaw : SjPlaylist := (SjPlaylist.empty.AddArray 1 ["/m/a.mp3", "/m/a.mp3"] false).1

/-- One entry that is not yet verified, with the raw string `/m/a.mp3`. -/
def oneRaw : SjPlaylist := (SjPlaylist.empty.AddArray 1 ["/m/a.mp3"] false).1

/-- An environment whose library knows the tracks "a" and "b" of the artist "Abba" on the
album "Arrival". -/
def arrivalEnv : SjEnv :=
  { offlineEnv with
    GetQuickInfo := fun url info =>
      if url == "a" then
        ({ m_trackName := "Tiger", m_leadArtistName := "Abba", m_albumName := "Arrival",
           m_playtimeMs := 175000 }, true)
      else if url == "b" then
        ({ m_trackName := "Money", m_leadArtistName := "Abba", m_albumName := "Arrival",
           m_playtimeMs := 0 }, true)
      else (info, false) }

/-- The same library after the track "a" has been retagged to another artist. -/
def retaggedEnv : SjEnv :=
  { offlineEnv with
    GetQuickInfo := fun url info =>
      if url == "a" then
        ({ m_trackName := "Tiger", m_leadArtistName := "Baccara", m_albumName := "Arrival",
           m_playtimeMs := 175000 }, true)
      else if url == "b" then
        ({ m_trackName := "Money", m_leadArtistName := "Abba", m_albumName := "Arrival",
           m_playtimeMs := 0 }, true)
      else (info, false) }

/-- An environment with a file system that ignores case: the file `/m/a.mp3` is opened under
every spelling of its name, and the location is reported in the stored spelling. -/
def caseEnv : SjEnv :=
  { offlineEnv with
    URLToFileName := fun s => Mid s 7,
    FileExists := fun s => wxLower s == "/m/a.mp3",
    OpenFile := fun s => if wxLower s == "/m/a.mp3" then some "/m/a.mp3" else none }

/-- One entry as the M3U import adds it: not yet verified, with hint fields behind the URL. -/
def importedRaw : SjPlaylist :=
  (SjPlaylist.empty.AddArray 1 ["song.mp3\tlist.m3u\tArtist\t\tTitle"] false).1

/-- An environment whose helper `SjTools::Capitalize` turns the first letter of a text into
upper case. -/
def capitalEnv : SjEnv :=
  { offlineEnv with
    Capitalize := fun s =>
      match s.data with
      | [] => s
      | c :: rest => ⟨c.toUpper :: rest⟩ }

/-- An environment whose library knows every track, without artist name and on the album
"X". -/
def untaggedEnv : SjEnv :=
  { offlineEnv with
    GetQuickInfo := fun url _ =>
      ({ m_trackName := url, m_leadArtistName := "", m_albumName := "X",
         m_playtimeMs := 1000 }, true) }

/-- An environment in which the playlist file `list.m3u` can be opened and has the two lines
`#EXTINF:123,Artist - Title` and `song.mp3`; the track itself is not in the library and
cannot be opened. -/
def m3uEnv : SjEnv :=
  { offlineEnv with
    OpenFileSeekable := fun s => s == "list.m3u",
    GetFileContent := fun _ _ => "#EXTINF:123,Artist - Title\nsong.mp3\n",
    SplitLines := fun s =>
      if s == "#EXTINF:123,Artist - Title\nsong.mp3\n"
      then ["#EXTINF:123,Artist - Title", "song.mp3"] else [] }

/-- An environment in which the playlist file `list.m3u` has the lines `#EXTINF:5,OnlyTitle`
and `song.mp3`; the file `song.mp3` cannot be opened, and the library answers the lookup of
the artist "OnlyTitle" with the track "OnlyTitle" by the file `/m/a.mp3`, which exists. -/
def onlyTitleEnv : SjEnv :=
  { localEnv with
    OpenFileSeekable := fun s => s == "list.m3u",
    SplitLines := fun _ => ["#EXTINF:5,OnlyTitle", "song.mp3"],
    LibraryGetUrl := fun artist _ track =>
      if artist == "OnlyTitle" && track == "OnlyTitle" then "/m/a.mp3" else "" }

/-- An environment in which the playlist file `list.m3u` has the lines `#EXTINF:0,A - B - C`
and `song.mp3`. -/
def threePartEnv : SjEnv :=
  { offlineEnv with
    OpenFileSeekable := fun s => s == "list.m3u",
    SplitLines := fun _ => ["#EXTINF:0,A - B - C", "song.mp3"] }

/-- An environment in which every playlist file can be opened and has the given lines; no
other file can be opened and the library knows no track. -/
def fileEnv (lines : List String) : SjEnv :=
  { offlineEnv with OpenFileSeekable := fun _ => true, SplitLines := fun _ => lines }

theorem sameNoCase_iff (a b : String) : sameNoCase a b = true ↔ wxLower a = wxLower b := by
  simp [sameNoCase]

theorem sameNoCase_refl (a : String) : sameNoCase a a = true := by
  simp [sameNoCase]

theorem sameNoCase_comm (a b : String) : sameNoCase a b = sameNoCase b a := by
  rw [Bool.eq_iff_iff, sameNoCase_iff, sameNoCase_iff]
  exact eq_comm

theorem CmpNoCase_eq_zero_iff (a b : String) : CmpNoCase a b = 0 ↔ sameNoCase a b = true := by
  unfold CmpNoCase
  by_cases h : sameNoCase a b = true
  · simp [h]
  · have h2 : sameNoCase a b = false := by simpa using h
    rw [h2]
    by_cases h3 : (wxLower a).data < (wxLower b).data <;> simp [h3]

theorem slLookup_slErase (l : List (String × Int)) (k k2 : String) :
    slLookup (slErase l k) k2 = if sameNoCase k k2 then 0 else slLookup l k2 := by
  induction l with
  | nil => simp [slErase, slLookup]
  | cons kv rest ih =>
    by_cases h1 : sameNoCase kv.1 k = true
    · simp only [slErase, h1, if_true, ih, slLookup]
      by_cases h2 : sameNoCase k k2 = true
      · simp [h2]
      · have h3 : ¬ sameNoCase kv.1 k2 = true := by
          rw [sameNoCase_iff] at h1 h2 ⊢
          rw [h1]; exact h2
        simp [h2, h3]
    · simp only [slErase, h1, slLookup, ih]
      by_cases h2 : sameNoCase k k2 = true
      · have h3 : ¬ sameNoCase kv.1 k2 = true := by
          rw [sameNoCase_iff] at h1 h2 ⊢
          rw [← h2]; exact h1
        simp [h2, h3]
      · simp [h2]

theorem slLookup_congr (l : List (String × Int)) (k k2 : String)
    (h : sameNoCase k k2 = true) : slLookup l k = slLookup l k2 := by
  induction l with
  | nil => rfl
  | cons kv rest ih =>
    have h3 : sameNoCase kv.1 k = sameNoCase kv.1 k2 := by
      rw [Bool.eq_iff_iff, sameNoCase_iff, sameNoCase_iff]
      rw [sameNoCase_iff] at h
      rw [h]
    simp [slLookup, h3, ih]

theorem any_slErase (l : List (String × Int)) (k k2 : String) :
    (slErase l k).any (fun kv => sameNoCase kv.1 k2)
      = (!sameNoCase k k2 && l.any (fun kv => sameNoCase kv.1 k2)) := by
  induction l with
  | nil => simp [slErase]
  | cons kv rest ih =>
    by_cases h1 : sameNoCase kv.1 k = true
    · have e : slErase (kv :: rest) k = slErase rest k := by simp [slErase, h1]
      rw [e, ih, List.any_cons]
      by_cases h2 : sameNoCase k k2 = true
      · simp [h2]
      · have h3 : ¬ sameNoCase kv.1 k2 = true := by
          rw [sameNoCase_iff] at h1 h2 ⊢
          rw [h1]; exact h2
        simp [h2, h3]
    · have e : slErase (kv :: rest) k = kv :: slErase rest k := by simp [slErase, h1]
      rw [e, List.any_cons, List.any_cons, ih]
      by_cases h2 : sameNoCase k k2 = true
      · have h3 : ¬ sameNoCase kv.1 k2 = true := by
          rw [sameNoCase_iff] at h1 h2 ⊢
          rw [← h2]; exact h1
        simp [h2, h3]
      · simp [h2]

theorem slLookup_pos_of_any (l : List (String × Int)) (k : String)
    (hpos : ∀ kv ∈ l, 0 < kv.2) (h : l.any (fun kv => sameNoCase kv.1 k) = true) :
    0 < slLookup l k := by
  induction l with
  | nil => simp at h
  | cons kv rest ih =>
    by_cases h1 : sameNoCase kv.1 k = true
    · simp only [slLookup, h1, if_true]
      exact hpos kv (List.mem_cons_self _ _)
    · simp only [slLookup, h1]
      simp only [List.any_cons, h1, Bool.false_or] at h
      exact ih (fun kv2 hkv => hpos kv2 (List.mem_cons_of_mem _ hkv)) h

theorem slLookup_nonneg (l : List (String × Int)) (k : String)
    (hpos : ∀ kv ∈ l, 0 < kv.2) : 0 ≤ slLookup l k := by
  induction l with
  | nil => simp [slLookup]
  | cons kv rest ih =>
    by_cases h1 : sameNoCase kv.1 k = true
    · simp only [slLookup, h1, if_true]
      exact le_of_lt (hpos kv (List.mem_cons_self _ _))
    · simp only [slLookup, h1]
      exact ih (fun kv2 hkv => hpos kv2 (List.mem_cons_of_mem _ hkv))

theorem any_of_slLookup_ne_zero (l : List (String × Int)) (k : String)
    (h : slLookup l k ≠ 0) : l.any (fun kv => sameNoCase kv.1 k) = true := by
  induction l with
  | nil => simp [slLookup] at h
  | cons kv rest ih =>
    by_cases h1 : sameNoCase kv.1 k = true
    · simp [h1]
    · simp only [slLookup, h1] at h
      simp [h1, ih h]

theorem Lookup_Insert (m : SjSLHash) (k k2 : String) (v : Int) :
    (m.Insert k v).Lookup k2 = if sameNoCase k k2 then v else m.Lookup k2 := by
  simp only [SjSLHash.Insert, SjSLHash.Lookup, slLookup, slLookup_slErase]
  by_cases h : sameNoCase k k2 = true <;> simp [h]

theorem Lookup_Remove (m : SjSLHash) (k k2 : String) :
    (m.Remove k).2.Lookup k2 = if sameNoCase k k2 then 0 else m.Lookup k2 := by
  simp only [SjSLHash.Remove, SjSLHash.Lookup, slLookup_slErase]

theorem hasKey_Insert (m : SjSLHash) (k k2 : String) (v : Int) :
    (m.Insert k v).hasKey k2 = (sameNoCase k k2 || m.hasKey k2) := by
  simp only [SjSLHash.Insert, SjSLHash.hasKey, List.any_cons, any_slErase]
  by_cases h : sameNoCase k k2 = true <;> simp [h]

theorem hasKey_Remove (m : SjSLHash) (k k2 : String) :
    (m.Remove k).2.hasKey k2 = (!sameNoCase k k2 && m.hasKey k2) := by
  simp only [SjSLHash.Remove, SjSLHash.hasKey, any_slErase]

/-! ## Facts about the per-URL invariant -/

theorem sameNoCase_trans_right (a b u : String) (h : sameNoCase a b = true) :
    sameNoCase a u = sameNoCase b u := by
  rw [Bool.eq_iff_iff, sameNoCase_iff, sameNoCase_iff]
  rw [sameNoCase_iff] at h
  rw [h]

theorem empty_RefCountInv : SjPlaylist.empty.RefCountInv := by
  intro u
  simp [SjPlaylist.empty, SjSLHash.Lookup, slLookup]

theorem Add_RefCountInv (p : SjPlaylist) (nextId : Int) (url : String) (urlVerified : Bool)
    (flags : Int) (h : p.RefCountInv) : (p.Add nextId url urlVerified flags).1.RefCountInv := by
  intro u
  simp only [SjPlaylist.Add, Lookup_Insert, List.countP_append, List.countP_cons,
    List.countP_nil, SjPlaylistEntry.new]
  by_cases hu : sameNoCase url u = true
  · have e : p.m_urlCounts.Lookup url = p.m_urlCounts.Lookup u :=
      slLookup_congr p.m_urlCounts.items url u hu
    simp only [hu, if_true, e, h u]
    push_cast
    ring
  · simp [hu, h u]

theorem AddArray_RefCountInv (urls : List String) (p : SjPlaylist) (nextId : Int)
    (urlsVerified : Bool) (h : p.RefCountInv) :
    (p.AddArray nextId urls urlsVerified).1.RefCountInv := by
  induction urls generalizing p nextId with
  | nil => exact h
  | cons url rest ih =>
    simp only [SjPlaylist.AddArray, List.foldl_cons]
    exact ih (p.Add nextId url urlsVerified 0).1 (p.Add nextId url urlsVerified 0).2
      (Add_RefCountInv p nextId url urlsVerified 0 h)

theorem countP_eraseIdx {α : Type} (q : α → Bool) (l : List α) (i : Nat) (a : α)
    (h : l[i]? = some a) :
    (l.eraseIdx i).countP q + (if q a then 1 else 0) = l.countP q := by
  induction l generalizing i with
  | nil => simp at h
  | cons b rest ih =>
    cases i with
    | zero =>
      simp at h
      subst h
      simp [List.countP_cons]
    | succ k =>
      simp at h
      simp only [List.eraseIdx_cons_succ, List.countP_cons]
      have := ih k h
      omega

theorem ItemGetUrl_verified (env : SjEnv) (p : SjPlaylist) (i : Nat) (e : SjPlaylistEntry)
    (hget : p.m_array[i]? = some e) (hver : e.m_urlVerified = true) :
    p.ItemGetUrl env i = some (e.m_url, p) := by
  have hset : p.m_array.set i e = p.m_array := by
    apply List.ext_getElem?
    intro j
    by_cases hj : i = j
    · subst hj
      rw [hget]
      have hlt : i < p.m_array.length := by
        by_contra hc
        rw [List.getElem?_eq_none (by omega)] at hget
        cases hget
      simp [List.getElem?_set, hlt]
    · simp [List.getElem?_set, hj]
  simp only [SjPlaylist.ItemGetUrl, hget, SjPlaylistEntry.GetUrl, hver, if_true, hset,
    Option.getD_some]

/-- What `RemoveAt` does at a position whose entry is already verified. -/
theorem RemoveAt_verified (env : SjEnv) (p : SjPlaylist) (index : Int) (e : SjPlaylistEntry)
    (h0 : 0 ≤ index) (hget : p.m_array[index.toNat]? = some e)
    (hver : e.m_urlVerified = true) :
    p.RemoveAt env index = some (p.m_urlCounts.Lookup e.m_url - 1,
      { p with
        m_cacheFlags := 0
        m_urlCounts :=
          (if p.m_urlCounts.Lookup e.m_url > 1
            then (p.m_urlCounts.Remove e.m_url).2.Insert e.m_url (p.m_urlCounts.Lookup e.m_url - 1)
            else (p.m_urlCounts.Remove e.m_url).2)
        m_array := p.m_array.eraseIdx index.toNat }) := by
  have hneg : ¬ index < 0 := by omega
  have hitem := ItemGetUrl_verified env { p with m_cacheFlags := 0 } index.toNat e hget hver
  simp only [SjPlaylist.RemoveAt, hneg, if_false, hitem]
  rfl

theorem RemoveAt_verified_RefCountInv (p : SjPlaylist) (i : Nat) (e : SjPlaylistEntry)
    (hinv : p.RefCountInv) (hget : p.m_array[i]? = some e) :
    ({ p with
        m_cacheFlags := 0
        m_urlCounts :=
          (if p.m_urlCounts.Lookup e.m_url > 1
            then (p.m_urlCounts.Remove e.m_url).2.Insert e.m_url (p.m_urlCounts.Lookup e.m_url - 1)
            else (p.m_urlCounts.Remove e.m_url).2)
        m_array := p.m_array.eraseIdx i } : SjPlaylist).RefCountInv := by
  intro u
  have hcnt := countP_eraseIdx (fun x => sameNoCase x.m_url u) p.m_array i e hget
  have hself := countP_eraseIdx (fun x => sameNoCase x.m_url e.m_url) p.m_array i e hget
  simp only [sameNoCase_refl, if_true] at hself
  have hL := hinv e.m_url
  have hu := hinv u
  show SjSLHash.Lookup (if p.m_urlCounts.Lookup e.m_url > 1
      then (p.m_urlCounts.Remove e.m_url).2.Insert e.m_url (p.m_urlCounts.Lookup e.m_url - 1)
      else (p.m_urlCounts.Remove e.m_url).2) u
    = (((p.m_array.eraseIdx i).countP (fun x => sameNoCase x.m_url u) : Nat) : Int)
  by_cases hsame : sameNoCase e.m_url u = true
  · have hLu : p.m_urlCounts.Lookup e.m_url = p.m_urlCounts.Lookup u :=
      slLookup_congr p.m_urlCounts.items e.m_url u hsame
    simp only [hsame, if_true] at hcnt
    by_cases hgt : p.m_urlCounts.Lookup e.m_url > 1
    · simp only [hgt, if_true, Lookup_Insert, hsame]
      omega
    · simp only [hgt, if_false, Lookup_Remove, hsame, if_true]
      omega
  · have hsame2 : sameNoCase e.m_url u = false := by simpa using hsame
    simp only [hsame2, Bool.false_eq_true, if_false, add_zero] at hcnt
    by_cases hgt : p.m_urlCounts.Lookup e.m_url > 1
    · simp only [hgt, if_true, Lookup_Insert, Lookup_Remove, hsame2, Bool.false_eq_true,
        if_false]
      omega
    · simp only [hgt, if_false, Lookup_Remove, hsame2, Bool.false_eq_true]
      omega

/-! ## Facts about the sum of the counts -/

theorem slErase_eq_filter (l : List (String × Int)) (k : String) :
    slErase l k = l.filter (fun kv => !sameNoCase kv.1 k) := by
  induction l with
  | nil => rfl
  | cons kv rest ih =>
    by_cases h : sameNoCase kv.1 k = true
    · simp [slErase, List.filter_cons, h, ih]
    · simp [slErase, List.filter_cons, h, ih]

theorem WF_Remove (m : SjSLHash) (k : String) (h : m.WF) : (m.Remove k).2.WF := by
  unfold SjSLHash.WF SjSLHash.Remove
  simp only [slErase_eq_filter]
  exact h.sublist ((List.filter_sublist _).map _)

theorem Positive_Remove (m : SjSLHash) (k : String) (h : m.Positive) :
    (m.Remove k).2.Positive := by
  intro kv hkv
  simp only [SjSLHash.Remove, slErase_eq_filter] at hkv
  exact h kv (List.mem_of_mem_filter hkv)

theorem key_not_mem_Remove (m : SjSLHash) (k : String) :
    wxLower k ∉ (m.Remove k).2.items.map (fun kv => wxLower kv.1) := by
  simp only [SjSLHash.Remove, slErase_eq_filter, List.mem_map, List.mem_filter, not_exists,
    not_and, and_imp]
  intro kv _ hne heq
  have : sameNoCase kv.1 k = true := (sameNoCase_iff _ _).2 heq
  simp [this] at hne

theorem slLookup_eq_zero_of_not_mem (l : List (String × Int)) (k : String)
    (h : wxLower k ∉ l.map (fun kv => wxLower kv.1)) : slLookup l k = 0 := by
  induction l with
  | nil => rfl
  | cons kv rest ih =>
    simp only [List.map_cons, List.mem_cons, not_or] at h
    have h1 : ¬ sameNoCase kv.1 k = true := by
      rw [sameNoCase_iff]
      exact fun hh => h.1 hh.symm
    simp only [slLookup, h1, if_false]
    exact ih h.2

theorem sum_slErase (l : List (String × Int)) (k : String)
    (h : (l.map (fun kv => wxLower kv.1)).Nodup) :
    ((slErase l k).map Prod.snd).sum = (l.map Prod.snd).sum - slLookup l k := by
  induction l with
  | nil => simp [slErase, slLookup]
  | cons kv rest ih =>
    simp only [List.map_cons, List.nodup_cons] at h
    by_cases h1 : sameNoCase kv.1 k = true
    · have hk : wxLower k ∉ rest.map (fun kv => wxLower kv.1) := by
        rw [← (sameNoCase_iff _ _).1 h1]
        exact h.1
      have h0 := slLookup_eq_zero_of_not_mem rest k hk
      simp only [slErase, h1, if_true, slLookup, List.map_cons, List.sum_cons, ih h.2, h0]
      ring
    · have h1f : sameNoCase kv.1 k = false := by simpa using h1
      simp only [slErase, h1f, Bool.false_eq_true, if_false, slLookup, List.map_cons,
        List.sum_cons, ih h.2]
      ring

theorem total_Remove (m : SjSLHash) (k : String) (h : m.WF) :
    (m.Remove k).2.total = m.total - m.Lookup k :=
  sum_slErase m.items k h

theorem WF_Insert (m : SjSLHash) (k : String) (v : Int) (h : m.WF) : (m.Insert k v).WF := by
  unfold SjSLHash.WF SjSLHash.Insert
  simp only [List.map_cons, List.nodup_cons]
  exact ⟨key_not_mem_Remove m k, WF_Remove m k h⟩

theorem Positive_Insert (m : SjSLHash) (k : String) (v : Int) (h : m.Positive) (hv : 0 < v) :
    (m.Insert k v).Positive := by
  intro kv hkv
  simp only [SjSLHash.Insert, List.mem_cons] at hkv
  rcases hkv with rfl | hkv
  · exact hv
  · exact Positive_Remove m k h kv hkv

theorem total_Insert (m : SjSLHash) (k : String) (v : Int) (h : m.WF) :
    (m.Insert k v).total = m.total - m.Lookup k + v := by
  have := sum_slErase m.items k h
  simp only [SjSLHash.total, SjSLHash.Insert, SjSLHash.Lookup, List.map_cons, List.sum_cons,
    this]
  ring

theorem RehashUrl_map_SumInv (m m2 : SjSLHash) (oldUrl newUrl : String)
    (hwf : m.WF) (hpos : m.Positive) (h : RehashUrl m oldUrl newUrl = some m2) :
    m2.WF ∧ m2.Positive ∧ m2.total = m.total := by
  unfold RehashUrl at h
  have e : (m.Remove oldUrl).1 = m.Lookup oldUrl := rfl
  simp only [e] at h
  by_cases hc : m.Lookup oldUrl + (m.Remove oldUrl).2.Lookup newUrl > 0
  · simp only [hc, if_true, Option.some.injEq] at h
    subst h
    refine ⟨WF_Insert _ _ _ (WF_Remove m oldUrl hwf),
      Positive_Insert _ _ _ (Positive_Remove m oldUrl hpos) hc, ?_⟩
    rw [total_Insert _ _ _ (WF_Remove m oldUrl hwf), total_Remove m oldUrl hwf]
    ring
  · simp [hc] at h

theorem VerifyUrl_owner (env : SjEnv) (e e2 : SjPlaylistEntry) (m : SjSLHash)
    (o2 : Option SjSLHash) (h : e.VerifyUrl env (some m) = some (e2, o2)) :
    ∃ m2, o2 = some m2 ∧ (m2 = m ∨ ∃ a b, RehashUrl m a b = some m2) := by
  unfold SjPlaylistEntry.VerifyUrl at h
  split at h
  · simp only [Option.some.injEq, Prod.mk.injEq] at h
    exact ⟨m, h.2.symm, Or.inl rfl⟩
  · split at h
    · cases h
    · split at h
      · simp only [Option.some.injEq, Prod.mk.injEq] at h
        exact ⟨m, h.2.symm, Or.inl rfl⟩
      · rename_i loc _
        cases hr : RehashUrl m e.m_url loc with
        | none => simp [hr] at h
        | some m2 =>
          simp only [hr, Option.some.injEq, Prod.mk.injEq] at h
          exact ⟨m2, h.2.symm, Or.inr ⟨_, _, hr⟩⟩

theorem ItemGetUrl_SumInv (env : SjEnv) (p p1 : SjPlaylist) (i : Nat) (u : String)
    (hinv : p.SumInv) (h : p.ItemGetUrl env i = some (u, p1)) :
    p1.SumInv ∧ i < p1.m_array.length := by
  unfold SjPlaylist.ItemGetUrl at h
  cases hget : p.m_array[i]? with
  | none => simp [hget] at h
  | some e =>
    have hi : i < p.m_array.length := by
      by_contra hc
      rw [List.getElem?_eq_none (by omega)] at hget
      cases hget
    simp only [hget] at h
    unfold SjPlaylistEntry.GetUrl at h
    by_cases hv : e.m_urlVerified = true
    · simp only [hv, if_true, Option.some.injEq, Prod.mk.injEq, Option.getD_some] at h
      rw [← h.2]
      exact ⟨⟨hinv.1, hinv.2.1, by simpa using hinv.2.2⟩, by simpa using hi⟩
    · have hvf : e.m_urlVerified = false := by simpa using hv
      simp only [hvf, Bool.false_eq_true, if_false] at h
      cases hvu : e.VerifyUrl env (some p.m_urlCounts) with
      | none => simp [hvu] at h
      | some r =>
        obtain ⟨e2, o2⟩ := r
        simp only [hvu, Option.some.injEq, Prod.mk.injEq] at h
        obtain ⟨m2, ho, hm⟩ := VerifyUrl_owner env e e2 p.m_urlCounts o2 hvu
        rw [← h.2, ho]
        rcases hm with rfl | ⟨a, b, hr⟩
        · exact ⟨⟨hinv.1, hinv.2.1, by simpa using hinv.2.2⟩, by simpa using hi⟩
        · obtain ⟨h1, h2, h3⟩ := RehashUrl_map_SumInv _ m2 a b hinv.1 hinv.2.1 hr
          exact ⟨⟨h1, h2, by simpa [h3] using hinv.2.2⟩, by simpa using hi⟩

theorem RemoveAt_SumInv (env : SjEnv) (p p2 : SjPlaylist) (index r : Int)
    (hinv : p.SumInv) (h : p.RemoveAt env index = some (r, p2)) (hr : 0 ≤ r) : p2.SumInv := by
  unfold SjPlaylist.RemoveAt at h
  by_cases hneg : index < 0
  · simp [hneg] at h
  · simp only [hneg, if_false] at h
    cases hitem : SjPlaylist.ItemGetUrl env { p with m_cacheFlags := 0 } index.toNat with
    | none => simp [hitem] at h
    | some res =>
      obtain ⟨u, p1⟩ := res
      have hinv0 : ({ p with m_cacheFlags := 0 } : SjPlaylist).SumInv := hinv
      obtain ⟨⟨hwf, hpos, htot⟩, hi⟩ := ItemGetUrl_SumInv env _ p1 index.toNat u hinv0 hitem
      simp only [hitem, Option.some.injEq, Prod.mk.injEq] at h
      obtain ⟨hr1, hp2⟩ := h
      have e : (p1.m_urlCounts.Remove u).1 = p1.m_urlCounts.Lookup u := rfl
      rw [e] at hr1 hp2
      rw [← hp2]
      have hlen : (p1.m_array.eraseIdx index.toNat).length = p1.m_array.length - 1 :=
        List.length_eraseIdx_of_lt hi
      have hl0 : (p1.m_urlCounts.Remove u).2.Lookup u = 0 := by
        rw [Lookup_Remove]; simp [sameNoCase_refl]
      by_cases hgt : p1.m_urlCounts.Lookup u > 1
      · refine ⟨?_, ?_, ?_⟩
        · simp only [hgt, if_true]
          exact WF_Insert _ _ _ (WF_Remove _ _ hwf)
        · simp only [hgt, if_true]
          exact Positive_Insert _ _ _ (Positive_Remove _ _ hpos) (by omega)
        · simp only [hgt, if_true]
          rw [total_Insert _ _ _ (WF_Remove _ _ hwf), total_Remove _ _ hwf, hl0, hlen, htot]
          omega
      · refine ⟨?_, ?_, ?_⟩
        · simp only [hgt, if_false]
          exact WF_Remove _ _ hwf
        · simp only [hgt, if_false]
          exact Positive_Remove _ _ hpos
        · simp only [hgt, if_false]
          rw [total_Remove _ _ hwf, hlen, htot]
          omega

theorem Add_SumInv (p : SjPlaylist) (nextId : Int) (url : String) (urlVerified : Bool)
    (flags : Int) (h : p.SumInv) : (p.Add nextId url urlVerified flags).1.SumInv := by
  obtain ⟨hwf, hpos, htot⟩ := h
  have hn := slLookup_nonneg p.m_urlCounts.items url hpos
  refine ⟨WF_Insert _ _ _ hwf, Positive_Insert _ _ _ hpos ?_, ?_⟩
  · simp only [SjSLHash.Lookup]; omega
  · show (p.m_urlCounts.Insert url (p.m_urlCounts.Lookup url + 1)).total
      = ((p.m_array ++ [SjPlaylistEntry.new nextId url urlVerified flags]).length : Int)
    rw [total_Insert _ _ _ hwf, htot]
    simp
    ring

theorem AddArray_SumInv (urls : List String) (p : SjPlaylist) (nextId : Int)
    (urlsVerified : Bool) (h : p.SumInv) : (p.AddArray nextId urls urlsVerified).1.SumInv := by
  induction urls generalizing p nextId with
  | nil => exact h
  | cons url rest ih =>
    simp only [SjPlaylist.AddArray, List.foldl_cons]
    exact ih (p.Add nextId url urlsVerified 0).1 (p.Add nextId url urlsVerified 0).2
      (Add_SumInv p nextId url urlsVerified 0 h)

theorem runOps_SumInv (env : SjEnv) (ops : List PlaylistOp) (st st2 : SjPlaylist × Int)
    (rets : List Int) (hinv : st.1.SumInv) (hrun : runOps env st ops = some (st2, rets))
    (hrets : ∀ r ∈ rets, 0 ≤ r) : st2.1.SumInv := by
  induction ops generalizing st rets with
  | nil =>
    simp only [runOps, Option.some.injEq, Prod.mk.injEq] at hrun
    rw [← hrun.1]
    exact hinv
  | cons op ops ih =>
    cases op with
    | add urls v =>
      simp only [runOps] at hrun
      exact ih _ rets (AddArray_SumInv urls st.1 st.2 v hinv) hrun hrets
    | removeAt index =>
      simp only [runOps] at hrun
      cases hrem : st.1.RemoveAt env index with
      | none => simp [hrem] at hrun
      | some res =>
        obtain ⟨r, p2⟩ := res
        simp only [hrem] at hrun
        cases hrest : runOps env (p2, st.2) ops with
        | none => simp [hrest] at hrun
        | some res2 =>
          obtain ⟨st3, rets3⟩ := res2
          simp only [hrest, Option.some.injEq, Prod.mk.injEq] at hrun
          obtain ⟨h1, h2⟩ := hrun
          subst h1
          subst h2
          have hr : 0 ≤ r := hrets r (List.mem_cons_self _ _)
          exact ih (p2, st.2) rets3 (RemoveAt_SumInv env st.1 p2 index r hinv hrem hr) hrest
            (fun x hx => hrets x (List.mem_cons_of_mem _ hx))
    | rehashUrl oldUrl newUrl =>
      simp only [runOps] at hrun
      cases hre : st.1.RehashUrl oldUrl newUrl with
      | none => simp [hre] at hrun
      | some p2 =>
        simp only [hre] at hrun
        have hinv2 : p2.SumInv := by
          unfold SjPlaylist.RehashUrl at hre
          cases hm : Silverjuke.RehashUrl st.1.m_urlCounts oldUrl newUrl with
          | none => simp [hm] at hre
          | some m2 =>
            simp only [hm, Option.some.injEq] at hre
            obtain ⟨h1, h2, h3⟩ := RehashUrl_map_SumInv _ m2 oldUrl newUrl hinv.1 hinv.2.1 hm
            rw [← hre]
            exact ⟨h1, h2, by simpa [h3] using hinv.2.2⟩
        exact ih (p2, st.2) rets hinv2 hrun hrets

/-! ## The reference-count invariant over sequences of operations -/

/-- C1, counterexample: starting from the empty playlist, `Add("a")`, `RehashUrl("a", "b")`
and `RemoveAt(0)` all succeed; `RemoveAt` finds no count for "a" and returns -1, and the final
state has no entry while the map still stores "b" with count 1: the sum of the counts is 1,
the number of entries is 0. -/
theorem refcount_sum_counterexample :
    (runOps offlineEnv (SjPlaylist.empty, 1)
        [PlaylistOp.add ["a"] true, PlaylistOp.rehashUrl "a" "b", PlaylistOp.removeAt 0]).map
      (fun res => (res.1.1.m_urlCounts.total, (res.1.1.m_array.length : Int), res.2))
      = some (1, 0, [-1]) := by
  decide

/-- C1 (amended): for every playlist state reachable from the empty playlist by a finite
sequence of `Add`, `RehashUrl` (its assertion holding) and `RemoveAt` with a valid index, in
which every `RemoveAt` returned a non-negative value (the URL of the removed entry was counted
in the map), the sum of all counts stored in the map equals the number of entries, no key is
stored with a count `<= 0`, and no key is stored twice. -/
theorem refcount_sum_invariant (env : SjEnv) (ops : List PlaylistOp) (st : SjPlaylist × Int)
    (rets : List Int) (hrun : runOps env (SjPlaylist.empty, 1) ops = some (st, rets))
    (hrets : ∀ r ∈ rets, 0 ≤ r) :
    st.1.m_urlCounts.total = (st.1.m_array.length : Int) ∧
    (∀ kv ∈ st.1.m_urlCounts.items, 0 < kv.2) ∧
    st.1.m_urlCounts.WF := by
  have hempty : SjPlaylist.empty.SumInv := by
    refine ⟨?_, ?_, ?_⟩ <;>
      simp [SjPlaylist.empty, SjSLHash.WF, SjSLHash.Positive, SjSLHash.total]
  have h := runOps_SumInv env ops (SjPlaylist.empty, 1) st rets hempty hrun hrets
  exact ⟨h.2.2, h.2.1, h.1⟩

/-- C1 (amended), witness: two unverified URLs are added, the first entry is removed (it is
verified on the way and its count moves to the resolved URL), the count of the second is
rehashed to another case, and a verified URL is added. -/
theorem refcount_sum_invariant_witness :
    ∃ st rets,
      runOps localEnv (SjPlaylist.empty, 1)
        [PlaylistOp.add ["/m/a.mp3", "b"] false, PlaylistOp.removeAt 0,
         PlaylistOp.rehashUrl "b" "B", PlaylistOp.add ["c"] true] = some (st, rets) ∧
      (∀ r ∈ rets, 0 ≤ r) ∧
      st.1.m_urlCounts.total = (st.1.m_array.length : Int) ∧
      (∀ kv ∈ st.1.m_urlCounts.items, 0 < kv.2) ∧
      st.1.m_urlCounts.WF :=
  ⟨(playlistOf [SjPlaylistEntry.new 2 "b" false 0, SjPlaylistEntry.new 3 "c" true 0]
      [("c", 1), ("B", 1)], 4), [0], by decide, by decide,
   refcount_sum_invariant localEnv
    [PlaylistOp.add ["/m/a.mp3", "b"] false, PlaylistOp.removeAt 0,
     PlaylistOp.rehashUrl "b" "B", PlaylistOp.add ["c"] true]
    (playlistOf [SjPlaylistEntry.new 2 "b" false 0, SjPlaylistEntry.new 3 "c" true 0]
      [("c", 1), ("B", 1)], 4) [0] (by decide) (by decide)⟩

/-! ## RehashUrl -/

/-- C2, counterexample: the keys "A" and "a" are distinct strings, "a" is present with count 1,
yet after `RehashUrl("A", "a")` the count of the new key is 1 and not the sum 1 + 1 the claim
asks for: both strings name the same key of the case-insensitive map. -/
theorem RehashUrl_case_variant_keys_counterexample :
    ¬ (("A" : String) ≠ "a" →
        ((⟨[("a", 1)]⟩ : SjSLHash).hasKey "A" = true ∨
          (⟨[("a", 1)]⟩ : SjSLHash).hasKey "a" = true) →
        ∃ m2, RehashUrl ⟨[("a", 1)]⟩ "A" "a" = some m2 ∧
          m2.Lookup "a"
            = (⟨[("a", 1)]⟩ : SjSLHash).Lookup "A"
              + (⟨[("a", 1)]⟩ : SjSLHash).Lookup "a" ∧
          m2.hasKey "A" = false) := by
  intro h
  obtain ⟨m2, h1, h2, _⟩ := h (by decide) (by decide)
  have e : RehashUrl ⟨[("a", 1)]⟩ "A" "a" = some ⟨[("a", 1)]⟩ := by decide
  rw [e] at h1
  cases h1
  revert h2
  decide

/-- C2 (amended): for every reference-count map (all stored counts positive) and every pair of
keys that differ even when case is ignored, at least one of them present, `RehashUrl` succeeds
and afterwards the count of the new key is the sum of the two previous counts, the old key is
no longer stored, and every other key keeps its count and its presence. -/
theorem RehashUrl_merges_distinct_keys (m : SjSLHash) (oldKey newKey : String)
    (hpos : m.Positive) (hne : sameNoCase oldKey newKey = false)
    (hpres : m.hasKey oldKey = true ∨ m.hasKey newKey = true) :
    ∃ m2, RehashUrl m oldKey newKey = some m2 ∧
      m2.Lookup newKey = m.Lookup oldKey + m.Lookup newKey ∧
      m2.hasKey oldKey = false ∧ m2.Lookup oldKey = 0 ∧
      ∀ k, sameNoCase oldKey k = false → sameNoCase newKey k = false →
        m2.Lookup k = m.Lookup k ∧ m2.hasKey k = m.hasKey k := by
  have hne2 : sameNoCase newKey oldKey = false := by rw [sameNoCase_comm]; exact hne
  have h1 : (m.Remove oldKey).2.Lookup newKey = m.Lookup newKey := by
    rw [Lookup_Remove]; simp [hne]
  have hcount : 0 < m.Lookup oldKey + m.Lookup newKey := by
    have ha := slLookup_nonneg m.items oldKey hpos
    have hb := slLookup_nonneg m.items newKey hpos
    rcases hpres with hp | hp
    · have := slLookup_pos_of_any m.items oldKey hpos hp
      simp only [SjSLHash.Lookup]; omega
    · have := slLookup_pos_of_any m.items newKey hpos hp
      simp only [SjSLHash.Lookup]; omega
  refine ⟨(m.Remove oldKey).2.Insert newKey (m.Lookup oldKey + m.Lookup newKey),
    ?_, ?_, ?_, ?_, ?_⟩
  · have e : (m.Remove oldKey).1 = m.Lookup oldKey := rfl
    simp only [RehashUrl, e, h1, hcount, if_true]
  · rw [Lookup_Insert]; simp [sameNoCase_refl]
  · rw [hasKey_Insert, hasKey_Remove]; simp [hne2, sameNoCase_refl]
  · rw [Lookup_Insert, Lookup_Remove]; simp [hne2, sameNoCase_refl]
  · intro k hk1 hk2
    constructor
    · rw [Lookup_Insert, Lookup_Remove]; simp [hk1, hk2]
    · rw [hasKey_Insert, hasKey_Remove]; simp [hk1, hk2]

/-- C2 (amended), witness: a map with the counts 2 and 3, rehashing "a.mp3" to "b.mp3". -/
theorem RehashUrl_merges_distinct_keys_witness :
    ∃ m2, RehashUrl ⟨[("a.mp3", 2), ("b.mp3", 3)]⟩ "a.mp3" "b.mp3" = some m2 ∧
      m2.Lookup "b.mp3"
        = (⟨[("a.mp3", 2), ("b.mp3", 3)]⟩ : SjSLHash).Lookup "a.mp3"
          + (⟨[("a.mp3", 2), ("b.mp3", 3)]⟩ : SjSLHash).Lookup "b.mp3" ∧
      m2.hasKey "a.mp3" = false ∧ m2.Lookup "a.mp3" = 0 ∧
      ∀ k, sameNoCase "a.mp3" k = false → sameNoCase "b.mp3" k = false →
        m2.Lookup k = (⟨[("a.mp3", 2), ("b.mp3", 3)]⟩ : SjSLHash).Lookup k ∧
        m2.hasKey k = (⟨[("a.mp3", 2), ("b.mp3", 3)]⟩ : SjSLHash).hasKey k :=
  RehashUrl_merges_distinct_keys ⟨[("a.mp3", 2), ("b.mp3", 3)]⟩ "a.mp3" "b.mp3"
    (by decide) (by decide) (by decide)

/-- C3: for every reference-count map and every key `u` present with count `c > 0`,
`RehashUrl(u, u)` succeeds and leaves the map unchanged: `u` is still stored with count `c`,
and every key has the same count and the same presence as before. -/
theorem RehashUrl_self_merge (m : SjSLHash) (u : String) (c : Int)
    (hc : m.Lookup u = c) (hpos : 0 < c) :
    ∃ m2, RehashUrl m u u = some m2 ∧ m2.Lookup u = c ∧
      (∀ k, m2.Lookup k = m.Lookup k) ∧ (∀ k, m2.hasKey k = m.hasKey k) := by
  have h1 : (m.Remove u).2.Lookup u = 0 := by
    rw [Lookup_Remove]; simp [sameNoCase_refl]
  have e : (m.Remove u).1 = m.Lookup u := rfl
  have hu : m.hasKey u = true := by
    apply any_of_slLookup_ne_zero
    simp only [SjSLHash.Lookup] at hc
    omega
  refine ⟨(m.Remove u).2.Insert u c, ?_, ?_, ?_, ?_⟩
  · simp only [RehashUrl, e, h1, hc, add_zero, hpos, if_true]
  · rw [Lookup_Insert]; simp [sameNoCase_refl]
  · intro k
    rw [Lookup_Insert, Lookup_Remove]
    by_cases hk : sameNoCase u k = true
    · simp only [hk, if_true]
      rw [← hc]
      exact slLookup_congr m.items u k hk
    · simp [hk]
  · intro k
    rw [hasKey_Insert, hasKey_Remove]
    by_cases hk : sameNoCase u k = true
    · simp only [hk, Bool.true_or]
      rw [← hu]
      simp only [SjSLHash.hasKey]
      congr 1
      funext kv
      rw [Bool.eq_iff_iff, sameNoCase_iff, sameNoCase_iff]
      rw [sameNoCase_iff] at hk
      rw [hk]
    · simp [hk]

/-- C3, witness: the key "a.mp3" stored with count 2 next to another key. -/
theorem RehashUrl_self_merge_witness :
    ∃ m2, RehashUrl ⟨[("a.mp3", 2), ("b.mp3", 3)]⟩ "a.mp3" "a.mp3" = some m2 ∧
      m2.Lookup "a.mp3" = 2 ∧
      (∀ k, m2.Lookup k = (⟨[("a.mp3", 2), ("b.mp3", 3)]⟩ : SjSLHash).Lookup k) ∧
      (∀ k, m2.hasKey k = (⟨[("a.mp3", 2), ("b.mp3", 3)]⟩ : SjSLHash).hasKey k) :=
  RehashUrl_self_merge ⟨[("a.mp3", 2), ("b.mp3", 3)]⟩ "a.mp3" 2 (by decide) (by decide)

/-! ## RemoveAt -/

/-- C4, counterexample: two unverified entries share the raw string `/m/a.mp3`, counted twice,
so the invariant holds.  `RemoveAt(0)` verifies the entry first; the rehash moves the whole
count to the resolved URL, and afterwards two keys have changed their count (the raw string
from 2 to 0, the resolved URL from 0 to 1): there is no URL whose count was lowered by one
while every other count stayed. -/
theorem RemoveAt_unverified_counterexample :
    sharedRaw.RefCountInv ∧
    ∃ r p2, sharedRaw.RemoveAt localEnv 0 = some (r, p2) ∧
      ¬ ∃ u, p2.m_urlCounts.Lookup u = sharedRaw.m_urlCounts.Lookup u - 1 ∧
        ∀ k, sameNoCase u k = false →
          p2.m_urlCounts.Lookup k = sharedRaw.m_urlCounts.Lookup k := by
  refine ⟨AddArray_RefCountInv _ _ _ _ empty_RefCountInv, ?_⟩
  have e : sharedRaw.RemoveAt localEnv 0
      = some (1, playlistOf [SjPlaylistEntry.new 2 "/m/a.mp3" false 0]
          [("file:///m/a.mp3", 1)]) := by decide
  refine ⟨_, _, e, ?_⟩
  rintro ⟨u, _, h2⟩
  by_cases hu : sameNoCase u "/m/a.mp3" = true
  · have hk : sameNoCase u "file:///m/a.mp3" = false := by
      rw [sameNoCase_trans_right u "/m/a.mp3" "file:///m/a.mp3" hu]
      decide
    have := h2 "file:///m/a.mp3" hk
    revert this
    decide
  · have hk : sameNoCase u "/m/a.mp3" = false := by simpa using hu
    have := h2 "/m/a.mp3" hk
    revert this
    decide

/-- C4 (amended): for every playlist that satisfies the per-URL reference-count invariant and
every valid index whose entry is already verified, `RemoveAt` removes exactly the entry at
that position, lowers the stored count of the entry's URL by one (the key is deleted when the
count would become zero) and leaves every other key as it is, resets the cache flags to 0,
and returns the new count, which is the number of remaining entries with that URL; the
invariant still holds afterwards. -/
theorem RemoveAt_removes_verified_entry (env : SjEnv) (p : SjPlaylist) (index : Int)
    (e : SjPlaylistEntry) (hinv : p.RefCountInv) (h0 : 0 ≤ index)
    (hget : p.m_array[index.toNat]? = some e) (hver : e.m_urlVerified = true) :
    ∃ r p2, p.RemoveAt env index = some (r, p2) ∧
      p2.m_array = p.m_array.eraseIdx index.toNat ∧
      p2.m_urlCounts.Lookup e.m_url = p.m_urlCounts.Lookup e.m_url - 1 ∧
      (p.m_urlCounts.Lookup e.m_url = 1 → p2.m_urlCounts.hasKey e.m_url = false) ∧
      (∀ k, sameNoCase e.m_url k = false →
        p2.m_urlCounts.Lookup k = p.m_urlCounts.Lookup k ∧
        p2.m_urlCounts.hasKey k = p.m_urlCounts.hasKey k) ∧
      p2.m_cacheFlags = 0 ∧
      r = p2.m_urlCounts.Lookup e.m_url ∧
      r = ((p2.m_array.countP (fun x => sameNoCase x.m_url e.m_url) : Nat) : Int) ∧
      p2.RefCountInv := by
  have hrun := RemoveAt_verified env p index e h0 hget hver
  have hinv2 := RemoveAt_verified_RefCountInv p index.toNat e hinv hget
  have hself := countP_eraseIdx (fun x => sameNoCase x.m_url e.m_url) p.m_array index.toNat e hget
  simp only [sameNoCase_refl, if_true] at hself
  have hL := hinv e.m_url
  have hcount : (if p.m_urlCounts.Lookup e.m_url > 1
      then (p.m_urlCounts.Remove e.m_url).2.Insert e.m_url (p.m_urlCounts.Lookup e.m_url - 1)
      else (p.m_urlCounts.Remove e.m_url).2).Lookup e.m_url
      = p.m_urlCounts.Lookup e.m_url - 1 := by
    by_cases hgt : p.m_urlCounts.Lookup e.m_url > 1
    · simp only [hgt, if_true, Lookup_Insert, sameNoCase_refl]
    · simp only [hgt, if_false, Lookup_Remove, sameNoCase_refl, if_true]
      omega
  refine ⟨_, _, hrun, rfl, hcount, ?_, ?_, rfl, hcount.symm, ?_, hinv2⟩
  · intro h1
    have hgt : ¬ p.m_urlCounts.Lookup e.m_url > 1 := by omega
    show SjSLHash.hasKey (if p.m_urlCounts.Lookup e.m_url > 1 then _ else _) e.m_url = false
    simp only [hgt, if_false, hasKey_Remove, sameNoCase_refl]
    rfl
  · intro k hk
    show SjSLHash.Lookup (if p.m_urlCounts.Lookup e.m_url > 1 then _ else _) k = _ ∧
      SjSLHash.hasKey (if p.m_urlCounts.Lookup e.m_url > 1 then _ else _) k = _
    by_cases hgt : p.m_urlCounts.Lookup e.m_url > 1
    · simp [hgt, Lookup_Insert, Lookup_Remove, hasKey_Insert, hasKey_Remove, hk]
    · simp [hgt, Lookup_Remove, hasKey_Remove, hk]
  · show p.m_urlCounts.Lookup e.m_url - 1
      = (((p.m_array.eraseIdx index.toNat).countP (fun x => sameNoCase x.m_url e.m_url) : Nat)
          : Int)
    omega

/-- C4 (amended), witness: removing the first of the three verified tracks, whose URL is
referenced twice. -/
theorem RemoveAt_removes_verified_entry_witness :
    threeTracks.RefCountInv ∧
    ∃ r p2, threeTracks.RemoveAt offlineEnv 0 = some (r, p2) ∧
      p2.m_array = threeTracks.m_array.eraseIdx (0 : Int).toNat ∧
      p2.m_urlCounts.Lookup (SjPlaylistEntry.new 1 "file:///m/a.mp3" true 0).m_url
        = threeTracks.m_urlCounts.Lookup (SjPlaylistEntry.new 1 "file:///m/a.mp3" true 0).m_url
          - 1 ∧
      (threeTracks.m_urlCounts.Lookup (SjPlaylistEntry.new 1 "file:///m/a.mp3" true 0).m_url = 1 →
        p2.m_urlCounts.hasKey (SjPlaylistEntry.new 1 "file:///m/a.mp3" true 0).m_url = false) ∧
      (∀ k, sameNoCase (SjPlaylistEntry.new 1 "file:///m/a.mp3" true 0).m_url k = false →
        p2.m_urlCounts.Lookup k = threeTracks.m_urlCounts.Lookup k ∧
        p2.m_urlCounts.hasKey k = threeTracks.m_urlCounts.hasKey k) ∧
      p2.m_cacheFlags = 0 ∧
      r = p2.m_urlCounts.Lookup (SjPlaylistEntry.new 1 "file:///m/a.mp3" true 0).m_url ∧
      r = ((p2.m_array.countP (fun x =>
            sameNoCase x.m_url (SjPlaylistEntry.new 1 "file:///m/a.mp3" true 0).m_url) : Nat)
          : Int) ∧
      p2.RefCountInv :=
  ⟨AddArray_RefCountInv _ _ _ _ empty_RefCountInv,
   RemoveAt_removes_verified_entry offlineEnv threeTracks 0
    (SjPlaylistEntry.new 1 "file:///m/a.mp3" true 0)
    (AddArray_RefCountInv _ _ _ _ empty_RefCountInv) (by decide) (by decide) (by decide)⟩

/-! ## GetPosByUrl -/

theorem CmpNoCase_eq_zero_iff_same (url x : String) :
    CmpNoCase url x = 0 ↔ sameNoCase x url = true := by
  rw [CmpNoCase_eq_zero_iff, sameNoCase_comm]

theorem linearScanFrom_cases (url : String) (l : List SjPlaylistEntry) (i : Nat) :
    (linearScanFrom url l i = wxNOT_FOUND ∧ ∀ e ∈ l, sameNoCase e.m_url url = false) ∨
    (∃ k e, linearScanFrom url l i = ((i + k : Nat) : Int) ∧ l[k]? = some e ∧
      sameNoCase e.m_url url = true ∧
      ∀ j e2, j < k → l[j]? = some e2 → sameNoCase e2.m_url url = false) := by
  induction l generalizing i with
  | nil => left; simp [linearScanFrom]
  | cons a rest ih =>
    by_cases h : sameNoCase a.m_url url = true
    · right
      refine ⟨0, a, ?_, by simp, h, ?_⟩
      · simp [linearScanFrom, (CmpNoCase_eq_zero_iff_same url a.m_url).2 h]
      · intro j e2 hj; omega
    · have hc : ¬ CmpNoCase url a.m_url = 0 := fun hh =>
        h ((CmpNoCase_eq_zero_iff_same url a.m_url).1 hh)
      have hf : sameNoCase a.m_url url = false := by simpa using h
      rcases ih (i + 1) with ⟨h1, h2⟩ | ⟨k, e, h1, h2, h3, h4⟩
      · left
        refine ⟨by simp [linearScanFrom, hc, h1], ?_⟩
        intro e he
        rcases List.mem_cons.1 he with rfl | he2
        · exact hf
        · exact h2 e he2
      · right
        refine ⟨k + 1, e, ?_, by simpa using h2, h3, ?_⟩
        · simp only [linearScanFrom, hc, if_false, h1]
          congr 1
          omega
        · intro j e2 hj hget
          cases j with
          | zero =>
            simp at hget
            subst hget
            exact hf
          | succ j2 =>
            simp at hget
            exact h4 j2 e2 (by omega) hget

theorem GetPosByUrl_loop_verified (env : SjEnv) (url : String) (p : SjPlaylist)
    (hver : p.AllVerified) (n i : Nat) (hn : i + n = p.m_array.length) :
    SjPlaylist.GetPosByUrl.loop env url n i p
      = some (linearScanFrom url (p.m_array.drop i) i, p) := by
  induction n generalizing i with
  | zero =>
    have hd : p.m_array.drop i = [] := List.drop_eq_nil_of_le (by omega)
    simp [SjPlaylist.GetPosByUrl.loop, hd, linearScanFrom]
  | succ n ih =>
    have hi : i < p.m_array.length := by omega
    have hget : p.m_array[i]? = some p.m_array[i] := List.getElem?_eq_getElem hi
    have hd : p.m_array.drop i = p.m_array[i] :: p.m_array.drop (i + 1) :=
      List.drop_eq_getElem_cons hi
    have hv : p.m_array[i].m_urlVerified = true := hver _ (List.getElem_mem hi)
    have hitem := ItemGetUrl_verified env p i p.m_array[i] hget hv
    simp only [SjPlaylist.GetPosByUrl.loop, hitem, hd, linearScanFrom]
    by_cases hc : CmpNoCase url p.m_array[i].m_url = 0
    · simp [hc]
    · simp only [hc, if_false]
      exact ih (i + 1) (by omega)

theorem GetPosByUrl_verified (env : SjEnv) (p : SjPlaylist) (url : String)
    (hver : p.AllVerified) (hinv : p.RefCountInv) :
    p.GetPosByUrl env url = some (linearScanNoCase p.m_array url, p) := by
  unfold SjPlaylist.GetPosByUrl linearScanNoCase
  by_cases hin : p.IsInPlaylist url = true
  · simp only [hin, if_true]
    have := GetPosByUrl_loop_verified env url p hver p.m_array.length 0 (by omega)
    simpa using this
  · simp only [hin]
    have h0 : p.m_urlCounts.Lookup url = 0 := by
      simpa [SjPlaylist.IsInPlaylist] using hin
    rcases linearScanFrom_cases url p.m_array 0 with ⟨h1, _⟩ | ⟨k, e, _, h2, h3, _⟩
    · simp [h1]
    · exfalso
      have hmem : e ∈ p.m_array := List.getElem?_mem h2
      have hpos : 0 < p.m_array.countP (fun x => sameNoCase x.m_url url) :=
        List.countP_pos_iff.2 ⟨e, hmem, h3⟩
      have := hinv url
      omega

/-- C6, counterexample: one unverified entry with the raw string `/m/a.mp3`, which resolves
to `file:///m/a.mp3`; the invariant holds.  Asked for the resolved URL, `GetPosByUrl` stops at
the reference-count check and returns wxNOT_FOUND, while the same scan without that check
verifies the entry and returns 0.  Asked for the raw string, `GetPosByUrl` verifies the entry
and returns wxNOT_FOUND, while a scan over the stored URLs returns 0. -/
theorem GetPosByUrl_unverified_counterexample :
    oneRaw.RefCountInv ∧
    (oneRaw.GetPosByUrl localEnv "file:///m/a.mp3").map Prod.fst = some wxNOT_FOUND ∧
    (SjPlaylist.GetPosByUrl.loop localEnv "file:///m/a.mp3" oneRaw.m_array.length 0 oneRaw).map
      Prod.fst = some 0 ∧
    (oneRaw.GetPosByUrl localEnv "/m/a.mp3").map Prod.fst = some wxNOT_FOUND ∧
    linearScanNoCase oneRaw.m_array "/m/a.mp3" = 0 :=
  ⟨AddArray_RefCountInv _ _ _ _ empty_RefCountInv, by decide, by decide, by decide, by decide⟩

/-- C6 (amended): for every playlist of verified entries that satisfies the reference-count
invariant and every URL `u`, `GetPosByUrl(u)` returns what the plain case-insensitive linear
scan returns, and what its own loop returns without the reference-count check: the smallest
index whose entry URL equals `u` ignoring case, or wxNOT_FOUND when no entry matches; the
playlist is not changed. -/
theorem GetPosByUrl_refines_linear_scan (env : SjEnv) (p : SjPlaylist) (u : String)
    (hver : p.AllVerified) (hinv : p.RefCountInv) :
    p.GetPosByUrl env u = some (linearScanNoCase p.m_array u, p) ∧
    p.GetPosByUrl env u = SjPlaylist.GetPosByUrl.loop env u p.m_array.length 0 p ∧
    ((linearScanNoCase p.m_array u = wxNOT_FOUND ∧
        ∀ e ∈ p.m_array, CmpNoCase u e.m_url ≠ 0) ∨
     (∃ (k : Nat) (e : SjPlaylistEntry), linearScanNoCase p.m_array u = (k : Int) ∧
        p.m_array[k]? = some e ∧ CmpNoCase u e.m_url = 0 ∧
        ∀ (j : Nat) (e2 : SjPlaylistEntry), j < k → p.m_array[j]? = some e2 →
          CmpNoCase u e2.m_url ≠ 0)) := by
  refine ⟨GetPosByUrl_verified env p u hver hinv, ?_, ?_⟩
  · rw [GetPosByUrl_verified env p u hver hinv,
      GetPosByUrl_loop_verified env u p hver p.m_array.length 0 (by omega)]
    simp [linearScanNoCase]
  · rcases linearScanFrom_cases u p.m_array 0 with ⟨h1, h2⟩ | ⟨k, e, h1, h2, h3, h4⟩
    · left
      refine ⟨h1, ?_⟩
      intro e he hc
      have := h2 e he
      rw [(CmpNoCase_eq_zero_iff_same u e.m_url).1 hc] at this
      cases this
    · right
      refine ⟨k, e, by simpa [linearScanNoCase] using h1, h2,
        (CmpNoCase_eq_zero_iff_same u e.m_url).2 h3, ?_⟩
      intro j e2 hj hget hc
      have := h4 j e2 hj hget
      rw [(CmpNoCase_eq_zero_iff_same u e2.m_url).1 hc] at this
      cases this

/-- C6 (amended), witness: the three verified tracks, asked for the first URL in upper case. -/
theorem GetPosByUrl_refines_linear_scan_witness :
    threeTracks.AllVerified ∧ threeTracks.RefCountInv ∧
    threeTracks.GetPosByUrl offlineEnv "FILE:///M/B.MP3"
      = some (linearScanNoCase threeTracks.m_array "FILE:///M/B.MP3", threeTracks) ∧
    linearScanNoCase threeTracks.m_array "FILE:///M/B.MP3" = 1 :=
  ⟨by decide, AddArray_RefCountInv _ _ _ _ empty_RefCountInv,
   (GetPosByUrl_refines_linear_scan offlineEnv threeTracks "FILE:///M/B.MP3" (by decide)
      (AddArray_RefCountInv _ _ _ _ empty_RefCountInv)).1,
   by decide⟩

/-! ## Remove -/

theorem filter_eraseIdx_of_false {α : Type} (q : α → Bool) (l : List α) (i : Nat) (a : α)
    (h : l[i]? = some a) (hq : q a = false) : (l.eraseIdx i).filter q = l.filter q := by
  induction l generalizing i with
  | nil => simp at h
  | cons b rest ih =>
    cases i with
    | zero =>
      simp at h
      subst h
      simp [List.filter_cons, hq]
    | succ k =>
      simp at h
      simp only [List.eraseIdx_cons_succ, List.filter_cons, ih k h]

theorem AllVerified_eraseIdx (p : SjPlaylist) (m : SjSLHash) (c : Nat) (i : Nat)
    (h : p.AllVerified) :
    ({ p with m_cacheFlags := c, m_urlCounts := m, m_array := p.m_array.eraseIdx i }
      : SjPlaylist).AllVerified :=
  fun e he => h e (List.mem_of_mem_eraseIdx he)

theorem Remove_loop_verified (env : SjEnv) (url : String) (fuel : Nat) (p : SjPlaylist)
    (hver : p.AllVerified) (hinv : p.RefCountInv)
    (hfuel : p.m_array.countP (fun e => sameNoCase e.m_url url) < fuel) :
    ∃ p2, SjPlaylist.Remove.loop env url fuel p = some p2 ∧
      p2.m_array = p.m_array.filter (fun e => !sameNoCase e.m_url url) ∧
      p2.AllVerified ∧ p2.RefCountInv := by
  induction fuel generalizing p with
  | zero => omega
  | succ fuel ih =>
    have hpos := GetPosByUrl_verified env p url hver hinv
    simp only [SjPlaylist.Remove.loop, hpos]
    rcases linearScanFrom_cases url p.m_array 0 with ⟨h1, h2⟩ | ⟨k, e, h1, h2, h3, _⟩
    · refine ⟨p, ?_, ?_, hver, hinv⟩
      · simp [linearScanNoCase, h1]
      · symm
        apply List.filter_eq_self.2
        intro e he
        simp [h2 e he]
    · have hidx : linearScanNoCase p.m_array url = (k : Int) := by
        simpa [linearScanNoCase] using h1
      have hne : ((k : Int) != wxNOT_FOUND) = true := by
        simp [wxNOT_FOUND]
      have hv : e.m_urlVerified = true := hver e (List.getElem?_mem h2)
      have hrun := RemoveAt_verified env p (k : Int) e (by omega) (by simpa using h2) hv
      have hinv2 := RemoveAt_verified_RefCountInv p k e hinv h2
      have hver2 := AllVerified_eraseIdx p
        (if p.m_urlCounts.Lookup e.m_url > 1
          then (p.m_urlCounts.Remove e.m_url).2.Insert e.m_url (p.m_urlCounts.Lookup e.m_url - 1)
          else (p.m_urlCounts.Remove e.m_url).2) 0 k hver
      have hcnt := countP_eraseIdx (fun x => sameNoCase x.m_url url) p.m_array k e h2
      simp only [h3, if_true] at hcnt
      simp only [Int.toNat_ofNat] at hrun
      obtain ⟨p2, hp2, harr, hv2, hi2⟩ := ih _ hver2 hinv2 (by
        show (p.m_array.eraseIdx k).countP (fun x => sameNoCase x.m_url url) < fuel
        omega)
      refine ⟨p2, ?_, ?_, hv2, hi2⟩
      · simp only [hidx, hne, if_true, hrun]
        exact hp2
      · rw [harr]
        exact filter_eraseIdx_of_false _ p.m_array k e h2 (by simp [h3])

theorem Remove_verified (env : SjEnv) (fuel : Nat) (urls : List String) (p : SjPlaylist)
    (hver : p.AllVerified) (hinv : p.RefCountInv) (hfuel : p.m_array.length < fuel) :
    ∃ p2, p.Remove env fuel urls = some p2 ∧
      p2.m_array = p.m_array.filter (fun e => !urls.any (fun u => sameNoCase e.m_url u)) ∧
      p2.AllVerified ∧ p2.RefCountInv := by
  induction urls generalizing p with
  | nil => exact ⟨p, rfl, by simp, hver, hinv⟩
  | cons url rest ih =>
    have hc : p.m_array.countP (fun e => sameNoCase e.m_url url) < fuel :=
      lt_of_le_of_lt (List.countP_le_length _) hfuel
    obtain ⟨p1, h1, harr1, hv1, hi1⟩ := Remove_loop_verified env url fuel p hver hinv hc
    have hlen : p1.m_array.length < fuel := by
      rw [harr1]
      exact lt_of_le_of_lt (List.length_filter_le _ _) hfuel
    obtain ⟨p2, h2, harr2, hv2, hi2⟩ := ih p1 hv1 hi1 hlen
    refine ⟨p2, ?_, ?_, hv2, hi2⟩
    · simp only [SjPlaylist.Remove, h1]
      exact h2
    · rw [harr2, harr1, List.filter_filter]
      apply List.filter_congr
      intro e _
      simp only [List.any_cons, Bool.not_or]
      exact Bool.and_comm _ _

/-- C5: for every playlist of verified entries that satisfies the reference-count invariant
and every list of URLs, `Remove(urls)` terminates (each inner loop needs at most as many
iterations as there are entries, plus the final test) and afterwards no entry has a URL equal,
ignoring case, to a URL of the list, while the entries that match none of the URLs are all
still present in their original relative order: the new array is the old one filtered. -/
theorem Remove_removes_all_occurrences (env : SjEnv) (p : SjPlaylist) (urls : List String)
    (fuel : Nat) (hver : p.AllVerified) (hinv : p.RefCountInv)
    (hfuel : p.m_array.length < fuel) :
    ∃ p2, p.Remove env fuel urls = some p2 ∧
      (∀ e ∈ p2.m_array, ∀ u ∈ urls, CmpNoCase u e.m_url ≠ 0) ∧
      p2.m_array = p.m_array.filter (fun e => !urls.any (fun u => sameNoCase e.m_url u)) ∧
      (∀ e ∈ p.m_array, (∀ u ∈ urls, CmpNoCase u e.m_url ≠ 0) → e ∈ p2.m_array) ∧
      p2.m_array.Sublist p.m_array ∧
      p2.RefCountInv := by
  obtain ⟨p2, h1, harr, _, hi2⟩ := Remove_verified env fuel urls p hver hinv hfuel
  refine ⟨p2, h1, ?_, harr, ?_, ?_, hi2⟩
  · intro e he u hu hc
    rw [harr, List.mem_filter] at he
    have hs := (CmpNoCase_eq_zero_iff_same u e.m_url).1 hc
    have : (urls.any (fun u => sameNoCase e.m_url u)) = true :=
      List.any_eq_true.2 ⟨u, hu, hs⟩
    simp [this] at he
  · intro e he hnone
    rw [harr, List.mem_filter]
    refine ⟨he, ?_⟩
    simp only [Bool.not_eq_true', List.any_eq_false]
    intro u hu hs
    exact hnone u hu ((CmpNoCase_eq_zero_iff_same u e.m_url).2 hs)
  · rw [harr]
    exact List.filter_sublist _

/-- C5, witness: removing the URL of the first track, given in upper case, from the three
verified tracks removes the first and the last entry and keeps the second. -/
theorem Remove_removes_all_occurrences_witness :
    threeTracks.AllVerified ∧ threeTracks.RefCountInv ∧ threeTracks.m_array.length < 4 ∧
    (∃ p2, threeTracks.Remove offlineEnv 4 ["FILE:///M/A.MP3"] = some p2 ∧
      (∀ e ∈ p2.m_array, ∀ u ∈ ["FILE:///M/A.MP3"], CmpNoCase u e.m_url ≠ 0) ∧
      p2.m_array = threeTracks.m_array.filter
        (fun e => !List.any ["FILE:///M/A.MP3"] (fun u => sameNoCase e.m_url u)) ∧
      (∀ e ∈ threeTracks.m_array, (∀ u ∈ ["FILE:///M/A.MP3"], CmpNoCase u e.m_url ≠ 0) →
        e ∈ p2.m_array) ∧
      p2.m_array.Sublist threeTracks.m_array ∧
      p2.RefCountInv) ∧
    (threeTracks.Remove offlineEnv 4 ["FILE:///M/A.MP3"]).map
        (fun p2 => p2.m_array.map (fun e => e.m_url)) = some ["file:///m/b.mp3"] :=
  ⟨by decide, AddArray_RefCountInv _ _ _ _ empty_RefCountInv, by decide,
   Remove_removes_all_occurrences offlineEnv threeTracks ["FILE:///M/A.MP3"] 4 (by decide)
    (AddArray_RefCountInv _ _ _ _ empty_RefCountInv) (by decide),
   by decide⟩

/-! ## GetUnplayedCount -/

theorem GetUnplayedCount_loop_eq (arr : List SjPlaylistEntry) (currPos maxCnt : Int)
    (hc : 0 ≤ currPos) (n : Nat) (hn : n ≤ arr.length) (cnt : Int) (hcnt : cnt < maxCnt) :
    SjPlaylist.GetUnplayedCount.loop arr currPos maxCnt n cnt
      = some (min maxCnt (cnt + ((((arr.take n).drop currPos.toNat).countP
          (fun e => e.GetPlayCount == 0) : Nat) : Int))) := by
  induction n generalizing cnt with
  | zero => simp [SjPlaylist.GetUnplayedCount.loop]; omega
  | succ i ih =>
    have hi : i < arr.length := hn
    unfold SjPlaylist.GetUnplayedCount.loop
    by_cases hge : (i : Int) ≥ currPos
    · have hget : arr[i]? = some (arr.get ⟨i, hi⟩) := by
        simp [List.getElem?_eq_getElem hi]
      have htake : arr.take (i + 1) = arr.take i ++ [arr.get ⟨i, hi⟩] := by
        rw [List.take_succ, hget]; rfl
      have hle : currPos.toNat ≤ (arr.take i).length := by
        rw [List.length_take]; omega
      have hdrop : (arr.take (i + 1)).drop currPos.toNat
          = (arr.take i).drop currPos.toNat ++ [arr.get ⟨i, hi⟩] := by
        rw [htake, List.drop_append_of_le_length hle]
      simp only [hge, if_true, hget, hdrop, List.countP_append, List.countP_cons,
        List.countP_nil]
      by_cases hpc : (arr.get ⟨i, hi⟩).GetPlayCount = 0
      · simp only [hpc, if_true, beq_self_eq_true]
        by_cases hmax : cnt + 1 ≥ maxCnt
        · have heq : cnt + 1 = maxCnt := by omega
          simp only [hmax, if_true]
          rw [if_pos heq, min_eq_left, heq]
          push_cast
          omega
        · simp only [hmax, if_false]
          rw [ih (by omega) (cnt + 1) (by omega)]
          congr 1
          push_cast
          omega
      · have hb : ((arr.get ⟨i, hi⟩).GetPlayCount == 0) = false := by simpa using hpc
        simp only [hpc, if_false, hb]
        rw [ih (by omega) cnt hcnt]
        simp
    · have hdrop : (arr.take (i + 1)).drop currPos.toNat = [] := by
        apply List.drop_eq_nil_of_le
        rw [List.length_take]; omega
      simp only [hge, if_false, hdrop, List.countP_nil]
      congr 1
      simp
      omega

theorem GetUnplayedCount_eq_spec (p : SjPlaylist) (fromPos cap : Int) (hcap : 1 ≤ cap) :
    p.GetUnplayedCount fromPos cap = some (unplayedCountSpec p fromPos cap) := by
  unfold SjPlaylist.GetUnplayedCount unplayedCountSpec
  have e : (if fromPos < 0 then (0 : Int) else fromPos) = max fromPos 0 := by
    split <;> omega
  simp only [e]
  rw [GetUnplayedCount_loop_eq p.m_array (max fromPos 0) cap (by omega) p.m_array.length
    (le_refl _) 0 (by omega)]
  simp

/-- C7: for every playlist, every `fromPos` and every `cap >= 1`, `GetUnplayedCount` returns
the minimum of `cap` and the number of entries at index `>= max(fromPos, 0)` with play count 0
(the forward count); and for a list of 10 entries in which exactly the last 3 have play
count 0, `GetUnplayedCount(0, 10) = 3` and `GetUnplayedCount(8, 10) = 2`. -/
theorem GetUnplayedCount_backward_scan (p : SjPlaylist) (fromPos cap : Int) (hcap : 1 ≤ cap) :
    p.GetUnplayedCount fromPos cap
      = some (min cap (((p.m_array.drop (max fromPos 0).toNat).countP
          (fun e => e.GetPlayCount == 0) : Nat) : Int)) ∧
    (p.m_array.length = 10 →
      (∀ (i : Nat) (e : SjPlaylistEntry), p.m_array[i]? = some e →
        (e.GetPlayCount = 0 ↔ 7 ≤ i)) →
      p.GetUnplayedCount 0 10 = some 3 ∧ p.GetUnplayedCount 8 10 = some 2) := by
  refine ⟨GetUnplayedCount_eq_spec p fromPos cap hcap, ?_⟩
  intro hlen hpc
  rw [GetUnplayedCount_eq_spec p 0 10 (by decide), GetUnplayedCount_eq_spec p 8 10 (by decide)]
  unfold unplayedCountSpec
  match h : p.m_array, hlen with
  | [e0, e1, e2, e3, e4, e5, e6, e7, e8, e9], _ =>
    rw [h] at hpc
    have h0 := hpc 0 e0 rfl
    have h1 := hpc 1 e1 rfl
    have h2 := hpc 2 e2 rfl
    have h3 := hpc 3 e3 rfl
    have h4 := hpc 4 e4 rfl
    have h5 := hpc 5 e5 rfl
    have h6 := hpc 6 e6 rfl
    have h7 := (hpc 7 e7 rfl).2 (by decide)
    have h8 := (hpc 8 e8 rfl).2 (by decide)
    have h9 := (hpc 9 e9 rfl).2 (by decide)
    have g0 : ¬ e0.GetPlayCount = 0 := fun hh => absurd (h0.1 hh) (by decide)
    have g1 : ¬ e1.GetPlayCount = 0 := fun hh => absurd (h1.1 hh) (by decide)
    have g2 : ¬ e2.GetPlayCount = 0 := fun hh => absurd (h2.1 hh) (by decide)
    have g3 : ¬ e3.GetPlayCount = 0 := fun hh => absurd (h3.1 hh) (by decide)
    have g4 : ¬ e4.GetPlayCount = 0 := fun hh => absurd (h4.1 hh) (by decide)
    have g5 : ¬ e5.GetPlayCount = 0 := fun hh => absurd (h5.1 hh) (by decide)
    have g6 : ¬ e6.GetPlayCount = 0 := fun hh => absurd (h6.1 hh) (by decide)
    simp [List.countP_cons, g0, g1, g2, g3, g4, g5, g6, h7, h8, h9]

/-- C7, witness: the ten-entry queue, scanned from position 0 with cap 10. -/
theorem GetUnplayedCount_backward_scan_witness :
    (1 : Int) ≤ 10 ∧
    (kioskQueue.GetUnplayedCount 0 10
      = some (min 10 (((kioskQueue.m_array.drop (max (0 : Int) 0).toNat).countP
          (fun e => e.GetPlayCount == 0) : Nat) : Int)) ∧
     (kioskQueue.m_array.length = 10 →
      (∀ (i : Nat) (e : SjPlaylistEntry), kioskQueue.m_array[i]? = some e →
        (e.GetPlayCount = 0 ↔ 7 ≤ i)) →
      kioskQueue.GetUnplayedCount 0 10 = some 3 ∧ kioskQueue.GetUnplayedCount 8 10 = some 2)) ∧
    kioskQueue.GetUnplayedCount 0 10 = some 3 ∧ kioskQueue.GetUnplayedCount 8 10 = some 2 :=
  ⟨by decide, GetUnplayedCount_backward_scan kioskQueue 0 10 (by decide), by decide, by decide⟩

/-! ## MovePos -/

theorem perm_cons_eraseIdx_of_getElem? {α : Type} (l : List α) (i : Nat) (a : α)
    (h : l[i]? = some a) : l.Perm (a :: l.eraseIdx i) := by
  induction l generalizing i with
  | nil => simp at h
  | cons b rest ih =>
    cases i with
    | zero =>
      simp at h
      subst h
      simp
    | succ k =>
      simp at h
      simp only [List.eraseIdx_cons_succ]
      exact ((ih k h).cons b).trans (List.Perm.swap a b _)

/-- C8: for every playlist of `n` entries and valid positions `srcPos`, `destPos`, `MovePos`
succeeds and yields a list of the same `n` entries (a permutation of the old list, each entry
with all its members) in which the entry formerly at `srcPos` is at `destPos` and the other
entries keep their relative order; the reference-count map and all other members of the
playlist are unchanged. -/
theorem MovePos_relocates (p : SjPlaylist) (srcPos destPos : Int)
    (hs0 : 0 ≤ srcPos) (hs : srcPos < p.m_array.length)
    (hd0 : 0 ≤ destPos) (hd : destPos < p.m_array.length) :
    ∃ p2 e, p.MovePos srcPos destPos = some p2 ∧
      p.m_array[srcPos.toNat]? = some e ∧
      p2.m_array[destPos.toNat]? = some e ∧
      p2.m_array.length = p.m_array.length ∧
      p2.m_array.eraseIdx destPos.toNat = p.m_array.eraseIdx srcPos.toNat ∧
      p2.m_array.Perm p.m_array ∧
      p2.m_urlCounts = p.m_urlCounts ∧
      p2 = { p with m_array := p2.m_array } := by
  have hsn : srcPos.toNat < p.m_array.length := by omega
  have hget : p.m_array[srcPos.toNat]? = some (p.m_array.get ⟨srcPos.toNat, hsn⟩) := by
    simp [List.getElem?_eq_getElem hsn]
  have hlen : (p.m_array.eraseIdx srcPos.toNat).length = p.m_array.length - 1 :=
    List.length_eraseIdx_of_lt hsn
  have hdn : destPos.toNat ≤ (p.m_array.eraseIdx srcPos.toNat).length := by
    rw [hlen]; omega
  refine ⟨{ p with m_array := ((p.m_array.eraseIdx srcPos.toNat).insertIdx destPos.toNat
      (p.m_array.get ⟨srcPos.toNat, hsn⟩)) }, p.m_array.get ⟨srcPos.toNat, hsn⟩,
      ?_, hget, ?_, ?_, ?_, ?_, rfl, rfl⟩
  · unfold SjPlaylist.MovePos
    have hneg : ¬ (srcPos < 0 ∨ destPos < 0) := by omega
    simp only [hneg, if_false, hget, hdn, if_true]
  · show ((p.m_array.eraseIdx srcPos.toNat).insertIdx destPos.toNat _)[destPos.toNat]? = _
    have hlt : destPos.toNat
        < ((p.m_array.eraseIdx srcPos.toNat).insertIdx destPos.toNat
            (p.m_array.get ⟨srcPos.toNat, hsn⟩)).length := by
      rw [List.length_insertIdx _ _ hdn]; omega
    rw [List.getElem?_eq_getElem hlt, List.getElem_insertIdx_self _ _ _ hdn]
  · show ((p.m_array.eraseIdx srcPos.toNat).insertIdx destPos.toNat _).length = _
    rw [List.length_insertIdx _ _ hdn, hlen]; omega
  · exact List.eraseIdx_insertIdx _ _
  · exact (List.perm_insertIdx _ _ hdn).trans
      (perm_cons_eraseIdx_of_getElem? p.m_array srcPos.toNat _ hget).symm

/-- C8, witness: moving the first of three tracks to the last position. -/
theorem MovePos_relocates_witness :
    ∃ p2 e, threeTracks.MovePos 0 2 = some p2 ∧
      threeTracks.m_array[(0 : Int).toNat]? = some e ∧
      p2.m_array[(2 : Int).toNat]? = some e ∧
      p2.m_array.length = threeTracks.m_array.length ∧
      p2.m_array.eraseIdx (2 : Int).toNat = threeTracks.m_array.eraseIdx (0 : Int).toNat ∧
      p2.m_array.Perm threeTracks.m_array ∧
      p2.m_urlCounts = threeTracks.m_urlCounts ∧
      p2 = { threeTracks with m_array := p2.m_array } :=
  MovePos_relocates threeTracks 0 2 (by decide) (by decide) (by decide) (by decide)

/-! ## OnUrlChanged -/

/-- The reload step of `OnUrlChanged` for one entry. -/
theorem reload_keeps (e : SjPlaylistEntry) :
    (((e.UrlChanged).SetPlayCount e.GetPlayCount).SetFlags e.GetFlags).m_id = e.m_id ∧
    (((e.UrlChanged).SetPlayCount e.GetPlayCount).SetFlags e.GetFlags).GetPlayCount
      = e.GetPlayCount ∧
    (((e.UrlChanged).SetPlayCount e.GetPlayCount).SetFlags e.GetFlags).GetFlags = e.GetFlags ∧
    (((e.UrlChanged).SetPlayCount e.GetPlayCount).SetFlags e.GetFlags).m_url = e.m_url := by
  simp [SjPlaylistEntry.UrlChanged, SjPlaylistEntry.SetPlayCount, SjPlaylistEntry.SetFlags,
    SjPlaylistEntry.GetPlayCount, SjPlaylistEntry.GetFlags]

theorem RenameUrl_keeps (e : SjPlaylistEntry) (oldUrl newUrl : String) :
    (e.RenameUrl oldUrl newUrl).m_id = e.m_id ∧
    (e.RenameUrl oldUrl newUrl).GetPlayCount = e.GetPlayCount ∧
    (e.RenameUrl oldUrl newUrl).GetFlags = e.GetFlags := by
  unfold SjPlaylistEntry.RenameUrl
  split <;> simp [SjPlaylistEntry.GetPlayCount, SjPlaylistEntry.GetFlags]

theorem OnUrlChanged_array (p : SjPlaylist) (oldUrl newUrl : String) :
    ∃ f : SjPlaylistEntry → SjPlaylistEntry,
      (p.OnUrlChanged oldUrl newUrl).m_array = p.m_array.map f ∧
      ∀ e, (f e).m_id = e.m_id ∧ (f e).GetPlayCount = e.GetPlayCount ∧
        (f e).GetFlags = e.GetFlags := by
  unfold SjPlaylist.OnUrlChanged
  by_cases hin : p.IsInPlaylist oldUrl = true
  · by_cases hnew : IsEmpty newUrl = true
    · refine ⟨fun e => if e.GetUnverifiedUrl = oldUrl then
          ((e.UrlChanged).SetPlayCount e.GetPlayCount).SetFlags e.GetFlags else e, ?_, ?_⟩
      · simp [hin, hnew]
      · intro e
        by_cases h : e.GetUnverifiedUrl = oldUrl
        · simp only [h, if_true]
          exact ⟨(reload_keeps e).1, (reload_keeps e).2.1, (reload_keeps e).2.2.1⟩
        · simp [h]
    · refine ⟨(fun e => if e.GetUnverifiedUrl = oldUrl then
          ((e.UrlChanged).SetPlayCount e.GetPlayCount).SetFlags e.GetFlags else e)
          ∘ (fun e => e.RenameUrl oldUrl newUrl), ?_, ?_⟩
      · simp [hin, hnew, List.map_map]
      · intro e
        have hr := RenameUrl_keeps e oldUrl newUrl
        simp only [Function.comp]
        by_cases h : (e.RenameUrl oldUrl newUrl).GetUnverifiedUrl = oldUrl
        · simp only [h, if_true]
          have hk := reload_keeps (e.RenameUrl oldUrl newUrl)
          exact ⟨hk.1.trans hr.1, hk.2.1.trans hr.2.1, hk.2.2.1.trans hr.2.2⟩
        · simp only [h, if_false]
          exact hr
  · refine ⟨id, ?_, ?_⟩
    · simp [hin]
    · intro e; simp

/-- C10: for every playlist and every `oldUrl`, `newUrl`, `OnUrlChanged` leaves the number of
entries, their order (the sequence of ids) and every entry's play count and flags unchanged,
also for the entries whose metadata is reloaded; and when `oldUrl` is not referenced by the
playlist (`IsInPlaylist` is false; under the reference-count invariant: no entry has this
URL) the whole playlist state is unchanged. -/
theorem OnUrlChanged_frame (p : SjPlaylist) (oldUrl newUrl : String) :
    (p.OnUrlChanged oldUrl newUrl).m_array.length = p.m_array.length ∧
    (p.OnUrlChanged oldUrl newUrl).m_array.map (fun e => e.m_id)
      = p.m_array.map (fun e => e.m_id) ∧
    (p.OnUrlChanged oldUrl newUrl).m_array.map (fun e => e.GetPlayCount)
      = p.m_array.map (fun e => e.GetPlayCount) ∧
    (p.OnUrlChanged oldUrl newUrl).m_array.map (fun e => e.GetFlags)
      = p.m_array.map (fun e => e.GetFlags) ∧
    (p.IsInPlaylist oldUrl = false → p.OnUrlChanged oldUrl newUrl = p) ∧
    (p.RefCountInv → (∀ e ∈ p.m_array, sameNoCase e.m_url oldUrl = false) →
      p.OnUrlChanged oldUrl newUrl = p) := by
  obtain ⟨f, hf, hkeep⟩ := OnUrlChanged_array p oldUrl newUrl
  have hno : p.IsInPlaylist oldUrl = false → p.OnUrlChanged oldUrl newUrl = p := by
    intro h
    simp [SjPlaylist.OnUrlChanged, h]
  refine ⟨?_, ?_, ?_, ?_, hno, ?_⟩
  · rw [hf, List.length_map]
  · rw [hf, List.map_map]
    exact List.map_congr_left (fun e _ => (hkeep e).1)
  · rw [hf, List.map_map]
    exact List.map_congr_left (fun e _ => (hkeep e).2.1)
  · rw [hf, List.map_map]
    exact List.map_congr_left (fun e _ => (hkeep e).2.2)
  · intro hinv hnone
    apply hno
    have h0 : p.m_array.countP (fun e => sameNoCase e.m_url oldUrl) = 0 := by
      rw [List.countP_eq_zero]
      intro e he
      simp [hnone e he]
    simp [SjPlaylist.IsInPlaylist, hinv oldUrl, h0]

/-- C10, witness: the URL "c" is not referenced by the two tracks, so renaming it changes
nothing; renaming "a" keeps the ids, play counts and flags. -/
theorem OnUrlChanged_frame_witness :
    twoTracks.IsInPlaylist "c" = false ∧ twoTracks.OnUrlChanged "c" "d" = twoTracks ∧
    (twoTracks.OnUrlChanged "a" "d").m_array.map (fun e => e.m_id)
      = twoTracks.m_array.map (fun e => e.m_id) :=
  ⟨by decide, (OnUrlChanged_frame twoTracks "c" "d").2.2.2.2.1 (by decide),
   (OnUrlChanged_frame twoTracks "a" "d").2.1⟩

/-- C9, failing input: a playlist with the entries "a" and "b", each counted once, satisfies
the reference-count invariant; after `OnUrlChanged("a", "b")` both entries have the URL "b",
but the count stored for "b" is 1 and the sum of all counts is 1 for 2 entries. -/
theorem OnUrlChanged_overwrites_count :
    twoTracks.RefCountInv ∧
    (twoTracks.OnUrlChanged "a" "b").m_array.map (fun e => e.m_url) = ["b", "b"] ∧
    (twoTracks.OnUrlChanged "a" "b").m_urlCounts.Lookup "b" = 1 ∧
    (twoTracks.OnUrlChanged "a" "b").m_urlCounts.total = 1 ∧
    (twoTracks.OnUrlChanged "a" "b").m_array.length = 2 ∧
    ¬ (twoTracks.OnUrlChanged "a" "b").RefCountInv := by
  refine ⟨AddArray_RefCountInv _ _ _ _ empty_RefCountInv, by decide, by decide, by decide,
    by decide, ?_⟩
  · intro h
    have hb := h "b"
    revert hb
    decide

/-! ## Facts about bitmasks -/

theorem and_two_pow_eq_zero_iff (f k : Nat) : f &&& 2 ^ k = 0 ↔ f.testBit k = false := by
  constructor
  · intro h
    have h2 : (f &&& 2 ^ k).testBit k = false := by rw [h]; exact Nat.zero_testBit k
    rw [Nat.testBit_and, Nat.testBit_two_pow_self, Bool.and_true] at h2
    exact h2
  · intro h
    apply Nat.eq_of_testBit_eq
    intro i
    rw [Nat.testBit_and, Nat.testBit_two_pow, Nat.zero_testBit]
    by_cases hki : k = i
    · subst hki
      simp [h]
    · simp [hki]

theorem hasFlag_two_pow (f k : Nat) : hasFlag f (2 ^ k) = f.testBit k := by
  unfold hasFlag
  cases hb : f.testBit k
  · have := (and_two_pow_eq_zero_iff f k).2 hb
    simp [this]
  · have : f &&& 2 ^ k ≠ 0 := fun h => by
      rw [(and_two_pow_eq_zero_iff f k).1 h] at hb
      cases hb
    simp [this]

theorem testBit_clearFlag (f m i : Nat) :
    (clearFlag f m).testBit i = (f.testBit i && !m.testBit i) := by
  unfold clearFlag
  rw [Nat.testBit_xor, Nat.testBit_and]
  cases f.testBit i <;> cases m.testBit i <;> rfl

theorem hasFlag_LOADED (f : Nat) : hasFlag f SJ_CACHE_OVERALL_LOADED = f.testBit 0 :=
  hasFlag_two_pow f 0

theorem hasFlag_ARTIST (f : Nat) : hasFlag f SJ_CACHE_LEAD_ARTIST_FINE = f.testBit 1 :=
  hasFlag_two_pow f 1

theorem hasFlag_ALBUM (f : Nat) : hasFlag f SJ_CACHE_ALBUM_FINE = f.testBit 2 :=
  hasFlag_two_pow f 2

theorem hasFlag_MISC (f : Nat) : hasFlag f SJ_ADDINFO_MISC = f.testBit 1 :=
  hasFlag_two_pow f 1

theorem hasFlag_PLAYCOUNT (f : Nat) : hasFlag f SJ_ADDINFO_PLAYCOUNT = f.testBit 0 :=
  hasFlag_two_pow f 0

/-! ## OnUrlChanged and the aggregate cache -/

theorem OnUrlChanged_cacheFlags (p : SjPlaylist) (oldUrl newUrl : String) :
    (p.OnUrlChanged oldUrl newUrl).m_cacheFlags = p.m_cacheFlags := by
  unfold SjPlaylist.OnUrlChanged
  by_cases hin : p.IsInPlaylist oldUrl = true
  · by_cases hnew : IsEmpty newUrl = true <;> simp [hin, hnew]
  · simp [hin]

theorem LoadOverallNames_loaded (env : SjEnv) (p : SjPlaylist)
    (h : hasFlag p.m_cacheFlags SJ_CACHE_OVERALL_LOADED = true) :
    p.LoadOverallNames env = some p := by
  simp [SjPlaylist.LoadOverallNames, h]

/-- C11, failing input: the overall names of the two tracks "a" and "b" are loaded (artist
"Abba" for both), then the library retags "a" to another artist and reports the change with
`OnUrlChanged("a", "")`.  The cache flags are what they were, the overall names still count as
loaded, and the next `LoadOverallNames` returns at once: the playlist keeps "Abba" as uniform
artist although the first entry now reads "Baccara". -/
theorem OnUrlChanged_keeps_cache_loaded :
    ∃ p1, twoTracks.LoadOverallNames arrivalEnv = some p1 ∧
      hasFlag p1.m_cacheFlags SJ_CACHE_OVERALL_LOADED = true ∧
      p1.IsInPlaylist "a" = true ∧
      (p1.OnUrlChanged "a" "").m_cacheFlags = p1.m_cacheFlags ∧
      hasFlag (p1.OnUrlChanged "a" "").m_cacheFlags SJ_CACHE_OVERALL_LOADED = true ∧
      (p1.OnUrlChanged "a" "").LoadOverallNames retaggedEnv = some (p1.OnUrlChanged "a" "") ∧
      (p1.OnUrlChanged "a" "").m_overallLeadArtistName = "Abba" ∧
      hasFlag (p1.OnUrlChanged "a" "").m_cacheFlags SJ_CACHE_LEAD_ARTIST_FINE = true ∧
      ((p1.OnUrlChanged "a" "").onItem 0
          (fun e owner => e.GetLeadArtistName retaggedEnv owner)).map Prod.fst
        = some "Baccara" := by
  refine ⟨(twoTracks.LoadOverallNames arrivalEnv).get (by decide), by simp, ?_⟩
  decide

/-! ## VerifyUrl -/

theorem BeforeFirst_not_mem (s : String) (c : Char) : c ∉ (BeforeFirst s c).data := by
  intro h
  have := List.mem_takeWhile_imp h
  simp at this

theorem BeforeFirst_of_not_mem (s : String) (c : Char) (h : c ∉ s.data) :
    BeforeFirst s c = s := by
  have : s.data.takeWhile (fun x => x != c) = s.data := by
    rw [List.takeWhile_eq_self_iff]
    intro x hx
    have : x ≠ c := fun hxc => h (hxc ▸ hx)
    simpa using this
  show (⟨s.data.takeWhile (fun x => x != c)⟩ : String) = s
  rw [this]

theorem VerifyUrl_of_resolve_none (env : SjEnv) (e : SjPlaylistEntry) (owner : Option SjSLHash)
    (hmain : env.g_mainFrame = true) (hunv : e.m_urlVerified = false)
    (hres : SjPlaylistEntry.VerifyUrl.resolve env e = none) :
    e.VerifyUrl env owner
      = some ({ e with m_urlVerified := true, m_url := BeforeFirst e.m_url '\t' }, owner) := by
  simp [SjPlaylistEntry.VerifyUrl, hmain, hunv, hres]

/-- C12: with the main frame available, for every entry that is not yet verified (and, as
every unverified entry, not marked ok) and whose locator can be opened neither directly nor
through the artist/album/track lookup of the library (`resolve` finds no location),
`VerifyUrl` returns and leaves the entry with `urlVerified = true`, `urlOk = false` and the
stored URL equal to the first tab-separated field of the raw string: no tab and so no hint
field is left, whatever the partially resolved path was; everything else, also the map of the
owning playlist, is as before. -/
theorem VerifyUrl_not_found (env : SjEnv) (e : SjPlaylistEntry) (owner : Option SjSLHash)
    (hmain : env.g_mainFrame = true) (hunv : e.m_urlVerified = false)
    (hok : e.m_urlOk = false)
    (hres : SjPlaylistEntry.VerifyUrl.resolve env e = none) :
    ∃ e2, e.VerifyUrl env owner = some (e2, owner) ∧
      e2.m_urlVerified = true ∧ e2.m_urlOk = false ∧
      e2.m_url = BeforeFirst e.m_url '\t' ∧ '\t' ∉ e2.m_url.data ∧
      e2 = { e with m_urlVerified := true, m_url := BeforeFirst e.m_url '\t' } :=
  ⟨_, VerifyUrl_of_resolve_none env e owner hmain hunv hres, rfl, hok, rfl,
    BeforeFirst_not_mem e.m_url '\t', rfl⟩

/-- C12, witness: an imported entry with hint fields in an environment where nothing can be
opened and the library knows no track. -/
theorem VerifyUrl_not_found_witness :
    ∃ e2, (SjPlaylistEntry.new 1 "song.mp3\tlist.m3u\tArtist\t\tTitle" false 0).VerifyUrl
        offlineEnv none = some (e2, none) ∧
      e2.m_urlVerified = true ∧ e2.m_urlOk = false ∧
      e2.m_url = BeforeFirst
        (SjPlaylistEntry.new 1 "song.mp3\tlist.m3u\tArtist\t\tTitle" false 0).m_url '\t' ∧
      '\t' ∉ e2.m_url.data ∧
      e2 = { SjPlaylistEntry.new 1 "song.mp3\tlist.m3u\tArtist\t\tTitle" false 0 with
              m_urlVerified := true
              m_url := BeforeFirst
                (SjPlaylistEntry.new 1 "song.mp3\tlist.m3u\tArtist\t\tTitle" false 0).m_url
                '\t' } :=
  VerifyUrl_not_found offlineEnv
    (SjPlaylistEntry.new 1 "song.mp3\tlist.m3u\tArtist\t\tTitle" false 0) none
    (by decide) (by decide) (by decide) (by decide)

theorem RehashUrl_of_counted (m : SjSLHash) (oldUrl newUrl : String) (hpos : m.Positive)
    (hkey : m.hasKey oldUrl = true ∨ m.hasKey newUrl = true) :
    RehashUrl m oldUrl newUrl
      = some ((m.Remove oldUrl).2.Insert newUrl
          (m.Lookup oldUrl + (m.Remove oldUrl).2.Lookup newUrl)) := by
  have e : (m.Remove oldUrl).1 = m.Lookup oldUrl := rfl
  have ha := slLookup_nonneg m.items oldUrl hpos
  have hb : 0 ≤ (m.Remove oldUrl).2.Lookup newUrl :=
    slLookup_nonneg _ newUrl (Positive_Remove m oldUrl hpos)
  have hcount : 0 < m.Lookup oldUrl + (m.Remove oldUrl).2.Lookup newUrl := by
    rcases hkey with hk | hk
    · have := slLookup_pos_of_any m.items oldUrl hpos hk
      simp only [SjSLHash.Lookup] at hb ⊢
      omega
    · by_cases hs : sameNoCase oldUrl newUrl = true
      · have hk2 : m.hasKey oldUrl = true := by
          have hh := hk
          simp only [SjSLHash.hasKey] at hh ⊢
          rw [← hh]
          congr 1
          funext kv
          rw [Bool.eq_iff_iff, sameNoCase_iff, sameNoCase_iff]
          rw [sameNoCase_iff] at hs
          rw [hs]
        have := slLookup_pos_of_any m.items oldUrl hpos hk2
        simp only [SjSLHash.Lookup] at hb ⊢
        omega
      · have hl : (m.Remove oldUrl).2.Lookup newUrl = m.Lookup newUrl := by
          rw [Lookup_Remove]; simp [hs]
        have := slLookup_pos_of_any m.items newUrl hpos hk
        rw [hl]
        simp only [SjSLHash.Lookup] at ha ⊢
        omega
  simp only [RehashUrl, e, hcount, if_true]

theorem VerifyUrl_of_resolve_some (env : SjEnv) (e : SjPlaylistEntry) (m m2 : SjSLHash)
    (L : String) (hmain : env.g_mainFrame = true) (hunv : e.m_urlVerified = false)
    (hres : SjPlaylistEntry.VerifyUrl.resolve env e = some L)
    (hre : RehashUrl m e.m_url L = some m2) :
    e.VerifyUrl env (some m)
      = some ({ e with m_urlVerified := true, m_url := L, m_urlOk := true }, some m2) := by
  simp [SjPlaylistEntry.VerifyUrl, hmain, hunv, hres, hre]

/-- C13, counterexample: the raw string `file:///m/A.mp3` is counted once and resolves, on a
file system that ignores case, to `file:///m/a.mp3`.  The two strings differ, but they are one
key of the case-insensitive map: after `VerifyUrl` the count of the location is 1, not the sum
1 + 1 of the two previous counts, and the raw string still is a key. -/
theorem VerifyUrl_case_variant_counterexample :
    SjPlaylistEntry.VerifyUrl.resolve caseEnv (SjPlaylistEntry.new 1 "file:///m/A.mp3" false 0)
      = some "file:///m/a.mp3" ∧
    ("file:///m/A.mp3" : String) ≠ "file:///m/a.mp3" ∧
    ¬ ∃ e2 m2, (SjPlaylistEntry.new 1 "file:///m/A.mp3" false 0).VerifyUrl caseEnv
          (some ⟨[("file:///m/A.mp3", 1)]⟩) = some (e2, some m2) ∧
        m2.Lookup "file:///m/a.mp3"
          = (⟨[("file:///m/A.mp3", 1)]⟩ : SjSLHash).Lookup "file:///m/A.mp3"
            + (⟨[("file:///m/A.mp3", 1)]⟩ : SjSLHash).Lookup "file:///m/a.mp3" ∧
        m2.hasKey "file:///m/A.mp3" = false := by
  refine ⟨by decide, by decide, ?_⟩
  rintro ⟨e2, m2, h1, h2, _⟩
  have e : (SjPlaylistEntry.new 1 "file:///m/A.mp3" false 0).VerifyUrl caseEnv
      (some ⟨[("file:///m/A.mp3", 1)]⟩)
      = some ({ SjPlaylistEntry.new 1 "file:///m/A.mp3" false 0 with
                m_urlVerified := true, m_url := "file:///m/a.mp3", m_urlOk := true },
              some ⟨[("file:///m/a.mp3", 1)]⟩) := by decide
  rw [e] at h1
  simp only [Option.some.injEq, Prod.mk.injEq] at h1
  rw [← h1.2] at h2
  revert h2
  decide

/-- C13 (amended): with the main frame available, for every unverified entry owned by a
playlist whose map is a reference-count map (no key twice, all counts positive) that counts
the raw string or the location, and whose locator resolves to a location `L`: `VerifyUrl`
ends with the entry's URL = `L`, `urlVerified = true` and `urlOk = true`, the map is the one
that `RehashUrl` makes with the raw string as old key, and the sum of all counts is
unchanged.  When the raw string and `L` differ even ignoring case, the count of `L` is the
previous count of the raw string plus the previous count of `L` and the raw string is no
longer a key; when they differ in case only, they are one key and its count stays.  Every
other key keeps its count. -/
theorem VerifyUrl_resolved (env : SjEnv) (e : SjPlaylistEntry) (m : SjSLHash) (L : String)
    (hmain : env.g_mainFrame = true) (hunv : e.m_urlVerified = false)
    (hres : SjPlaylistEntry.VerifyUrl.resolve env e = some L)
    (hwf : m.WF) (hpos : m.Positive)
    (hkey : m.hasKey e.m_url = true ∨ m.hasKey L = true) :
    ∃ e2 m2, e.VerifyUrl env (some m) = some (e2, some m2) ∧
      e2.m_url = L ∧ e2.m_urlVerified = true ∧ e2.m_urlOk = true ∧
      RehashUrl m e.m_url L = some m2 ∧
      m2.total = m.total ∧
      (sameNoCase e.m_url L = false →
        m2.Lookup L = m.Lookup e.m_url + m.Lookup L ∧ m2.hasKey e.m_url = false) ∧
      (sameNoCase e.m_url L = true → m2.Lookup L = m.Lookup e.m_url) ∧
      (∀ k, sameNoCase e.m_url k = false → sameNoCase L k = false →
        m2.Lookup k = m.Lookup k) := by
  have hre := RehashUrl_of_counted m e.m_url L hpos hkey
  have hv := VerifyUrl_of_resolve_some env e m _ L hmain hunv hres hre
  have htot := (RehashUrl_map_SumInv m _ e.m_url L hwf hpos hre).2.2
  refine ⟨_, _, hv, rfl, rfl, rfl, hre, htot, ?_, ?_, ?_⟩
  · intro hs
    have hs2 : sameNoCase L e.m_url = false := by rw [sameNoCase_comm]; exact hs
    constructor
    · rw [Lookup_Insert, Lookup_Remove]; simp [hs, sameNoCase_refl]
    · rw [hasKey_Insert, hasKey_Remove]; simp [hs2, sameNoCase_refl]
  · intro hs
    rw [Lookup_Insert, Lookup_Remove]; simp [hs, sameNoCase_refl]
  · intro k hk1 hk2
    simp [Lookup_Insert, Lookup_Remove, hk1, hk2]

/-- C13 (amended), witness: the raw string `/m/a.mp3`, counted twice, resolves to
`file:///m/a.mp3`. -/
theorem VerifyUrl_resolved_witness :
    ∃ e2 m2, (SjPlaylistEntry.new 1 "/m/a.mp3" false 0).VerifyUrl localEnv
        (some ⟨[("/m/a.mp3", 2)]⟩) = some (e2, some m2) ∧
      e2.m_url = "file:///m/a.mp3" ∧ e2.m_urlVerified = true ∧ e2.m_urlOk = true ∧
      RehashUrl ⟨[("/m/a.mp3", 2)]⟩ (SjPlaylistEntry.new 1 "/m/a.mp3" false 0).m_url
        "file:///m/a.mp3" = some m2 ∧
      m2.total = (⟨[("/m/a.mp3", 2)]⟩ : SjSLHash).total ∧
      (sameNoCase (SjPlaylistEntry.new 1 "/m/a.mp3" false 0).m_url "file:///m/a.mp3" = false →
        m2.Lookup "file:///m/a.mp3"
          = (⟨[("/m/a.mp3", 2)]⟩ : SjSLHash).Lookup
              (SjPlaylistEntry.new 1 "/m/a.mp3" false 0).m_url
            + (⟨[("/m/a.mp3", 2)]⟩ : SjSLHash).Lookup "file:///m/a.mp3" ∧
        m2.hasKey (SjPlaylistEntry.new 1 "/m/a.mp3" false 0).m_url = false) ∧
      (sameNoCase (SjPlaylistEntry.new 1 "/m/a.mp3" false 0).m_url "file:///m/a.mp3" = true →
        m2.Lookup "file:///m/a.mp3"
          = (⟨[("/m/a.mp3", 2)]⟩ : SjSLHash).Lookup
              (SjPlaylistEntry.new 1 "/m/a.mp3" false 0).m_url) ∧
      (∀ k, sameNoCase (SjPlaylistEntry.new 1 "/m/a.mp3" false 0).m_url k = false →
        sameNoCase "file:///m/a.mp3" k = false →
        m2.Lookup k = (⟨[("/m/a.mp3", 2)]⟩ : SjSLHash).Lookup k) :=
  VerifyUrl_resolved localEnv (SjPlaylistEntry.new 1 "/m/a.mp3" false 0) ⟨[("/m/a.mp3", 2)]⟩
    "file:///m/a.mp3" (by decide) (by decide) (by decide) (by decide) (by decide)
    (Or.inl (by decide))

/-! ## VerifyUrl and the per-URL invariant -/

theorem countP_set {α : Type} (q : α → Bool) (l : List α) (i : Nat) (a b : α)
    (h : l[i]? = some a) :
    (l.set i b).countP q + (if q a then 1 else 0) = l.countP q + (if q b then 1 else 0) := by
  induction l generalizing i with
  | nil => simp at h
  | cons c rest ih =>
    cases i with
    | zero =>
      simp at h
      subst h
      simp only [List.set_cons_zero, List.countP_cons]
      omega
    | succ k =>
      simp at h
      simp only [List.set_cons_succ, List.countP_cons]
      have := ih k h
      omega

theorem countP_key_congr (l : List SjPlaylistEntry) (a b : String)
    (h : sameNoCase a b = true) :
    l.countP (fun x => sameNoCase x.m_url a) = l.countP (fun x => sameNoCase x.m_url b) := by
  congr 1
  funext x
  rw [Bool.eq_iff_iff, sameNoCase_iff, sameNoCase_iff]
  rw [sameNoCase_iff] at h
  rw [h]

theorem ItemVerifyUrl_eq (env : SjEnv) (p : SjPlaylist) (i : Nat) (e e2 : SjPlaylistEntry)
    (o2 : Option SjSLHash) (hget : p.m_array[i]? = some e)
    (hv : e.VerifyUrl env (some p.m_urlCounts) = some (e2, o2)) :
    p.ItemVerifyUrl env i
      = some { p with m_array := p.m_array.set i e2,
                      m_urlCounts := o2.getD p.m_urlCounts } := by
  simp [SjPlaylist.ItemVerifyUrl, SjPlaylist.onItem, hget, hv]

/-- C14, counterexample: two unverified entries share the raw string `/m/a.mp3`, counted
twice, so the invariant holds.  Verifying the first entry succeeds and moves the whole count
to the resolved URL: afterwards that URL is counted twice for one entry and the raw string of
the second entry is not counted at all. -/
theorem VerifyUrl_shared_raw_counterexample :
    sharedRaw.RefCountInv ∧
    ∃ p2, sharedRaw.ItemVerifyUrl localEnv 0 = some p2 ∧
      p2.m_urlCounts.Lookup "file:///m/a.mp3" = 2 ∧
      p2.m_array.countP (fun x => sameNoCase x.m_url "file:///m/a.mp3") = 1 ∧
      p2.m_urlCounts.Lookup "/m/a.mp3" = 0 ∧
      p2.m_array.countP (fun x => sameNoCase x.m_url "/m/a.mp3") = 1 ∧
      ¬ p2.RefCountInv := by
  refine ⟨AddArray_RefCountInv _ _ _ _ empty_RefCountInv,
    (sharedRaw.ItemVerifyUrl localEnv 0).get (by decide), by simp, by decide, by decide,
    by decide, by decide, ?_⟩
  intro h
  have := h "/m/a.mp3"
  revert this
  decide

/-- The failure path of `VerifyUrl` on a raw string with hint fields: the stored URL is cut
to its first field, the map keeps counting the raw string, and the invariant is lost. -/
theorem VerifyUrl_failure_with_hints_loses_count :
    importedRaw.RefCountInv ∧
    ∃ p2, importedRaw.ItemVerifyUrl offlineEnv 0 = some p2 ∧
      p2.m_array.map (fun x => x.m_url) = ["song.mp3"] ∧
      p2.m_urlCounts.Lookup "song.mp3" = 0 ∧
      p2.m_urlCounts.Lookup "song.mp3\tlist.m3u\tArtist\t\tTitle" = 1 ∧
      ¬ p2.RefCountInv := by
  refine ⟨AddArray_RefCountInv _ _ _ _ empty_RefCountInv,
    (importedRaw.ItemVerifyUrl offlineEnv 0).get (by decide), by simp, by decide, by decide,
    by decide, ?_⟩
  intro h
  have := h "song.mp3"
  revert this
  decide

/-- C14 (amended): with the main frame available, for every playlist that satisfies the
per-URL invariant and every unverified entry of it, the invariant still holds after
`VerifyUrl` on that entry when verification succeeds and either no other entry shares the raw
string or the resolved URL equals the raw string ignoring case, and when verification fails
on a raw string without tab, that is without hint fields. -/
theorem VerifyUrl_keeps_RefCountInv (env : SjEnv) (p : SjPlaylist) (i : Nat)
    (e : SjPlaylistEntry) (hmain : env.g_mainFrame = true) (hinv : p.RefCountInv)
    (hget : p.m_array[i]? = some e) (hunv : e.m_urlVerified = false)
    (hgood : match SjPlaylistEntry.VerifyUrl.resolve env e with
      | some L => p.m_array.countP (fun x => sameNoCase x.m_url e.m_url) = 1
          ∨ sameNoCase e.m_url L = true
      | none => '\t' ∉ e.m_url.data) :
    ∃ p2, p.ItemVerifyUrl env i = some p2 ∧ p2.RefCountInv := by
  cases hres : SjPlaylistEntry.VerifyUrl.resolve env e with
  | none =>
    rw [hres] at hgood
    have hv := VerifyUrl_of_resolve_none env e (some p.m_urlCounts) hmain hunv hres
    refine ⟨_, ItemVerifyUrl_eq env p i e _ _ hget hv, ?_⟩
    intro u
    have hc := countP_set (fun x => sameNoCase x.m_url u) p.m_array i e
      { e with m_urlVerified := true, m_url := BeforeFirst e.m_url '\t' } hget
    simp only [BeforeFirst_of_not_mem e.m_url '\t' hgood] at hc ⊢
    have := hinv u
    simp only [Option.getD_some]
    omega
  | some L =>
    rw [hres] at hgood
    have hself : 1 ≤ p.m_array.countP (fun x => sameNoCase x.m_url e.m_url) :=
      List.countP_pos_iff.2 ⟨e, List.getElem?_mem hget, sameNoCase_refl _⟩
    have hraw := hinv e.m_url
    have hL := hinv L
    have hrem : (p.m_urlCounts.Remove e.m_url).2.Lookup L
        = if sameNoCase e.m_url L then 0 else p.m_urlCounts.Lookup L := Lookup_Remove _ _ _
    have e1 : (p.m_urlCounts.Remove e.m_url).1 = p.m_urlCounts.Lookup e.m_url := rfl
    have hcount : 0 < p.m_urlCounts.Lookup e.m_url + (p.m_urlCounts.Remove e.m_url).2.Lookup L := by
      rw [hrem]
      split <;> omega
    have hre : RehashUrl p.m_urlCounts e.m_url L
        = some ((p.m_urlCounts.Remove e.m_url).2.Insert L
            (p.m_urlCounts.Lookup e.m_url + (p.m_urlCounts.Remove e.m_url).2.Lookup L)) := by
      simp only [RehashUrl, e1, hcount, if_true]
    have hv := VerifyUrl_of_resolve_some env e p.m_urlCounts _ L hmain hunv hres hre
    refine ⟨_, ItemVerifyUrl_eq env p i e _ _ hget hv, ?_⟩
    intro u
    have hc := countP_set (fun x => sameNoCase x.m_url u) p.m_array i e
      { e with m_urlVerified := true, m_url := L, m_urlOk := true } hget
    have hu := hinv u
    simp only [Option.getD_some, Lookup_Insert, Lookup_Remove] at hc ⊢
    by_cases hsL : sameNoCase e.m_url L = true
    · have hLu : sameNoCase L u = sameNoCase e.m_url u :=
        (sameNoCase_trans_right e.m_url L u hsL).symm
      by_cases hsu : sameNoCase e.m_url u = true
      · have hk := countP_key_congr p.m_array e.m_url u hsu
        simp only [hLu, hsu, hsL, if_true] at hc ⊢
        omega
      · have hsu2 : sameNoCase e.m_url u = false := by simpa using hsu
        simp only [hLu, hsu2, Bool.false_eq_true, if_false] at hc ⊢
        omega
    · have hsL2 : sameNoCase e.m_url L = false := by simpa using hsL
      have hone : p.m_array.countP (fun x => sameNoCase x.m_url e.m_url) = 1 := by
        rcases hgood with h | h
        · exact h
        · exact absurd h hsL
      by_cases hLu : sameNoCase L u = true
      · have hsu : sameNoCase e.m_url u = false := by
          cases hh : sameNoCase e.m_url u
          · rfl
          · exfalso
            rw [sameNoCase_iff] at hh hLu
            exact hsL ((sameNoCase_iff _ _).2 (hh.trans hLu.symm))
        have hk := countP_key_congr p.m_array L u hLu
        simp only [hLu, hsu, hsL2, Bool.false_eq_true, if_true, if_false] at hc ⊢
        omega
      · have hLu2 : sameNoCase L u = false := by simpa using hLu
        by_cases hsu : sameNoCase e.m_url u = true
        · have hk := countP_key_congr p.m_array e.m_url u hsu
          simp only [hLu2, hsu, Bool.false_eq_true, if_true, if_false] at hc ⊢
          omega
        · have hsu2 : sameNoCase e.m_url u = false := by simpa using hsu
          simp only [hLu2, hsu2, Bool.false_eq_true, if_false] at hc ⊢
          omega

/-- C14 (amended), witness: the single unverified entry `/m/a.mp3` is verified with success. -/
theorem VerifyUrl_keeps_RefCountInv_witness :
    oneRaw.RefCountInv ∧
    ∃ p2, oneRaw.ItemVerifyUrl localEnv 0 = some p2 ∧ p2.RefCountInv :=
  ⟨AddArray_RefCountInv _ _ _ _ empty_RefCountInv,
   VerifyUrl_keeps_RefCountInv localEnv oneRaw 0 (SjPlaylistEntry.new 1 "/m/a.mp3" false 0)
    (by decide) (AddArray_RefCountInv _ _ _ _ empty_RefCountInv) (by decide) (by decide)
    (by
      rw [show SjPlaylistEntry.VerifyUrl.resolve localEnv
          (SjPlaylistEntry.new 1 "/m/a.mp3" false 0) = some "file:///m/a.mp3" from by decide]
      exact Or.inl (by decide))⟩

/-! ## LoadAddInfo -/

theorem and_two_pow_eq_self_iff (f k : Nat) : f &&& 2 ^ k = 2 ^ k ↔ f.testBit k = true := by
  constructor
  · intro h
    have h2 : (f &&& 2 ^ k).testBit k = true := by rw [h]; exact Nat.testBit_two_pow_self
    rw [Nat.testBit_and, Nat.testBit_two_pow_self, Bool.and_true] at h2
    exact h2
  · intro h
    apply Nat.eq_of_testBit_eq
    intro i
    rw [Nat.testBit_and, Nat.testBit_two_pow]
    by_cases hki : k = i
    · subst hki
      simp [h]
    · simp [hki]

theorem testBit_of_and_eq_zero (f what k : Nat) (h : f &&& what = 0)
    (hw : what.testBit k = true) : f.testBit k = false := by
  have h2 : (f &&& what).testBit k = false := by rw [h]; exact Nat.zero_testBit k
  rw [Nat.testBit_and, hw, Bool.and_true] at h2
  exact h2

theorem GetUrl_of_verified (env : SjEnv) (e : SjPlaylistEntry) (owner : Option SjSLHash)
    (hver : e.m_urlVerified = true) : e.GetUrl env owner = some (e.m_url, e, owner) := by
  simp [SjPlaylistEntry.GetUrl, hver]

theorem VerifyUrl_no_owner (env : SjEnv) (e : SjPlaylistEntry)
    (hmain : env.g_mainFrame = true) (hunv : e.m_urlVerified = false) :
    ∃ e2, e.VerifyUrl env none = some (e2, none) ∧ e2.m_urlVerified = true ∧
      e2.m_addInfo = e.m_addInfo ∧ e2.m_flags = e.m_flags ∧ e2.m_id = e.m_id := by
  cases hres : SjPlaylistEntry.VerifyUrl.resolve env e with
  | none =>
    exact ⟨_, VerifyUrl_of_resolve_none env e none hmain hunv hres, rfl, rfl, rfl, rfl⟩
  | some L =>
    refine ⟨{ e with m_urlVerified := true, m_url := L, m_urlOk := true }, ?_, rfl, rfl, rfl,
      rfl⟩
    simp [SjPlaylistEntry.VerifyUrl, hmain, hunv, hres]

theorem GetUrl_returns (env : SjEnv) (e : SjPlaylistEntry) (owner : Option SjSLHash)
    (hmain : env.g_mainFrame = true) (h : e.m_urlVerified = true ∨ owner = none) :
    ∃ url e2, e.GetUrl env owner = some (url, e2, owner) ∧ e2.m_urlVerified = true ∧
      e2.m_addInfo = e.m_addInfo := by
  by_cases hver : e.m_urlVerified = true
  · exact ⟨_, _, GetUrl_of_verified env e owner hver, hver, rfl⟩
  · have hunv : e.m_urlVerified = false := by simpa using hver
    have ho : owner = none := by
      rcases h with h | h
      · exact absurd h hver
      · exact h
    subst ho
    obtain ⟨e2, hv, h1, h2, _⟩ := VerifyUrl_no_owner env e hmain hunv
    exact ⟨e2.m_url, e2, by simp [SjPlaylistEntry.GetUrl, hunv, hv], h1, h2⟩

theorem finish_spec (a : SjPlaylistAddInfo) :
    ((SjPlaylistEntry.LoadAddInfo.finish a).m_playtimeMs = -1
      ∨ 0 < (SjPlaylistEntry.LoadAddInfo.finish a).m_playtimeMs) ∧
    (SjPlaylistEntry.LoadAddInfo.finish a).m_what.testBit 1 = true ∧
    (SjPlaylistEntry.LoadAddInfo.finish a).m_playCount = a.m_playCount := by
  unfold SjPlaylistEntry.LoadAddInfo.finish
  refine ⟨?_, ?_, ?_⟩
  · dsimp only
    split
    · left; rfl
    · right; omega
  · dsimp only
    show (_ ||| 2).testBit 1 = true
    rw [Nat.testBit_or]
    simp
    right
    rfl
  · dsimp only
    split <;> rfl

theorem fromTags_playCount (env : SjEnv) (e : SjPlaylistEntry) (a : SjPlaylistAddInfo) :
    (SjPlaylistEntry.LoadAddInfo.fromTags env e a).m_playCount = a.m_playCount := by
  unfold SjPlaylistEntry.LoadAddInfo.fromTags
  repeat' split
  all_goals rfl

theorem markPlayCount_spec (a : SjPlaylistAddInfo) (what : Nat) :
    (SjPlaylistEntry.LoadAddInfo.markPlayCount a what).m_what.testBit 1 = a.m_what.testBit 1 ∧
    (SjPlaylistEntry.LoadAddInfo.markPlayCount a what).m_playCount = a.m_playCount := by
  unfold SjPlaylistEntry.LoadAddInfo.markPlayCount
  split
  · refine ⟨?_, rfl⟩
    show (a.m_what ||| 1).testBit 1 = a.m_what.testBit 1
    rw [Nat.testBit_or]
    simp
    intro h
    cases h
  · exact ⟨rfl, rfl⟩

theorem loadMisc_spec (env : SjEnv) (e : SjPlaylistEntry) (a : SjPlaylistAddInfo)
    (owner : Option SjSLHash) (r : SjPlaylistEntry × Option SjSLHash)
    (h : SjPlaylistEntry.LoadAddInfo.loadMisc env e a owner = some r) :
    ∃ a2, r.1.m_addInfo = some a2 ∧ (a2.m_playtimeMs = -1 ∨ 0 < a2.m_playtimeMs) ∧
      a2.m_what.testBit 1 = true ∧ a2.m_playCount = a.m_playCount := by
  unfold SjPlaylistEntry.LoadAddInfo.loadMisc at h
  cases hg : e.GetUrl env owner with
  | none => simp [hg] at h
  | some t =>
    obtain ⟨url, e2, owner2⟩ := t
    simp only [hg] at h
    by_cases hc : (!(SjPlaylistEntry.LoadAddInfo.fromLibrary env url a).2
        && !e2.m_urlVerified) = true
    · simp [hc] at h
    · simp only [hc, Bool.false_eq_true, if_false, Option.some.injEq] at h
      subst h
      refine ⟨_, rfl, (finish_spec _).1, (finish_spec _).2.1, ?_⟩
      rw [(finish_spec _).2.2]
      split
      · rw [fromTags_playCount]
        rfl
      · rfl

/-- What the part of `LoadAddInfo` behind the assertion yields when the descriptive metadata
is requested and not yet loaded. -/
theorem LoadAddInfo_body_misc (env : SjEnv) (e : SjPlaylistEntry) (a : SjPlaylistAddInfo)
    (owner : Option SjSLHash) (what : Nat) (r : SjPlaylistEntry × Option SjSLHash)
    (hmisc : hasFlag what SJ_ADDINFO_MISC = true) (hnot : a.m_what.testBit 1 = false)
    (h : SjPlaylistEntry.LoadAddInfo.body env e a owner what = some r) :
    ∃ a2, r.1.m_addInfo = some a2 ∧ (a2.m_playtimeMs = -1 ∨ 0 < a2.m_playtimeMs) ∧
      a2.m_what.testBit 1 = true ∧ a2.m_playCount = a.m_playCount := by
  have hmark := markPlayCount_spec a what
  have hnot1 : hasFlag (SjPlaylistEntry.LoadAddInfo.markPlayCount a what).m_what
      SJ_ADDINFO_MISC = false := by
    rw [hasFlag_MISC, hmark.1, hnot]
  unfold SjPlaylistEntry.LoadAddInfo.body at h
  simp only [hmisc, hnot1, Bool.not_false, Bool.and_self, if_true] at h
  obtain ⟨a2, h1, h2, h3, h4⟩ := loadMisc_spec env e _ owner r h
  exact ⟨a2, h1, h2, h3, h4.trans hmark.2⟩

theorem LoadAddInfo_misc_result (env : SjEnv) (e : SjPlaylistEntry) (owner : Option SjSLHash)
    (what : Nat) (r : SjPlaylistEntry × Option SjSLHash) (hmain : env.g_mainFrame = true)
    (hmisc : hasFlag what SJ_ADDINFO_MISC = true)
    (h : e.LoadAddInfo env owner what = some r) :
    ∃ a2, r.1.m_addInfo = some a2 ∧ (a2.m_playtimeMs = -1 ∨ 0 < a2.m_playtimeMs) ∧
      a2.m_what.testBit 1 = true ∧ a2.m_playCount = e.GetPlayCount := by
  unfold SjPlaylistEntry.LoadAddInfo at h
  simp only [hmain, Bool.not_true, Bool.false_eq_true, if_false] at h
  by_cases hassert : (e.m_addInfo.getD SjPlaylistAddInfo.fresh).m_what &&& what = 0
  · simp only [hassert, bne_self_eq_false, Bool.false_eq_true, if_false] at h
    have hw : what.testBit 1 = true := by rw [← hasFlag_MISC]; exact hmisc
    have hnot := testBit_of_and_eq_zero _ what 1 hassert hw
    obtain ⟨a2, h1, h2, h3, h4⟩ := LoadAddInfo_body_misc env _ _ owner what r hmisc hnot h
    refine ⟨a2, h1, h2, h3, ?_⟩
    rw [h4]
    unfold SjPlaylistEntry.GetPlayCount
    cases e.m_addInfo <;> rfl
  · have : ((e.m_addInfo.getD SjPlaylistAddInfo.fresh).m_what &&& what != 0) = true := by
      simpa using hassert
    simp [this] at h

theorem LoadAddInfo_returns (env : SjEnv) (e : SjPlaylistEntry) (owner : Option SjSLHash)
    (what : Nat) (hmain : env.g_mainFrame = true)
    (hassert : (e.m_addInfo.getD SjPlaylistAddInfo.fresh).m_what &&& what = 0)
    (hurl : e.m_urlVerified = true ∨ owner = none) :
    ∃ r, e.LoadAddInfo env owner what = some r := by
  unfold SjPlaylistEntry.LoadAddInfo
  simp only [hmain, Bool.not_true, Bool.false_eq_true, if_false, hassert, bne_self_eq_false]
  unfold SjPlaylistEntry.LoadAddInfo.body
  obtain ⟨url, e2, hg, hv, _⟩ := GetUrl_returns env
    { e with m_addInfo := some (e.m_addInfo.getD SjPlaylistAddInfo.fresh) } owner hmain hurl
  by_cases hc : (hasFlag what SJ_ADDINFO_MISC && !hasFlag (SjPlaylistEntry.LoadAddInfo.markPlayCount
      (e.m_addInfo.getD SjPlaylistAddInfo.fresh) what).m_what SJ_ADDINFO_MISC) = true
  · simp only [hc, if_true]
    unfold SjPlaylistEntry.LoadAddInfo.loadMisc
    simp only [hg, hv, Bool.not_true, Bool.and_false, Bool.false_eq_true, if_false]
    exact ⟨_, rfl⟩
  · simp only [hc, Bool.false_eq_true, if_false]
    exact ⟨_, rfl⟩

/-! ## The playing time after LoadAddInfo -/

/-- Claim C15.  With the main frame present, `LoadAddInfo` for a request that includes the
descriptive metadata leaves a playing time that is -1 or strictly positive, whatever the
library lookup and the tag reader deliver (the environment is arbitrary), and the call
returns whenever its assertions hold: none of the requested categories is loaded yet, and
the entry is verified (or has no owner that verification would have to update). -/
theorem LoadAddInfo_playtime_normalised (env : SjEnv) (e : SjPlaylistEntry)
    (owner : Option SjSLHash) (what : Nat) (hmain : env.g_mainFrame = true)
    (hmisc : hasFlag what SJ_ADDINFO_MISC = true) :
    (∀ r, e.LoadAddInfo env owner what = some r →
      ∃ a, r.1.m_addInfo = some a ∧ (a.m_playtimeMs = -1 ∨ 0 < a.m_playtimeMs)) ∧
    ((e.m_addInfo.getD SjPlaylistAddInfo.fresh).m_what &&& what = 0 →
      (e.m_urlVerified = true ∨ owner = none) →
      ∃ r, e.LoadAddInfo env owner what = some r) := by
  refine ⟨?_, ?_⟩
  · intro r h
    obtain ⟨a, h1, h2, _, _⟩ := LoadAddInfo_misc_result env e owner what r hmain hmisc h
    exact ⟨a, h1, h2⟩
  · intro hassert hurl
    exact LoadAddInfo_returns env e owner what hmain hassert hurl

/-- Witness for C15: the library reports the playing time 0 for the track "b"; the block
holds -1 afterwards. -/
theorem LoadAddInfo_playtime_normalised_witness :
    arrivalEnv.g_mainFrame = true ∧ hasFlag SJ_ADDINFO_MISC SJ_ADDINFO_MISC = true ∧
    ((SjPlaylistEntry.new 2 "b" true 0).LoadAddInfo arrivalEnv none SJ_ADDINFO_MISC).map
      (fun r => r.1.m_addInfo.map (fun a => a.m_playtimeMs)) = some (some (-1)) ∧
    ((∀ r, (SjPlaylistEntry.new 2 "b" true 0).LoadAddInfo arrivalEnv none SJ_ADDINFO_MISC
        = some r →
      ∃ a, r.1.m_addInfo = some a ∧ (a.m_playtimeMs = -1 ∨ 0 < a.m_playtimeMs)) ∧
    (((SjPlaylistEntry.new 2 "b" true 0).m_addInfo.getD SjPlaylistAddInfo.fresh).m_what
        &&& SJ_ADDINFO_MISC = 0 →
      ((SjPlaylistEntry.new 2 "b" true 0).m_urlVerified = true ∨
        (none : Option SjSLHash) = none) →
      ∃ r, (SjPlaylistEntry.new 2 "b" true 0).LoadAddInfo arrivalEnv none SJ_ADDINFO_MISC
        = some r)) :=
  ⟨by decide, by decide, by decide,
    LoadAddInfo_playtime_normalised arrivalEnv (SjPlaylistEntry.new 2 "b" true 0) none
      SJ_ADDINFO_MISC (by decide) (by decide)⟩

/-! ## Repeated metadata loads -/

theorem CheckAddInfo_of_loaded (env : SjEnv) (e : SjPlaylistEntry) (owner : Option SjSLHash)
    (a : SjPlaylistAddInfo) (h : e.m_addInfo = some a) (hb : a.m_what.testBit 1 = true) :
    e.CheckAddInfo env owner SJ_ADDINFO_MISC = some (e, owner) := by
  unfold SjPlaylistEntry.CheckAddInfo
  rw [h]
  have h2 : a.m_what &&& SJ_ADDINFO_MISC = SJ_ADDINFO_MISC := (and_two_pow_eq_self_iff _ 1).2 hb
  simp [h2]

theorem GetPlayCount_of_block (e : SjPlaylistEntry) (a : SjPlaylistAddInfo)
    (h : e.m_addInfo = some a) : e.GetPlayCount = a.m_playCount := by
  unfold SjPlaylistEntry.GetPlayCount
  rw [h]

/-- What `CheckAddInfo` for the descriptive metadata leaves of the play count. -/
theorem CheckAddInfo_misc_playCount (env : SjEnv) (e : SjPlaylistEntry)
    (owner : Option SjSLHash) (r : SjPlaylistEntry × Option SjSLHash)
    (h : e.CheckAddInfo env owner SJ_ADDINFO_MISC = some r) :
    r.1.GetPlayCount = e.GetPlayCount := by
  have hload : e.LoadAddInfo env owner SJ_ADDINFO_MISC = some r →
      r.1.GetPlayCount = e.GetPlayCount := by
    intro hl
    by_cases hmain : env.g_mainFrame = true
    · obtain ⟨a, h1, _, _, h4⟩ :=
        LoadAddInfo_misc_result env e owner SJ_ADDINFO_MISC r hmain (by decide) hl
      rw [GetPlayCount_of_block _ _ h1, h4]
    · have hm : env.g_mainFrame = false := by simpa using hmain
      unfold SjPlaylistEntry.LoadAddInfo at hl
      simp only [hm, Bool.not_false, if_true, Option.some.injEq] at hl
      rw [← hl]
  unfold SjPlaylistEntry.CheckAddInfo at h
  cases hb : e.m_addInfo with
  | none =>
    simp only [hb] at h
    exact hload h
  | some a =>
    simp only [hb] at h
    by_cases hc : (a.m_what &&& SJ_ADDINFO_MISC == SJ_ADDINFO_MISC) = true
    · simp only [hc, if_true, Option.some.injEq] at h
      rw [← h]
    · simp only [hc, Bool.false_eq_true, if_false] at h
      exact hload h

/-- With the main frame present `CheckAddInfo` for the descriptive metadata returns, and the
entry has a block with the category loaded afterwards. -/
theorem CheckAddInfo_misc_returns (env : SjEnv) (e : SjPlaylistEntry)
    (owner : Option SjSLHash) (hmain : env.g_mainFrame = true)
    (hurl : e.m_urlVerified = true ∨ owner = none) :
    ∃ r a, e.CheckAddInfo env owner SJ_ADDINFO_MISC = some r ∧ r.1.m_addInfo = some a ∧
      a.m_what.testBit 1 = true := by
  have hload : (e.m_addInfo.getD SjPlaylistAddInfo.fresh).m_what.testBit 1 = false →
      ∃ r a, e.LoadAddInfo env owner SJ_ADDINFO_MISC = some r ∧ r.1.m_addInfo = some a ∧
        a.m_what.testBit 1 = true := by
    intro hbit
    have hassert := (and_two_pow_eq_zero_iff _ 1).2 hbit
    obtain ⟨r, hr⟩ := LoadAddInfo_returns env e owner SJ_ADDINFO_MISC hmain hassert hurl
    obtain ⟨a, h1, _, h3, _⟩ :=
      LoadAddInfo_misc_result env e owner SJ_ADDINFO_MISC r hmain (by decide) hr
    exact ⟨r, a, hr, h1, h3⟩
  unfold SjPlaylistEntry.CheckAddInfo
  cases hb : e.m_addInfo with
  | none =>
    simp only []
    apply hload
    rw [hb]
    rfl
  | some a =>
    simp only []
    by_cases hc : (a.m_what &&& SJ_ADDINFO_MISC == SJ_ADDINFO_MISC) = true
    · simp only [hc, if_true]
      refine ⟨(e, owner), a, rfl, hb, ?_⟩
      exact (and_two_pow_eq_self_iff _ 1).1 (by simpa using hc)
    · simp only [hc, Bool.false_eq_true, if_false]
      apply hload
      rw [hb]
      cases hbit : a.m_what.testBit 1
      · exact hbit
      · exact absurd (by simpa using (and_two_pow_eq_self_iff _ 1).2 hbit) hc

/-- Counterexample for C17.  First text: the normalisation of the claim leaves "A  - b",
whose part before the first " - " is "A " and whose part after it is "b", both non-empty,
yet the artist becomes "A": the code removes the white space at the end of the left part.
Second text: the normalisation of the claim leaves "hello", without " - " and non-empty,
yet the track name becomes "Hello": the code capitalises a text that is all lower case. -/
theorem SetRealtimeInfo_claimed_split_counterexample :
    (Find (normalizeAsClaimed "A  - b") " - " = 2 ∧
      Left (normalizeAsClaimed "A  - b") 2 = "A " ∧
      Mid (normalizeAsClaimed "A  - b") (2 + 3) = "b" ∧
      ((SjPlaylistEntry.new 1 "a" true 0).SetRealtimeInfo offlineEnv none "A  - b").map
        (fun r => r.1.m_addInfo.map (fun a => (a.m_leadArtistName, a.m_trackName)))
        = some (some ("A", "b"))) ∧
    (normalizeAsClaimed "hello" = "hello" ∧ Find (normalizeAsClaimed "hello") " - " = -1 ∧
      ((SjPlaylistEntry.new 1 "a" true 0).SetRealtimeInfo capitalEnv none "hello").map
        (fun r => r.1.m_addInfo.map (fun a => a.m_trackName)) = some (some "Hello")) := by
  decide

/-- Claim C17, amended.  The text is normalised by the code ("--" replaced by "-", a text
that is all upper case or all lower case capitalised, dashes and spaces removed from both
ends); `p` is the position of the first " - " in it, `L` the part before it without white
space at its end, `R` the part after it without white space at its start.  With the main
frame present and the entry verified (or without owner) `SetRealtimeInfo` returns.  Every
result is the entry after `CheckAddInfo` with its block changed as follows: if " - " occurs
and `R` is not empty, the artist becomes `L` and the track name `R`; if " - " occurs, `R` is
empty and `L` is not, only the track name changes, to `L`; if " - " does not occur and the
text is not empty, only the track name changes, to the text; otherwise nothing changes.
The play count is the one before the call. -/
theorem SetRealtimeInfo_split (env : SjEnv) (e : SjPlaylistEntry) (owner : Option SjSLHash)
    (text : String) :
    (env.g_mainFrame = true → (e.m_urlVerified = true ∨ owner = none) →
      ∃ r, e.SetRealtimeInfo env owner text = some r) ∧
    (∀ r, e.SetRealtimeInfo env owner text = some r →
      r.1.GetPlayCount = e.GetPlayCount ∧
      ∃ e2 a, e.CheckAddInfo env owner SJ_ADDINFO_MISC = some (e2, r.2) ∧
        e2.m_addInfo = some a ∧
        (let info := SjPlaylistEntry.SetRealtimeInfo.normalize env text
         let p := Find info " - "
         let L := TrimRight (Left info p.toNat)
         let R := TrimLeft (Mid info (p.toNat + 3))
         (p ≠ -1 → IsEmpty R = false →
            r.1 = { e2 with m_addInfo := some { a with m_leadArtistName := L,
                                                       m_trackName := R } }) ∧
         (p ≠ -1 → IsEmpty R = true → IsEmpty L = false →
            r.1 = { e2 with m_addInfo := some { a with m_trackName := L } }) ∧
         (p ≠ -1 → IsEmpty R = true → IsEmpty L = true → r.1 = e2) ∧
         (p = -1 → IsEmpty info = false →
            r.1 = { e2 with m_addInfo := some { a with m_trackName := info } }) ∧
         (p = -1 → IsEmpty info = true → r.1 = e2))) := by
  refine ⟨?_, ?_⟩
  · intro hmain hurl
    obtain ⟨r, a, hr, ha, _⟩ := CheckAddInfo_misc_returns env e owner hmain hurl
    unfold SjPlaylistEntry.SetRealtimeInfo
    simp only [hr, ha]
    split
    · split
      · split
        · exact ⟨_, rfl⟩
        · exact ⟨_, rfl⟩
      · exact ⟨_, rfl⟩
    · split
      · exact ⟨_, rfl⟩
      · exact ⟨_, rfl⟩
  · intro r h
    unfold SjPlaylistEntry.SetRealtimeInfo at h
    cases hc : e.CheckAddInfo env owner SJ_ADDINFO_MISC with
    | none => simp [hc] at h
    | some t =>
      obtain ⟨e2, owner2⟩ := t
      have hpc := CheckAddInfo_misc_playCount env e owner (e2, owner2) hc
      simp only [hc] at h
      cases ha : e2.m_addInfo with
      | none => simp [ha] at h
      | some a =>
        have hpc2 : a.m_playCount = e.GetPlayCount := by
          rw [← hpc]
          exact (GetPlayCount_of_block e2 a ha).symm
        simp only [ha] at h
        by_cases hp : Find (SjPlaylistEntry.SetRealtimeInfo.normalize env text) " - " = -1
        · simp only [hp, bne_self_eq_false, Bool.false_eq_true, if_false] at h
          cases hi : IsEmpty (SjPlaylistEntry.SetRealtimeInfo.normalize env text)
          · simp only [hi, Bool.not_false, if_true, Option.some.injEq] at h
            subst h
            refine ⟨hpc2, e2, a, rfl, ha, ?_⟩
            simp [hp, hi]
          · simp only [hi, Bool.not_true, Bool.false_eq_true, if_false,
              Option.some.injEq] at h
            subst h
            refine ⟨hpc, e2, a, rfl, ha, ?_⟩
            simp [hp, hi]
        · have hp2 : (Find (SjPlaylistEntry.SetRealtimeInfo.normalize env text) " - "
              != -1) = true := by simpa using hp
          simp only [hp2, if_true] at h
          cases hR : IsEmpty (TrimLeft (Mid (SjPlaylistEntry.SetRealtimeInfo.normalize env text)
              ((Find (SjPlaylistEntry.SetRealtimeInfo.normalize env text) " - ").toNat + 3)))
          · simp only [hR, Bool.not_false, Bool.or_true, if_true, Bool.false_eq_true, if_false,
              Option.some.injEq] at h
            subst h
            refine ⟨hpc2, e2, a, rfl, ha, ?_⟩
            simp [hp, hR]
          · cases hL : IsEmpty (TrimRight (Left
                (SjPlaylistEntry.SetRealtimeInfo.normalize env text)
                (Find (SjPlaylistEntry.SetRealtimeInfo.normalize env text) " - ").toNat))
            · simp only [hR, hL, Bool.not_false, Bool.not_true, Bool.or_false, if_true,
                Option.some.injEq] at h
              subst h
              refine ⟨hpc2, e2, a, rfl, ha, ?_⟩
              simp [hp, hR, hL]
            · simp only [hR, hL, Bool.not_true, Bool.or_false, Bool.false_eq_true, if_false,
                Option.some.injEq] at h
              subst h
              refine ⟨hpc, e2, a, rfl, ha, ?_⟩
              simp [hp, hR, hL]

/-- Witness for C17 (amended): a station sends the title with a doubled dash and dashes
around it. -/
theorem SetRealtimeInfo_split_witness :
    ((SjPlaylistEntry.new 1 "a" true 0).SetRealtimeInfo capitalEnv none
        "--QUEEN -- radio ga ga - ").map
      (fun r => r.1.m_addInfo.map (fun a => (a.m_leadArtistName, a.m_trackName)))
      = some (some ("QUEEN", "radio ga ga")) ∧
    ∃ r, (SjPlaylistEntry.new 1 "a" true 0).SetRealtimeInfo capitalEnv none
        "--QUEEN -- radio ga ga - " = some r :=
  ⟨by decide,
    (SetRealtimeInfo_split capitalEnv (SjPlaylistEntry.new 1 "a" true 0) none
      "--QUEEN -- radio ga ga - ").1 (by decide) (Or.inl (by decide))⟩

/-! ## The accessors of the descriptive metadata -/

theorem VerifyUrl_strip (env : SjEnv) (e e2 : SjPlaylistEntry) (owner o2 : Option SjSLHash)
    (h : e.VerifyUrl env owner = some (e2, o2)) : e.VerifyUrl env none = some (e2, none) := by
  unfold SjPlaylistEntry.VerifyUrl at h ⊢
  by_cases hmain : env.g_mainFrame = true
  · simp only [hmain, Bool.not_true, Bool.false_eq_true, if_false] at h ⊢
    by_cases hv : e.m_urlVerified = true
    · simp [hv] at h
    · simp only [hv, if_false] at h ⊢
      cases hr : SjPlaylistEntry.VerifyUrl.resolve env e with
      | none =>
        simp only [hr, Option.some.injEq, Prod.mk.injEq] at h
        obtain ⟨_, _⟩ := h
        simp
      | some L =>
        simp only [hr] at h
        cases owner with
        | none =>
          simp only [Option.some.injEq, Prod.mk.injEq] at h
          obtain ⟨_, _⟩ := h
          simp
        | some m =>
          simp only [] at h
          cases hm : RehashUrl m e.m_url L with
          | none => simp [hm] at h
          | some m2 =>
            simp only [hm, Option.some.injEq, Prod.mk.injEq] at h
            obtain ⟨_, _⟩ := h
            simp
  · have hm : env.g_mainFrame = false := by simpa using hmain
    simp only [hm, Bool.not_false, if_true, Option.some.injEq, Prod.mk.injEq] at h
    obtain ⟨h1, _⟩ := h
    subst h1
    simp [hm]

theorem GetUrl_strip (env : SjEnv) (e e2 : SjPlaylistEntry) (owner o2 : Option SjSLHash)
    (u : String) (h : e.GetUrl env owner = some (u, e2, o2)) :
    e.GetUrl env none = some (u, e2, none) := by
  unfold SjPlaylistEntry.GetUrl at h ⊢
  by_cases hv : e.m_urlVerified = true
  · simp only [hv, if_true, Option.some.injEq, Prod.mk.injEq] at h
    obtain ⟨h1, h2, _⟩ := h
    subst h1 h2
    simp [hv]
  · simp only [hv, Bool.false_eq_true, if_false] at h ⊢
    cases hr : e.VerifyUrl env owner with
    | none => simp [hr] at h
    | some t =>
      obtain ⟨e3, o3⟩ := t
      rw [VerifyUrl_strip env e e3 owner o3 hr]
      simp only [hr, Option.some.injEq, Prod.mk.injEq] at h
      obtain ⟨h1, h2, _⟩ := h
      subst h1 h2
      rfl

theorem loadMisc_strip (env : SjEnv) (e e2 : SjPlaylistEntry) (a : SjPlaylistAddInfo)
    (owner o2 : Option SjSLHash)
    (h : SjPlaylistEntry.LoadAddInfo.loadMisc env e a owner = some (e2, o2)) :
    SjPlaylistEntry.LoadAddInfo.loadMisc env e a none = some (e2, none) := by
  unfold SjPlaylistEntry.LoadAddInfo.loadMisc at h ⊢
  cases hg : e.GetUrl env owner with
  | none => simp [hg] at h
  | some t =>
    obtain ⟨u, e3, o3⟩ := t
    rw [GetUrl_strip env e e3 owner o3 u hg]
    simp only [hg] at h ⊢
    by_cases hc : (!(SjPlaylistEntry.LoadAddInfo.fromLibrary env u a).2
        && !e3.m_urlVerified) = true
    · simp [hc] at h
    · simp only [hc, Bool.false_eq_true, if_false, Option.some.injEq, Prod.mk.injEq] at h
      obtain ⟨h1, _⟩ := h
      subst h1
      simp only [hc, Bool.false_eq_true, if_false]

theorem LoadAddInfo_strip (env : SjEnv) (e e2 : SjPlaylistEntry) (owner o2 : Option SjSLHash)
    (what : Nat) (h : e.LoadAddInfo env owner what = some (e2, o2)) :
    e.LoadAddInfo env none what = some (e2, none) := by
  unfold SjPlaylistEntry.LoadAddInfo at h ⊢
  by_cases hmain : env.g_mainFrame = true
  · simp only [hmain, Bool.not_true, Bool.false_eq_true, if_false] at h ⊢
    by_cases hc : ((e.m_addInfo.getD SjPlaylistAddInfo.fresh).m_what &&& what != 0) = true
    · simp [hc] at h
    · simp only [hc, Bool.false_eq_true, if_false] at h ⊢
      unfold SjPlaylistEntry.LoadAddInfo.body at h ⊢
      by_cases hb : (hasFlag what SJ_ADDINFO_MISC &&
          !hasFlag (SjPlaylistEntry.LoadAddInfo.markPlayCount
            (e.m_addInfo.getD SjPlaylistAddInfo.fresh) what).m_what SJ_ADDINFO_MISC) = true
      · simp only [hb, if_true] at h ⊢
        exact loadMisc_strip env _ e2 _ owner o2 h
      · simp only [hb, Bool.false_eq_true, if_false, Option.some.injEq, Prod.mk.injEq] at h
        obtain ⟨h1, _⟩ := h
        subst h1
        simp only [hb, Bool.false_eq_true, if_false]
  · have hm : env.g_mainFrame = false := by simpa using hmain
    simp only [hm, Bool.not_false, if_true, Option.some.injEq, Prod.mk.injEq] at h
    obtain ⟨h1, _⟩ := h
    subst h1
    simp [hm]

theorem CheckAddInfo_strip (env : SjEnv) (e e2 : SjPlaylistEntry) (owner o2 : Option SjSLHash)
    (what : Nat) (h : e.CheckAddInfo env owner what = some (e2, o2)) :
    e.CheckAddInfo env none what = some (e2, none) := by
  unfold SjPlaylistEntry.CheckAddInfo at h ⊢
  cases hb : e.m_addInfo with
  | none =>
    simp only [hb] at h ⊢
    exact LoadAddInfo_strip env e e2 owner o2 what h
  | some a =>
    simp only [hb] at h ⊢
    by_cases hc : (a.m_what &&& what == what) = true
    · simp only [hc, if_true, Option.some.injEq, Prod.mk.injEq] at h
      obtain ⟨h1, _⟩ := h
      subst h1
      simp only [hc, if_true]
    · simp only [hc, Bool.false_eq_true, if_false] at h ⊢
      exact LoadAddInfo_strip env e e2 owner o2 what h

theorem CheckAddInfo_no_main (env : SjEnv) (e : SjPlaylistEntry) (owner : Option SjSLHash)
    (what : Nat) (hm : env.g_mainFrame = false) :
    e.CheckAddInfo env owner what = some (e, owner) := by
  have hl : e.LoadAddInfo env owner what = some (e, owner) := by
    unfold SjPlaylistEntry.LoadAddInfo
    simp [hm]
  unfold SjPlaylistEntry.CheckAddInfo
  cases e.m_addInfo with
  | none => exact hl
  | some a =>
    simp only []
    split
    · rfl
    · exact hl

/-- After `CheckAddInfo` for the descriptive metadata has returned, asking again changes
nothing. -/
theorem CheckAddInfo_idem (env : SjEnv) (e e2 : SjPlaylistEntry) (owner o2 : Option SjSLHash)
    (h : e.CheckAddInfo env owner SJ_ADDINFO_MISC = some (e2, o2)) (owner2 : Option SjSLHash) :
    e2.CheckAddInfo env owner2 SJ_ADDINFO_MISC = some (e2, owner2) := by
  by_cases hmain : env.g_mainFrame = true
  · have hload : e.LoadAddInfo env owner SJ_ADDINFO_MISC = some (e2, o2) →
        e2.CheckAddInfo env owner2 SJ_ADDINFO_MISC = some (e2, owner2) := by
      intro hl
      obtain ⟨a, h1, _, h3, _⟩ :=
        LoadAddInfo_misc_result env e owner SJ_ADDINFO_MISC (e2, o2) hmain (by decide) hl
      exact CheckAddInfo_of_loaded env e2 owner2 a h1 h3
    unfold SjPlaylistEntry.CheckAddInfo at h
    cases hb : e.m_addInfo with
    | none =>
      simp only [hb] at h
      exact hload h
    | some a =>
      simp only [hb] at h
      by_cases hc : (a.m_what &&& SJ_ADDINFO_MISC == SJ_ADDINFO_MISC) = true
      · simp only [hc, if_true, Option.some.injEq, Prod.mk.injEq] at h
        obtain ⟨h1, _⟩ := h
        subst h1
        exact CheckAddInfo_of_loaded env e owner2 a hb
          ((and_two_pow_eq_self_iff _ 1).1 (by simpa using hc))
      · simp only [hc, Bool.false_eq_true, if_false] at h
        exact hload h
  · have hm : env.g_mainFrame = false := by simpa using hmain
    rw [CheckAddInfo_no_main env e owner _ hm] at h
    simp only [Option.some.injEq, Prod.mk.injEq] at h
    obtain ⟨h1, _⟩ := h
    subst h1
    exact CheckAddInfo_no_main env e owner2 _ hm

/-- What a read through `CheckAddInfo` returns: the value is taken from the block of the
entry afterwards; a second read of that entry returns the entry as it is, under every owner;
and the same read without owner gives the same entry. -/
theorem readMisc_spec {α : Type} (env : SjEnv) (e e2 : SjPlaylistEntry)
    (owner o2 : Option SjSLHash) (f : SjPlaylistAddInfo → α) (x : α)
    (h : e.readMisc env owner f = some (x, e2, o2)) :
    ∃ a, e2.m_addInfo = some a ∧ x = f a ∧
      (∀ (β : Type) (g : SjPlaylistAddInfo → β) (owner2 : Option SjSLHash),
        e2.readMisc env owner2 g = some (g a, e2, owner2)) ∧
      (∀ (β : Type) (g : SjPlaylistAddInfo → β),
        e.readMisc env none g = some (g a, e2, none)) := by
  unfold SjPlaylistEntry.readMisc at h
  cases hc : e.CheckAddInfo env owner SJ_ADDINFO_MISC with
  | none => simp [hc] at h
  | some t =>
    obtain ⟨e3, o3⟩ := t
    simp only [hc] at h
    cases ha : e3.m_addInfo with
    | none => simp [ha] at h
    | some a =>
      simp only [ha, Option.some.injEq, Prod.mk.injEq] at h
      obtain ⟨h1, h2, h3⟩ := h
      subst h2
      refine ⟨a, ha, h1.symm, ?_, ?_⟩
      · intro β g owner2
        unfold SjPlaylistEntry.readMisc
        rw [CheckAddInfo_idem env e e3 owner o3 hc owner2]
        simp only [ha]
      · intro β g
        unfold SjPlaylistEntry.readMisc
        rw [CheckAddInfo_strip env e e3 owner o3 _ hc]
        simp only [ha]

/-- The names that an entry reports on its own after a read has returned. -/
theorem names_of_readMisc {α : Type} (env : SjEnv) (e e2 : SjPlaylistEntry)
    (owner o2 : Option SjSLHash) (f : SjPlaylistAddInfo → α) (x : α)
    (h : e.readMisc env owner f = some (x, e2, o2)) :
    ∃ a, e2.m_addInfo = some a ∧ x = f a ∧
      e.leadArtistName env = some a.m_leadArtistName ∧
      e.albumName env = some a.m_albumName ∧
      e2.leadArtistName env = some a.m_leadArtistName ∧
      e2.albumName env = some a.m_albumName := by
  obtain ⟨a, h1, h2, h3, h4⟩ := readMisc_spec env e e2 owner o2 f x h
  refine ⟨a, h1, h2, ?_, ?_, ?_, ?_⟩
  · unfold SjPlaylistEntry.leadArtistName SjPlaylistEntry.GetLeadArtistName
    rw [h4]; rfl
  · unfold SjPlaylistEntry.albumName SjPlaylistEntry.GetAlbumName
    rw [h4]; rfl
  · unfold SjPlaylistEntry.leadArtistName SjPlaylistEntry.GetLeadArtistName
    rw [h3]; rfl
  · unfold SjPlaylistEntry.albumName SjPlaylistEntry.GetAlbumName
    rw [h3]; rfl

/-! ## LoadOverallNames -/

theorem set_eq_self_of_getElem? {α : Type} (l : List α) (i : Nat) (y : α)
    (h : l[i]? = some y) : l.set i y = l := by
  induction l generalizing i with
  | nil => rfl
  | cons x rest ih =>
    cases i with
    | zero =>
      simp only [List.getElem?_cons_zero, Option.some.injEq] at h
      subst h
      rfl
    | succ j =>
      simp only [List.getElem?_cons_succ] at h
      simp only [List.set_cons_succ, ih j h]

theorem all_drop_take_succ {α : Type} (l : List α) (i n : Nat) (x : α) (q : α → Bool)
    (h : l[i]? = some x) :
    ((l.drop i).take (n + 1)).all q = (q x && ((l.drop (i + 1)).take n).all q) := by
  obtain ⟨hi, hx⟩ := List.getElem?_eq_some.1 h
  rw [List.drop_eq_getElem_cons hi, hx]
  rfl

/-- Reading a member of the block of the entry at a position: the value is the one the
entry reports on its own, and the playlist keeps the names of all its entries, its cache
flags, its overall names and its name. -/
theorem onItem_readMisc {α : Type} (env : SjEnv) (p p2 : SjPlaylist) (i : Nat)
    (f : SjPlaylistAddInfo → α) (x : α)
    (h : p.onItem i (fun e owner => e.readMisc env owner f) = some (x, p2)) :
    (∃ a, (p.entryNames env)[i]? = some (some a.m_leadArtistName, some a.m_albumName) ∧
      x = f a) ∧
    p2.entryNames env = p.entryNames env ∧ p2.m_cacheFlags = p.m_cacheFlags ∧
    p2.m_overallLeadArtistName = p.m_overallLeadArtistName ∧
    p2.m_overallAlbumName = p.m_overallAlbumName ∧
    p2.m_playlistName = p.m_playlistName := by
  unfold SjPlaylist.onItem at h
  cases he : p.m_array[i]? with
  | none => simp [he] at h
  | some e =>
    simp only [he] at h
    cases hr : e.readMisc env (some p.m_urlCounts) f with
    | none => simp [hr] at h
    | some t =>
      obtain ⟨y, e2, o2⟩ := t
      simp only [hr, Option.some.injEq, Prod.mk.injEq] at h
      obtain ⟨h1, h2⟩ := h
      subst h1 h2
      obtain ⟨a, _, hx, hA, hB, hA2, hB2⟩ := names_of_readMisc env e e2 _ o2 f y hr
      have hN : (p.entryNames env)[i]? = some (some a.m_leadArtistName, some a.m_albumName) := by
        unfold SjPlaylist.entryNames
        rw [List.getElem?_map, he, ← hA, ← hB]
        rfl
      refine ⟨⟨a, hN, hx⟩, ?_, rfl, rfl, rfl, rfl⟩
      show (p.m_array.set i e2).map _ = p.entryNames env
      rw [List.map_set, hA2, hB2]
      exact set_eq_self_of_getElem? _ i _ hN

theorem onItem_artist (env : SjEnv) (p p2 : SjPlaylist) (i : Nat) (x : String)
    (h : p.onItem i (fun e owner => e.GetLeadArtistName env owner) = some (x, p2)) :
    (∃ y, (p.entryNames env)[i]? = some (some x, some y)) ∧
    p2.entryNames env = p.entryNames env ∧ p2.m_cacheFlags = p.m_cacheFlags ∧
    p2.m_overallLeadArtistName = p.m_overallLeadArtistName ∧
    p2.m_overallAlbumName = p.m_overallAlbumName ∧
    p2.m_playlistName = p.m_playlistName := by
  obtain ⟨⟨a, h1, h2⟩, h3⟩ := onItem_readMisc env p p2 i (fun a => a.m_leadArtistName) x h
  subst h2
  exact ⟨⟨_, h1⟩, h3⟩

theorem onItem_album (env : SjEnv) (p p2 : SjPlaylist) (i : Nat) (x : String)
    (h : p.onItem i (fun e owner => e.GetAlbumName env owner) = some (x, p2)) :
    (∃ y, (p.entryNames env)[i]? = some (some y, some x)) ∧
    p2.entryNames env = p.entryNames env ∧ p2.m_cacheFlags = p.m_cacheFlags ∧
    p2.m_overallLeadArtistName = p.m_overallLeadArtistName ∧
    p2.m_overallAlbumName = p.m_overallAlbumName ∧
    p2.m_playlistName = p.m_playlistName := by
  obtain ⟨⟨a, h1, h2⟩, h3⟩ := onItem_readMisc env p p2 i (fun a => a.m_albumName) x h
  subst h2
  exact ⟨⟨_, h1⟩, h3⟩

theorem testBit_clearFlag_ARTIST (f : Nat) :
    (clearFlag f SJ_CACHE_LEAD_ARTIST_FINE).testBit 0 = f.testBit 0 ∧
    (clearFlag f SJ_CACHE_LEAD_ARTIST_FINE).testBit 1 = false ∧
    (clearFlag f SJ_CACHE_LEAD_ARTIST_FINE).testBit 2 = f.testBit 2 := by
  refine ⟨?_, ?_, ?_⟩
  · rw [testBit_clearFlag, show SJ_CACHE_LEAD_ARTIST_FINE.testBit 0 = false from by decide]
    simp
  · rw [testBit_clearFlag, show SJ_CACHE_LEAD_ARTIST_FINE.testBit 1 = true from by decide]
    simp
  · rw [testBit_clearFlag, show SJ_CACHE_LEAD_ARTIST_FINE.testBit 2 = false from by decide]
    simp

theorem testBit_clearFlag_ALBUM (f : Nat) :
    (clearFlag f SJ_CACHE_ALBUM_FINE).testBit 0 = f.testBit 0 ∧
    (clearFlag f SJ_CACHE_ALBUM_FINE).testBit 1 = f.testBit 1 ∧
    (clearFlag f SJ_CACHE_ALBUM_FINE).testBit 2 = false := by
  refine ⟨?_, ?_, ?_⟩
  · rw [testBit_clearFlag, show SJ_CACHE_ALBUM_FINE.testBit 0 = false from by decide]
    simp
  · rw [testBit_clearFlag, show SJ_CACHE_ALBUM_FINE.testBit 1 = false from by decide]
    simp
  · rw [testBit_clearFlag, show SJ_CACHE_ALBUM_FINE.testBit 2 = true from by decide]
    simp

/-- One pass through the loop body of `LoadOverallNames`: an entry is compared with the
overall names; a fine flag stays set exactly if it was set and the name of the entry is the
overall name; the loop is left only with both flags cleared. -/
theorem LoadOverallNames_step_spec (env : SjEnv) (i : Nat) (p p2 : SjPlaylist) (cont : Bool)
    (h : SjPlaylist.LoadOverallNames.step env i p = some (p2, cont)) :
    ∃ x, (p.entryNames env)[i]? = some x ∧
      p2.entryNames env = p.entryNames env ∧
      p2.m_overallLeadArtistName = p.m_overallLeadArtistName ∧
      p2.m_overallAlbumName = p.m_overallAlbumName ∧
      p2.m_playlistName = p.m_playlistName ∧
      p2.m_cacheFlags.testBit 0 = p.m_cacheFlags.testBit 0 ∧
      p2.m_cacheFlags.testBit 1 =
        (p.m_cacheFlags.testBit 1 && x.1 == some p.m_overallLeadArtistName) ∧
      p2.m_cacheFlags.testBit 2 =
        (p.m_cacheFlags.testBit 2 && x.2 == some p.m_overallAlbumName) ∧
      (cont = false →
        p2.m_cacheFlags.testBit 1 = false ∧ p2.m_cacheFlags.testBit 2 = false) := by
  unfold SjPlaylist.LoadOverallNames.step at h
  cases h1 : p.onItem i (fun e owner => e.GetLeadArtistName env owner) with
  | none => simp [h1] at h
  | some t =>
    obtain ⟨artist, p1⟩ := t
    simp only [h1] at h
    obtain ⟨⟨y, hN⟩, hn1, hf1, hA1, hB1, hP1⟩ := onItem_artist env p p1 i artist h1
    refine ⟨_, hN, ?_⟩
    -- the artist half
    obtain ⟨pm, hpm, hmn, hmA, hmB, hmP, hm0, hm1, hm2, hcase⟩ :
        ∃ pm : SjPlaylist,
          pm = (if (artist != p1.m_overallLeadArtistName) = true
            then
              { p1 with m_cacheFlags := clearFlag p1.m_cacheFlags SJ_CACHE_LEAD_ARTIST_FINE }
            else p1) ∧
          pm.entryNames env = p.entryNames env ∧
          pm.m_overallLeadArtistName = p.m_overallLeadArtistName ∧
          pm.m_overallAlbumName = p.m_overallAlbumName ∧
          pm.m_playlistName = p.m_playlistName ∧
          pm.m_cacheFlags.testBit 0 = p.m_cacheFlags.testBit 0 ∧
          pm.m_cacheFlags.testBit 1 =
            (p.m_cacheFlags.testBit 1 && artist == p.m_overallLeadArtistName) ∧
          pm.m_cacheFlags.testBit 2 = p.m_cacheFlags.testBit 2 ∧
          (artist != p1.m_overallLeadArtistName) = !(artist == p.m_overallLeadArtistName) := by
      refine ⟨_, rfl, ?_⟩
      by_cases hA : artist = p.m_overallLeadArtistName
      · have hne : ¬ (artist != p1.m_overallLeadArtistName) = true := by rw [hA1]; simp [hA]
        rw [if_neg hne]
        refine ⟨hn1, hA1, hB1, hP1, ?_, ?_, ?_, ?_⟩
        · rw [hf1]
        · rw [hf1]; simp [hA]
        · rw [hf1]
        · simp only [hA1, bne]
      · have hne : (artist != p1.m_overallLeadArtistName) = true := by rw [hA1]; simpa using hA
        rw [if_pos hne]
        have hb := testBit_clearFlag_ARTIST p1.m_cacheFlags
        refine ⟨hn1, hA1, hB1, hP1, ?_, ?_, ?_, ?_⟩
        · exact hb.1.trans (by rw [hf1])
        · have hAf : (artist == p.m_overallLeadArtistName) = false := by simpa using hA
          rw [hb.2.1, hAf, Bool.and_false]
        · exact hb.2.2.trans (by rw [hf1])
        · simp only [hA1, bne]
    rw [← hpm] at h
    have hx1 : ((some artist : Option String) == some p.m_overallLeadArtistName)
        = (artist == p.m_overallLeadArtistName) := by
      by_cases hA : artist = p.m_overallLeadArtistName <;> simp [hA]
    by_cases hbrk : ((artist != p1.m_overallLeadArtistName)
        && !hasFlag pm.m_cacheFlags SJ_CACHE_ALBUM_FINE) = true
    · simp only [hbrk, if_true, Option.some.injEq, Prod.mk.injEq] at h
      obtain ⟨h2, h3⟩ := h
      subst h2
      rw [hcase, hasFlag_ALBUM, hm2] at hbrk
      simp only [Bool.and_eq_true, Bool.not_eq_true', beq_eq_false_iff_ne, ne_eq] at hbrk
      have hAf : (artist == p.m_overallLeadArtistName) = false := by simpa using hbrk.1
      refine ⟨hmn, hmA, hmB, hmP, hm0, ?_, ?_, ?_⟩
      · rw [hm1, hx1]
      · rw [hm2, hbrk.2]; simp
      · intro _
        rw [hm1, hm2, hbrk.2, hAf]
        simp
    · simp only [hbrk, Bool.false_eq_true, if_false] at h
      cases h4 : pm.onItem i (fun e owner => e.GetAlbumName env owner) with
      | none => simp [h4] at h
      | some t2 =>
        obtain ⟨album, p3⟩ := t2
        simp only [h4] at h
        obtain ⟨⟨y2, hN2⟩, hn3, hf3, hA3, hB3, hP3⟩ := onItem_album env pm p3 i album h4
        rw [hmn, hN] at hN2
        simp only [Option.some.injEq, Prod.mk.injEq] at hN2
        have hy : y = album := hN2.2
        subst hy
        have hx2 : ((some y : Option String) == some p.m_overallAlbumName)
            = (y == p.m_overallAlbumName) := by
          by_cases hB : y = p.m_overallAlbumName <;> simp [hB]
        have hpB : p3.m_overallAlbumName = p.m_overallAlbumName := hB3.trans hmB
        by_cases hB : y = p.m_overallAlbumName
        · have hc : (y != p3.m_overallAlbumName) = false := by rw [hpB]; simp [hB]
          simp only [hc, Bool.false_eq_true, if_false, Bool.false_and, Option.some.injEq,
            Prod.mk.injEq] at h
          obtain ⟨h5, h6⟩ := h
          subst h5 h6
          refine ⟨hn3.trans hmn, hA3.trans hmA, hpB, hP3.trans hmP, ?_, ?_, ?_, ?_⟩
          · rw [hf3, hm0]
          · rw [hf3, hm1, hx1]
          · rw [hf3, hm2, hx2]; simp [hB]
          · intro hf; cases hf
        · have hc : (y != p3.m_overallAlbumName) = true := by rw [hpB]; simpa using hB
          have hb := testBit_clearFlag_ALBUM p3.m_cacheFlags
          have hBf : (y == p.m_overallAlbumName) = false := by simpa using hB
          simp only [hc, if_true, Bool.true_and] at h
          have hfin : ∀ q : SjPlaylist,
              q = { p3 with m_cacheFlags := clearFlag p3.m_cacheFlags SJ_CACHE_ALBUM_FINE } →
              q.entryNames env = p.entryNames env ∧
              q.m_overallLeadArtistName = p.m_overallLeadArtistName ∧
              q.m_overallAlbumName = p.m_overallAlbumName ∧
              q.m_playlistName = p.m_playlistName ∧
              q.m_cacheFlags.testBit 0 = p.m_cacheFlags.testBit 0 ∧
              q.m_cacheFlags.testBit 1 =
                (p.m_cacheFlags.testBit 1 && (some artist, some y).1
                  == some p.m_overallLeadArtistName) ∧
              q.m_cacheFlags.testBit 2 =
                (p.m_cacheFlags.testBit 2 && (some artist, some y).2
                  == some p.m_overallAlbumName) := by
            intro q hq
            subst hq
            refine ⟨hn3.trans hmn, hA3.trans hmA, hpB, hP3.trans hmP, ?_, ?_, ?_⟩
            · exact hb.1.trans (by rw [hf3, hm0])
            · exact hb.2.1.trans (by rw [hf3, hm1, hx1])
            · rw [hb.2.2, hx2, hBf]; simp
          by_cases hbrk2 : (!hasFlag (clearFlag p3.m_cacheFlags SJ_CACHE_ALBUM_FINE)
              SJ_CACHE_LEAD_ARTIST_FINE) = true
          · simp only [hbrk2, if_true, Option.some.injEq, Prod.mk.injEq] at h
            obtain ⟨h5, h6⟩ := h
            subst h5 h6
            obtain ⟨g1, g2, g3, g4, g5, g6, g7⟩ := hfin _ rfl
            refine ⟨g1, g2, g3, g4, g5, g6, g7, ?_⟩
            intro _
            refine ⟨?_, hb.2.2⟩
            rw [hasFlag_ARTIST] at hbrk2
            simpa using hbrk2
          · simp only [hbrk2, Bool.false_eq_true, if_false, Option.some.injEq,
              Prod.mk.injEq] at h
            obtain ⟨h5, h6⟩ := h
            subst h5 h6
            obtain ⟨g1, g2, g3, g4, g5, g6, g7⟩ := hfin _ rfl
            exact ⟨g1, g2, g3, g4, g5, g6, g7, fun hf => by cases hf⟩

/-- The loop of `LoadOverallNames` over `n` entries from the index `i` on: a fine flag is
set afterwards exactly if it was set before and every entry of the range reports the overall
name. -/
theorem LoadOverallNames_loop_spec (env : SjEnv) :
    ∀ (n i : Nat) (p p2 : SjPlaylist), SjPlaylist.LoadOverallNames.loop env n i p = some p2 →
      p2.entryNames env = p.entryNames env ∧
      p2.m_overallLeadArtistName = p.m_overallLeadArtistName ∧
      p2.m_overallAlbumName = p.m_overallAlbumName ∧
      p2.m_playlistName = p.m_playlistName ∧
      p2.m_cacheFlags.testBit 0 = p.m_cacheFlags.testBit 0 ∧
      p2.m_cacheFlags.testBit 1 = (p.m_cacheFlags.testBit 1 &&
        (((p.entryNames env).drop i).take n).all
          (fun x => x.1 == some p.m_overallLeadArtistName)) ∧
      p2.m_cacheFlags.testBit 2 = (p.m_cacheFlags.testBit 2 &&
        (((p.entryNames env).drop i).take n).all
          (fun x => x.2 == some p.m_overallAlbumName)) := by
  intro n
  induction n with
  | zero =>
    intro i p p2 h
    simp only [SjPlaylist.LoadOverallNames.loop, Option.some.injEq] at h
    subst h
    simp
  | succ n ih =>
    intro i p p2 h
    rw [SjPlaylist.LoadOverallNames.loop] at h
    cases hs : SjPlaylist.LoadOverallNames.step env i p with
    | none => simp [hs] at h
    | some t =>
      obtain ⟨q, cont⟩ := t
      obtain ⟨x, hN, hn, hA, hB, hP, h0, h1, h2, hbrk⟩ :=
        LoadOverallNames_step_spec env i p q cont hs
      rw [all_drop_take_succ _ i n x _ hN, all_drop_take_succ _ i n x _ hN]
      cases cont with
      | false =>
        simp only [hs, Option.some.injEq] at h
        subst h
        obtain ⟨hb1, hb2⟩ := hbrk rfl
        refine ⟨hn, hA, hB, hP, h0, ?_, ?_⟩
        · rw [hb1, ← Bool.and_assoc, ← h1, hb1, Bool.false_and]
        · rw [hb2, ← Bool.and_assoc, ← h2, hb2, Bool.false_and]
      | true =>
        simp only [hs] at h
        obtain ⟨gn, gA, gB, gP, g0, g1, g2⟩ := ih (i + 1) q p2 h
        refine ⟨gn.trans hn, gA.trans hA, gB.trans hB, gP.trans hP, g0.trans h0, ?_, ?_⟩
        · rw [g1, h1, hn, hA, Bool.and_assoc]
        · rw [g2, h2, hn, hB, Bool.and_assoc]

theorem testBit_or_LOADED (f : Nat) :
    (f ||| SJ_CACHE_OVERALL_LOADED).testBit 0 = true ∧
    (f ||| SJ_CACHE_OVERALL_LOADED).testBit 1 = f.testBit 1 ∧
    (f ||| SJ_CACHE_OVERALL_LOADED).testBit 2 = f.testBit 2 := by
  refine ⟨?_, ?_, ?_⟩
  · rw [Nat.testBit_or, show SJ_CACHE_OVERALL_LOADED.testBit 0 = true from by decide]
    simp
  · rw [Nat.testBit_or, show SJ_CACHE_OVERALL_LOADED.testBit 1 = false from by decide]
    simp
  · rw [Nat.testBit_or, show SJ_CACHE_OVERALL_LOADED.testBit 2 = false from by decide]
    simp

theorem testBit_or_FINE (f : Nat) :
    (f ||| (SJ_CACHE_LEAD_ARTIST_FINE ||| SJ_CACHE_ALBUM_FINE)).testBit 0 = f.testBit 0 ∧
    (f ||| (SJ_CACHE_LEAD_ARTIST_FINE ||| SJ_CACHE_ALBUM_FINE)).testBit 1 = true ∧
    (f ||| (SJ_CACHE_LEAD_ARTIST_FINE ||| SJ_CACHE_ALBUM_FINE)).testBit 2 = true := by
  refine ⟨?_, ?_, ?_⟩
  · rw [Nat.testBit_or, show (SJ_CACHE_LEAD_ARTIST_FINE ||| SJ_CACHE_ALBUM_FINE).testBit 0
      = false from by decide]
    simp
  · rw [Nat.testBit_or, show (SJ_CACHE_LEAD_ARTIST_FINE ||| SJ_CACHE_ALBUM_FINE).testBit 1
      = true from by decide]
    simp
  · rw [Nat.testBit_or, show (SJ_CACHE_LEAD_ARTIST_FINE ||| SJ_CACHE_ALBUM_FINE).testBit 2
      = true from by decide]
    simp

/-- The scan of `LoadOverallNames` on an empty playlist: only the loaded flag is set. -/
theorem LoadOverallNames_scan_nil (env : SjEnv) (p : SjPlaylist) (hp : p.m_array = []) :
    SjPlaylist.LoadOverallNames.scan env p
      = some { p with m_cacheFlags := p.m_cacheFlags ||| SJ_CACHE_OVERALL_LOADED } := by
  unfold SjPlaylist.LoadOverallNames.scan
  simp [hp]

/-- The scan of `LoadOverallNames` on a playlist that is not empty: the overall names are
the names of the first entry, and a fine flag is set exactly if every further entry reports
the same name. -/
theorem LoadOverallNames_scan_cons (env : SjEnv) (p q : SjPlaylist)
    (x : Option String × Option String) (rest : List (Option String × Option String))
    (hN : p.entryNames env = x :: rest)
    (h : SjPlaylist.LoadOverallNames.scan env p = some q) :
    q.entryNames env = p.entryNames env ∧ q.m_playlistName = p.m_playlistName ∧
    q.m_cacheFlags.testBit 0 = true ∧
    x = (some q.m_overallLeadArtistName, some q.m_overallAlbumName) ∧
    q.m_cacheFlags.testBit 1 = rest.all (fun y => y.1 == some q.m_overallLeadArtistName) ∧
    q.m_cacheFlags.testBit 2 = rest.all (fun y => y.2 == some q.m_overallAlbumName) := by
  have hlen : p.m_array.length = rest.length + 1 := by
    have := congrArg List.length hN
    simpa [SjPlaylist.entryNames] using this
  unfold SjPlaylist.LoadOverallNames.scan at h
  have hpos : p.m_array.length > 0 := by omega
  simp only [hpos, if_true] at h
  cases h1 : SjPlaylist.onItem
      { p with m_cacheFlags := p.m_cacheFlags ||| SJ_CACHE_OVERALL_LOADED |||
        (SJ_CACHE_LEAD_ARTIST_FINE ||| SJ_CACHE_ALBUM_FINE) } 0
      (fun e owner => e.GetLeadArtistName env owner) with
  | none => simp [h1] at h
  | some t =>
    obtain ⟨artist, p3⟩ := t
    simp only [h1] at h
    obtain ⟨⟨y, hN3⟩, hn3, hf3, _, _, hP3⟩ := onItem_artist env _ p3 0 artist h1
    cases h2 : SjPlaylist.onItem { p3 with m_overallLeadArtistName := artist } 0
        (fun e owner => e.GetAlbumName env owner) with
    | none => simp [h2] at h
    | some t2 =>
      obtain ⟨album, p5⟩ := t2
      simp only [h2] at h
      obtain ⟨⟨y2, hN5⟩, hn5, hf5, hA5, _, hP5⟩ := onItem_album env _ p5 0 album h2
      obtain ⟨gn, gA, gB, gP, g0, g1, g2⟩ := LoadOverallNames_loop_spec env _ 1 _ q h
      have e3 : p3.entryNames env = p.entryNames env := hn3
      have e5 : p5.entryNames env = p.entryNames env := hn5.trans e3
      have hx : x = (some artist, some album) := by
        have h3 : (p.entryNames env)[0]? = some (some artist, some y) := hN3
        have h5 : (p3.entryNames env)[0]? = some (some y2, some album) := hN5
        rw [e3] at h5
        rw [hN] at h3 h5
        simp only [List.getElem?_cons_zero, Option.some.injEq] at h3 h5
        rw [h3] at h5 ⊢
        simp only [Prod.mk.injEq, Option.some.injEq] at h5
        rw [h5.2]
      have hq : SjPlaylist.entryNames env { p5 with m_overallAlbumName := album }
          = x :: rest := by
        rw [← hN, ← e5]; rfl
      have hqA : q.m_overallLeadArtistName = artist := gA.trans hA5
      have hqB : q.m_overallAlbumName = album := gB
      have hfl := testBit_or_FINE (p.m_cacheFlags ||| SJ_CACHE_OVERALL_LOADED)
      have hfl0 := testBit_or_LOADED p.m_cacheFlags
      have hflags : p5.m_cacheFlags = p.m_cacheFlags ||| SJ_CACHE_OVERALL_LOADED |||
          (SJ_CACHE_LEAD_ARTIST_FINE ||| SJ_CACHE_ALBUM_FINE) := hf5.trans hf3
      have htake : (List.take (p.m_array.length - 1) rest) = rest := by
        apply List.take_of_length_le
        omega
      rw [hq] at g1 g2
      simp only [List.drop_one, List.tail_cons, htake] at g1 g2
      refine ⟨gn.trans e5, gP.trans (hP5.trans hP3), ?_, ?_, ?_, ?_⟩
      · rw [g0]
        show p5.m_cacheFlags.testBit 0 = true
        rw [hflags, hfl.1, hfl0.1]
      · rw [hx, hqA, hqB]
      · rw [g1, hqA]
        show (p5.m_cacheFlags.testBit 1 && _) = _
        rw [hflags, hfl.2.1, Bool.true_and]
        exact congrArg (fun s => rest.all (fun y => y.1 == some s)) hA5
      · rw [g2, hqB]
        show (p5.m_cacheFlags.testBit 2 && _) = _
        rw [hflags, hfl.2.2, Bool.true_and]

theorem all_names_fst (env : SjEnv) (l : List SjPlaylistEntry) (s : String) :
    (l.map (fun e => (e.leadArtistName env, e.albumName env))).all
      (fun y => y.1 == some s) = true ↔ ∀ e ∈ l, e.leadArtistName env = some s := by
  simp [List.all_eq_true]

theorem all_names_snd (env : SjEnv) (l : List SjPlaylistEntry) (s : String) :
    (l.map (fun e => (e.leadArtistName env, e.albumName env))).all
      (fun y => y.2 == some s) = true ↔ ∀ e ∈ l, e.albumName env = some s := by
  simp [List.all_eq_true]

/-- What `LoadOverallNames` computes on a playlist whose cache is not loaded (and, if the
playlist is empty, whose fine flags are not set): the loaded flag is set; a fine flag is
set exactly if the playlist is not empty and all entries report the same name; an overall
name is the shared name without the white space around it if the flag is set and this is
not empty, and the placeholder otherwise. -/
theorem LoadOverallNames_spec (env : SjEnv) (p q : SjPlaylist)
    (hnot : hasFlag p.m_cacheFlags SJ_CACHE_OVERALL_LOADED = false)
    (hstale : p.m_array = [] → hasFlag p.m_cacheFlags SJ_CACHE_LEAD_ARTIST_FINE = false ∧
      hasFlag p.m_cacheFlags SJ_CACHE_ALBUM_FINE = false)
    (h : p.LoadOverallNames env = some q) :
    q.m_playlistName = p.m_playlistName ∧
    hasFlag q.m_cacheFlags SJ_CACHE_OVERALL_LOADED = true ∧
    (hasFlag q.m_cacheFlags SJ_CACHE_LEAD_ARTIST_FINE = true ↔
      p.m_array ≠ [] ∧ ∃ a, ∀ e ∈ p.m_array, e.leadArtistName env = some a) ∧
    (hasFlag q.m_cacheFlags SJ_CACHE_ALBUM_FINE = true ↔
      p.m_array ≠ [] ∧ ∃ b, ∀ e ∈ p.m_array, e.albumName env = some b) ∧
    (∀ a, p.m_array ≠ [] → (∀ e ∈ p.m_array, e.leadArtistName env = some a) →
      q.m_overallLeadArtistName =
        if IsEmpty (TrimLeft (TrimRight a)) then "Several artists"
        else TrimLeft (TrimRight a)) ∧
    (hasFlag q.m_cacheFlags SJ_CACHE_LEAD_ARTIST_FINE = false →
      q.m_overallLeadArtistName = "Several artists") ∧
    (∀ b, p.m_array ≠ [] → (∀ e ∈ p.m_array, e.albumName env = some b) →
      q.m_overallAlbumName =
        if IsEmpty (TrimLeft (TrimRight b)) then "Unknown title"
        else TrimLeft (TrimRight b)) ∧
    (hasFlag q.m_cacheFlags SJ_CACHE_ALBUM_FINE = false →
      q.m_overallAlbumName = "Unknown title") := by
  unfold SjPlaylist.LoadOverallNames at h
  simp only [hnot, Bool.false_eq_true, if_false] at h
  cases hs : SjPlaylist.LoadOverallNames.scan env p with
  | none => simp [hs] at h
  | some q6 =>
    simp only [hs, Option.some.injEq] at h
    subst h
    simp only [wxTranslate]
    cases hp : p.m_array with
    | nil =>
      rw [LoadOverallNames_scan_nil env p hp, Option.some.injEq] at hs
      subst hs
      obtain ⟨s1, s2⟩ := hstale hp
      have hb := testBit_or_LOADED p.m_cacheFlags
      rw [hasFlag_ARTIST] at s1
      rw [hasFlag_ALBUM] at s2
      have f1 : hasFlag (p.m_cacheFlags ||| SJ_CACHE_OVERALL_LOADED)
          SJ_CACHE_LEAD_ARTIST_FINE = false := by rw [hasFlag_ARTIST, hb.2.1, s1]
      have f2 : hasFlag (p.m_cacheFlags ||| SJ_CACHE_OVERALL_LOADED)
          SJ_CACHE_ALBUM_FINE = false := by rw [hasFlag_ALBUM, hb.2.2, s2]
      have f0 : hasFlag (p.m_cacheFlags ||| SJ_CACHE_OVERALL_LOADED)
          SJ_CACHE_OVERALL_LOADED = true := by rw [hasFlag_LOADED, hb.1]
      simp [f0, f1, f2]
    | cons e0 rest =>
      have hN : p.entryNames env = (e0.leadArtistName env, e0.albumName env)
          :: rest.map (fun e => (e.leadArtistName env, e.albumName env)) := by
        unfold SjPlaylist.entryNames
        rw [hp]
        rfl
      obtain ⟨_, gP, g0, gx, g1, g2⟩ := LoadOverallNames_scan_cons env p q6 _ _ hN hs
      simp only [Prod.mk.injEq] at gx
      obtain ⟨gA, gB⟩ := gx
      have k1 : hasFlag q6.m_cacheFlags SJ_CACHE_LEAD_ARTIST_FINE = true ↔
          ∃ a, ∀ e ∈ e0 :: rest, e.leadArtistName env = some a := by
        rw [hasFlag_ARTIST, g1, all_names_fst]
        constructor
        · intro hall
          refine ⟨q6.m_overallLeadArtistName, ?_⟩
          intro e he
          rcases List.mem_cons.1 he with h1 | h1
          · rw [h1]; exact gA
          · exact hall e h1
        · rintro ⟨a, ha⟩ e he
          have h0 := ha e0 (List.mem_cons_self _ _)
          rw [gA, Option.some.injEq] at h0
          rw [h0]
          exact ha e (List.mem_cons_of_mem _ he)
      have k2 : hasFlag q6.m_cacheFlags SJ_CACHE_ALBUM_FINE = true ↔
          ∃ b, ∀ e ∈ e0 :: rest, e.albumName env = some b := by
        rw [hasFlag_ALBUM, g2, all_names_snd]
        constructor
        · intro hall
          refine ⟨q6.m_overallAlbumName, ?_⟩
          intro e he
          rcases List.mem_cons.1 he with h1 | h1
          · rw [h1]; exact gB
          · exact hall e h1
        · rintro ⟨b, hb⟩ e he
          have h0 := hb e0 (List.mem_cons_self _ _)
          rw [gB, Option.some.injEq] at h0
          rw [h0]
          exact hb e (List.mem_cons_of_mem _ he)
      refine ⟨gP, ?_, ?_, ?_, ?_, ?_, ?_, ?_⟩
      · rw [hasFlag_LOADED]; exact g0
      · rw [k1]; simp
      · rw [k2]; simp
      · intro a _ ha
        have hfl : hasFlag q6.m_cacheFlags SJ_CACHE_LEAD_ARTIST_FINE = true := k1.2 ⟨a, ha⟩
        have h0 := ha e0 (List.mem_cons_self _ _)
        rw [gA, Option.some.injEq] at h0
        simp [hfl, h0]
      · intro hfl
        simp [hfl]
      · intro b _ hb
        have hfl : hasFlag q6.m_cacheFlags SJ_CACHE_ALBUM_FINE = true := k2.2 ⟨b, hb⟩
        have h0 := hb e0 (List.mem_cons_self _ _)
        rw [gB, Option.some.injEq] at h0
        simp [hfl, h0]
      · intro hfl
        simp [hfl]

/-! ## LoadOverallNames returns -/

theorem LoadAddInfo_verified (env : SjEnv) (e : SjPlaylistEntry) (owner : Option SjSLHash)
    (what : Nat) (r : SjPlaylistEntry × Option SjSLHash) (hv : e.m_urlVerified = true)
    (h : e.LoadAddInfo env owner what = some r) : r.1.m_urlVerified = true := by
  unfold SjPlaylistEntry.LoadAddInfo at h
  by_cases hmain : env.g_mainFrame = true
  · simp only [hmain, Bool.not_true, Bool.false_eq_true, if_false] at h
    by_cases hc : ((e.m_addInfo.getD SjPlaylistAddInfo.fresh).m_what &&& what != 0) = true
    · simp [hc] at h
    · simp only [hc, Bool.false_eq_true, if_false] at h
      unfold SjPlaylistEntry.LoadAddInfo.body at h
      by_cases hb : (hasFlag what SJ_ADDINFO_MISC &&
          !hasFlag (SjPlaylistEntry.LoadAddInfo.markPlayCount
            (e.m_addInfo.getD SjPlaylistAddInfo.fresh) what).m_what SJ_ADDINFO_MISC) = true
      · simp only [hb, if_true] at h
        unfold SjPlaylistEntry.LoadAddInfo.loadMisc at h
        rw [GetUrl_of_verified env _ owner (by exact hv)] at h
        simp only [hv, Bool.not_true, Bool.and_false, Bool.false_eq_true, if_false,
          Option.some.injEq] at h
        rw [← h]
      · simp only [hb, Bool.false_eq_true, if_false, Option.some.injEq] at h
        rw [← h]
        exact hv
  · have hm : env.g_mainFrame = false := by simpa using hmain
    simp only [hm, Bool.not_false, if_true, Option.some.injEq] at h
    rw [← h]
    exact hv

theorem CheckAddInfo_verified (env : SjEnv) (e : SjPlaylistEntry) (owner : Option SjSLHash)
    (what : Nat) (r : SjPlaylistEntry × Option SjSLHash) (hv : e.m_urlVerified = true)
    (h : e.CheckAddInfo env owner what = some r) : r.1.m_urlVerified = true := by
  unfold SjPlaylistEntry.CheckAddInfo at h
  cases hb : e.m_addInfo with
  | none =>
    simp only [hb] at h
    exact LoadAddInfo_verified env e owner what r hv h
  | some a =>
    simp only [hb] at h
    by_cases hc : (a.m_what &&& what == what) = true
    · simp only [hc, if_true, Option.some.injEq] at h
      rw [← h]
      exact hv
    · simp only [hc, Bool.false_eq_true, if_false] at h
      exact LoadAddInfo_verified env e owner what r hv h

/-- With the main frame present, a read of a verified entry returns, and the entry stays
verified. -/
theorem readMisc_returns {α : Type} (env : SjEnv) (e : SjPlaylistEntry)
    (owner : Option SjSLHash) (f : SjPlaylistAddInfo → α) (hmain : env.g_mainFrame = true)
    (hv : e.m_urlVerified = true) :
    ∃ x e2 o2, e.readMisc env owner f = some (x, e2, o2) ∧ e2.m_urlVerified = true := by
  obtain ⟨r, a, hr, ha, _⟩ := CheckAddInfo_misc_returns env e owner hmain (Or.inl hv)
  have hv2 := CheckAddInfo_verified env e owner _ r hv hr
  refine ⟨f a, r.1, r.2, ?_, hv2⟩
  unfold SjPlaylistEntry.readMisc
  rw [hr]
  simp only [ha]

theorem onItem_readMisc_returns {α : Type} (env : SjEnv) (p : SjPlaylist) (i : Nat)
    (f : SjPlaylistAddInfo → α) (hmain : env.g_mainFrame = true) (hver : p.AllVerified)
    (hi : i < p.m_array.length) :
    ∃ x p2, p.onItem i (fun e owner => e.readMisc env owner f) = some (x, p2) ∧
      p2.AllVerified ∧ p2.m_array.length = p.m_array.length := by
  have he : p.m_array[i]? = some (p.m_array[i]) := List.getElem?_eq_getElem hi
  have hv : (p.m_array[i]).m_urlVerified = true := hver _ (List.getElem_mem hi)
  obtain ⟨x, e2, o2, hr, hv2⟩ := readMisc_returns env (p.m_array[i]) (some p.m_urlCounts) f
    hmain hv
  refine ⟨x, { p with m_array := p.m_array.set i e2, m_urlCounts := o2.getD p.m_urlCounts },
    ?_, ?_, ?_⟩
  · unfold SjPlaylist.onItem
    rw [he]
    simp only [hr]
  · intro e hmem
    rcases List.mem_or_eq_of_mem_set hmem with h1 | h1
    · exact hver e h1
    · rw [h1]; exact hv2
  · simp

theorem AllVerified_of_array (p q : SjPlaylist) (h : q.m_array = p.m_array)
    (hver : p.AllVerified) : q.AllVerified := by
  unfold SjPlaylist.AllVerified at hver ⊢
  rw [h]
  exact hver

theorem LoadOverallNames_step_returns (env : SjEnv) (i : Nat) (p : SjPlaylist)
    (hmain : env.g_mainFrame = true) (hver : p.AllVerified) (hi : i < p.m_array.length) :
    ∃ q cont, SjPlaylist.LoadOverallNames.step env i p = some (q, cont) ∧
      q.AllVerified ∧ q.m_array.length = p.m_array.length := by
  obtain ⟨artist, p1, hr1, hv1, hl1⟩ :=
    onItem_readMisc_returns env p i (fun a => a.m_leadArtistName) hmain hver hi
  have h1 : p.onItem i (fun e owner => e.GetLeadArtistName env owner) = some (artist, p1) := hr1
  unfold SjPlaylist.LoadOverallNames.step
  simp only [h1]
  obtain ⟨pm, hpm, hma⟩ : ∃ pm : SjPlaylist,
      pm = (if (artist != p1.m_overallLeadArtistName) = true
        then
          { p1 with m_cacheFlags := clearFlag p1.m_cacheFlags SJ_CACHE_LEAD_ARTIST_FINE }
        else p1) ∧ pm.m_array = p1.m_array := by
    refine ⟨_, rfl, ?_⟩
    split <;> rfl
  rw [← hpm]
  have hvm : pm.AllVerified := AllVerified_of_array p1 pm hma hv1
  have hlm : pm.m_array.length = p.m_array.length := by rw [hma, hl1]
  by_cases hbrk : ((artist != p1.m_overallLeadArtistName)
      && !hasFlag pm.m_cacheFlags SJ_CACHE_ALBUM_FINE) = true
  · simp only [hbrk, if_true]
    exact ⟨pm, false, rfl, hvm, hlm⟩
  · simp only [hbrk, Bool.false_eq_true, if_false]
    obtain ⟨album, p3, hr3, hv3, hl3⟩ :=
      onItem_readMisc_returns env pm i (fun a => a.m_albumName) hmain hvm (by rw [hlm]; exact hi)
    have h3 : pm.onItem i (fun e owner => e.GetAlbumName env owner) = some (album, p3) := hr3
    simp only [h3]
    obtain ⟨p4, hp4, h4a⟩ : ∃ p4 : SjPlaylist,
        p4 = (if (album != p3.m_overallAlbumName) = true
          then { p3 with m_cacheFlags := clearFlag p3.m_cacheFlags SJ_CACHE_ALBUM_FINE }
          else p3) ∧ p4.m_array = p3.m_array := by
      refine ⟨_, rfl, ?_⟩
      split <;> rfl
    rw [← hp4]
    have hv4 : p4.AllVerified := AllVerified_of_array p3 p4 h4a hv3
    have hl4 : p4.m_array.length = p.m_array.length := by rw [h4a, hl3, hlm]
    split
    · exact ⟨p4, false, rfl, hv4, hl4⟩
    · exact ⟨p4, true, rfl, hv4, hl4⟩

theorem LoadOverallNames_loop_returns (env : SjEnv) (hmain : env.g_mainFrame = true) :
    ∀ (n i : Nat) (p : SjPlaylist), p.AllVerified → i + n ≤ p.m_array.length →
      ∃ q, SjPlaylist.LoadOverallNames.loop env n i p = some q := by
  intro n
  induction n with
  | zero =>
    intro i p _ _
    exact ⟨p, rfl⟩
  | succ n ih =>
    intro i p hver hi
    obtain ⟨q, cont, hs, hvq, hlq⟩ :=
      LoadOverallNames_step_returns env i p hmain hver (by omega)
    rw [SjPlaylist.LoadOverallNames.loop]
    cases cont with
    | false =>
      simp only [hs]
      exact ⟨q, rfl⟩
    | true =>
      simp only [hs]
      exact ih (i + 1) q hvq (by rw [hlq]; omega)

/-- With the main frame present, `LoadOverallNames` returns on every playlist whose entries
are verified. -/
theorem LoadOverallNames_returns (env : SjEnv) (p : SjPlaylist)
    (hmain : env.g_mainFrame = true) (hver : p.AllVerified) :
    ∃ q, p.LoadOverallNames env = some q := by
  have hscan : ∃ q, SjPlaylist.LoadOverallNames.scan env p = some q := by
    unfold SjPlaylist.LoadOverallNames.scan
    by_cases hpos : p.m_array.length > 0
    · simp only [hpos, if_true]
      obtain ⟨artist, p3, hr3, hv3, hl3⟩ := onItem_readMisc_returns env
        { p with m_cacheFlags := p.m_cacheFlags ||| SJ_CACHE_OVERALL_LOADED |||
          (SJ_CACHE_LEAD_ARTIST_FINE ||| SJ_CACHE_ALBUM_FINE) } 0
        (fun a => a.m_leadArtistName) hmain (AllVerified_of_array p _ rfl hver) hpos
      have h3 : SjPlaylist.onItem
          { p with m_cacheFlags := p.m_cacheFlags ||| SJ_CACHE_OVERALL_LOADED |||
            (SJ_CACHE_LEAD_ARTIST_FINE ||| SJ_CACHE_ALBUM_FINE) } 0
          (fun e owner => e.GetLeadArtistName env owner) = some (artist, p3) := hr3
      simp only [h3]
      have hl3b : p3.m_array.length = p.m_array.length := hl3
      obtain ⟨album, p5, hr5, hv5, hl5⟩ := onItem_readMisc_returns env
        { p3 with m_overallLeadArtistName := artist } 0
        (fun a => a.m_albumName) hmain (AllVerified_of_array p3 _ rfl hv3)
        (by show 0 < p3.m_array.length; omega)
      have h5 : SjPlaylist.onItem { p3 with m_overallLeadArtistName := artist } 0
          (fun e owner => e.GetAlbumName env owner) = some (album, p5) := hr5
      simp only [h5]
      have hl5b : p5.m_array.length = p3.m_array.length := hl5
      exact LoadOverallNames_loop_returns env hmain _ 1 _
        (AllVerified_of_array p5 { p5 with m_overallAlbumName := album } rfl hv5)
        (by show 1 + (p.m_array.length - 1) ≤ p5.m_array.length; omega)
    · simp only [hpos, if_false]
      exact ⟨_, rfl⟩
  obtain ⟨q, hq⟩ := hscan
  unfold SjPlaylist.LoadOverallNames
  split
  · exact ⟨p, rfl⟩
  · simp only [hq]
    exact ⟨_, rfl⟩

/-! ## The overall names of a playlist -/

/-- Claim C18.  For a playlist whose cache of overall names is not loaded (and that, if it
is empty, has no fine flag left set): with the main frame present and all entries verified
`LoadOverallNames` returns; in every result the loaded flag is set; the artist-fine flag is
set if and only if the playlist is not empty and all entries report the same lead artist
name, and the album-fine flag likewise for the album name, so the early exit of the loop
does not change either flag; the overall artist name is the shared name without the white
space around it if the flag is set and this is not empty, otherwise "Several artists"; the
overall album name is the trimmed shared album name or otherwise "Unknown title". -/
theorem LoadOverallNames_flags_and_names (env : SjEnv) (p : SjPlaylist)
    (hnot : hasFlag p.m_cacheFlags SJ_CACHE_OVERALL_LOADED = false)
    (hstale : p.m_array = [] → hasFlag p.m_cacheFlags SJ_CACHE_LEAD_ARTIST_FINE = false ∧
      hasFlag p.m_cacheFlags SJ_CACHE_ALBUM_FINE = false) :
    (env.g_mainFrame = true → p.AllVerified → ∃ q, p.LoadOverallNames env = some q) ∧
    (∀ q, p.LoadOverallNames env = some q →
      hasFlag q.m_cacheFlags SJ_CACHE_OVERALL_LOADED = true ∧
      (hasFlag q.m_cacheFlags SJ_CACHE_LEAD_ARTIST_FINE = true ↔
        p.m_array ≠ [] ∧ ∃ a, ∀ e ∈ p.m_array, e.leadArtistName env = some a) ∧
      (hasFlag q.m_cacheFlags SJ_CACHE_ALBUM_FINE = true ↔
        p.m_array ≠ [] ∧ ∃ b, ∀ e ∈ p.m_array, e.albumName env = some b) ∧
      (∀ a, p.m_array ≠ [] → (∀ e ∈ p.m_array, e.leadArtistName env = some a) →
        q.m_overallLeadArtistName =
          if IsEmpty (TrimLeft (TrimRight a)) then "Several artists"
          else TrimLeft (TrimRight a)) ∧
      (hasFlag q.m_cacheFlags SJ_CACHE_LEAD_ARTIST_FINE = false →
        q.m_overallLeadArtistName = "Several artists") ∧
      (∀ b, p.m_array ≠ [] → (∀ e ∈ p.m_array, e.albumName env = some b) →
        q.m_overallAlbumName =
          if IsEmpty (TrimLeft (TrimRight b)) then "Unknown title"
          else TrimLeft (TrimRight b)) ∧
      (hasFlag q.m_cacheFlags SJ_CACHE_ALBUM_FINE = false →
        q.m_overallAlbumName = "Unknown title")) :=
  ⟨fun hmain hver => LoadOverallNames_returns env p hmain hver,
    fun q h => (LoadOverallNames_spec env p q hnot hstale h).2⟩

/-- Witness for C18: two tracks of the same artist on the same album; after the retagging
of one track the artist is not uniform any more. -/
theorem LoadOverallNames_flags_and_names_witness :
    (twoTracks.LoadOverallNames arrivalEnv).map
      (fun q => (q.m_cacheFlags, q.m_overallLeadArtistName, q.m_overallAlbumName))
      = some (7, "Abba", "Arrival") ∧
    (twoTracks.LoadOverallNames retaggedEnv).map
      (fun q => (q.m_cacheFlags, q.m_overallLeadArtistName, q.m_overallAlbumName))
      = some (5, "Several artists", "Arrival") ∧
    ∃ q, twoTracks.LoadOverallNames arrivalEnv = some q :=
  ⟨by decide, by decide,
    (LoadOverallNames_flags_and_names arrivalEnv twoTracks (by decide)
      (fun h => absurd h (by decide))).1 (by decide) (by decide)⟩

/-! ## SuggestPlaylistName -/

/-- Counterexample for C19: the playlist has no explicit name, both entries report an empty
artist name and the same album "X"; the suggested name is "Several artists - X", which
contains a placeholder text. -/
theorem SuggestPlaylistName_placeholder_counterexample :
    IsEmpty twoTracks.m_playlistName = true ∧
    twoTracks.m_array.map (fun e => (e.leadArtistName untaggedEnv, e.albumName untaggedEnv))
      = [(some "", some "X"), (some "", some "X")] ∧
    (twoTracks.SuggestPlaylistName untaggedEnv).map Prod.fst
      = some "Several artists - X" := by
  decide

/-- Claim C19, amended.  For a playlist whose cache of overall names is not loaded (and
that, if it is empty, has no fine flag left set): with the main frame present and all
entries verified `SuggestPlaylistName` returns.  Every result is the explicit playlist
name if that is not empty.  Otherwise, with the shown form of a shared name being the name
without the white space around it, or the placeholder ("Several artists", "Unknown title")
if that is empty: the result is the shown artist, " - " and the shown album if all entries
share one artist name and one album name; the shown album if only the album name is shared;
the shown artist if only the artist name is shared; and the empty string if neither is
shared or the playlist is empty. -/
theorem SuggestPlaylistName_spec (env : SjEnv) (p : SjPlaylist)
    (hnot : hasFlag p.m_cacheFlags SJ_CACHE_OVERALL_LOADED = false)
    (hstale : p.m_array = [] → hasFlag p.m_cacheFlags SJ_CACHE_LEAD_ARTIST_FINE = false ∧
      hasFlag p.m_cacheFlags SJ_CACHE_ALBUM_FINE = false) :
    (env.g_mainFrame = true → p.AllVerified → ∃ r, p.SuggestPlaylistName env = some r) ∧
    (∀ r, p.SuggestPlaylistName env = some r →
      (IsEmpty p.m_playlistName = false → r.1 = p.m_playlistName) ∧
      (IsEmpty p.m_playlistName = true →
        (∀ a b, p.m_array ≠ [] → (∀ e ∈ p.m_array, e.leadArtistName env = some a) →
          (∀ e ∈ p.m_array, e.albumName env = some b) →
          r.1 = (if IsEmpty (TrimLeft (TrimRight a)) then "Several artists"
              else TrimLeft (TrimRight a)) ++ " - " ++
            (if IsEmpty (TrimLeft (TrimRight b)) then "Unknown title"
              else TrimLeft (TrimRight b))) ∧
        (∀ b, p.m_array ≠ [] →
          (¬ ∃ a, ∀ e ∈ p.m_array, e.leadArtistName env = some a) →
          (∀ e ∈ p.m_array, e.albumName env = some b) →
          r.1 = if IsEmpty (TrimLeft (TrimRight b)) then "Unknown title"
            else TrimLeft (TrimRight b)) ∧
        (∀ a, p.m_array ≠ [] → (∀ e ∈ p.m_array, e.leadArtistName env = some a) →
          (¬ ∃ b, ∀ e ∈ p.m_array, e.albumName env = some b) →
          r.1 = if IsEmpty (TrimLeft (TrimRight a)) then "Several artists"
            else TrimLeft (TrimRight a)) ∧
        ((p.m_array = [] ∨ ((¬ ∃ a, ∀ e ∈ p.m_array, e.leadArtistName env = some a) ∧
            ¬ ∃ b, ∀ e ∈ p.m_array, e.albumName env = some b)) → r.1 = ""))) := by
  refine ⟨?_, ?_⟩
  · intro hmain hver
    obtain ⟨q, hq⟩ := LoadOverallNames_returns env p hmain hver
    unfold SjPlaylist.SuggestPlaylistName
    simp only [hq]
    exact ⟨_, rfl⟩
  · intro r h
    unfold SjPlaylist.SuggestPlaylistName at h
    cases hq : p.LoadOverallNames env with
    | none => simp [hq] at h
    | some q =>
      simp only [hq, Option.some.injEq] at h
      obtain ⟨hP, _, kA, kB, nA, _, nB, _⟩ := LoadOverallNames_spec env p q hnot hstale hq
      subst h
      simp only []
      rw [hP]
      refine ⟨?_, ?_⟩
      · intro hname
        simp [hname]
      · intro hname
        simp only [hname, Bool.not_true, Bool.false_eq_true, if_false]
        refine ⟨?_, ?_, ?_, ?_⟩
        · intro a b hne ha hb
          have fA := kA.2 ⟨hne, a, ha⟩
          have fB := kB.2 ⟨hne, b, hb⟩
          simp only [fA, fB, Bool.and_self, if_true]
          rw [nA a hne ha, nB b hne hb]
        · intro b hne hna hb
          have fA : hasFlag q.m_cacheFlags SJ_CACHE_LEAD_ARTIST_FINE = false := by
            cases hf : hasFlag q.m_cacheFlags SJ_CACHE_LEAD_ARTIST_FINE
            · rfl
            · exact absurd (kA.1 hf).2 hna
          have fB := kB.2 ⟨hne, b, hb⟩
          simp only [fA, fB, Bool.and_false, Bool.false_eq_true, if_false, if_true]
          exact nB b hne hb
        · intro a hne ha hnb
          have fB : hasFlag q.m_cacheFlags SJ_CACHE_ALBUM_FINE = false := by
            cases hf : hasFlag q.m_cacheFlags SJ_CACHE_ALBUM_FINE
            · rfl
            · exact absurd (kB.1 hf).2 hnb
          have fA := kA.2 ⟨hne, a, ha⟩
          simp only [fA, fB, Bool.false_and, Bool.false_eq_true, if_false, if_true]
          exact nA a hne ha
        · intro hcase
          have fA : hasFlag q.m_cacheFlags SJ_CACHE_LEAD_ARTIST_FINE = false := by
            cases hf : hasFlag q.m_cacheFlags SJ_CACHE_LEAD_ARTIST_FINE
            · rfl
            · rcases hcase with h1 | h1
              · exact absurd h1 (kA.1 hf).1
              · exact absurd (kA.1 hf).2 h1.1
          have fB : hasFlag q.m_cacheFlags SJ_CACHE_ALBUM_FINE = false := by
            cases hf : hasFlag q.m_cacheFlags SJ_CACHE_ALBUM_FINE
            · rfl
            · rcases hcase with h1 | h1
              · exact absurd h1 (kB.1 hf).1
              · exact absurd (kB.1 hf).2 h1.2
          simp only [fA, fB, Bool.and_self, Bool.false_eq_true, if_false]

/-- Witness for C19 (amended): two tracks of one artist on one album, without an explicit
playlist name. -/
theorem SuggestPlaylistName_spec_witness :
    (twoTracks.SuggestPlaylistName arrivalEnv).map Prod.fst = some "Abba - Arrival" ∧
    (twoTracks.SuggestPlaylistName retaggedEnv).map Prod.fst = some "Arrival" ∧
    ∃ r, twoTracks.SuggestPlaylistName arrivalEnv = some r :=
  ⟨by decide, by decide,
    (SuggestPlaylistName_spec arrivalEnv twoTracks (by decide)
      (fun h => absurd h (by decide))).1 (by decide) (by decide)⟩

/-! ## Import of M3U playlists -/

theorem takeWhile_append_stop {α : Type} (q : α → Bool) (l r : List α) (x : α)
    (hl : ∀ y ∈ l, q y = true) (hx : q x = false) : (l ++ x :: r).takeWhile q = l := by
  induction l with
  | nil => simp [List.takeWhile_cons, hx]
  | cons y rest ih =>
    have hy := hl y (List.mem_cons_self _ _)
    simp only [List.cons_append, List.takeWhile_cons, hy, if_true]
    rw [ih (fun z hz => hl z (List.mem_cons_of_mem _ hz))]

theorem dropWhile_append_stop {α : Type} (q : α → Bool) (l r : List α) (x : α)
    (hl : ∀ y ∈ l, q y = true) (hx : q x = false) : (l ++ x :: r).dropWhile q = x :: r := by
  induction l with
  | nil => simp [List.dropWhile_cons, hx]
  | cons y rest ih =>
    have hy := hl y (List.mem_cons_self _ _)
    simp only [List.cons_append, List.dropWhile_cons, hy, if_true]
    exact ih (fun z hz => hl z (List.mem_cons_of_mem _ hz))

theorem ne_tab_of_not_mem (s : String) (h : '\t' ∉ s.data) :
    ∀ y ∈ s.data, (y != '\t') = true := by
  intro y hy
  have : y ≠ '\t' := fun hyc => h (hyc ▸ hy)
  simpa using this

theorem BeforeFirst_field (a rest : String) (ha : '\t' ∉ a.data) :
    BeforeFirst (a ++ "\t" ++ rest) '\t' = a := by
  show (⟨((a ++ "\t" ++ rest).data).takeWhile (fun x => x != '\t')⟩ : String) = a
  have hd : (a ++ "\t" ++ rest).data = a.data ++ '\t' :: rest.data := by
    simp [String.data_append]
  rw [hd, takeWhile_append_stop _ _ _ _ (ne_tab_of_not_mem a ha) (by decide)]

theorem AfterFirst_field (a rest : String) (ha : '\t' ∉ a.data) :
    AfterFirst (a ++ "\t" ++ rest) '\t' = rest := by
  show (⟨(((a ++ "\t" ++ rest).data).dropWhile (fun x => x != '\t')).drop 1⟩ : String) = rest
  have hd : (a ++ "\t" ++ rest).data = a.data ++ '\t' :: rest.data := by
    simp [String.data_append]
  rw [hd, dropWhile_append_stop _ _ _ _ (ne_tab_of_not_mem a ha) (by decide)]
  rfl

theorem AfterLast_field (s a : String) (ha : '\t' ∉ a.data) :
    AfterLast (s ++ "\t" ++ a) '\t' = a := by
  show (⟨(((s ++ "\t" ++ a).data).reverse.takeWhile (fun x => x != '\t')).reverse⟩ : String) = a
  have hd : (s ++ "\t" ++ a).data.reverse = a.data.reverse ++ '\t' :: s.data.reverse := by
    simp [String.data_append]
  have hr : ∀ y ∈ a.data.reverse, (y != '\t') = true := fun y hy =>
    ne_tab_of_not_mem a ha y (List.mem_reverse.1 hy)
  rw [hd, takeWhile_append_stop _ _ _ _ hr (by decide), List.reverse_reverse]

theorem AddFromM3uFile_loop_extinf (p : SjPlaylist) (nextId : Int) (nativePath : String)
    (addMax : Int) :
    SjPlaylist.AddFromM3uFile.loop nativePath addMax
        ["#EXTINF:123,Artist - Title", "song.mp3"] "" 0 (p, nextId)
      = p.Add nextId ("song.mp3" ++ "\t" ++ nativePath ++ "\t" ++ "Artist\t\tTitle") false 0 := by
  have ht : SjPlaylist.AddFromM3uFile.extinfTitle "#EXTINF:123,Artist - Title"
      = "Artist\t\tTitle" := by decide
  rw [SjPlaylist.AddFromM3uFile.loop]
  rw [if_neg (by decide), if_pos (by decide), if_pos (by decide)]
  simp only [ht]
  rw [SjPlaylist.AddFromM3uFile.loop]
  rw [if_neg (by decide), if_neg (by decide)]
  simp only []
  split
  · rfl
  · rfl

/-- Counterexample for C20: the import of the two lines adds one entry; its string has the
URL field `song.mp3` and the hints "Artist" and "Title", but the entry has no metadata block
and no duration of 123000 ms: the playing time that the entry reports is -1, because the
seconds of the `#EXTINF:` line are skipped. -/
theorem AddFromM3uFile_duration_counterexample :
    (SjPlaylist.empty.AddFromM3uFile m3uEnv 1 "list.m3u" 10).2.1.m_array
      = [SjPlaylistEntry.new 1 "song.mp3\tlist.m3u\tArtist\t\tTitle" false 0] ∧
    (SjPlaylistEntry.new 1 "song.mp3\tlist.m3u\tArtist\t\tTitle" false 0).m_addInfo = none ∧
    ((SjPlaylistEntry.new 1 "song.mp3\tlist.m3u\tArtist\t\tTitle" false 0).GetPlaytimeMs
      m3uEnv none).map Prod.fst = some (-1) := by
  decide

/-- Claim C20, amended.  If the playlist file can be opened and consists of the lines
`#EXTINF:123,Artist - Title` and `song.mp3`, the import returns true and appends exactly
one entry, not yet verified and without metadata block (the seconds are skipped, no duration
is stored).  The string of the entry has `song.mp3` as its URL field and "Title" as its
last field; if the path of the playlist file has no tab, the artist hint is "Artist" and
the album hint is empty. -/
theorem AddFromM3uFile_extinf (env : SjEnv) (p : SjPlaylist) (nextId : Int)
    (nativePath : String) (addMax : Int)
    (hopen : env.OpenFileSeekable nativePath = true)
    (hlines : env.SplitLines (env.GetFileContent nativePath (env.GetExt nativePath == "m3u8"))
      = ["#EXTINF:123,Artist - Title", "song.mp3"]) :
    (p.AddFromM3uFile env nextId nativePath addMax).1 = true ∧
    (p.AddFromM3uFile env nextId nativePath addMax).2.1.m_array = p.m_array ++
      [{ m_id := nextId,
         m_url := "song.mp3" ++ "\t" ++ nativePath ++ "\t" ++ "Artist\t\tTitle",
         m_urlVerified := false, m_urlOk := false, m_addInfo := none, m_flags := 0 }] ∧
    BeforeFirst ("song.mp3" ++ "\t" ++ nativePath ++ "\t" ++ "Artist\t\tTitle") '\t'
      = "song.mp3" ∧
    AfterLast ("song.mp3" ++ "\t" ++ nativePath ++ "\t" ++ "Artist\t\tTitle") '\t' = "Title" ∧
    ('\t' ∉ nativePath.data →
      BeforeFirst (AfterFirst (AfterFirst
        ("song.mp3" ++ "\t" ++ nativePath ++ "\t" ++ "Artist\t\tTitle") '\t') '\t') '\t'
        = "Artist" ∧
      BeforeFirst (AfterFirst (AfterFirst (AfterFirst
        ("song.mp3" ++ "\t" ++ nativePath ++ "\t" ++ "Artist\t\tTitle") '\t') '\t') '\t') '\t'
        = "") := by
  have hrun : p.AddFromM3uFile env nextId nativePath addMax
      = (true, p.Add nextId
          ("song.mp3" ++ "\t" ++ nativePath ++ "\t" ++ "Artist\t\tTitle") false 0) := by
    unfold SjPlaylist.AddFromM3uFile
    simp only [hopen, Bool.not_true, Bool.false_eq_true, if_false, hlines]
    rw [AddFromM3uFile_loop_extinf]
  have hu1 : "song.mp3" ++ "\t" ++ nativePath ++ "\t" ++ "Artist\t\tTitle"
      = "song.mp3" ++ "\t" ++ (nativePath ++ "\t" ++ "Artist\t\tTitle") := by
    simp only [String.append_assoc]
  have hu2 : "song.mp3" ++ "\t" ++ nativePath ++ "\t" ++ "Artist\t\tTitle"
      = ("song.mp3" ++ "\t" ++ nativePath ++ "\t" ++ "Artist\t") ++ "\t" ++ "Title" := by
    have : "Artist\t\tTitle" = "Artist\t" ++ ("\t" ++ "Title") := by decide
    rw [this]
    simp only [String.append_assoc]
  refine ⟨by rw [hrun], by rw [hrun]; rfl, ?_, ?_, ?_⟩
  · rw [hu1]
    exact BeforeFirst_field _ _ (by decide)
  · rw [hu2]
    exact AfterLast_field _ _ (by decide)
  · intro hn
    rw [hu1, AfterFirst_field _ _ (by decide), AfterFirst_field _ _ hn]
    decide

/-- Witness for C20 (amended): the import of `list.m3u` into the empty playlist. -/
theorem AddFromM3uFile_extinf_witness :
    (SjPlaylist.empty.AddFromM3uFile m3uEnv 1 "list.m3u" 10).2.1.m_array.map
      (fun e => e.m_url) = ["song.mp3\tlist.m3u\tArtist\t\tTitle"] ∧
    (SjPlaylist.empty.AddFromM3uFile m3uEnv 1 "list.m3u" 10).1 = true :=
  ⟨by decide,
    (AddFromM3uFile_extinf m3uEnv SjPlaylist.empty 1 "list.m3u" 10 (by decide) (by decide)).1⟩

/-! ## Replacement of the title separator -/

theorem replaceGo_spaced_dashfree (new l : List Char) (hl : '-' ∉ l) :
    ∀ r : List Char, r.head? ≠ some '-' →
      replaceGo [' ', '-', ' '] new (l ++ r) 0
        = (l ++ (replaceGo [' ', '-', ' '] new r 0).1, (replaceGo [' ', '-', ' '] new r 0).2) := by
  induction l with
  | nil => intro r _; rfl
  | cons c rest ih =>
    intro r hr
    have hrest : '-' ∉ rest := fun h => hl (List.mem_cons_of_mem _ h)
    have hnp : List.isPrefixOf [' ', '-', ' '] (c :: (rest ++ r)) = false := by
      cases rest with
      | nil =>
        cases r with
        | nil => simp [List.isPrefixOf]
        | cons d r2 =>
          have hd : d ≠ '-' := fun h => hr (by simp [h])
          have hd2 : ('-' == d) = false := by
            simp only [beq_eq_false_iff_ne, ne_eq]
            exact fun h => hd h.symm
          simp [List.isPrefixOf, hd2]
      | cons d rest2 =>
        have hd : d ≠ '-' := fun h => hl (by simp [h])
        have hd2 : ('-' == d) = false := by
          simp only [beq_eq_false_iff_ne, ne_eq]
          exact fun h => hd h.symm
        simp [List.isPrefixOf, hd2]
    show replaceGo [' ', '-', ' '] new (c :: (rest ++ r)) 0 = _
    rw [replaceGo]
    simp only [hnp, Bool.false_eq_true, if_false]
    rw [ih hrest r hr]
    rfl

theorem replaceGo_spaced_match (new r : List Char) :
    replaceGo [' ', '-', ' '] new (' ' :: '-' :: ' ' :: r) 0
      = (new ++ (replaceGo [' ', '-', ' '] new r 0).1,
         (replaceGo [' ', '-', ' '] new r 0).2 + 1) := by
  rw [replaceGo]
  have hp : List.isPrefixOf [' ', '-', ' '] (' ' :: '-' :: ' ' :: r) = true := by
    simp [List.isPrefixOf]
  simp only [hp, if_true]
  show (new ++ (replaceGo [' ', '-', ' '] new ('-' :: ' ' :: r) 2).1,
    (replaceGo [' ', '-', ' '] new ('-' :: ' ' :: r) 2).2 + 1) = _
  rw [replaceGo, replaceGo]

theorem replaceGo_dash_dashfree (new l : List Char) (hl : '-' ∉ l) (r : List Char) :
    replaceGo ['-'] new (l ++ r) 0
      = (l ++ (replaceGo ['-'] new r 0).1, (replaceGo ['-'] new r 0).2) := by
  induction l with
  | nil => rfl
  | cons c rest ih =>
    have hrest : '-' ∉ rest := fun h => hl (List.mem_cons_of_mem _ h)
    have hc : c ≠ '-' := fun h => hl (by simp [h])
    have hc2 : ('-' == c) = false := by
      simp only [beq_eq_false_iff_ne, ne_eq]
      exact fun h => hc h.symm
    have hnp : List.isPrefixOf ['-'] (c :: (rest ++ r)) = false := by
      simp [List.isPrefixOf, hc2]
    show replaceGo ['-'] new (c :: (rest ++ r)) 0 = _
    rw [replaceGo]
    simp only [hnp, Bool.false_eq_true, if_false]
    rw [ih hrest]
    rfl

theorem replaceGo_dash_match (new r : List Char) :
    replaceGo ['-'] new ('-' :: r) 0
      = (new ++ (replaceGo ['-'] new r 0).1, (replaceGo ['-'] new r 0).2 + 1) := by
  rw [replaceGo]
  have hp : List.isPrefixOf ['-'] ('-' :: r) = true := by simp [List.isPrefixOf]
  simp only [hp, if_true]
  rfl

/-- A text in which the pattern does not occur is left as it is. -/
theorem replaceGo_of_not_found (old new : List Char) :
    ∀ (l : List Char) (i : Nat), findFrom old l i = wxNOT_FOUND →
      replaceGo old new l 0 = (l, 0) := by
  intro l
  induction l with
  | nil => intro i _; rfl
  | cons c rest ih =>
    intro i h
    rw [findFrom] at h
    by_cases hp : List.isPrefixOf old (c :: rest) = true
    · simp only [hp, if_true] at h
      exact absurd h (by unfold wxNOT_FOUND; omega)
    · simp only [hp, Bool.false_eq_true, if_false] at h
      rw [replaceGo]
      simp only [hp, Bool.false_eq_true, if_false]
      rw [ih (i + 1) h]

theorem joinParts_data (sep a b : String) (rest : List String) :
    (joinParts sep (a :: b :: rest)).data
      = a.data ++ (sep.data ++ (joinParts sep (b :: rest)).data) := by
  show (a ++ sep ++ joinParts sep (b :: rest)).data = _
  simp [String.data_append]

theorem replaceGo_join_spaced :
    ∀ parts : List String, (∀ a ∈ parts, '-' ∉ a.data) →
      replaceGo [' ', '-', ' '] ['\t', '\t'] (joinParts " - " parts).data 0
        = ((joinParts "\t\t" parts).data, parts.length - 1) := by
  intro parts
  induction parts with
  | nil => intro _; rfl
  | cons a t ih =>
    intro h
    have ha : '-' ∉ a.data := h a (List.mem_cons_self _ _)
    cases t with
    | nil =>
      have := replaceGo_spaced_dashfree ['\t', '\t'] a.data ha [] (by simp)
      simpa [joinParts, replaceGo] using this
    | cons b rest =>
      have ht := ih (fun x hx => h x (List.mem_cons_of_mem _ hx))
      rw [joinParts_data, joinParts_data]
      have hsep : (" - " : String).data = ' ' :: '-' :: [' '] := rfl
      have htab : ("\t\t" : String).data = ['\t', '\t'] := rfl
      rw [hsep, htab]
      have h1 := replaceGo_spaced_dashfree ['\t', '\t'] a.data ha
        (' ' :: '-' :: ' ' :: (joinParts " - " (b :: rest)).data) (by simp)
      simp only [List.cons_append, List.nil_append]
      rw [h1, replaceGo_spaced_match, ht]
      simp

theorem replaceGo_join_dash :
    ∀ parts : List String, (∀ a ∈ parts, '-' ∉ a.data) →
      replaceGo ['-'] ['\t', '\t'] (joinParts "-" parts).data 0
        = ((joinParts "\t\t" parts).data, parts.length - 1) := by
  intro parts
  induction parts with
  | nil => intro _; rfl
  | cons a t ih =>
    intro h
    have ha : '-' ∉ a.data := h a (List.mem_cons_self _ _)
    cases t with
    | nil =>
      have := replaceGo_dash_dashfree ['\t', '\t'] a.data ha []
      simpa [joinParts, replaceGo] using this
    | cons b rest =>
      have ht := ih (fun x hx => h x (List.mem_cons_of_mem _ hx))
      rw [joinParts_data, joinParts_data]
      have hsep : ("-" : String).data = ['-'] := rfl
      have htab : ("\t\t" : String).data = ['\t', '\t'] := rfl
      rw [hsep, htab]
      have h1 := replaceGo_dash_dashfree ['\t', '\t'] a.data ha
        ('-' :: (joinParts "-" (b :: rest)).data)
      simp only [List.cons_append, List.nil_append]
      rw [h1, replaceGo_dash_match, ht]
      simp

theorem Replace_join_spaced (parts : List String) (h : ∀ a ∈ parts, '-' ∉ a.data) :
    Replace (joinParts " - " parts) " - " "\t\t"
      = (joinParts "\t\t" parts, parts.length - 1) := by
  unfold Replace
  have he : (" - " : String).data.isEmpty = false := rfl
  have hsep : (" - " : String).data = [' ', '-', ' '] := rfl
  have htab : ("\t\t" : String).data = ['\t', '\t'] := rfl
  simp only [he, Bool.false_eq_true, if_false, hsep, htab, replaceGo_join_spaced parts h]

theorem Replace_join_dash (parts : List String) (h : ∀ a ∈ parts, '-' ∉ a.data) :
    Replace (joinParts "-" parts) "-" "\t\t"
      = (joinParts "\t\t" parts, parts.length - 1) := by
  unfold Replace
  have he : ("-" : String).data.isEmpty = false := rfl
  have hsep : ("-" : String).data = ['-'] := rfl
  have htab : ("\t\t" : String).data = ['\t', '\t'] := rfl
  simp only [he, Bool.false_eq_true, if_false, hsep, htab, replaceGo_join_dash parts h]

theorem Replace_of_not_found (s old new : String) (h : Find s old = wxNOT_FOUND) :
    Replace s old new = (s, 0) := by
  unfold Replace
  split
  · rfl
  · unfold Find at h
    rw [replaceGo_of_not_found old.data new.data s.data 0 h]

/-- Dash-free parts joined by `" - "`: every separator becomes two tabs. -/
theorem replaceTitleSeparator_spaced (parts : List String)
    (h : ∀ a ∈ parts, '-' ∉ a.data) :
    replaceTitleSeparator (joinParts " - " parts) = joinParts "\t\t" parts := by
  unfold replaceTitleSeparator
  rw [Replace_join_spaced parts h]
  cases parts with
  | nil => decide
  | cons a t =>
    cases t with
    | nil =>
      have := Replace_join_dash [a] h
      simp only [joinParts] at this ⊢
      simp [this]
    | cons b rest =>
      have : ¬ ((a :: b :: rest).length - 1 < 1) := by simp
      simp only [this, if_false]

/-- Dash-free parts joined by `"-"`, in a text without `" - "`: every dash becomes two
tabs. -/
theorem replaceTitleSeparator_dash (parts : List String)
    (h : ∀ a ∈ parts, '-' ∉ a.data)
    (hno : Find (joinParts "-" parts) " - " = wxNOT_FOUND) :
    replaceTitleSeparator (joinParts "-" parts) = joinParts "\t\t" parts := by
  unfold replaceTitleSeparator
  rw [Replace_of_not_found _ _ _ hno, Replace_join_dash parts h]
  simp

/-! ## The hints behind the URL field -/

theorem AfterFirst_of_not_mem (s : String) (c : Char) (h : c ∉ s.data) :
    AfterFirst s c = "" := by
  have hd : s.data.dropWhile (fun x => x != c) = [] := by
    rw [List.dropWhile_eq_nil_iff]
    intro x hx
    have : x ≠ c := fun hxc => h (hxc ▸ hx)
    simpa using this
  show (⟨(s.data.dropWhile (fun x => x != c)).drop 1⟩ : String) = ""
  rw [hd]
  rfl

theorem joinParts_tabs_cons (a b : String) (rest : List String) :
    joinParts "\t\t" (a :: b :: rest) = a ++ "\t" ++ ("\t" ++ joinParts "\t\t" (b :: rest)) := by
  show a ++ "\t\t" ++ joinParts "\t\t" (b :: rest) = _
  have : ("\t\t" : String) = "\t" ++ "\t" := by decide
  rw [this]
  simp only [String.append_assoc]

theorem BeforeFirst_joinParts (a : String) (t : List String) (ha : '\t' ∉ a.data) :
    BeforeFirst (joinParts "\t\t" (a :: t)) '\t' = a := by
  cases t with
  | nil => exact BeforeFirst_of_not_mem a '\t' ha
  | cons b rest =>
    rw [joinParts_tabs_cons]
    exact BeforeFirst_field a _ ha

theorem album_joinParts (a : String) (t : List String) (ha : '\t' ∉ a.data) :
    BeforeFirst (AfterFirst (joinParts "\t\t" (a :: t)) '\t') '\t' = "" := by
  cases t with
  | nil =>
    show BeforeFirst (AfterFirst a '\t') '\t' = ""
    rw [AfterFirst_of_not_mem a '\t' ha]
    decide
  | cons b rest =>
    rw [joinParts_tabs_cons, AfterFirst_field a _ ha]
    have : "\t" ++ joinParts "\t\t" (b :: rest) = "" ++ "\t" ++ joinParts "\t\t" (b :: rest) := by
      simp
    rw [this]
    exact BeforeFirst_field "" _ (by decide)

theorem AfterLast_joinParts :
    ∀ (parts : List String) (x : String), parts ≠ [] → (∀ a ∈ parts, '\t' ∉ a.data) →
      AfterLast (x ++ "\t" ++ joinParts "\t\t" parts) '\t' = parts.getLastD "" := by
  intro parts
  induction parts with
  | nil => intro x h; exact absurd rfl h
  | cons a t ih =>
    intro x _ h
    have ha : '\t' ∉ a.data := h a (List.mem_cons_self _ _)
    cases t with
    | nil => exact AfterLast_field x a ha
    | cons b rest =>
      have hrw : x ++ "\t" ++ joinParts "\t\t" (a :: b :: rest)
          = (x ++ "\t" ++ a ++ "\t") ++ "\t" ++ joinParts "\t\t" (b :: rest) := by
        rw [joinParts_tabs_cons]
        simp only [String.append_assoc]
      rw [hrw, ih _ (by simp) (fun y hy => h y (List.mem_cons_of_mem _ hy))]
      simp [List.getLastD]

/-- The fields that `VerifyUrl` reads from the string of an imported entry: the URL, the path
of the playlist file and the tab-free parts of the title, each pair of parts separated by two
tabs.  The artist hint is the first part, the track hint the last part, and the album hint
is empty. -/
theorem hints_of_raw (u n : String) (a : String) (t : List String) (hu : '\t' ∉ u.data)
    (hn : '\t' ∉ n.data) (hp : ∀ x ∈ a :: t, '\t' ∉ x.data) :
    BeforeFirst (u ++ "\t" ++ n ++ "\t" ++ joinParts "\t\t" (a :: t)) '\t' = u ∧
    SjPlaylistEntry.VerifyUrl.artistName
      (u ++ "\t" ++ n ++ "\t" ++ joinParts "\t\t" (a :: t)) = a ∧
    SjPlaylistEntry.VerifyUrl.albumName
      (u ++ "\t" ++ n ++ "\t" ++ joinParts "\t\t" (a :: t)) = "" ∧
    SjPlaylistEntry.VerifyUrl.trackName
      (u ++ "\t" ++ n ++ "\t" ++ joinParts "\t\t" (a :: t)) = (a :: t).getLastD "" := by
  have ha : '\t' ∉ a.data := hp a (List.mem_cons_self _ _)
  have h1 : u ++ "\t" ++ n ++ "\t" ++ joinParts "\t\t" (a :: t)
      = u ++ "\t" ++ (n ++ "\t" ++ joinParts "\t\t" (a :: t)) := by
    simp only [String.append_assoc]
  have h2 : AfterFirst (AfterFirst (u ++ "\t" ++ n ++ "\t" ++ joinParts "\t\t" (a :: t)) '\t')
      '\t' = joinParts "\t\t" (a :: t) := by
    rw [h1, AfterFirst_field u _ hu, AfterFirst_field n _ hn]
  refine ⟨?_, ?_, ?_, ?_⟩
  · rw [h1]; exact BeforeFirst_field u _ hu
  · unfold SjPlaylistEntry.VerifyUrl.artistName
    rw [h2]; exact BeforeFirst_joinParts a t ha
  · unfold SjPlaylistEntry.VerifyUrl.albumName
    rw [h2]; exact album_joinParts a t ha
  · unfold SjPlaylistEntry.VerifyUrl.trackName
    exact AfterLast_joinParts (a :: t) (u ++ "\t" ++ n) (by simp) hp

/-! ## The `#EXTINF:` line of M3U playlists -/

theorem extinf_data (x : String) :
    ("#EXTINF:" ++ x).data = '#' :: 'E' :: 'X' :: 'T' :: 'I' :: 'N' :: 'F' :: ':' :: x.data := by
  rw [String.data_append]
  rfl

theorem extinfTitle_eq (s T : String) (hs : ',' ∉ s.data) :
    SjPlaylist.AddFromM3uFile.extinfTitle ("#EXTINF:" ++ s ++ "," ++ T)
      = replaceTitleSeparator T := by
  unfold SjPlaylist.AddFromM3uFile.extinfTitle
  have h1 : "#EXTINF:" ++ s ++ "," ++ T = "#EXTINF:" ++ (s ++ "," ++ T) := by
    simp only [String.append_assoc]
  have h2 : Mid ("#EXTINF:" ++ (s ++ "," ++ T)) 8 = s ++ "," ++ T := by
    show (⟨(("#EXTINF:" ++ (s ++ "," ++ T)).data).drop 8⟩ : String) = _
    rw [extinf_data]
    rfl
  have h3 : AfterFirst (s ++ "," ++ T) ',' = T := by
    show (⟨(((s ++ "," ++ T).data).dropWhile (fun x => x != ',')).drop 1⟩ : String) = T
    have hd : (s ++ "," ++ T).data = s.data ++ ',' :: T.data := by
      simp [String.data_append]
    have hall : ∀ y ∈ s.data, (y != ',') = true := by
      intro y hy
      have : y ≠ ',' := fun hyc => hs (hyc ▸ hy)
      simpa using this
    rw [hd, dropWhile_append_stop _ _ _ _ hall (by decide)]
    rfl
  rw [h1, h2, h3]

/-- The M3U loop on an `#EXTINF:` line followed by a URL line: one entry is added, with the
URL line, the path of the playlist file and the title with its separator replaced. -/
theorem AddFromM3uFile_loop_two_lines (nativePath : String) (addMax : Int) (s T u : String)
    (st : SjPlaylist × Int) (hs : ',' ∉ s.data) (hu1 : IsEmpty u = false)
    (hu2 : StartsWith u "#" = false) :
    SjPlaylist.AddFromM3uFile.loop nativePath addMax ["#EXTINF:" ++ s ++ "," ++ T, u] "" 0 st
      = st.1.Add st.2 (u ++ "\t" ++ nativePath ++ "\t" ++ replaceTitleSeparator T) false 0 := by
  have h1 : "#EXTINF:" ++ s ++ "," ++ T = "#EXTINF:" ++ (s ++ "," ++ T) := by
    simp only [String.append_assoc]
  have e1 : IsEmpty ("#EXTINF:" ++ s ++ "," ++ T) = false := by
    rw [h1]
    show (("#EXTINF:" ++ (s ++ "," ++ T)).data).isEmpty = false
    rw [extinf_data]
    rfl
  have e2 : StartsWith ("#EXTINF:" ++ s ++ "," ++ T) "#" = true := by
    rw [h1]
    show List.isPrefixOf ("#" : String).data (("#EXTINF:" ++ (s ++ "," ++ T)).data) = true
    rw [extinf_data]
    simp [List.isPrefixOf]
  have e3 : StartsWith ("#EXTINF:" ++ s ++ "," ++ T) "#EXTINF:" = true := by
    rw [h1]
    show List.isPrefixOf ("#EXTINF:" : String).data
      (("#EXTINF:" ++ (s ++ "," ++ T)).data) = true
    rw [extinf_data]
    simp [List.isPrefixOf]
  rw [SjPlaylist.AddFromM3uFile.loop]
  simp only [e1, e2, e3, Bool.false_eq_true, if_false, if_true]
  rw [extinfTitle_eq s T hs, SjPlaylist.AddFromM3uFile.loop]
  simp only [hu1, hu2, Bool.false_eq_true, if_false]
  split
  · rfl
  · rfl

theorem AddFromM3uFile_two_lines (env : SjEnv) (p : SjPlaylist) (nextId : Int)
    (nativePath : String) (addMax : Int) (s T u : String)
    (hopen : env.OpenFileSeekable nativePath = true)
    (hlines : env.SplitLines (env.GetFileContent nativePath (env.GetExt nativePath == "m3u8"))
      = ["#EXTINF:" ++ s ++ "," ++ T, u])
    (hs : ',' ∉ s.data) (hu1 : IsEmpty u = false) (hu2 : StartsWith u "#" = false) :
    p.AddFromM3uFile env nextId nativePath addMax
      = (true, p.Add nextId (u ++ "\t" ++ nativePath ++ "\t" ++ replaceTitleSeparator T)
          false 0) := by
  unfold SjPlaylist.AddFromM3uFile
  simp only [hopen, Bool.not_true, Bool.false_eq_true, if_false, hlines]
  rw [AddFromM3uFile_loop_two_lines nativePath addMax s T u (p, nextId) hs hu1 hu2]

/-- Counterexample for C21: the import of `#EXTINF:5,OnlyTitle` and `song.mp3` adds one
entry with the string `song.mp3`, `list.m3u`, `OnlyTitle` joined by tabs.  Its third field,
the artist hint, is "OnlyTitle" and not empty, and so is the track hint: `VerifyUrl` asks the
library for the artist "OnlyTitle" with the track "OnlyTitle" and resolves the entry to the
file the library names; with a library that knows nothing the entry is not found. -/
theorem AddFromM3uFile_only_title_counterexample :
    (SjPlaylist.empty.AddFromM3uFile onlyTitleEnv 1 "list.m3u" 10).2.1.m_array
      = [SjPlaylistEntry.new 1 "song.mp3\tlist.m3u\tOnlyTitle" false 0] ∧
    SjPlaylistEntry.VerifyUrl.artistName "song.mp3\tlist.m3u\tOnlyTitle" = "OnlyTitle" ∧
    SjPlaylistEntry.VerifyUrl.trackName "song.mp3\tlist.m3u\tOnlyTitle" = "OnlyTitle" ∧
    SjPlaylistEntry.VerifyUrl.resolve onlyTitleEnv
      (SjPlaylistEntry.new 1 "song.mp3\tlist.m3u\tOnlyTitle" false 0)
      = some "file:///m/a.mp3" ∧
    SjPlaylistEntry.VerifyUrl.resolve { onlyTitleEnv with LibraryGetUrl := fun _ _ _ => "" }
      (SjPlaylistEntry.new 1 "song.mp3\tlist.m3u\tOnlyTitle" false 0) = none := by
  decide

/-- Claim C21, amended.  If the playlist file consists of an `#EXTINF:` line whose text
behind the comma has no dash (and no tab) and of a URL line, the import returns true and
adds exactly one entry, whose string is the URL line, the path of the playlist file and the
text joined by tabs.  Read back by the hint extraction of `VerifyUrl`, the URL field is the
URL line, the artist hint (third field) is the whole text, the album hint is empty and the
track hint (last field) is the whole text again: the artist hint is empty only if the text
is empty, so the library lookup is attempted with the text as artist and as track. -/
theorem AddFromM3uFile_title_without_dash (env : SjEnv) (p : SjPlaylist) (nextId : Int)
    (nativePath : String) (addMax : Int) (s T u : String)
    (hopen : env.OpenFileSeekable nativePath = true)
    (hlines : env.SplitLines (env.GetFileContent nativePath (env.GetExt nativePath == "m3u8"))
      = ["#EXTINF:" ++ s ++ "," ++ T, u])
    (hs : ',' ∉ s.data) (hT1 : '-' ∉ T.data) (hT2 : '\t' ∉ T.data)
    (hu1 : IsEmpty u = false) (hu2 : StartsWith u "#" = false) (hu3 : '\t' ∉ u.data)
    (hn : '\t' ∉ nativePath.data) :
    (p.AddFromM3uFile env nextId nativePath addMax).1 = true ∧
    (p.AddFromM3uFile env nextId nativePath addMax).2.1.m_array = p.m_array ++
      [{ m_id := nextId, m_url := u ++ "\t" ++ nativePath ++ "\t" ++ T,
         m_urlVerified := false, m_urlOk := false, m_addInfo := none, m_flags := 0 }] ∧
    BeforeFirst (u ++ "\t" ++ nativePath ++ "\t" ++ T) '\t' = u ∧
    SjPlaylistEntry.VerifyUrl.artistName (u ++ "\t" ++ nativePath ++ "\t" ++ T) = T ∧
    SjPlaylistEntry.VerifyUrl.albumName (u ++ "\t" ++ nativePath ++ "\t" ++ T) = "" ∧
    SjPlaylistEntry.VerifyUrl.trackName (u ++ "\t" ++ nativePath ++ "\t" ++ T) = T := by
  have hrun := AddFromM3uFile_two_lines env p nextId nativePath addMax s T u hopen hlines hs
    hu1 hu2
  have hsep : replaceTitleSeparator T = T := by
    have := replaceTitleSeparator_spaced [T] (by simpa using hT1)
    simpa [joinParts] using this
  rw [hsep] at hrun
  have hh := hints_of_raw u nativePath T [] hu3 hn (by simpa using hT2)
  simp only [joinParts, List.getLastD] at hh
  refine ⟨by rw [hrun], by rw [hrun]; rfl, hh.1, hh.2.1, hh.2.2.1, ?_⟩
  have := hh.2.2.2
  simpa using this

/-- Witness for C21 (amended): the lines `#EXTINF:5,OnlyTitle` and `song.mp3`. -/
theorem AddFromM3uFile_title_without_dash_witness :
    SjPlaylistEntry.VerifyUrl.artistName ("song.mp3" ++ "\t" ++ "list.m3u" ++ "\t" ++ "OnlyTitle")
      = "OnlyTitle" :=
  (AddFromM3uFile_title_without_dash onlyTitleEnv SjPlaylist.empty 1 "list.m3u" 10 "5"
    "OnlyTitle" "song.mp3" (by decide) (by decide) (by decide) (by decide) (by decide)
    (by decide) (by decide) (by decide) (by decide)).2.2.2.1

/-- Counterexample for C22: the text `A - B - C` has its two separators replaced, not only
the first; the entry has the string `song.mp3`, `list.m3u`, `A`, an empty field, `B`, an
empty field and `C` joined by tabs, so the artist hint is "A" and the track hint is "C", not
"B - C". -/
theorem AddFromM3uFile_all_separators_counterexample :
    SjPlaylist.AddFromM3uFile.extinfTitle "#EXTINF:0,A - B - C" = "A\t\tB\t\tC" ∧
    (SjPlaylist.empty.AddFromM3uFile threePartEnv 1 "list.m3u" 10).2.1.m_array
      = [SjPlaylistEntry.new 1 "song.mp3\tlist.m3u\tA\t\tB\t\tC" false 0] ∧
    SjPlaylistEntry.VerifyUrl.artistName "song.mp3\tlist.m3u\tA\t\tB\t\tC" = "A" ∧
    SjPlaylistEntry.VerifyUrl.trackName "song.mp3\tlist.m3u\tA\t\tB\t\tC" = "C" ∧
    ("C" : String) ≠ "B - C" := by
  decide

/-- Claim C22, amended.  Every occurrence of the separator in the text of an `#EXTINF:` line
is replaced by two tabs: the separator is `" - "`, or `"-"` when the text contains no
`" - "`.  For a text that consists of parts without dash and tab joined by the separator,
the import of the line and a URL line adds one entry whose string is the URL line, the path
of the playlist file and the parts, joined by two tabs, behind one another; the artist hint
is the first part, the album hint is empty and the track hint is the last part. -/
theorem AddFromM3uFile_separator_split (env : SjEnv) (p : SjPlaylist) (nextId : Int)
    (nativePath : String) (addMax : Int) (s text u a : String) (t : List String)
    (hopen : env.OpenFileSeekable nativePath = true)
    (hlines : env.SplitLines (env.GetFileContent nativePath (env.GetExt nativePath == "m3u8"))
      = ["#EXTINF:" ++ s ++ "," ++ text, u])
    (htext : text = joinParts " - " (a :: t) ∨
      (text = joinParts "-" (a :: t) ∧ Find text " - " = wxNOT_FOUND))
    (hs : ',' ∉ s.data) (hp1 : ∀ x ∈ a :: t, '-' ∉ x.data) (hp2 : ∀ x ∈ a :: t, '\t' ∉ x.data)
    (hu1 : IsEmpty u = false) (hu2 : StartsWith u "#" = false) (hu3 : '\t' ∉ u.data)
    (hn : '\t' ∉ nativePath.data) :
    (p.AddFromM3uFile env nextId nativePath addMax).1 = true ∧
    (p.AddFromM3uFile env nextId nativePath addMax).2.1.m_array = p.m_array ++
      [{ m_id := nextId,
         m_url := u ++ "\t" ++ nativePath ++ "\t" ++ joinParts "\t\t" (a :: t),
         m_urlVerified := false, m_urlOk := false, m_addInfo := none, m_flags := 0 }] ∧
    SjPlaylistEntry.VerifyUrl.artistName
      (u ++ "\t" ++ nativePath ++ "\t" ++ joinParts "\t\t" (a :: t)) = a ∧
    SjPlaylistEntry.VerifyUrl.albumName
      (u ++ "\t" ++ nativePath ++ "\t" ++ joinParts "\t\t" (a :: t)) = "" ∧
    SjPlaylistEntry.VerifyUrl.trackName
      (u ++ "\t" ++ nativePath ++ "\t" ++ joinParts "\t\t" (a :: t)) = (a :: t).getLastD "" := by
  have hrun := AddFromM3uFile_two_lines env p nextId nativePath addMax s text u hopen hlines hs
    hu1 hu2
  have hsep : replaceTitleSeparator text = joinParts "\t\t" (a :: t) := by
    rcases htext with h | ⟨h, hno⟩
    · rw [h]; exact replaceTitleSeparator_spaced (a :: t) hp1
    · rw [h] at hno ⊢; exact replaceTitleSeparator_dash (a :: t) hp1 hno
  rw [hsep] at hrun
  have hh := hints_of_raw u nativePath a t hu3 hn hp2
  exact ⟨by rw [hrun], by rw [hrun]; rfl, hh.2.1, hh.2.2.1, hh.2.2.2⟩

/-- Witness for C22 (amended): the text `A - B - C`, with the parts "A", "B" and "C". -/
theorem AddFromM3uFile_separator_split_witness :
    SjPlaylistEntry.VerifyUrl.trackName
      ("song.mp3" ++ "\t" ++ "list.m3u" ++ "\t" ++ joinParts "\t\t" ["A", "B", "C"]) = "C" :=
  (AddFromM3uFile_separator_split threePartEnv SjPlaylist.empty 1 "list.m3u" 10 "0"
    "A - B - C" "song.mp3" "A" ["B", "C"] (by decide) (by decide) (Or.inl (by decide))
    (by decide) (by decide) (by decide) (by decide) (by decide) (by decide)
    (by decide)).2.2.2.2

/-! ## The cap of the importers -/

theorem AddArray_cons (p : SjPlaylist) (nextId : Int) (url : String) (rest : List String)
    (v : Bool) :
    p.AddArray nextId (url :: rest) v
      = (p.Add nextId url v 0).1.AddArray (p.Add nextId url v 0).2 rest v := rfl

theorem AddArray_array (urls : List String) :
    ∀ (p : SjPlaylist) (nextId : Int) (v : Bool),
      (p.AddArray nextId urls v).1.m_array = p.m_array ++ newEntries nextId urls v := by
  induction urls with
  | nil => intro p nextId v; simp [SjPlaylist.AddArray, newEntries]
  | cons url rest ih =>
    intro p nextId v
    rw [AddArray_cons, ih]
    simp [SjPlaylist.Add, newEntries]

theorem newEntries_take (urls : List String) :
    ∀ (n : Nat) (nextId : Int) (v : Bool),
      newEntries nextId (urls.take n) v = (newEntries nextId urls v).take n := by
  induction urls with
  | nil => intro n nextId v; simp [newEntries]
  | cons url rest ih =>
    intro n nextId v
    cases n with
    | zero => simp [newEntries]
    | succ m => simp [newEntries, ih]

theorem newEntries_length (urls : List String) :
    ∀ (nextId : Int) (v : Bool), (newEntries nextId urls v).length = urls.length := by
  induction urls with
  | nil => intro _ _; rfl
  | cons url rest ih => intro nextId v; simp [newEntries, ih]

theorem newEntries_map_url (urls : List String) :
    ∀ (nextId : Int) (v : Bool), (newEntries nextId urls v).map (fun e => e.m_url) = urls := by
  induction urls with
  | nil => intro _ _; rfl
  | cons url rest ih => intro nextId v; simp [newEntries, ih, SjPlaylistEntry.new]

/-- The M3U loop adds the first strings of the uncapped list, as many as the cap leaves. -/
theorem AddFromM3uFile_loop_eq (nativePath : String) (addMax : Int) :
    ∀ (lines : List String) (currTitle : String) (filesAdded : Int) (st : SjPlaylist × Int),
      filesAdded < addMax →
      SjPlaylist.AddFromM3uFile.loop nativePath addMax lines currTitle filesAdded st
        = st.1.AddArray st.2
            ((m3uRaws nativePath lines currTitle).take (addMax - filesAdded).toNat) false := by
  intro lines
  induction lines with
  | nil => intro _ _ st _; simp [SjPlaylist.AddFromM3uFile.loop, m3uRaws, SjPlaylist.AddArray]
  | cons currLine rest ih =>
    intro currTitle filesAdded st hk
    rw [SjPlaylist.AddFromM3uFile.loop, m3uRaws]
    by_cases h1 : IsEmpty currLine = true
    · simp only [h1, if_true]
      exact ih _ _ _ hk
    · simp only [h1, Bool.false_eq_true, if_false]
      by_cases h2 : StartsWith currLine "#" = true
      · simp only [h2, if_true]
        by_cases h3 : StartsWith currLine "#EXTINF:" = true
        · simp only [h3, if_true]
          exact ih _ _ _ hk
        · simp only [h3, Bool.false_eq_true, if_false]
          exact ih _ _ _ hk
      · simp only [h2, Bool.false_eq_true, if_false]
        have hn : (addMax - filesAdded).toNat = (addMax - (filesAdded + 1)).toNat + 1 := by
          omega
        rw [hn, List.take_succ_cons, AddArray_cons]
        by_cases h4 : filesAdded + 1 ≥ addMax
        · simp only [h4, if_true]
          have : (addMax - (filesAdded + 1)).toNat = 0 := by omega
          rw [this]
          simp [SjPlaylist.AddArray]
        · simp only [h4, if_false]
          exact ih _ _ _ (by omega)

/-- The XSPF loop adds the first strings of the uncapped list, as many as the cap leaves. -/
theorem AddFromXspfXmlWplFile_loop_eq (env : SjEnv) (nativePath : String) (addMax : Int) :
    ∀ (lines : List String) (r : XspfRecord) (filesAdded : Int) (st : SjPlaylist × Int),
      filesAdded < addMax →
      SjPlaylist.AddFromXspfXmlWplFile.loop env nativePath addMax lines r filesAdded st
        = st.1.AddArray st.2
            ((xspfRaws env nativePath lines r).take (addMax - filesAdded).toNat) false := by
  intro lines
  induction lines with
  | nil =>
    intro _ _ st _
    simp [SjPlaylist.AddFromXspfXmlWplFile.loop, xspfRaws, SjPlaylist.AddArray]
  | cons line rest ih =>
    intro r filesAdded st hk
    rw [SjPlaylist.AddFromXspfXmlWplFile.loop, xspfRaws]
    simp only [xspfCloses, xspfFields]
    generalize (if StartsWith line "xspf:" = true then Mid line 5 else line) = cl
    cases h0 : IsEmpty line
    · cases h1 : StartsWith cl "creator"
      · cases h2 : StartsWith cl "album"
        · cases h3 : StartsWith cl "title"
          · cases h4 : StartsWith cl "location"
            · cases h5 : StartsWith cl "/track"
              · simp only [Bool.false_eq_true, if_false, Bool.not_false, Bool.and_self,
                  Bool.and_false]
                exact ih _ _ _ hk
              · simp only [Bool.false_eq_true, if_false, if_true, Bool.not_false,
                  Bool.and_self]
                unfold xspfRaw
                cases h6 : IsEmpty (SjPlaylist.AddFromXspfXmlWplFile.flushLocation env r)
                · simp only [Bool.not_false, if_true]
                  have hn : (addMax - filesAdded).toNat
                      = (addMax - (filesAdded + 1)).toNat + 1 := by omega
                  rw [hn, List.take_succ_cons, AddArray_cons]
                  by_cases h7 : filesAdded + 1 ≥ addMax
                  · simp only [h7, if_true]
                    have : (addMax - (filesAdded + 1)).toNat = 0 := by omega
                    rw [this]
                    simp [SjPlaylist.AddArray]
                  · simp only [h7, if_false]
                    exact ih _ _ _ (by omega)
                · simp only [Bool.not_true, Bool.false_eq_true, if_false]
                  exact ih _ _ _ hk
            · simp only [Bool.false_eq_true, if_false, if_true, Bool.not_false, Bool.not_true,
                Bool.and_self, Bool.and_false, Bool.false_and]
              exact ih _ _ _ hk
          · simp only [Bool.false_eq_true, if_false, if_true, Bool.not_false, Bool.not_true,
              Bool.and_self, Bool.and_false, Bool.false_and]
            exact ih _ _ _ hk
        · simp only [Bool.false_eq_true, if_false, if_true, Bool.not_false, Bool.not_true,
            Bool.and_self, Bool.and_false, Bool.false_and]
          exact ih _ _ _ hk
      · simp only [Bool.false_eq_true, if_false, if_true, Bool.not_false, Bool.not_true,
          Bool.and_self, Bool.and_false, Bool.false_and]
        exact ih _ _ _ hk
    · simp only [if_true, Bool.not_true, Bool.false_and, Bool.false_eq_true, if_false]
      exact ih _ _ _ hk

theorem allDefined_take (raws : List (Option String)) :
    ∀ (n m : Nat) (l : List String), n ≤ m → allDefined (raws.take m) = some l →
      allDefined (raws.take n) = some (l.take n) := by
  induction raws with
  | nil =>
    intro n m l _ h
    simp only [List.take_nil, allDefined, Option.some.injEq] at h ⊢
    rw [← h]
    simp
  | cons x rest ih =>
    intro n m l hnm h
    cases n with
    | zero => simp [allDefined]
    | succ n2 =>
      cases m with
      | zero => omega
      | succ m2 =>
        rw [List.take_succ_cons] at h ⊢
        cases x with
        | none => simp [allDefined] at h
        | some y =>
          simp only [allDefined, Option.map_eq_some'] at h ⊢
          obtain ⟨l2, h2, h3⟩ := h
          refine ⟨l2.take n2, ih n2 m2 l2 (by omega) h2, ?_⟩
          rw [← h3]
          rfl

/-- The second loop of the PLS import adds the first strings of the uncapped list, as many as
the cap leaves, and fails if one of them needs an item outside the array `titles`. -/
theorem AddFromPlsFile_addLoop_eq (nativePath : String) (addMax : Int) (titles : List String)
    (titleCount : Int) :
    ∀ (urls : List String) (urlIndex urlsAdded : Int) (st : SjPlaylist × Int),
      urlsAdded < addMax →
      SjPlaylist.AddFromPlsFile.addLoop nativePath addMax titles titleCount urls urlIndex
          urlsAdded st
        = (allDefined ((plsRaws nativePath titles titleCount urls urlIndex).take
            (addMax - urlsAdded).toNat)).map (fun l => st.1.AddArray st.2 l false) := by
  intro urls
  induction urls with
  | nil =>
    intro _ _ st _
    simp [SjPlaylist.AddFromPlsFile.addLoop, plsRaws, allDefined, SjPlaylist.AddArray]
  | cons u rest ih =>
    intro urlIndex urlsAdded st hk
    rw [SjPlaylist.AddFromPlsFile.addLoop, plsRaws]
    cases h0 : IsEmpty u
    · simp only [Bool.not_false, if_true]
      have hn : (addMax - urlsAdded).toNat = (addMax - (urlsAdded + 1)).toNat + 1 := by omega
      rw [hn, List.take_succ_cons]
      have hraw : (if urlIndex < titleCount then
            match wxArrayItem titles urlIndex with
            | some title => some (u ++ "\t" ++ nativePath ++ "\t" ++ title)
            | none => none
          else some u)
          = (if urlIndex < titleCount then
            (wxArrayItem titles urlIndex).map (fun title => u ++ "\t" ++ nativePath ++ "\t"
              ++ title)
           else some u) := by
        split
        · cases wxArrayItem titles urlIndex <;> rfl
        · rfl
      rw [hraw]
      cases hr : (if urlIndex < titleCount then
            (wxArrayItem titles urlIndex).map (fun title => u ++ "\t" ++ nativePath ++ "\t"
              ++ title)
           else some u) with
      | none => simp [allDefined]
      | some raw =>
        simp only [allDefined]
        by_cases h7 : urlsAdded + 1 ≥ addMax
        · simp only [h7, if_true]
          have : (addMax - (urlsAdded + 1)).toNat = 0 := by omega
          rw [this]
          simp [allDefined, SjPlaylist.AddArray]
        · simp only [h7, if_false]
          rw [ih _ _ _ (by omega)]
          simp only [Option.map_map]
          rfl
    · simp only [Bool.not_true, Bool.false_eq_true, if_false]
      exact ih _ _ _ hk

/-! ## Cue sheets: file names and the reference-count map -/

theorem toLower_eq_tab (c : Char) (h : c.toLower = '\t') : c = '\t' := by
  unfold Char.toLower at h
  simp only [] at h
  by_cases hc : c.toNat ≥ 65 ∧ c.toNat ≤ 90
  · rw [if_pos hc] at h
    obtain ⟨h1, h2⟩ := hc
    generalize c.toNat = n at h h1 h2
    exfalso
    interval_cases n <;> revert h <;> decide
  · rw [if_neg hc] at h
    exact h

theorem tab_mem_wxLower (s : String) : '\t' ∈ (wxLower s).data ↔ '\t' ∈ s.data := by
  show '\t' ∈ s.data.map Char.toLower ↔ _
  rw [List.mem_map]
  constructor
  · rintro ⟨c, hc, h⟩
    rw [toLower_eq_tab c h] at hc
    exact hc
  · intro h
    exact ⟨'\t', h, by decide⟩

theorem sameNoCase_tab (k u : String) (h : sameNoCase k u = true) :
    '\t' ∈ k.data ↔ '\t' ∈ u.data := by
  rw [← tab_mem_wxLower k, ← tab_mem_wxLower u, (sameNoCase_iff k u).1 h]

theorem Add_NoTabFreeKey (p : SjPlaylist) (nextId : Int) (url : String) (v : Bool)
    (flags : Int) (h : p.NoTabFreeKey) (hurl : '\t' ∈ url.data) :
    (p.Add nextId url v flags).1.NoTabFreeKey := by
  intro u hu
  show (p.m_urlCounts.Insert url (p.m_urlCounts.Lookup url + 1)).Lookup u = 0
  rw [Lookup_Insert]
  have hs : sameNoCase url u = false := by
    cases hc : sameNoCase url u
    · rfl
    · exact absurd ((sameNoCase_tab url u hc).1 hurl) hu
  simp only [hs, Bool.false_eq_true, if_false]
  exact h u hu

theorem GetPosByUrl_not_counted (env : SjEnv) (p : SjPlaylist) (url : String)
    (h : p.m_urlCounts.Lookup url = 0) : p.GetPosByUrl env url = some (wxNOT_FOUND, p) := by
  unfold SjPlaylist.GetPosByUrl SjPlaylist.IsInPlaylist
  simp [h]

theorem replaceGo_tab_free (l : List Char) :
    ∀ skip : Nat, '\t' ∉ (replaceGo ['\t'] [' '] l skip).1 := by
  induction l with
  | nil => intro skip; cases skip <;> simp [replaceGo]
  | cons c rest ih =>
    intro skip
    cases skip with
    | succ k =>
      rw [replaceGo]
      exact ih k
    | zero =>
      rw [replaceGo]
      by_cases hp : List.isPrefixOf ['\t'] (c :: rest) = true
      · simp only [hp, if_true]
        intro hm
        rcases List.mem_append.1 hm with h1 | h1
        · revert h1; decide
        · exact ih _ h1
      · simp only [hp, Bool.false_eq_true, if_false]
        intro hm
        rcases List.mem_cons.1 hm with h1 | h1
        · apply hp
          rw [← h1]
          simp [List.isPrefixOf]
        · exact ih 0 h1

theorem Replace_tab_free (s : String) : '\t' ∉ (Replace s "\t" " ").1.data := by
  unfold Replace
  have he : ("\t" : String).data.isEmpty = false := rfl
  simp only [he, Bool.false_eq_true, if_false]
  exact replaceGo_tab_free s.data 0

theorem mem_BeforeFirst (s : String) (c x : Char) (h : x ∈ (BeforeFirst s c).data) :
    x ∈ s.data :=
  (List.takeWhile_sublist _).subset h

theorem mem_AfterFirst (s : String) (c x : Char) (h : x ∈ (AfterFirst s c).data) :
    x ∈ s.data :=
  (List.dropWhile_sublist _).subset ((List.drop_sublist 1 _).subset h)

theorem mem_BeforeLast (s : String) (c x : Char) (h : x ∈ (BeforeLast s c).data) :
    x ∈ s.data := by
  have h1 : x ∈ (s.data.reverse.dropWhile (fun y => y != c)).drop 1 := List.mem_reverse.1 h
  exact List.mem_reverse.1 ((List.dropWhile_sublist _).subset ((List.drop_sublist 1 _).subset h1))

theorem mem_Mid (s : String) (n : Nat) (x : Char) (h : x ∈ (Mid s n).data) : x ∈ s.data :=
  (List.drop_sublist n _).subset h

theorem mem_TrimLeft (s : String) (x : Char) (h : x ∈ (TrimLeft s).data) : x ∈ s.data :=
  (List.dropWhile_sublist _).subset h

theorem mem_TrimRight (s : String) (x : Char) (h : x ∈ (TrimRight s).data) : x ∈ s.data := by
  have h1 : x ∈ s.data.reverse.dropWhile wxIsspace := List.mem_reverse.1 h
  exact List.mem_reverse.1 ((List.dropWhile_sublist _).subset h1)

theorem mem_betweenQuotes (s : String) (x : Char)
    (h : x ∈ (SjPlaylist.AddFromCueFile.betweenQuotes s).data) : x ∈ s.data := by
  unfold SjPlaylist.AddFromCueFile.betweenQuotes at h
  have h1 := mem_TrimRight _ _ (mem_TrimLeft _ _ h)
  split at h1
  · exact mem_AfterFirst _ _ _ (mem_BeforeLast _ _ _ h1)
  · exact mem_Mid _ _ _ (mem_TrimLeft _ _ (mem_BeforeFirst _ _ _ h1))

/-- The file name taken from a line of a cue sheet has no tab. -/
theorem fileName_tab_free (line name : String)
    (h : SjPlaylist.AddFromCueFile.fileName line = some name) : '\t' ∉ name.data := by
  unfold SjPlaylist.AddFromCueFile.fileName at h
  simp only [] at h
  by_cases c1 : (wxUpper (Left (Replace line "\t" " ").1 5) != "FILE ") = true
  · simp [c1] at h
  · simp only [c1, Bool.false_eq_true, if_false] at h
    by_cases c2 : IsEmpty (SjPlaylist.AddFromCueFile.betweenQuotes (Replace line "\t" " ").1)
        = true
    · simp [c2] at h
    · simp only [c2, Bool.false_eq_true, if_false, Option.some.injEq] at h
      rw [← h]
      exact fun hm => Replace_tab_free line (mem_betweenQuotes _ _ hm)

theorem tab_mem_with_path (name nativePath : String) :
    '\t' ∈ (name ++ "\t" ++ nativePath).data := by
  simp [String.data_append]

/-- In a playlist that counts no string without a tab, the loop of the cue-sheet import finds
none of its file names: it adds the first strings of the uncapped list, as many as the cap
leaves, duplicates included. -/
theorem AddFromCueFile_loop_eq (env : SjEnv) (nativePath : String) (addMax : Int) :
    ∀ (lines : List String) (filesAdded : Int) (st : SjPlaylist × Int),
      st.1.NoTabFreeKey → filesAdded < addMax →
      SjPlaylist.AddFromCueFile.loop env nativePath addMax lines filesAdded st
        = some (st.1.AddArray st.2
            ((cueRaws nativePath lines).take (addMax - filesAdded).toNat) false) := by
  intro lines
  induction lines with
  | nil =>
    intro _ st _ _
    simp [SjPlaylist.AddFromCueFile.loop, cueRaws, SjPlaylist.AddArray]
  | cons line rest ih =>
    intro filesAdded st hH hk
    rw [SjPlaylist.AddFromCueFile.loop, cueRaws]
    cases h0 : IsEmpty line
    · simp only [Bool.false_eq_true, if_false]
      cases hf : SjPlaylist.AddFromCueFile.fileName line with
      | none =>
        simp only []
        exact ih _ _ hH hk
      | some name =>
        simp only []
        have hname := fileName_tab_free line name hf
        rw [GetPosByUrl_not_counted env st.1 name (hH name hname)]
        simp only [bne_self_eq_false, Bool.false_eq_true, if_false]
        have hn : (addMax - filesAdded).toNat = (addMax - (filesAdded + 1)).toNat + 1 := by
          omega
        rw [hn, List.take_succ_cons, AddArray_cons]
        by_cases h7 : filesAdded + 1 ≥ addMax
        · simp only [h7, if_true]
          have : (addMax - (filesAdded + 1)).toNat = 0 := by omega
          rw [this]
          simp [SjPlaylist.AddArray]
        · simp only [h7, if_false]
          exact ih _ _ (Add_NoTabFreeKey st.1 st.2 _ false 0 hH
            (tab_mem_with_path name nativePath)) (by omega)
    · simp only [if_true]
      exact ih _ _ hH hk

/-- The uncapped M3U list has one string per line that is not empty and does not start with
`#`, in the order of the file: the line, the path of the playlist file and the hints. -/
theorem m3uRaws_lines (nativePath : String) :
    ∀ (lines : List String) (currTitle : String),
      ∃ titles : List String,
        titles.length
          = (lines.filter (fun l => !IsEmpty l && !StartsWith l "#")).length ∧
        m3uRaws nativePath lines currTitle
          = List.zipWith (fun l t => l ++ "\t" ++ nativePath ++ "\t" ++ t)
              (lines.filter (fun l => !IsEmpty l && !StartsWith l "#")) titles := by
  intro lines
  induction lines with
  | nil => intro _; exact ⟨[], rfl, rfl⟩
  | cons line rest ih =>
    intro currTitle
    rw [m3uRaws]
    cases h1 : IsEmpty line
    · cases h2 : StartsWith line "#"
      · obtain ⟨titles, hl, hz⟩ := ih ""
        refine ⟨currTitle :: titles, ?_, ?_⟩
        · simp [List.filter, h1, h2, hl]
        · simp [List.filter, h1, h2, hz]
      · simp only [Bool.false_eq_true, if_false, if_true]
        have hf : (line :: rest).filter (fun l => !IsEmpty l && !StartsWith l "#")
            = rest.filter (fun l => !IsEmpty l && !StartsWith l "#") := by
          simp [List.filter, h1, h2]
        rw [hf]
        split
        · exact ih _
        · exact ih _
    · simp only [if_true]
      have hf : (line :: rest).filter (fun l => !IsEmpty l && !StartsWith l "#")
          = rest.filter (fun l => !IsEmpty l && !StartsWith l "#") := by
        simp [List.filter, h1]
      rw [hf]
      exact ih _

theorem take_newEntries_length (nextId : Int) (raws : List String) (n : Nat)
    (old : List SjPlaylistEntry) :
    (old ++ (newEntries nextId raws false).take n).length ≤ old.length + n := by
  rw [List.length_append]
  have := List.length_take_le n (newEntries nextId raws false)
  omega

/-- Claim C23.  The file of the import can be opened.  For the M3U import and the
XSPF/XML/WPL import, and for the cue-sheet import into a playlist that counts no string
without a tab (so that no file name of the sheet is found in it), there is a list of entries,
the same for every cap, such that the import with a cap `addMax >= 1` returns true and
appends the first `addMax` entries of that list, in order, so at most `addMax` entries; with
a cap that is not below the length of the list it appends all of them.  For M3U that list
has one entry per line that is not empty and does not start with `#`, in file order, whose
string is the line, the path of the playlist file and the hints.  For the PLS import, which
can fail on an array access, an import with a cap `c' >= c >= 1` that returns gives an import
with the cap `c` that returns with the first `c` of its entries. -/
theorem importers_respect_cap (env : SjEnv) (p : SjPlaylist) (nextId : Int)
    (nativePath : String) (hopen : env.OpenFileSeekable nativePath = true) :
    (∃ raws titles : List String,
      titles.length = ((env.SplitLines (env.GetFileContent nativePath
        (env.GetExt nativePath == "m3u8"))).filter
          (fun l => !IsEmpty l && !StartsWith l "#")).length ∧
      raws = List.zipWith (fun l t => l ++ "\t" ++ nativePath ++ "\t" ++ t)
        ((env.SplitLines (env.GetFileContent nativePath
          (env.GetExt nativePath == "m3u8"))).filter
            (fun l => !IsEmpty l && !StartsWith l "#")) titles ∧
      ∀ addMax : Int, 1 ≤ addMax →
        (p.AddFromM3uFile env nextId nativePath addMax).1 = true ∧
        (p.AddFromM3uFile env nextId nativePath addMax).2.1.m_array
          = p.m_array ++ (newEntries nextId raws false).take addMax.toNat ∧
        (p.AddFromM3uFile env nextId nativePath addMax).2.1.m_array.length
          ≤ p.m_array.length + addMax.toNat) ∧
    (∀ c c2 : Int, 1 ≤ c → c ≤ c2 → ∀ r2, p.AddFromPlsFile env nextId nativePath c2 = some r2 →
      ∃ r, p.AddFromPlsFile env nextId nativePath c = some r ∧ r.1 = true ∧
        r.2.1.m_array = p.m_array ++ (r2.2.1.m_array.drop p.m_array.length).take c.toNat ∧
        r.2.1.m_array.length ≤ p.m_array.length + c.toNat) ∧
    (p.NoTabFreeKey → ∃ raws : List String, ∀ addMax : Int, 1 ≤ addMax →
      ∃ r, p.AddFromCueFile env nextId nativePath addMax = some r ∧ r.1 = true ∧
        r.2.1.m_array = p.m_array ++ (newEntries nextId raws false).take addMax.toNat ∧
        r.2.1.m_array.length ≤ p.m_array.length + addMax.toNat) ∧
    (∃ raws : List String, ∀ addMax : Int, 1 ≤ addMax →
      (p.AddFromXspfXmlWplFile env nextId nativePath addMax).1 = true ∧
      (p.AddFromXspfXmlWplFile env nextId nativePath addMax).2.1.m_array
        = p.m_array ++ (newEntries nextId raws false).take addMax.toNat ∧
      (p.AddFromXspfXmlWplFile env nextId nativePath addMax).2.1.m_array.length
        ≤ p.m_array.length + addMax.toNat) := by
  refine ⟨?_, ?_, ?_, ?_⟩
  · obtain ⟨titles, hl, hz⟩ := m3uRaws_lines nativePath
      (env.SplitLines (env.GetFileContent nativePath (env.GetExt nativePath == "m3u8"))) ""
    refine ⟨_, titles, hl, rfl, ?_⟩
    intro addMax hc
    have hrun : p.AddFromM3uFile env nextId nativePath addMax
        = (true, p.AddArray nextId ((m3uRaws nativePath (env.SplitLines
            (env.GetFileContent nativePath (env.GetExt nativePath == "m3u8"))) "").take
              addMax.toNat) false) := by
      unfold SjPlaylist.AddFromM3uFile
      simp only [hopen, Bool.not_true, Bool.false_eq_true, if_false]
      rw [AddFromM3uFile_loop_eq nativePath addMax _ _ 0 _ (by omega)]
      simp
    have harr : (p.AddFromM3uFile env nextId nativePath addMax).2.1.m_array
        = p.m_array ++ (newEntries nextId (List.zipWith
            (fun l t => l ++ "\t" ++ nativePath ++ "\t" ++ t)
            ((env.SplitLines (env.GetFileContent nativePath
              (env.GetExt nativePath == "m3u8"))).filter
                (fun l => !IsEmpty l && !StartsWith l "#")) titles) false).take
              addMax.toNat := by
      rw [hrun, ← hz, ← newEntries_take]
      exact AddArray_array _ _ _ _
    refine ⟨by rw [hrun], harr, ?_⟩
    rw [harr]
    exact take_newEntries_length _ _ _ _
  · intro c c2 hc hcc r2 hr2
    unfold SjPlaylist.AddFromPlsFile at hr2 ⊢
    simp only [hopen, Bool.not_true, Bool.false_eq_true, if_false] at hr2 ⊢
    cases hp : SjPlaylist.AddFromPlsFile.parse (env.SplitLines
        (env.GetFileContent nativePath false)) PlsState.init with
    | none => simp [hp] at hr2
    | some s =>
      simp only [hp] at hr2 ⊢
      rw [AddFromPlsFile_addLoop_eq nativePath c2 _ _ _ 0 0 _ (by omega)] at hr2
      rw [AddFromPlsFile_addLoop_eq nativePath c _ _ _ 0 0 _ (by omega)]
      simp only [sub_zero] at hr2 ⊢
      cases hd : allDefined ((plsRaws nativePath s.titles s.titleCount s.urls 0).take
          c2.toNat) with
      | none => simp [hd] at hr2
      | some l2 =>
        simp only [hd, Option.map_some', Option.some.injEq] at hr2
        have hd1 := allDefined_take _ c.toNat c2.toNat l2 (by omega) hd
        simp only [hd1, Option.map_some']
        refine ⟨_, rfl, rfl, ?_⟩
        have harr : (p.AddArray nextId (l2.take c.toNat) false).1.m_array
            = p.m_array ++ (r2.2.1.m_array.drop p.m_array.length).take c.toNat := by
          rw [AddArray_array, ← hr2, newEntries_take]
          show _ = p.m_array ++ ((p.AddArray nextId l2 false).1.m_array.drop
            p.m_array.length).take c.toNat
          rw [AddArray_array, List.drop_left]
        refine ⟨harr, ?_⟩
        show (p.AddArray nextId (l2.take c.toNat) false).1.m_array.length ≤ _
        rw [AddArray_array, List.length_append, newEntries_length]
        have := List.length_take_le c.toNat l2
        omega
  · intro hH
    refine ⟨cueRaws nativePath (env.SplitLines (env.GetFileContent nativePath false)), ?_⟩
    intro addMax hc
    have hrun : p.AddFromCueFile env nextId nativePath addMax
        = some (true, p.AddArray nextId ((cueRaws nativePath (env.SplitLines
            (env.GetFileContent nativePath false))).take addMax.toNat) false) := by
      unfold SjPlaylist.AddFromCueFile
      simp only [hopen, Bool.not_true, Bool.false_eq_true, if_false]
      rw [AddFromCueFile_loop_eq env nativePath addMax _ 0 _ hH (by omega)]
      simp
    refine ⟨_, hrun, rfl, ?_, ?_⟩
    · show (p.AddArray nextId _ false).1.m_array = _
      rw [AddArray_array, newEntries_take]
    · show (p.AddArray nextId _ false).1.m_array.length ≤ _
      rw [AddArray_array, newEntries_take]
      exact take_newEntries_length _ _ _ _
  · refine ⟨xspfRaws env nativePath (env.SplitLines
      (SjPlaylist.AddFromXspfXmlWplFile.prepare (env.GetFileContent nativePath true)))
      XspfRecord.empty, ?_⟩
    intro addMax hc
    have hrun : p.AddFromXspfXmlWplFile env nextId nativePath addMax
        = (true, p.AddArray nextId ((xspfRaws env nativePath (env.SplitLines
            (SjPlaylist.AddFromXspfXmlWplFile.prepare (env.GetFileContent nativePath true)))
            XspfRecord.empty).take addMax.toNat) false) := by
      unfold SjPlaylist.AddFromXspfXmlWplFile
      simp only [hopen, Bool.not_true, Bool.false_eq_true, if_false]
      rw [AddFromXspfXmlWplFile_loop_eq env nativePath addMax _ _ 0 _ (by omega)]
      simp
    have harr : (p.AddFromXspfXmlWplFile env nextId nativePath addMax).2.1.m_array
        = p.m_array ++ (newEntries nextId (xspfRaws env nativePath (env.SplitLines
            (SjPlaylist.AddFromXspfXmlWplFile.prepare (env.GetFileContent nativePath true)))
            XspfRecord.empty) false).take addMax.toNat := by
      rw [hrun, ← newEntries_take]
      exact AddArray_array _ _ _ _
    refine ⟨by rw [hrun], harr, ?_⟩
    rw [harr]
    exact take_newEntries_length _ _ _ _

/-- Witness for C23: an M3U file with three URL lines, an empty line and a comment, imported
with the cap 2. -/
theorem importers_respect_cap_witness :
    (SjPlaylist.empty.AddFromM3uFile (fileEnv ["a.mp3", "", "#c", "b.mp3", "c.mp3"]) 1
      "list.m3u" 2).2.1.m_array.map (fun e => e.m_url)
      = ["a.mp3\tlist.m3u\t", "b.mp3\tlist.m3u\t"] ∧
    ∃ raws : List String, ∀ addMax : Int, 1 ≤ addMax →
      (SjPlaylist.empty.AddFromXspfXmlWplFile (fileEnv ["a.mp3", "", "#c", "b.mp3", "c.mp3"]) 1
        "list.m3u" addMax).1 = true ∧
      (SjPlaylist.empty.AddFromXspfXmlWplFile (fileEnv ["a.mp3", "", "#c", "b.mp3", "c.mp3"]) 1
        "list.m3u" addMax).2.1.m_array
        = SjPlaylist.empty.m_array ++ (newEntries 1 raws false).take addMax.toNat ∧
      (SjPlaylist.empty.AddFromXspfXmlWplFile (fileEnv ["a.mp3", "", "#c", "b.mp3", "c.mp3"]) 1
        "list.m3u" addMax).2.1.m_array.length
        ≤ SjPlaylist.empty.m_array.length + addMax.toNat :=
  ⟨by decide,
    (importers_respect_cap (fileEnv ["a.mp3", "", "#c", "b.mp3", "c.mp3"]) SjPlaylist.empty 1
      "list.m3u" (by decide)).2.2.2⟩

/-! ## The arrays of the PLS import -/

/-- Claim C25, failing input.  The sparse file with only `File2` and `Title2` gives exactly
one entry, with the URL field of the `File2` line and without a placeholder for slot 1.  But
the general statement fails: six `File` lines with the six different indices 6, 3, 4, 1, 2, 5
and non-empty values give five entries; the value of `File3` is overwritten by the value of
`File5`, because the array is extended at the position of the line counter `urlCount` and
not at its end. -/
theorem AddFromPlsFile_loses_file :
    (SjPlaylist.empty.AddFromPlsFile (fileEnv ["[playlist]", "File2=u.mp3", "Title2=t"]) 1
      "list.pls" 10).map (fun r => r.2.1.m_array.map (fun e => BeforeFirst e.m_url '\t'))
      = some ["u.mp3"] ∧
    (SjPlaylist.AddFromPlsFile.parse
      ["File6=f.mp3", "File3=c.mp3", "File4=d.mp3", "File1=a.mp3", "File2=b.mp3"]
      PlsState.init).map (fun s => s.urls)
      = some ["a.mp3", "b.mp3", "", "d.mp3", "c.mp3", "", "", "", "", "f.mp3"] ∧
    (SjPlaylist.empty.AddFromPlsFile
      (fileEnv ["File6=f.mp3", "File3=c.mp3", "File4=d.mp3", "File1=a.mp3", "File2=b.mp3",
        "File5=e.mp3"]) 1 "list.pls" 10).map (fun r => r.2.1.m_array.map (fun e => e.m_url))
      = some ["a.mp3", "b.mp3", "d.mp3", "e.mp3", "f.mp3"] := by
  decide

/-- Claim C26, failing input.  The lines `File5`, `File3`, `File4`, each index once, give the
entries in the order of the slots 4, 3, 5 and not 3, 4, 5: an insertion at the position of
the line counter moves the values stored before, so the array is
`["", "", "", d, c, "", "", "", e]` after the first loop. -/
theorem AddFromPlsFile_order_of_slots :
    (SjPlaylist.AddFromPlsFile.parse ["File5=e.mp3", "File3=c.mp3", "File4=d.mp3"]
      PlsState.init).map (fun s => s.urls)
      = some ["", "", "", "d.mp3", "c.mp3", "", "", "", "e.mp3"] ∧
    (SjPlaylist.empty.AddFromPlsFile
      (fileEnv ["File5=e.mp3", "File3=c.mp3", "File4=d.mp3"]) 1 "list.pls" 10).map
      (fun r => r.2.1.m_array.map (fun e => e.m_url))
      = some ["d.mp3", "c.mp3", "e.mp3"] ∧
    (["d.mp3", "c.mp3", "e.mp3"] : List String) ≠ ["c.mp3", "d.mp3", "e.mp3"] := by
  decide

/-- Claim C30, failing input.  With `File1=u.mp3` and `Title1=A - T` the entry carries the
path of the playlist file and the title hints.  With the sparse lines `File2=u.mp3` and
`Title2=A - T` the title is stored (`titles` is `["", "A", two tabs, "T"]`), but the entry is
the bare `u.mp3`: the second loop compares the index 1 with `titleCount`, which counts the
`Title` lines (one) and not the items of the array. -/
theorem AddFromPlsFile_sparse_title_lost :
    (SjPlaylist.empty.AddFromPlsFile (fileEnv ["File1=u.mp3", "Title1=A - T"]) 1
      "list.pls" 10).map (fun r => r.2.1.m_array.map (fun e => e.m_url))
      = some ["u.mp3\tlist.pls\tA\t\tT"] ∧
    (SjPlaylist.AddFromPlsFile.parse ["File2=u.mp3", "Title2=A - T"] PlsState.init).map
      (fun s => (s.urls, s.titles, s.titleCount))
      = some (["", "u.mp3"], ["", "A\t\tT"], 1) ∧
    (SjPlaylist.empty.AddFromPlsFile (fileEnv ["File2=u.mp3", "Title2=A - T"]) 1
      "list.pls" 10).map (fun r => r.2.1.m_array.map (fun e => e.m_url))
      = some ["u.mp3"] := by
  decide

/-! ## Duplicate files in cue sheets -/

/-- Claim C28, failing input.  A cue sheet with two `FILE` lines for the same file
`a.wav`, imported into the empty playlist, adds two entries.  The first entry is counted
under its whole string, the file name with the path of the sheet behind a tab; the check
before the second `Add` asks for the bare file name, which the map does not count. -/
theorem AddFromCueFile_keeps_duplicates :
    SjPlaylist.AddFromCueFile.fileName "FILE \"a.wav\" WAVE" = some "a.wav" ∧
    (SjPlaylist.empty.AddFromCueFile
      (fileEnv ["FILE \"a.wav\" WAVE", "  TRACK 01 AUDIO", "    INDEX 01 00:00:00",
        "FILE \"a.wav\" WAVE", "  TRACK 02 AUDIO", "    INDEX 01 04:10:00"]) 1
      "album.cue" 10).map (fun r => r.2.1.m_array.map (fun e => e.m_url))
      = some ["a.wav\talbum.cue", "a.wav\talbum.cue"] ∧
    ((SjPlaylist.empty.Add 1 "a.wav\talbum.cue" false 0).1.IsInPlaylist "a.wav") = false ∧
    ((SjPlaylist.empty.Add 1 "a.wav\talbum.cue" false 0).1.GetPosByUrl offlineEnv "a.wav").map
      Prod.fst = some wxNOT_FOUND := by
  decide

/-! ## Records of the XSPF import -/

theorem startsWith_track_closes (currLinePtr0 : String)
    (htrack : StartsWith (if StartsWith currLinePtr0 "xspf:" = true then Mid currLinePtr0 5
      else currLinePtr0) "/track" = true) :
    IsEmpty currLinePtr0 = false ∧
    StartsWith (if StartsWith currLinePtr0 "xspf:" = true then Mid currLinePtr0 5
      else currLinePtr0) "creator" = false ∧
    StartsWith (if StartsWith currLinePtr0 "xspf:" = true then Mid currLinePtr0 5
      else currLinePtr0) "album" = false ∧
    StartsWith (if StartsWith currLinePtr0 "xspf:" = true then Mid currLinePtr0 5
      else currLinePtr0) "title" = false ∧
    StartsWith (if StartsWith currLinePtr0 "xspf:" = true then Mid currLinePtr0 5
      else currLinePtr0) "location" = false := by
  refine ⟨?_, ?_⟩
  · cases hd : currLinePtr0.data with
    | nil =>
      exfalso
      have h1 : StartsWith currLinePtr0 "xspf:" = false := by
        simp [StartsWith, hd]
      rw [h1] at htrack
      simp [StartsWith, hd] at htrack
    | cons c cs => simp [IsEmpty, hd]
  · revert htrack
    generalize (if StartsWith currLinePtr0 "xspf:" = true then Mid currLinePtr0 5
      else currLinePtr0) = cl
    intro htrack
    have hd : ∃ t, cl.data = '/' :: t := by
      unfold StartsWith at htrack
      rw [List.isPrefixOf_iff_prefix] at htrack
      obtain ⟨t, ht⟩ := htrack
      exact ⟨['t', 'r', 'a', 'c', 'k'] ++ t, by rw [← ht]; rfl⟩
    obtain ⟨t, ht⟩ := hd
    have hc : ∀ (c : Char) (cs : List Char), c ≠ '/' →
        StartsWith cl (String.mk (c :: cs)) = false := by
      intro c cs hne
      unfold StartsWith
      rw [ht]
      simp [List.isPrefixOf, hne]
    exact ⟨hc 'c' _ (by decide), hc 'a' _ (by decide), hc 't' _ (by decide),
      hc 'l' _ (by decide)⟩

theorem stub_field_startsWith (w rest : String) :
    StartsWith (BeforeFirst ("stub://" ++ w ++ "\t" ++ rest) '\t') "stub://" = true := by
  have hd : ("stub://" ++ w ++ "\t" ++ rest).data
      = 's' :: 't' :: 'u' :: 'b' :: ':' :: '/' :: '/' :: (w.data ++ '\t' :: rest.data) := by
    simp only [String.data_append]
    simp
  unfold StartsWith BeforeFirst
  rw [hd]
  simp [List.takeWhile, List.isPrefixOf]

/-- Claim C29.  A line that, behind an optional `xspf:`, starts with `/track` closes the
record `r` collected so far.  If the record has a location, exactly one entry is appended,
with the string made of location, path of the playlist file, artist, album and title, joined
by tabs.  If it has no location but an artist and a title, exactly one entry is appended
whose URL field starts with `stub://`.  Otherwise nothing is added.  In all three cases the
loop goes on with the four fields empty (unless the cap is reached by the new entry, which
ends the import). -/
theorem AddFromXspfXmlWplFile_flush (env : SjEnv) (nativePath : String) (addMax : Int)
    (currLinePtr0 : String) (rest : List String) (r : XspfRecord) (filesAdded : Int)
    (st : SjPlaylist × Int)
    (htrack : StartsWith (if StartsWith currLinePtr0 "xspf:" = true then Mid currLinePtr0 5
      else currLinePtr0) "/track" = true) :
    (IsEmpty r.lastLocation = false →
      SjPlaylist.AddFromXspfXmlWplFile.loop env nativePath addMax (currLinePtr0 :: rest) r
          filesAdded st
        = (if filesAdded + 1 ≥ addMax then
            st.1.Add st.2 (r.lastLocation ++ "\t" ++ nativePath ++ "\t" ++ r.lastArtistName
              ++ "\t" ++ r.lastAlbumName ++ "\t" ++ r.lastTrackName) false 0
          else SjPlaylist.AddFromXspfXmlWplFile.loop env nativePath addMax rest
            XspfRecord.empty (filesAdded + 1)
            (st.1.Add st.2 (r.lastLocation ++ "\t" ++ nativePath ++ "\t" ++ r.lastArtistName
              ++ "\t" ++ r.lastAlbumName ++ "\t" ++ r.lastTrackName) false 0)) ∧
      (st.1.Add st.2 (r.lastLocation ++ "\t" ++ nativePath ++ "\t" ++ r.lastArtistName
          ++ "\t" ++ r.lastAlbumName ++ "\t" ++ r.lastTrackName) false 0).1.m_array
        = st.1.m_array ++ [SjPlaylistEntry.new st.2 (r.lastLocation ++ "\t" ++ nativePath
            ++ "\t" ++ r.lastArtistName ++ "\t" ++ r.lastAlbumName ++ "\t" ++ r.lastTrackName)
            false 0]) ∧
    (IsEmpty r.lastLocation = true → IsEmpty r.lastArtistName = false →
      IsEmpty r.lastTrackName = false →
      ∃ raw : String,
        StartsWith (BeforeFirst raw '\t') "stub://" = true ∧
        SjPlaylist.AddFromXspfXmlWplFile.loop env nativePath addMax (currLinePtr0 :: rest) r
            filesAdded st
          = (if filesAdded + 1 ≥ addMax then st.1.Add st.2 raw false 0
            else SjPlaylist.AddFromXspfXmlWplFile.loop env nativePath addMax rest
              XspfRecord.empty (filesAdded + 1) (st.1.Add st.2 raw false 0)) ∧
        (st.1.Add st.2 raw false 0).1.m_array
          = st.1.m_array ++ [SjPlaylistEntry.new st.2 raw false 0]) ∧
    (IsEmpty r.lastLocation = true →
      (IsEmpty r.lastArtistName = true ∨ IsEmpty r.lastTrackName = true) →
      SjPlaylist.AddFromXspfXmlWplFile.loop env nativePath addMax (currLinePtr0 :: rest) r
          filesAdded st
        = SjPlaylist.AddFromXspfXmlWplFile.loop env nativePath addMax rest XspfRecord.empty
            filesAdded st) := by
  obtain ⟨h0, h1, h2, h3, h4⟩ := startsWith_track_closes currLinePtr0 htrack
  have hloop : SjPlaylist.AddFromXspfXmlWplFile.loop env nativePath addMax
      (currLinePtr0 :: rest) r filesAdded st
      = (if (!IsEmpty (SjPlaylist.AddFromXspfXmlWplFile.flushLocation env r)) = true then
          (if filesAdded + 1 ≥ addMax then
            st.1.Add st.2 (SjPlaylist.AddFromXspfXmlWplFile.flushLocation env r ++ "\t"
              ++ nativePath ++ "\t" ++ r.lastArtistName ++ "\t" ++ r.lastAlbumName ++ "\t"
              ++ r.lastTrackName) false 0
          else SjPlaylist.AddFromXspfXmlWplFile.loop env nativePath addMax rest
            XspfRecord.empty (filesAdded + 1)
            (st.1.Add st.2 (SjPlaylist.AddFromXspfXmlWplFile.flushLocation env r ++ "\t"
              ++ nativePath ++ "\t" ++ r.lastArtistName ++ "\t" ++ r.lastAlbumName ++ "\t"
              ++ r.lastTrackName) false 0))
        else SjPlaylist.AddFromXspfXmlWplFile.loop env nativePath addMax rest
          XspfRecord.empty filesAdded st) := by
    rw [SjPlaylist.AddFromXspfXmlWplFile.loop]
    simp only [h0, h1, h2, h3, h4, htrack, Bool.false_eq_true, if_false, if_true]
  refine ⟨?_, ?_, ?_⟩
  · intro hl
    have hf : SjPlaylist.AddFromXspfXmlWplFile.flushLocation env r = r.lastLocation := by
      simp [SjPlaylist.AddFromXspfXmlWplFile.flushLocation, hl]
    refine ⟨?_, by simp [SjPlaylist.Add]⟩
    rw [hloop, hf]
    simp only [hl, Bool.not_false, if_true]
  · intro hl ha ht
    have hf : SjPlaylist.AddFromXspfXmlWplFile.flushLocation env r
        = "stub://" ++ env.EnsureValidFileNameChars r.lastArtistName ++ "-"
          ++ env.EnsureValidFileNameChars r.lastAlbumName ++ "-"
          ++ env.SjNormaliseString r.lastTrackName ++ ".mp3" := by
      simp [SjPlaylist.AddFromXspfXmlWplFile.flushLocation, hl, ha, ht]
    have he : IsEmpty (SjPlaylist.AddFromXspfXmlWplFile.flushLocation env r) = false := by
      rw [hf]
      simp only [IsEmpty, String.data_append]
      rfl
    refine ⟨SjPlaylist.AddFromXspfXmlWplFile.flushLocation env r ++ "\t" ++ nativePath ++ "\t"
      ++ r.lastArtistName ++ "\t" ++ r.lastAlbumName ++ "\t" ++ r.lastTrackName, ?_, ?_,
      by simp [SjPlaylist.Add]⟩
    · rw [hf]
      have hassoc : "stub://" ++ env.EnsureValidFileNameChars r.lastArtistName ++ "-"
            ++ env.EnsureValidFileNameChars r.lastAlbumName ++ "-"
            ++ env.SjNormaliseString r.lastTrackName ++ ".mp3" ++ "\t" ++ nativePath ++ "\t"
            ++ r.lastArtistName ++ "\t" ++ r.lastAlbumName ++ "\t" ++ r.lastTrackName
          = "stub://" ++ (env.EnsureValidFileNameChars r.lastArtistName ++ "-"
            ++ env.EnsureValidFileNameChars r.lastAlbumName ++ "-"
            ++ env.SjNormaliseString r.lastTrackName ++ ".mp3") ++ "\t" ++ (nativePath ++ "\t"
            ++ r.lastArtistName ++ "\t" ++ r.lastAlbumName ++ "\t" ++ r.lastTrackName) := by
        simp only [String.append_assoc]
      rw [hassoc]
      exact stub_field_startsWith _ _
    · rw [hloop]
      simp only [he, Bool.not_false, if_true]
  · intro hl hor
    have hf : SjPlaylist.AddFromXspfXmlWplFile.flushLocation env r = r.lastLocation := by
      rcases hor with h | h <;> simp [SjPlaylist.AddFromXspfXmlWplFile.flushLocation, hl, h]
    rw [hloop, hf]
    simp only [hl, Bool.not_true, Bool.false_eq_true, if_false]

/-- Witness for C29: a record with the artist "A" and the title "T" and no location, then a
record with a location only, then a record without any field. -/
theorem AddFromXspfXmlWplFile_flush_witness :
    (SjPlaylist.empty.AddFromXspfXmlWplFile
      (fileEnv ["track>", "creator>A", "/creator>", "title>T", "/title>", "/track>", "track>",
        "location>x.mp3", "/location>", "/track>", "track>", "/track>"]) 1
      "list.xspf" 10).2.1.m_array.map (fun e => e.m_url)
      = ["stub://A--t.mp3\tlist.xspf\tA\t\tT", "x.mp3\tlist.xspf\t\t\t"] ∧
    ∃ raw : String,
      StartsWith (BeforeFirst raw '\t') "stub://" = true ∧
      SjPlaylist.AddFromXspfXmlWplFile.loop offlineEnv "list.xspf" 10 ["/track>"]
          { lastArtistName := "A", lastAlbumName := "", lastTrackName := "T",
            lastLocation := "" } 0 (SjPlaylist.empty, 1)
        = (if (0 : Int) + 1 ≥ 10 then (SjPlaylist.empty, (1 : Int)).1.Add 1 raw false 0
          else SjPlaylist.AddFromXspfXmlWplFile.loop offlineEnv "list.xspf" 10 []
            XspfRecord.empty (0 + 1) ((SjPlaylist.empty, (1 : Int)).1.Add 1 raw false 0)) ∧
      ((SjPlaylist.empty, (1 : Int)).1.Add 1 raw false 0).1.m_array
        = (SjPlaylist.empty, (1 : Int)).1.m_array ++ [SjPlaylistEntry.new 1 raw false 0] :=
  ⟨by decide,
    (AddFromXspfXmlWplFile_flush offlineEnv "list.xspf" 10 "/track>" []
      { lastArtistName := "A", lastAlbumName := "", lastTrackName := "T", lastLocation := "" }
      0 (SjPlaylist.empty, 1) (by decide)).2.1 (by decide) (by decide) (by decide)⟩

/-! ## The exporters on verified playlists -/

theorem getElem?_of_urlKeys (p q : SjPlaylist) (h : q.urlKeys = p.urlKeys) (i : Nat)
    (e : SjPlaylistEntry) (he : p.m_array[i]? = some e) :
    ∃ e2, q.m_array[i]? = some e2 ∧ e2.urlKey = e.urlKey := by
  have h1 : q.urlKeys[i]? = some e.urlKey := by
    rw [h]
    show (p.m_array.map SjPlaylistEntry.urlKey)[i]? = _
    rw [List.getElem?_map, he]
    rfl
  have h2 : (q.m_array.map SjPlaylistEntry.urlKey)[i]? = some e.urlKey := h1
  rw [List.getElem?_map] at h2
  cases hq : q.m_array[i]? with
  | none => simp [hq] at h2
  | some e2 =>
    simp only [hq, Option.map_some', Option.some.injEq] at h2
    exact ⟨e2, rfl, h2⟩

theorem isSettled_spec (e : SjPlaylistEntry) (h : e.isSettled = true) :
    e.m_urlVerified = true ∧ ∃ a, e.m_addInfo = some a ∧ a.m_what.testBit 1 = true ∧
      e.info = a := by
  unfold SjPlaylistEntry.isSettled at h
  cases ha : e.m_addInfo with
  | none => simp [ha] at h
  | some a =>
    simp only [ha, Bool.and_eq_true] at h
    exact ⟨h.1, a, rfl, h.2, by simp [SjPlaylistEntry.info, ha]⟩

theorem Settled_AllVerified (p : SjPlaylist) (h : p.Settled) : p.AllVerified :=
  fun e he => (isSettled_spec e (h e he)).1

/-- While the counters of the PLS import do not exceed the sizes of their arrays (as before the
first repeated number), a line is processed without an access outside the arrays. -/
theorem parseLine_in_bounds (s : PlsState) (currLine : String)
    (hu : s.urlCount ≤ s.urls.length) (ht : s.titleCount ≤ s.titles.length) :
    ∃ s2, SjPlaylist.AddFromPlsFile.parseLine s currLine = some s2 := by
  unfold SjPlaylist.AddFromPlsFile.parseLine
  by_cases h1 : IsEmpty currLine = true
  · exact ⟨s, by simp [h1]⟩
  simp only [h1, Bool.false_eq_true, if_false]
  by_cases h2 : IsEmpty (TrimRight (BeforeFirst currLine '=')) = true
  · exact ⟨s, by simp [h2]⟩
  simp only [h2, Bool.false_eq_true, if_false]
  by_cases h3 : IsEmpty (TrimLeft (AfterFirst currLine '=')) = true
  · exact ⟨s, by simp [h3]⟩
  simp only [h3, Bool.false_eq_true, if_false]
  by_cases h4 : StartsWith (wxLower (TrimRight (BeforeFirst currLine '='))) "file" = true
  · simp only [h4, if_true]
    cases hn : ToLong (Mid (wxLower (TrimRight (BeforeFirst currLine '='))) 4) with
    | none => exact ⟨_, rfl⟩
    | some n =>
      simp only []
      by_cases h5 : (n < 1 || n > 0xFFFF) = true
      · exact ⟨s, by simp only [h5, if_true]⟩
      simp only [h5, Bool.false_eq_true, if_false]
      have h6 : 1 ≤ n := by
        simp only [Bool.or_eq_true, decide_eq_true_eq, not_or, not_lt] at h5
        exact h5.1
      by_cases h7 : n > s.urlCount
      · have h8 : s.urlCount.toNat ≤ s.urls.length := by omega
        simp only [h7, if_true, wxArrayInsert, h8, wxArraySet]
        have h9 : (n - 1).toNat < (List.take s.urlCount.toNat s.urls
            ++ List.replicate (n - s.urlCount).toNat ""
            ++ List.drop s.urlCount.toNat s.urls).length := by
          simp only [List.length_append, List.length_take, List.length_replicate,
            List.length_drop]
          omega
        simp only [h9, if_true]
        exact ⟨_, rfl⟩
      · have h9 : (n - 1).toNat < s.urls.length := by omega
        simp only [h7, if_false, wxArraySet, h9, if_true]
        exact ⟨_, rfl⟩
  simp only [h4, Bool.false_eq_true, if_false]
  by_cases h4b : StartsWith (wxLower (TrimRight (BeforeFirst currLine '='))) "title" = true
  · simp only [h4b, if_true]
    cases hn : ToLong (Mid (wxLower (TrimRight (BeforeFirst currLine '='))) 5) with
    | none => exact ⟨_, rfl⟩
    | some n =>
      simp only []
      by_cases h5 : (n < 1 || n > 0xFFFF) = true
      · exact ⟨s, by simp only [h5, if_true]⟩
      simp only [h5, Bool.false_eq_true, if_false]
      have h6 : 1 ≤ n := by
        simp only [Bool.or_eq_true, decide_eq_true_eq, not_or, not_lt] at h5
        exact h5.1
      by_cases h7 : n > s.titleCount
      · have h8 : s.titleCount.toNat ≤ s.titles.length := by omega
        simp only [h7, if_true, wxArrayInsert, h8, wxArraySet]
        have h9 : (n - 1).toNat < (List.take s.titleCount.toNat s.titles
            ++ List.replicate (n - s.titleCount).toNat ""
            ++ List.drop s.titleCount.toNat s.titles).length := by
          simp only [List.length_append, List.length_take, List.length_replicate,
            List.length_drop]
          omega
        simp only [h9, if_true]
        exact ⟨_, rfl⟩
      · have h9 : (n - 1).toNat < s.titles.length := by omega
        simp only [h7, if_false, wxArraySet, h9, if_true]
        exact ⟨_, rfl⟩
  exact ⟨s, by simp only [h4b, Bool.false_eq_true, if_false]⟩

set_option maxRecDepth 100000 in
/-- Claim C31, failing input.  `SjPlaylist::AddFromPlsFile` counts every accepted `File` line in
`urlCount` and every accepted `Title` line in `titleCount`, but the arrays grow only when the
number of the line is above the counter.  After `File1`, `File1` the array `urls` has one item
and `urlCount` is 2, so `File2` does not insert and writes `urls[1]` behind the end of the
array; after `File1`, `File2`, `Title1`, `Title1` the array `titles` has one item and
`titleCount` is 2, so the second loop reads `titles[1]` behind the end of the array; after
`File1`, `File1`, `File1` the line `File5` inserts at index 3 into an array of one item. -/
theorem AddFromPlsFile_index_out_of_range :
    -- File1, File1, File2: the write of urls[1]
    (SjPlaylist.AddFromPlsFile.parse ["File1=a.mp3", "File1=b.mp3"] PlsState.init
      = some { urls := ["b.mp3"], urlCount := 2, titles := [], titleCount := 0 })
    ∧ SjPlaylist.AddFromPlsFile.parseLine
        { urls := ["b.mp3"], urlCount := 2, titles := [], titleCount := 0 } "File2=c.mp3" = none
    ∧ wxArraySet ["b.mp3"] (2 - 1) "c.mp3" = none
    ∧ SjPlaylist.AddFromPlsFile.parse ["File1=a.mp3", "File1=b.mp3", "File2=c.mp3"]
        PlsState.init = none
    ∧ SjPlaylist.empty.AddFromPlsFile (fileEnv ["File1=a.mp3", "File1=b.mp3", "File2=c.mp3"])
        1 "list.pls" 10 = none
    -- File1, File2, Title1, Title1: the read of titles[1]
    ∧ (SjPlaylist.AddFromPlsFile.parse ["File1=a.mp3", "File2=b.mp3", "Title1=x", "Title1=y"]
        PlsState.init
      = some { urls := ["a.mp3", "b.mp3"], urlCount := 2, titles := ["y"], titleCount := 2 })
    ∧ wxArrayItem ["y"] 1 = none
    ∧ SjPlaylist.AddFromPlsFile.addLoop "list.pls" 10 ["y"] 2 ["a.mp3", "b.mp3"] 0 0
        (SjPlaylist.empty, 1) = none
    ∧ SjPlaylist.empty.AddFromPlsFile
        (fileEnv ["File1=a.mp3", "File2=b.mp3", "Title1=x", "Title1=y"]) 1 "list.pls" 10 = none
    -- File1, File1, File1, File5: the insertion at index 3
    ∧ (SjPlaylist.AddFromPlsFile.parse ["File1=a.mp3", "File1=b.mp3", "File1=c.mp3"]
        PlsState.init
      = some { urls := ["c.mp3"], urlCount := 3, titles := [], titleCount := 0 })
    ∧ wxArrayInsert ["c.mp3"] "" 3 (5 - 3) = none
    ∧ SjPlaylist.empty.AddFromPlsFile
        (fileEnv ["File1=a.mp3", "File1=b.mp3", "File1=c.mp3", "File5=e.mp3"])
        1 "list.pls" 10 = none := by
  decide

/-! ## The unplayed count with a cap of zero -/

/-- Whenever the loop of `GetUnplayedCount` returns with its assertion intact, the release
build returns the same number. -/
theorem GetUnplayedCountRelease_loop_agrees (arr : List SjPlaylistEntry) (currPos maxCnt : Int)
    (n : Nat) (cnt r : Int)
    (h : SjPlaylist.GetUnplayedCount.loop arr currPos maxCnt n cnt = some r) :
    SjPlaylist.GetUnplayedCountRelease.loop arr currPos maxCnt n cnt = some r := by
  induction n generalizing cnt with
  | zero => simpa [SjPlaylist.GetUnplayedCount.loop, SjPlaylist.GetUnplayedCountRelease.loop]
      using h
  | succ i ih =>
    unfold SjPlaylist.GetUnplayedCount.loop at h
    unfold SjPlaylist.GetUnplayedCountRelease.loop
    by_cases hge : (i : Int) ≥ currPos
    · simp only [hge, if_true] at h ⊢
      cases hget : arr[i]? with
      | none => rw [hget] at h; simp at h
      | some e =>
        rw [hget] at h
        simp only [] at h ⊢
        by_cases hpc : e.GetPlayCount = 0
        · simp only [hpc, if_true] at h ⊢
          by_cases hmax : cnt + 1 ≥ maxCnt
          · simp only [hmax, if_true] at h ⊢
            by_cases heq : cnt + 1 = maxCnt
            · simpa [heq] using h
            · simp [heq] at h
          · simp only [hmax, if_false] at h ⊢
            exact ih _ h
        · simp only [hpc, if_false] at h ⊢
          exact ih _ h
    · simpa only [hge, if_false] using h

/-- With a cap of zero or less, the backward scan stops at the first entry with play count 0 it
meets: the count is then 1, the assertion `unplayedCnt == maxCnt` fails, and the release build
returns 1. -/
theorem GetUnplayedCount_loop_overshoot (arr : List SjPlaylistEntry) (currPos maxCnt : Int)
    (hcap : maxCnt ≤ 0) (n : Nat) (hn : n ≤ arr.length)
    (hex : ∃ (i : Nat) (e : SjPlaylistEntry),
      arr[i]? = some e ∧ currPos ≤ (i : Int) ∧ i < n ∧ e.GetPlayCount = 0) :
    SjPlaylist.GetUnplayedCount.loop arr currPos maxCnt n 0 = none
    ∧ SjPlaylist.GetUnplayedCountRelease.loop arr currPos maxCnt n 0 = some 1 := by
  induction n with
  | zero =>
    obtain ⟨i, e, _, _, hlt, _⟩ := hex
    omega
  | succ k ih =>
    obtain ⟨i, e, hie, hci, hlt, hpc⟩ := hex
    have hk : k < arr.length := hn
    have hget : arr[k]? = some (arr.get ⟨k, hk⟩) := by
      simp [List.getElem?_eq_getElem hk]
    have hge : (k : Int) ≥ currPos := by omega
    unfold SjPlaylist.GetUnplayedCount.loop SjPlaylist.GetUnplayedCountRelease.loop
    simp only [hge, if_true, hget]
    by_cases hpk : (arr.get ⟨k, hk⟩).GetPlayCount = 0
    · have hmax : (0 : Int) + 1 ≥ maxCnt := by omega
      have hne : ¬ ((0 : Int) + 1 = maxCnt) := by omega
      simp only [hpk, if_true, hmax, hne, if_false]
      exact ⟨trivial, rfl⟩
    · simp only [hpk, if_false]
      have hik : i ≠ k := by
        intro h
        subst h
        rw [hget] at hie
        have h2 : arr.get ⟨i, hk⟩ = e := Option.some.inj hie
        rw [h2] at hpk
        exact hpk hpc
      exact ih (by omega) ⟨i, e, hie, hci, by omega, hpc⟩

/-- With no entry of play count 0 in the range, the scan runs to its end and returns the
count it started with, whatever the cap. -/
theorem GetUnplayedCount_loop_none_unplayed (arr : List SjPlaylistEntry)
    (currPos maxCnt : Int) (n : Nat) (hn : n ≤ arr.length) (cnt : Int)
    (hno : ∀ (i : Nat) (e : SjPlaylistEntry),
      arr[i]? = some e → currPos ≤ (i : Int) → i < n → e.GetPlayCount ≠ 0) :
    SjPlaylist.GetUnplayedCount.loop arr currPos maxCnt n cnt = some cnt := by
  induction n with
  | zero => rfl
  | succ k ih =>
    have hk : k < arr.length := hn
    have hget : arr[k]? = some (arr.get ⟨k, hk⟩) := by
      simp [List.getElem?_eq_getElem hk]
    unfold SjPlaylist.GetUnplayedCount.loop
    by_cases hge : (k : Int) ≥ currPos
    · have hpk : ¬ (arr.get ⟨k, hk⟩).GetPlayCount = 0 := hno k _ hget hge (by omega)
      simp only [hge, if_true, hget, hpk, if_false]
      exact ih (by omega) (fun i e h1 h2 h3 => hno i e h1 h2 (by omega))
    · simp only [hge, if_false]

/-- Claim C32, the code against the claim.  For a cap of at least 1 the claim holds:
`GetUnplayedCount` returns a number that is at most the cap, every early exit meets its
assertion, and the release build returns the same number.  For a cap of zero (or less) it holds
only if no entry at or after `fromPos` has play count 0, in which case the result is 0; if
there is such an entry, the count is raised to 1 before it is compared with the cap, the early
exit is taken with `unplayedCnt = 1`, the assertion `unplayedCnt == maxCnt` fails, and the
release build returns 1, which is above the cap. -/
theorem GetUnplayedCount_cap_zero (p : SjPlaylist) (fromPos cap : Int) :
    (1 ≤ cap → ∃ r, p.GetUnplayedCount fromPos cap = some r ∧ r ≤ cap
        ∧ p.GetUnplayedCountRelease fromPos cap = some r)
    ∧ (cap ≤ 0 →
        (∀ (i : Nat) (e : SjPlaylistEntry),
          p.m_array[i]? = some e → fromPos ≤ (i : Int) → e.GetPlayCount ≠ 0) →
        p.GetUnplayedCount fromPos cap = some 0
        ∧ p.GetUnplayedCountRelease fromPos cap = some 0)
    ∧ (cap ≤ 0 →
        (∃ (i : Nat) (e : SjPlaylistEntry),
          p.m_array[i]? = some e ∧ fromPos ≤ (i : Int) ∧ e.GetPlayCount = 0) →
        p.GetUnplayedCount fromPos cap = none
        ∧ p.GetUnplayedCountRelease fromPos cap = some 1) := by
  refine ⟨?_, ?_, ?_⟩
  · intro hcap
    have h := GetUnplayedCount_eq_spec p fromPos cap hcap
    refine ⟨_, h, ?_, ?_⟩
    · unfold unplayedCountSpec
      exact min_le_left _ _
    · unfold SjPlaylist.GetUnplayedCount at h
      exact GetUnplayedCountRelease_loop_agrees _ _ _ _ _ _ h
  · intro _ hno
    have h : SjPlaylist.GetUnplayedCount.loop p.m_array (if fromPos < 0 then 0 else fromPos)
        cap p.m_array.length 0 = some 0 :=
      GetUnplayedCount_loop_none_unplayed _ _ _ _ (le_refl _) 0
        (fun i e h1 h2 _ => hno i e h1 (by split at h2 <;> omega))
    exact ⟨h, GetUnplayedCountRelease_loop_agrees _ _ _ _ _ _ h⟩
  · intro hcap hex
    obtain ⟨i, e, hie, hfi, hpc⟩ := hex
    have hlt : i < p.m_array.length := by
      by_contra hge
      rw [List.getElem?_eq_none (by omega)] at hie
      exact Option.noConfusion hie
    exact GetUnplayedCount_loop_overshoot p.m_array _ cap hcap _ (le_refl _)
      ⟨i, e, hie, by split <;> omega, hlt, hpc⟩

/-- Claim C32, the failing input: the ten-entry queue whose last three entries have play
count 0, asked from position 0 with cap 0.  The assertion fails at the first early exit and the
release build returns 1; with cap 1 the same queue gives 1, and behind the end of the queue the
cap of zero gives 0. -/
theorem GetUnplayedCount_cap_zero_witness :
    kioskQueue.GetUnplayedCount 0 0 = none
    ∧ kioskQueue.GetUnplayedCountRelease 0 0 = some 1
    ∧ (∃ r, kioskQueue.GetUnplayedCount 0 1 = some r ∧ r ≤ 1
        ∧ kioskQueue.GetUnplayedCountRelease 0 1 = some r)
    ∧ kioskQueue.GetUnplayedCount 10 0 = some 0 :=
  ⟨((GetUnplayedCount_cap_zero kioskQueue 0 0).2.2 (by decide)
      ⟨9, playedEntry 10 "t10" 0, by decide, by decide, by decide⟩).1,
   ((GetUnplayedCount_cap_zero kioskQueue 0 0).2.2 (by decide)
      ⟨9, playedEntry 10 "t10" 0, by decide, by decide, by decide⟩).2,
   (GetUnplayedCount_cap_zero kioskQueue 0 1).1 (by decide),
   by decide⟩

/-! ## The M3U round trip of file name and title hints -/

end Silverjuke
